import Mathlib

/-! # OG-DOOM sound mixer (linuxdoom-1.10/i_sound.c)

A shallow embedding of the SFX mixer of `i_sound.c`, of the sound cache loader
`getsfx` and of the music side of the audio callback, and theorems about them.

Conventions of the embedding
* C `int` values are `Int`; arithmetic that can leave the 32-bit range on some
  input is wrapped with `wrapInt32` (two's complement).
* C `unsigned int` values are `Nat`, reduced modulo `2^32` after arithmetic.
* Pointers into sample memory are addresses of type `Int`; the null pointer is `0`.
* The arrays indexed by mixer channel are total functions `Nat → α`; only the
  entries `0 .. NUM_CHANNELS-1` are ever read or written.
* A pointer into `vol_lookup` is kept as the index of the element it points to.
* `I_Error` does not return: functions that may call it return `Except String _`.
* Floating point is not modelled: the biquad step and the `pow` based step table
  are parameters of the definitions that use them; the music gain is a rational.
* `size_t` values are `Nat`, reduced modulo `2^64` after arithmetic.
* The music driver of LittleMUS enters `mix_music` through its entry points, which
  are the fields of the parameter `MusDriverOps`.
-/

namespace ISound

/-! ## Machine integers -/

/-- Two's-complement wrap-around of a mathematical integer to a C `int` (32 bits). -/
def wrapInt32 (x : Int) : Int := (x + 2147483648) % 4294967296 - 2147483648

/-- Conversion of a C `int` to `unsigned int` (`unsigned int h = handle;`). -/
def toUInt32 (x : Int) : Nat := (x % 4294967296).toNat

/-- Conversion of an `unsigned int` to `int` (`handle = nexthandle | slot;`). -/
def toInt32 (x : Nat) : Int := wrapInt32 (x : Int)

/-! ## Constants of i_sound.c -/

/-- Number of mixer channels (`#define NUM_CHANNELS 8`). -/
def NUM_CHANNELS : Nat := 8

/-- Power of two ≥ the number of mixer channels (`#define NUM_CHANNELS_POW2 8`). -/
def NUM_CHANNELS_POW2 : Nat := 8

/-- Number of output channels (`#define MIX_CHANNELS 2`). -/
def MIX_CHANNELS : Nat := 2

/-- Sfx step shift (`#define SFX_STEP_SHIFT 2`). -/
def SFX_STEP_SHIFT : Nat := 2

/-- The sound ids of `sounds.h` that `addsfx_with_lock` names. The header is not
part of the sources at hand, so the enum values are parameters. -/
structure SfxEnum where
  sfx_sawup : Int
  sfx_sawidl : Int
  sfx_sawful : Int
  sfx_sawhit : Int
  sfx_stnmov : Int
  sfx_pistol : Int

/-! ## Mixer state (the file-scope variables of the "mixer thread" zone) -/

/-- The static variables of i_sound.c that the SFX mixer reads and writes. -/
structure Mixer where
  /-- Field `sfx_data[NUMSFX]`: address of the padded sample data per sound id. -/
  sfx_data : Int → Int
  /-- Field `sfx_length[NUMSFX]`: padded length per sound id. -/
  sfx_length : Int → Int
  /-- Field `channelstep[NUM_CHANNELS]` (unsigned). -/
  channelstep : Nat → Nat
  /-- Field `channelstepremainder[NUM_CHANNELS]` (unsigned). -/
  channelstepremainder : Nat → Nat
  /-- Field `channels[NUM_CHANNELS]`: current data pointer, `0` when the channel is free. -/
  channels : Nat → Int
  /-- Field `channelsend[NUM_CHANNELS]`: end pointer. -/
  channelsend : Nat → Int
  /-- Field `channelstart[NUM_CHANNELS]`: gametic at which the channel started. -/
  channelstart : Nat → Int
  /-- Field `channelhandles[NUM_CHANNELS]` (unsigned). -/
  channelhandles : Nat → Nat
  /-- Field `channelids[NUM_CHANNELS]`: sfx id playing in the channel. -/
  channelids : Nat → Int
  /-- Field `steptable[256]`. -/
  steptable : Int → Int
  /-- Field `vol_lookup[128*256]`. -/
  vol_lookup : Int → Int
  /-- Field `channelleftvol_lookup[NUM_CHANNELS]`, as an index into `vol_lookup`. -/
  channelleftvol_lookup : Nat → Int
  /-- Field `channelrightvol_lookup[NUM_CHANNELS]`, as an index into `vol_lookup`. -/
  channelrightvol_lookup : Nat → Int
  /-- Field `nexthandle` (unsigned). -/
  nexthandle : Nat

/-- The state at program start: every static variable is zero-initialised. -/
def Mixer.zero : Mixer where
  sfx_data := fun _ => 0
  sfx_length := fun _ => 0
  channelstep := fun _ => 0
  channelstepremainder := fun _ => 0
  channels := fun _ => 0
  channelsend := fun _ => 0
  channelstart := fun _ => 0
  channelhandles := fun _ => 0
  channelids := fun _ => 0
  steptable := fun _ => 0
  vol_lookup := fun _ => 0
  channelleftvol_lookup := fun _ => 0
  channelrightvol_lookup := fun _ => 0
  nexthandle := 0

/-! ## I_SetChannels: the volume lookup table -/

/-- Inner loop `for (j=0 ; j<256 ; j++) vol_lookup[i*256+j] = (v*(j-128)*256)/127;`
with `n` iterations left, the counter at `j`. C division truncates (`Int.tdiv`). -/
def vol_lookup_inner (v : Int) (i : Nat) : Nat → Nat → (Int → Int) → (Int → Int)
  | 0, _, tbl => tbl
  | n + 1, j, tbl =>
    vol_lookup_inner v i n (j + 1)
      (Function.update tbl ((i : Int) * 256 + (j : Int))
        (Int.tdiv (v * ((j : Int) - 128) * 256) 127))

/-- Outer loop `for (i=0 ; i<128 ; i++) { v = (i*i)>>7; ... }` with `n` iterations
left, the counter at `i`. -/
def vol_lookup_outer : Nat → Nat → (Int → Int) → (Int → Int)
  | 0, _, tbl => tbl
  | n + 1, i, tbl =>
    let v : Int := ((i : Int) * (i : Int)) >>> (7 : Nat)
    vol_lookup_outer n (i + 1) (vol_lookup_inner v i 256 0 tbl)

/-- Loop `for (i=0; i<NUM_CHANNELS; i++) channels[i] = 0;` with `n` iterations left. -/
def reset_channels : Nat → Nat → (Nat → Int) → (Nat → Int)
  | 0, _, ch => ch
  | n + 1, i, ch => reset_channels n (i + 1) (Function.update ch i 0)

/-- Loop `for (i=-128 ; i<128 ; i++) steptablemid[i] = (int)(pow(2.0, (i/64.0))*65536.0);`
where `steptablemid = steptable + 128`. The floating-point expression is the
parameter `powstep`. -/
def steptable_loop (powstep : Int → Int) : Nat → Int → (Int → Int) → (Int → Int)
  | 0, _, tbl => tbl
  | n + 1, i, tbl => steptable_loop powstep n (i + 1) (Function.update tbl (128 + i) (powstep i))

/-- The table part of `I_SetChannels`: reset the channels, build `steptable` and
`vol_lookup`. (The GENMIDI registration, the filter initialisation and
`Audio_Start` do not touch the mixer variables.) -/
def I_SetChannels (powstep : Int → Int) (m : Mixer) : Mixer :=
  { m with
    channels := reset_channels NUM_CHANNELS 0 m.channels
    steptable := steptable_loop powstep 256 (-128) m.steptable
    vol_lookup := vol_lookup_outer 128 0 m.vol_lookup }

/-! ## addsfx_with_lock -/

/-- The left/right split of `addsfx_with_lock` (lines 531-542), repeated verbatim in
`I_UpdateSoundParams` (lines 804-815): returns `(leftvol, rightvol)`. -/
def stereo_volumes (volume seperation : Int) : Int × Int :=
  let seperation := wrapInt32 (seperation + 1)
  let leftvol :=
    wrapInt32 (volume - ((wrapInt32 (wrapInt32 (volume * seperation) * seperation)) >>> (16 : Nat)))
  let seperation := wrapInt32 (seperation - 257)
  let rightvol :=
    wrapInt32 (volume - ((wrapInt32 (wrapInt32 (volume * seperation) * seperation)) >>> (16 : Nat)))
  (leftvol, rightvol)

/-- The duplicate-suppression loop (lines 484-496) with `n` iterations left, the
counter at `i`: free the first active channel that plays `sfxid`, then `break`. -/
def addsfx_stop_duplicate (sfxid : Int) (m : Mixer) : Nat → Nat → Mixer
  | 0, _ => m
  | n + 1, i =>
    if m.channels i ≠ 0 ∧ m.channelids i = sfxid then
      { m with channels := Function.update m.channels i 0 }
    else addsfx_stop_duplicate sfxid m n (i + 1)

/-- The loop `for (i=0; (i<NUM_CHANNELS) && (channels[i]); i++)` (lines 500-507)
with `n` iterations left: returns the final `(i, oldestnum)`. -/
def addsfx_find_oldest (m : Mixer) : Nat → Nat → Int → Nat → Nat × Nat
  | 0, i, _, oldestnum => (i, oldestnum)
  | n + 1, i, oldest, oldestnum =>
    if m.channels i ≠ 0 then
      if m.channelstart i < oldest then
        addsfx_find_oldest m n (i + 1) (m.channelstart i) i
      else addsfx_find_oldest m n (i + 1) oldest oldestnum
    else (i, oldestnum)

/-- The condition of line 476-481: the sound is one of the duplicate-suppressed ids. -/
def is_single_sfx (sfx : SfxEnum) (sfxid : Int) : Prop :=
  sfxid = sfx.sfx_sawup ∨ sfxid = sfx.sfx_sawidl ∨ sfxid = sfx.sfx_sawful
    ∨ sfxid = sfx.sfx_sawhit ∨ sfxid = sfx.sfx_stnmov ∨ sfxid = sfx.sfx_pistol

instance (sfx : SfxEnum) (sfxid : Int) : Decidable (is_single_sfx sfx sfxid) := by
  unfold is_single_sfx; infer_instance

/-- The slot that `addsfx_with_lock` fills (lines 467-515), together with the
mixer after the duplicate-suppression loop. -/
def addsfx_select_slot (sfx : SfxEnum) (gametic : Int) (m : Mixer) (sfxid : Int) :
    Mixer × Nat :=
  let oldest := gametic
  let oldestnum := 0
  let m := if is_single_sfx sfx sfxid then addsfx_stop_duplicate sfxid m NUM_CHANNELS 0 else m
  let r := addsfx_find_oldest m NUM_CHANNELS 0 oldest oldestnum
  let slot := if r.1 = NUM_CHANNELS then r.2 else r.1
  (m, slot)

/-- Function `addsfx_with_lock(sfxid, volume, step, seperation)`; `gametic` is the
external game clock read at line 467 and 529. Returns the new mixer and the handle,
or the message of the `I_Error` call that ends the program. -/
def addsfx_with_lock (sfx : SfxEnum) (gametic : Int) (m : Mixer)
    (sfxid volume step seperation : Int) : Except String (Mixer × Int) :=
  let sel := addsfx_select_slot sfx gametic m sfxid
  let m := sel.1
  let slot := sel.2
  let m := { m with channels := Function.update m.channels slot (m.sfx_data sfxid) }
  let m := { m with
    channelsend := Function.update m.channelsend slot (m.channels slot + m.sfx_length sfxid) }
  let m := { m with channelstep := Function.update m.channelstep slot (toUInt32 step) }
  let m := { m with channelstepremainder := Function.update m.channelstepremainder slot 0 }
  let m := { m with channelstart := Function.update m.channelstart slot gametic }
  let vols := stereo_volumes volume seperation
  let leftvol := vols.1
  let rightvol := vols.2
  if rightvol < 0 ∨ rightvol > 127 then .error "rightvol out of bounds"
  else if leftvol < 0 ∨ leftvol > 127 then .error "leftvol out of bounds"
  else
    let m := { m with
      channelleftvol_lookup := Function.update m.channelleftvol_lookup slot (leftvol * 256) }
    let m := { m with
      channelrightvol_lookup := Function.update m.channelrightvol_lookup slot (rightvol * 256) }
    let m := { m with channelids := Function.update m.channelids slot sfxid }
    let m := { m with channelhandles := Function.update m.channelhandles slot m.nexthandle }
    let handle := toInt32 (m.nexthandle ||| slot)
    let m := { m with nexthandle := (m.nexthandle + NUM_CHANNELS_POW2) % 4294967296 }
    .ok (m, handle)

/-! ## The sound API of the main thread -/

/-- Function `I_StartSound(id, vol, sep, pitch, priority)`: the handle returned by
`addsfx_with_lock(id, vol, steptable[pitch], sep)`; `priority` is unused. -/
def I_StartSound (sfx : SfxEnum) (gametic : Int) (m : Mixer)
    (id vol sep pitch _priority : Int) : Except String (Mixer × Int) :=
  addsfx_with_lock sfx gametic m id vol (m.steptable pitch) sep

/-- The slot encoded in a handle: `h & (NUM_CHANNELS_POW2-1)` on the unsigned value. -/
def handle_slot (handle : Int) : Nat :=
  toUInt32 handle &&& (NUM_CHANNELS_POW2 - 1)

/-- The sequence part of a handle: `h & ~(NUM_CHANNELS_POW2-1)` on the unsigned value
(the `int` mask `~7` is converted to `unsigned int`). -/
def handle_seq (handle : Int) : Nat :=
  toUInt32 handle &&& toUInt32 (~~~((NUM_CHANNELS_POW2 : Int) - 1))

/-- The test `channels[slot] && channelhandles[slot] == (h & ~(NUM_CHANNELS_POW2-1))`
shared by `I_StopSound`, `I_SoundIsPlaying` and `I_UpdateSoundParams`. -/
def handle_matches (m : Mixer) (handle : Int) : Prop :=
  m.channels (handle_slot handle) ≠ 0 ∧ m.channelhandles (handle_slot handle) = handle_seq handle

instance (m : Mixer) (handle : Int) : Decidable (handle_matches m handle) := by
  unfold handle_matches; infer_instance

/-- Function `I_StopSound(handle)`. -/
def I_StopSound (m : Mixer) (handle : Int) : Mixer :=
  let slot := handle_slot handle
  if handle_matches m handle then
    { m with channels := Function.update m.channels slot 0 }
  else m

/-- Function `I_SoundIsPlaying(handle)`. -/
def I_SoundIsPlaying (m : Mixer) (handle : Int) : Int :=
  let playing := 0
  if handle_matches m handle then 1 else playing

/-- Function `I_UpdateSoundParams(handle, volume, seperation, pitch)`. -/
def I_UpdateSoundParams (m : Mixer) (handle volume seperation pitch : Int) :
    Except String Mixer :=
  let slot := handle_slot handle
  if handle_matches m handle then
    let m := { m with
      channelstep := Function.update m.channelstep slot (toUInt32 (m.steptable pitch)) }
    let vols := stereo_volumes volume seperation
    let leftvol := vols.1
    let rightvol := vols.2
    if rightvol < 0 ∨ rightvol > 127 then .error "rightvol out of bounds"
    else if leftvol < 0 ∨ leftvol > 127 then .error "leftvol out of bounds"
    else
      let m := { m with
        channelleftvol_lookup := Function.update m.channelleftvol_lookup slot (leftvol * 256) }
      let m := { m with
        channelrightvol_lookup :=
          Function.update m.channelrightvol_lookup slot (rightvol * 256) }
      .ok m
  else .ok m

/-! ## mix_samples -/

/-- What the mixer thread owns besides the voice table: the two PCM filters (their
state type `F` is a parameter) and the output buffer, indexed by sample. -/
structure MixState (F : Type) where
  mixer : Mixer
  pcm_lpf_left : F
  pcm_lpf_right : F
  mixbuffer : Nat → Int

/-- The locals of the channel loop of `mix_samples`. -/
structure ChanAcc where
  mixer : Mixer
  dl : Int
  dr : Int

/-- Body of the channel loop (lines 302-326) for channel `chan`; `mem` is the sample
memory, read as `unsigned char`. -/
def mix_channel (mem : Int → Nat) (chan : Nat) (a : ChanAcc) : ChanAcc :=
  let m := a.mixer
  if m.channels chan ≠ 0 then
    let sample : Nat := mem (m.channels chan) % 256
    let dl := wrapInt32 (a.dl + m.vol_lookup (m.channelleftvol_lookup chan + (sample : Int)))
    let dr := wrapInt32 (a.dr + m.vol_lookup (m.channelrightvol_lookup chan + (sample : Int)))
    let m := { m with
      channelstepremainder := Function.update m.channelstepremainder chan
        ((m.channelstepremainder chan + m.channelstep chan) % 4294967296) }
    let m := { m with
      channels := Function.update m.channels chan
        (m.channels chan + ((m.channelstepremainder chan >>> (16 + SFX_STEP_SHIFT) : Nat) : Int)) }
    let m := { m with
      channelstepremainder := Function.update m.channelstepremainder chan
        (m.channelstepremainder chan &&& ((1 <<< (16 + SFX_STEP_SHIFT)) - 1)) }
    let m :=
      if m.channels chan ≥ m.channelsend chan then
        { m with channels := Function.update m.channels chan 0 }
      else m
    { mixer := m, dl := dl, dr := dr }
  else a

/-- The loop `for ( chan = 0; chan < NUM_CHANNELS; chan++ )` with `n` iterations left. -/
def mix_channels (mem : Int → Nat) : Nat → Nat → ChanAcc → ChanAcc
  | 0, _, a => a
  | n + 1, chan, a => mix_channels mem n (chan + 1) (mix_channel mem chan a)

/-- The clamp of lines 336-345. -/
def clamp16 (d : Int) : Int :=
  if d > 0x7fff then 0x7fff else if d < -0x8000 then -0x8000 else d

/-- The loop `while (leftout != leftend)` of `mix_samples` with `n` iterations left.
`leftout`, `rightout` and `musicbuf` are offsets into `mixbuffer` and
`music_downmix`. `biquadlp_step` stands for the C function of that name: from the
filter state and the input it gives the new state and the quantized `int` output.
The value stored in `mixbuffer` is the `int` before it is narrowed to `int16_t`. -/
def mix_loop {F : Type} (biquadlp_step : F → Int → F × Int) (mem : Int → Nat)
    (music_downmix : Nat → Int) : Nat → Nat → Nat → Nat → MixState F → MixState F
  | 0, _, _, _, s => s
  | n + 1, leftout, rightout, musicbuf, s =>
    let a := mix_channels mem NUM_CHANNELS 0 { mixer := s.mixer, dl := 0, dr := 0 }
    let fl := biquadlp_step s.pcm_lpf_left a.dl
    let fr := biquadlp_step s.pcm_lpf_right a.dr
    let dl := wrapInt32 (fl.2 + music_downmix musicbuf)
    let dr := wrapInt32 (fr.2 + music_downmix (musicbuf + 1))
    let dl := clamp16 dl
    let dr := clamp16 dr
    let mixbuffer := Function.update s.mixbuffer leftout dl
    let mixbuffer := Function.update mixbuffer rightout dr
    mix_loop biquadlp_step mem music_downmix n
      (leftout + MIX_CHANNELS) (rightout + MIX_CHANNELS) (musicbuf + MIX_CHANNELS)
      { mixer := a.mixer, pcm_lpf_left := fl.1, pcm_lpf_right := fr.1, mixbuffer := mixbuffer }

/-- Function `mix_samples(mixbuffer, samples_needed)`. `leftout` starts at offset 0
and advances by `MIX_CHANNELS`, so the loop `while (leftout != leftend)` ends, after
`samples_needed / 2` rounds, exactly when `samples_needed` is even and not negative;
otherwise it never meets `leftend` and the result is `none`. -/
def mix_samples {F : Type} (biquadlp_step : F → Int → F × Int) (mem : Int → Nat)
    (music_downmix : Nat → Int) (s : MixState F) (samples_needed : Int) :
    Option (MixState F) :=
  if 0 ≤ samples_needed ∧ samples_needed % 2 = 0 then
    some (mix_loop biquadlp_step mem music_downmix (samples_needed / 2).toNat 0 1 0 s)
  else none

/-! ## Reachable mixer states -/

/-- The mixer states the program can be in: it starts from the zero-initialised
statics; `I_InitSound` fills the sfx cache tables (their content comes from the WAD);
`I_SetChannels` builds the lookup tables; afterwards the game calls the sound API and
the audio thread calls `mix_samples`. -/
inductive Reachable (sfx : SfxEnum) : Mixer → Prop
  | boot : Reachable sfx Mixer.zero
  | initSound (m : Mixer) (data len : Int → Int) :
      Reachable sfx m → Reachable sfx { m with sfx_data := data, sfx_length := len }
  | setChannels (m : Mixer) (powstep : Int → Int) :
      Reachable sfx m → Reachable sfx (I_SetChannels powstep m)
  | startSound (m m' : Mixer) (gametic id vol sep pitch priority handle : Int) :
      Reachable sfx m →
      I_StartSound sfx gametic m id vol sep pitch priority = .ok (m', handle) →
      Reachable sfx m'
  | stopSound (m : Mixer) (handle : Int) :
      Reachable sfx m → Reachable sfx (I_StopSound m handle)
  | updateSoundParams (m m' : Mixer) (handle volume seperation pitch : Int) :
      Reachable sfx m →
      I_UpdateSoundParams m handle volume seperation pitch = .ok m' →
      Reachable sfx m'
  | mixSamples (F : Type) (biquadlp_step : F → Int → F × Int) (mem : Int → Nat)
      (music_downmix : Nat → Int) (s s' : MixState F) (samples_needed : Int) :
      Reachable sfx s.mixer →
      mix_samples biquadlp_step mem music_downmix s samples_needed = some s' →
      Reachable sfx s'.mixer

/-- A run of `I_StartSound` calls: the arguments of one call and the game clock at
the time of the call. -/
structure StartCall where
  gametic : Int
  id : Int
  vol : Int
  sep : Int
  pitch : Int
  priority : Int

/-- Calls `I_StartSound` once per element of the list, in order, and collects the
returned handles; a fatal `I_Error` ends the run. -/
def start_sounds (sfx : SfxEnum) : Mixer → List StartCall → Except String (Mixer × List Int)
  | m, [] => .ok (m, [])
  | m, c :: cs =>
    match I_StartSound sfx c.gametic m c.id c.vol c.sep c.pitch c.priority with
    | .error e => .error e
    | .ok (m', h) =>
      match start_sounds sfx m' cs with
      | .error e => .error e
      | .ok (m'', hs) => .ok (m'', h :: hs)

/-! ## Runs that leave a slot alone -/

/-- `SlotKept sfx s m m'`: the program went from `m` to `m'` by sound API calls and
mixer callbacks, none of which was a `I_StartSound` that filled slot `s`. -/
inductive SlotKept (sfx : SfxEnum) (s : Nat) : Mixer → Mixer → Prop
  | refl (m : Mixer) : SlotKept sfx s m m
  | startSound (m m1 m2 : Mixer) (gametic id vol sep pitch priority handle : Int) :
      SlotKept sfx s m m1 →
      I_StartSound sfx gametic m1 id vol sep pitch priority = .ok (m2, handle) →
      (addsfx_select_slot sfx gametic m1 id).2 ≠ s →
      SlotKept sfx s m m2
  | stopSound (m m1 : Mixer) (handle : Int) :
      SlotKept sfx s m m1 → SlotKept sfx s m (I_StopSound m1 handle)
  | updateSoundParams (m m1 m2 : Mixer) (handle volume seperation pitch : Int) :
      SlotKept sfx s m m1 →
      I_UpdateSoundParams m1 handle volume seperation pitch = .ok m2 →
      SlotKept sfx s m m2
  | mixSamples (F : Type) (biquadlp_step : F → Int → F × Int) (mem : Int → Nat)
      (music_downmix : Nat → Int) (m : Mixer) (st st' : MixState F) (samples_needed : Int) :
      SlotKept sfx s m st.mixer →
      mix_samples biquadlp_step mem music_downmix st samples_needed = some st' →
      SlotKept sfx s m st'.mixer

/-- What the body of the channel loop (lines 313-325) does to an active channel with
data pointer `p`, end pointer `e`, step remainder `r` and step `st`: the new data
pointer and the new step remainder. -/
def voice_advance (p e : Int) (r st : Nat) : Int × Nat :=
  let r1 := (r + st) % 4294967296
  let p1 := p + ((r1 >>> (16 + SFX_STEP_SHIFT) : Nat) : Int)
  let r2 := r1 &&& ((1 <<< (16 + SFX_STEP_SHIFT)) - 1)
  (if p1 ≥ e then 0 else p1, r2)

/-- The voice-table invariant of the spec: every slot is inactive or its data pointer
is below its end pointer. -/
def VoicesInBounds (m : Mixer) : Prop :=
  ∀ i, i < NUM_CHANNELS → m.channels i = 0 ∨ m.channels i < m.channelsend i

/-! ## getsfx -/

/-- Conversion of a C `int` to `size_t`, taken to be 64 bits wide. -/
def toSizeT (x : Int) : Nat := (x % 18446744073709551616).toNat

/-- What `getsfx` hands back: the bytes of the block `paddedsfx` it allocated
(indexed from the start of the block; the returned pointer is `paddedsfx + 8`) and the
length stored through `len`. -/
structure PaddedSfx where
  paddedsfx : Int → Nat
  len : Int

/-- The call `memcpy(paddedsfx, sfx, size)`: the first `size` bytes come from `sfx`. -/
def memcpy_bytes (dst src : Int → Nat) (size : Nat) : Int → Nat :=
  fun i => if 0 ≤ i ∧ i < (size : Int) then src i else dst i

/-- Loop `for (i=size ; i<paddedsize+8 ; i++) paddedsfx[i] = 128;` with `n`
iterations left, the counter at `i`. -/
def getsfx_pad_loop : Nat → Int → (Int → Nat) → (Int → Nat)
  | 0, _, b => b
  | n + 1, i, b => getsfx_pad_loop n (i + 1) (Function.update b i 128)

/-- Function `getsfx` from the lump on. `size` and `sfx` are the length and the bytes
of the lump that `W_CacheLumpNum` loaded, `block` is the content of the memory that
`Z_Malloc` returned. The padded size is computed in `size_t`, because
`mix_max_frames` is a `size_t`, and stored in an `int`. -/
def getsfx (mix_max_frames : Nat) (size : Int) (sfx block : Int → Nat) : PaddedSfx :=
  let paddedsize : Int :=
    toInt32 ((((toSizeT (wrapInt32 (size - 8)) + toSizeT ((mix_max_frames : Int) - 1))
        % 18446744073709551616) / mix_max_frames) * mix_max_frames % 18446744073709551616)
  let paddedsfx := memcpy_bytes block sfx (toSizeT size)
  let paddedsfx := getsfx_pad_loop (wrapInt32 (paddedsize + 8) - size).toNat size paddedsfx
  { paddedsfx := paddedsfx, len := paddedsize }

/-! ## Music state, mix_music and the audio callback -/

/-- The entry points of the music driver (LittleMUS/musdriver.c) that `mix_music`
uses, for a driver state of type `D`: the field `playing`, `musdriver_stop`,
`musdriver_start(song, loop)` and `musdriver_generate(to_buf, frames_needed, volume)`,
which gives the returned flag, the driver afterwards and the content of `to_buf`
afterwards. The `float` gain is passed as the exact quotient. -/
structure MusDriverOps (D : Type) where
  playing : D → Int
  musdriver_stop : D → D
  musdriver_start : D → Int → Int → D
  musdriver_generate : D → (Nat → Int) → Int → ℚ → Int × D × (Nat → Int)

/-- The music variables of i_sound.c: the downmix buffer, the atomics shared by the
two threads, the mixer's `mixer_last_song` and `music_driver`, and the two statics of
the music API. Song pointers are addresses, `0` is the null pointer. -/
structure Music (D : Type) where
  music_downmix : Nat → Int
  music_volume : Int
  music_loop : Int
  music_songptr : Int
  music_finished : Int
  music_paused : Int
  mixer_last_song : Int
  music_driver : D
  last_registered_song : Int
  started_playing : Int

/-- Function `I_SetMusicVolume(volume)`. -/
def I_SetMusicVolume {D : Type} (mu : Music D) (volume : Int) : Except String (Music D) :=
  if volume < 0 ∨ volume > 127 then .error "Attempt to set music volume at %d"
  else
    let volume := wrapInt32 (volume + 2)
    let volume := wrapInt32 (volume * volume) >>> (7 : Nat)
    .ok { mu with music_volume := volume }

/-- The call `memset(buf, 0, nbytes)` on a buffer of `int16_t`: sample `k` lies in
the bytes `2k` and `2k+1`. -/
def memset_zero16 (buf : Nat → Int) (nbytes : Nat) : Nat → Int :=
  fun k => if 2 * k + 1 < nbytes then 0 else buf k

/-- The gain `(float)(musvol) * 2.0f / 127.0f` of `mix_music`, as the exact quotient. -/
def music_gain (musvol : Int) : ℚ := (musvol : ℚ) * 2 / 127

/-- Function `mix_music(mix_frames_needed)`. When `musdriver_generate` returns 0 the
function returns at once; what the driver did to its state and to `music_downmix`
before it gave up stays. -/
def mix_music {D : Type} (ops : MusDriverOps D) (mu : Music D) (mix_frames_needed : Int) :
    Music D :=
  let musvol := mu.music_volume
  let song := mu.music_songptr
  let loop := mu.music_loop
  let mu :=
    if song ≠ mu.mixer_last_song then
      let d :=
        if ops.playing mu.music_driver ≠ 0 then ops.musdriver_stop mu.music_driver
        else mu.music_driver
      let d := if song ≠ 0 then ops.musdriver_start d song loop else d
      { mu with music_driver := d, mixer_last_song := song }
    else mu
  if ¬ (musvol ≠ 0 ∧ ops.playing mu.music_driver ≠ 0 ∧ mu.music_paused = 0) then
    { mu with
      music_downmix := memset_zero16 mu.music_downmix
        (toSizeT mix_frames_needed * 2 * MIX_CHANNELS % 18446744073709551616) }
  else
    let volume := music_gain musvol
    let r := ops.musdriver_generate mu.music_driver mu.music_downmix mix_frames_needed volume
    let mu := { mu with music_driver := r.2.1, music_downmix := r.2.2 }
    if r.1 = 0 then mu
    else if ops.playing mu.music_driver = 0 then { mu with music_finished := mu.mixer_last_song }
    else mu

/-- Everything the audio callback works on: `mix_max_frames`, the state of the SFX
mixer with the buffer handed to the callback, and the music state. -/
structure AudioState (F D : Type) where
  mix_max_frames : Nat
  mix : MixState F
  music : Music D

/-- Function `mix_callback(userdata, buffer, buffer_size)`; `buffer` is
`s.mix.mixbuffer`. `buffer_size / sizeof(int16_t)` is a `size_t` division stored in an
`int`, and `frames_needed > mix_max_frames` compares in `size_t`. The result is `none`
when `mix_samples` does not end. -/
def mix_callback {F D : Type} (biquadlp_step : F → Int → F × Int) (ops : MusDriverOps D)
    (mem : Int → Nat) (s : AudioState F D) (buffer_size : Int) : Option (AudioState F D) :=
  let samples_needed : Int := toInt32 (toSizeT buffer_size / 2)
  let frames_needed : Int := Int.tdiv samples_needed MIX_CHANNELS
  if toSizeT frames_needed > s.mix_max_frames then some s
  else
    let music := mix_music ops s.music frames_needed
    match mix_samples biquadlp_step mem music.music_downmix s.mix samples_needed with
    | some mix => some { s with mix := mix, music := music }
    | none => none

/-! ## The music API of the main thread -/

/-- Function `I_RegisterSong(data)`: the state afterwards and the handle returned. -/
def I_RegisterSong {D : Type} (mu : Music D) (data : Int) : Music D × Int :=
  ({ mu with last_registered_song := data }, 1)

/-- Function `I_PlaySong(handle, loop)`; `handle` is unused. -/
def I_PlaySong {D : Type} (mu : Music D) (_handle loop : Int) : Music D :=
  if mu.last_registered_song ≠ 0 then
    let mu := { mu with started_playing := 1 }
    let mu := { mu with music_loop := loop }
    { mu with music_songptr := mu.last_registered_song }
  else mu

/-- Function `I_PauseSong(handle)`. -/
def I_PauseSong {D : Type} (mu : Music D) (_handle : Int) : Music D :=
  { mu with music_paused := 1 }

/-- Function `I_ResumeSong(handle)`. -/
def I_ResumeSong {D : Type} (mu : Music D) (_handle : Int) : Music D :=
  { mu with music_paused := 0 }

/-- Function `I_StopSong(handle)`. -/
def I_StopSong {D : Type} (mu : Music D) (_handle : Int) : Music D :=
  let mu := { mu with started_playing := 0 }
  { mu with music_songptr := 0 }

/-- Function `I_UnRegisterSong(handle)`: it does nothing. -/
def I_UnRegisterSong {D : Type} (mu : Music D) (_handle : Int) : Music D := mu

/-- Function `I_QrySongPlaying(handle)`: the value of `started_playing &&
Atomic_Get_Ptr(&music_finished) != last_registered_song`. -/
def I_QrySongPlaying {D : Type} (mu : Music D) (_handle : Int) : Int :=
  if mu.started_playing ≠ 0 ∧ mu.music_finished ≠ mu.last_registered_song then 1 else 0

end ISound

namespace LittleMUS

open ISound (wrapInt32 toUInt32 toInt32)

/-! ## LittleMUS player (thirdparty/LittleMUS/musplayer.c): integers and tables -/

/-- Why a call of the model has no result: a loop did not end within the number of
iterations allowed, or the code read outside a table (undefined in C). -/
inductive Fault where
  | fuel
  | bounds
  deriving DecidableEq

/-- Narrowing of an `int` to `int8_t`. -/
def toInt8 (x : Int) : Int := (x + 128) % 256 - 128

/-- Narrowing of an `int` to `int16_t`. -/
def toInt16 (x : Int) : Int := (x + 32768) % 65536 - 32768

/-- Narrowing of an `int` to `uint8_t`. -/
def toUInt8 (x : Int) : Nat := (x % 256).toNat

/-- Narrowing of an `int` to `uint16_t`. -/
def toUInt16 (x : Int) : Nat := (x % 65536).toNat

/-- The C operator `&` on two `int` values (two's complement, 32 bits). -/
def int_and (x y : Int) : Int := toInt32 (toUInt32 x &&& toUInt32 y)

/-- The C operator `|` on two `int` values (two's complement, 32 bits). -/
def int_or (x y : Int) : Int := toInt32 (toUInt32 x ||| toUInt32 y)

/-- The C operator `<<` on an `int`, wrapped to 32 bits. -/
def int_shl (x : Int) (n : Nat) : Int := wrapInt32 (x * 2 ^ n)

/-- Read of one `uint8_t` of the score at address `p`. -/
def read8 (mem : Int → Nat) (p : Int) : Nat := mem p % 256

/-- Number of hardware voices (`mus_num_voices = 18`). -/
def mus_num_voices : Nat := 18

/-- First voice of the second OPL3 bank (`mus_bank_two = 9`). -/
def mus_bank_two : Nat := 9

/-- Number of MUS channels (`mus_num_channels = 16`). -/
def mus_num_channels : Nat := 16

/-- Value `opl3_pan_left = 0x10`. -/
def opl3_pan_left : Int := 0x10

/-- Value `opl3_pan_centre = 0x30`. -/
def opl3_pan_centre : Int := 0x30

/-- Value `opl3_pan_right = 0x20`. -/
def opl3_pan_right : Int := 0x20

/-- Value `opl3_centre_att = 6`. -/
def opl3_centre_att : Int := 6

/-- Value `opl3_pan_threshold = 21`. -/
def opl3_pan_threshold : Int := 21

/-- Table `chan_oper1[]`. -/
def chan_oper1 : List Nat := [0, 1, 2, 8, 9, 10, 16, 17, 18]

/-- Table `chan_oper2[]`. -/
def chan_oper2 : List Nat := [3, 4, 5, 11, 12, 13, 19, 20, 21]

/-- Table `note_cmds[]` (128 entries of `uint16_t`). -/
def note_cmds : List Nat :=
  [8536, 8557, 8579, 8602, 8626, 8652, 8679, 8708, 8739, 8772, 8806, 8843, 8881, 8922, 8966,
   9012, 9061, 9112, 9167, 9732, 9763, 9796, 9830, 9867, 9905, 9946, 9990, 10036, 10085, 10136,
   10191, 10756, 10787, 10820, 10854, 10891, 10929, 10970, 11014, 11060, 11109, 11160, 11215,
   11780, 11811, 11844, 11878, 11915, 11953, 11994, 12038, 12084, 12133, 12184, 12239, 12804,
   12835, 12868, 12902, 12939, 12977, 13018, 13062, 13108, 13157, 13208, 13263, 13828, 13859,
   13892, 13926, 13963, 14001, 14042, 14086, 14132, 14181, 14232, 14287, 14852, 14883, 14916,
   14950, 14987, 15025, 15066, 15110, 15156, 15205, 15256, 15311, 15876, 15907, 15940, 15974,
   16011, 16049, 16090, 16134, 16180, 16229, 16280, 16335, 0, 0, 0, 0, 0, 0, 0, 0, 0, 0, 0, 0,
   0, 0, 0, 0, 0, 0, 0, 0, 0, 0, 0, 0, 0]

/-- Table `att_log_square[128]` (`int8_t`). -/
def att_log_square : List Int :=
  [96, 96, 90, 81, 74, 69, 65, 61, 58, 55, 53, 51, 49, 47, 45, 43, 42, 41, 39, 38, 37, 36, 35,
   34, 33, 32, 31, 30, 29, 28, 27, 27, 26, 25, 24, 24, 23, 23, 22, 21, 21, 20, 20, 19, 19, 18,
   17, 17, 17, 16, 16, 15, 15, 14, 14, 13, 13, 13, 12, 12, 11, 11, 11, 10, 10, 9, 9, 9, 8, 8,
   8, 7, 7, 7, 6, 6, 6, 6, 5, 5, 5, 4, 4, 4, 4, 3, 3, 3, 2, 2, 2, 2, 1, 1, 1, 1, 0, 0, 0, 0, 0,
   0, 0, 0, 0, -1, -1, -1, -1, -1, -2, -2, -2, -2, -3, -3, -3, -3, -3, -4, -4, -4, -4, -4, -4,
   -5, -5, -5]

/-- The read `note_cmds[i]`; outside 0..127 it is a read outside the table. -/
def note_cmds_at (i : Int) : Except Fault Int :=
  if 0 ≤ i ∧ i < 128 then .ok ((note_cmds.getD i.toNat 0 : Nat) : Int) else .error .bounds

/-- The read `att_log_square[i]`; outside 0..127 it is a read outside the table. -/
def att_log_square_at (i : Int) : Except Fault Int :=
  if 0 ≤ i ∧ i < 128 then .ok (att_log_square.getD i.toNat 0) else .error .bounds

/-- The bank bit `B` of the snippet `int B=0, ch = hw_ch; if (ch >= mus_bank_two)
{ ch -= mus_bank_two; B = 0x100; }` found in every function that writes registers. -/
def hw_bank (hw_ch : Nat) : Nat := if hw_ch ≥ mus_bank_two then 0x100 else 0

/-- The channel `ch` within its bank, from the same snippet. -/
def hw_chan (hw_ch : Nat) : Nat := if hw_ch ≥ mus_bank_two then hw_ch - mus_bank_two else hw_ch

/-- The register `(B|base)+ofs` of voice `hw_ch`. -/
def hw_reg (hw_ch base ofs : Nat) : Int := (((hw_bank hw_ch ||| base) + ofs : Nat) : Int)

/-- The function `clamp(v, min_v, max_v)`. -/
def clamp (v min_v max_v : Int) : Int :=
  if v ≥ min_v then (if v ≤ max_v then v else max_v) else min_v

/-! ## Player state -/

/-- The struct `MUS_voice` of an OP2 bank entry. -/
structure MUS_voice where
  modChar : Nat
  modAttack : Nat
  modSustain : Nat
  modWaveSel : Nat
  modScale : Nat
  modLevel : Nat
  feedback : Nat
  carChar : Nat
  carAttack : Nat
  carSustain : Nat
  carWaveSel : Nat
  carScale : Nat
  carLevel : Nat
  reserved : Nat
  noteOfs : Int

/-- The struct `MUS_instrument`; `voice` has the two entries 0 and 1. -/
structure MUS_instrument where
  flags : Int
  fineTune : Nat
  noteNum : Nat
  voice : Nat → MUS_voice

/-- The struct `mus_hw_voice_t`. The `uint8_t` field `mus_ch` holds 255 after the
assignment of `-1`. -/
structure mus_hw_voice_t where
  seq : Int
  release : Int
  noteid : Int
  note_att : Int
  hw_cmd : Nat
  p_note : Nat
  mus_ch : Nat
  ins_sel : Int
  ksl1 : Nat
  ksl2 : Nat
  lvl1 : Nat
  lvl2 : Nat
  feedback : Nat
  fineTune : Int

/-- The struct `mus_channel_t`. The pointer `ins` always holds `&mp->op2bank[k]` for
some `k`; it is kept as that index. -/
structure mus_channel_t where
  mono : Nat
  last_vol : Nat
  vol_att : Int
  exp_att : Int
  bend : Int
  pan_bits : Int
  ins_idx : Nat
  ins : Nat

/-- The struct `musplayer_t` together with what `adlib_write(mp, reg, val)` acts on:
`dev`, of a type `W` chosen by the program that implements `adlib_write`. Score
pointers are addresses, 0 is the null pointer. -/
structure musplayer_t (W : Type) where
  loop_score : Int
  score : Int
  delay : Int
  mus_time : Int
  next_free : Int
  next_keyon_seq : Int
  main_att : Int
  channels : Nat → mus_channel_t
  hw_voices : Nat → mus_hw_voice_t
  op2bank : Nat → MUS_instrument
  dev : W

/-- The call `adlib_write(mp, reg, val)`; the parameter `aw` is the program's
implementation of it. -/
def adlib_write {W : Type} (aw : W → Int → Int → W) (mp : musplayer_t W) (reg val : Int) :
    musplayer_t W :=
  { mp with dev := aw mp.dev reg val }

/-! ## Hardware voices: key-off, instrument load, pitch bend, volume, key-on -/

/-- Function `key_off_hw(mp, hw_ch)`. -/
def key_off_hw {W : Type} (aw : W → Int → Int → W) (mp : musplayer_t W) (hw_ch : Nat) :
    musplayer_t W :=
  if (mp.hw_voices hw_ch).noteid ≥ 0 then
    let mp := adlib_write aw mp (hw_reg hw_ch 0xb0 (hw_chan hw_ch))
      ((((mp.hw_voices hw_ch).hw_cmd >>> 8) &&& 0xdf : Nat) : Int)
    { mp with
      hw_voices := Function.update mp.hw_voices hw_ch
        { mp.hw_voices hw_ch with noteid := -1, release := wrapInt32 (mp.mus_time + 4) } }
  else mp

/-- Function `silence_hw(mp, hw_ch)`. -/
def silence_hw {W : Type} (aw : W → Int → Int → W) (mp : musplayer_t W) (hw_ch : Nat) :
    musplayer_t W :=
  let mp := adlib_write aw mp (hw_reg hw_ch 0x80 (chan_oper1.getD (hw_chan hw_ch) 0)) 15
  let mp := adlib_write aw mp (hw_reg hw_ch 0x80 (chan_oper2.getD (hw_chan hw_ch) 0)) 15
  let mp := key_off_hw aw mp hw_ch
  { mp with
    hw_voices := Function.update mp.hw_voices hw_ch { mp.hw_voices hw_ch with ins_sel := -1 } }

/-- The loop of `key_off_note` with `n` iterations left, the counter at `h`. -/
def key_off_note_loop {W : Type} (aw : W → Int → Int → W) (mus_ch note : Int) :
    Nat → Nat → musplayer_t W → musplayer_t W
  | 0, _, mp => mp
  | n + 1, h, mp =>
    let mp :=
      if ((mp.hw_voices h).mus_ch : Int) = mus_ch
          ∧ int_and (mp.hw_voices h).noteid 0xFF = note then
        key_off_hw aw mp h
      else mp
    key_off_note_loop aw mus_ch note n (h + 1) mp

/-- Function `key_off_note(mp, mus_ch, note)`; the flag `found` only feeds a
`printf`. -/
def key_off_note {W : Type} (aw : W → Int → Int → W) (mp : musplayer_t W)
    (mus_ch note : Int) : musplayer_t W :=
  key_off_note_loop aw mus_ch note mus_num_voices 0 mp

/-- The loop of `key_off_mus_all` with `n` iterations left, the counter at `h`. -/
def key_off_mus_all_loop {W : Type} (aw : W → Int → Int → W) (mus_ch : Int) :
    Nat → Nat → musplayer_t W → musplayer_t W
  | 0, _, mp => mp
  | n + 1, h, mp =>
    let mp := if ((mp.hw_voices h).mus_ch : Int) = mus_ch then key_off_hw aw mp h else mp
    key_off_mus_all_loop aw mus_ch n (h + 1) mp

/-- Function `key_off_mus_all(mp, mus_ch)`. -/
def key_off_mus_all {W : Type} (aw : W → Int → Int → W) (mp : musplayer_t W)
    (mus_ch : Int) : musplayer_t W :=
  key_off_mus_all_loop aw mus_ch mus_num_voices 0 mp

/-- The loop of `silence_mus_all` with `n` iterations left, the counter at `h`. -/
def silence_mus_all_loop {W : Type} (aw : W → Int → Int → W) (mus_ch : Int) :
    Nat → Nat → musplayer_t W → musplayer_t W
  | 0, _, mp => mp
  | n + 1, h, mp =>
    let mp := if ((mp.hw_voices h).mus_ch : Int) = mus_ch then silence_hw aw mp h else mp
    silence_mus_all_loop aw mus_ch n (h + 1) mp

/-- Function `silence_mus_all(mp, mus_ch)`. -/
def silence_mus_all {W : Type} (aw : W → Int → Int → W) (mp : musplayer_t W)
    (mus_ch : Int) : musplayer_t W :=
  silence_mus_all_loop aw mus_ch mus_num_voices 0 mp

/-- The ten register writes of `load_hw_instrument` (lines 354-363) for the voice
data `v`. -/
def load_hw_writes {W : Type} (aw : W → Int → Int → W) (mp : musplayer_t W) (hw_ch : Nat)
    (v : MUS_voice) : musplayer_t W :=
  let mp := adlib_write aw mp (hw_reg hw_ch 0x40 (chan_oper1.getD (hw_chan hw_ch) 0)) 63
  let mp := adlib_write aw mp (hw_reg hw_ch 0x40 (chan_oper2.getD (hw_chan hw_ch) 0)) 63
  let mp := adlib_write aw mp (hw_reg hw_ch 0x20 (chan_oper1.getD (hw_chan hw_ch) 0)) v.modChar
  let mp := adlib_write aw mp (hw_reg hw_ch 0x60 (chan_oper1.getD (hw_chan hw_ch) 0)) v.modAttack
  let mp := adlib_write aw mp (hw_reg hw_ch 0x80 (chan_oper1.getD (hw_chan hw_ch) 0)) v.modSustain
  let mp := adlib_write aw mp (hw_reg hw_ch 0xE0 (chan_oper1.getD (hw_chan hw_ch) 0)) v.modWaveSel
  let mp := adlib_write aw mp (hw_reg hw_ch 0x20 (chan_oper2.getD (hw_chan hw_ch) 0)) v.carChar
  let mp := adlib_write aw mp (hw_reg hw_ch 0x60 (chan_oper2.getD (hw_chan hw_ch) 0)) v.carAttack
  let mp := adlib_write aw mp (hw_reg hw_ch 0x80 (chan_oper2.getD (hw_chan hw_ch) 0)) v.carSustain
  adlib_write aw mp (hw_reg hw_ch 0xE0 (chan_oper2.getD (hw_chan hw_ch) 0)) v.carWaveSel

/-- The assignments to `hw` in `load_hw_instrument` (lines 364-376): the voice `hw`
afterwards, for the instrument `inn`, its voice `v` and the voice index `vi`. -/
def loaded_voice (hw : mus_hw_voice_t) (inn : MUS_instrument) (v : MUS_voice)
    (vi ins_sel : Int) : mus_hw_voice_t :=
  let hw := { hw with
    ksl1 := v.modScale
    ksl2 := v.carScale
    lvl1 := v.modLevel
    lvl2 := v.carLevel
    feedback := v.feedback
    fineTune := if vi ≠ 0 then toInt8 (((inn.fineTune / 2 : Nat) : Int) - 64) else 0
    ins_sel := toInt16 ins_sel }
  let hw := if hw.lvl1 > 63 then { hw with lvl1 := 63 } else hw
  if hw.lvl2 > 63 then { hw with lvl2 := 63 } else hw

/-- Function `load_hw_instrument(mp, hw, hw_ch, ins_sel)` with `hw =
&mp->hw_voices[hw_ch]`, as at its only call. The read `in->voice[vi]` is outside the
two voices of the instrument unless `vi` is 0 or 1. -/
def load_hw_instrument {W : Type} (aw : W → Int → Int → W) (mp : musplayer_t W)
    (hw_ch : Nat) (ins_sel : Int) : Except Fault (musplayer_t W) :=
  let ins := int_and ins_sel 0xFF
  let vi := ins_sel >>> (8 : Nat)
  if ins ≥ 175 then .ok mp
  else if vi < 0 ∨ vi ≥ 2 then .error .bounds
  else
    let inn := mp.op2bank ins.toNat
    let v := inn.voice vi.toNat
    let mp := load_hw_writes aw mp hw_ch v
    .ok { mp with
      hw_voices := Function.update mp.hw_voices hw_ch
        (loaded_voice (mp.hw_voices hw_ch) inn v vi ins_sel) }

/-- The expression `(cmd & 1023) << ((cmd >> 10) & 7)` of `bend_pitch`. -/
def abs_freq (cmd : Int) : Int :=
  int_shl (int_and cmd 1023) (int_and (cmd >>> (10 : Nat)) 7).toNat

/-- The common tail of the two branches of `bend_pitch`, from `int next = ...` on:
`up` tells the branch `bend > 0` from the branch `bend < 0`. -/
def bend_pitch_tail (up : Bool) (freq note bend fineTune : Int) : Except Fault Int :=
  match note_cmds_at note with
  | .error e => .error e
  | .ok c =>
    let next := wrapInt32 (c + fineTune)
    let next_scale := int_and (next >>> (10 : Nat)) 7
    let other_freq := int_shl (int_and next 1023) next_scale.toNat
    let freq :=
      if up then wrapInt32 (freq + (wrapInt32 (wrapInt32 (other_freq - freq) * bend) >>> (6 : Nat)))
      else wrapInt32 (freq - (wrapInt32 (wrapInt32 (freq - other_freq) * bend) >>> (6 : Nat)))
    let freq := freq >>> next_scale.toNat
    let freq := if freq > 1023 then 1023 else freq
    .ok (int_or (int_or (int_shl 1 13) (int_shl next_scale 10)) freq)

/-- Function `bend_pitch(mp, hw_cmd, note, bend, fineTune)`. -/
def bend_pitch (hw_cmd note bend fineTune : Int) : Except Fault Int :=
  if bend > 0 then
    let note := wrapInt32 (note + 1)
    if bend > 64 then
      let bend := wrapInt32 (bend - 64)
      match note_cmds_at note with
      | .error e => .error e
      | .ok c =>
        let cmd := wrapInt32 (c + fineTune)
        let freq := abs_freq cmd
        let note := wrapInt32 (note + 1)
        bend_pitch_tail true freq note bend fineTune
    else
      let freq := abs_freq hw_cmd
      bend_pitch_tail true freq note bend fineTune
  else if bend < 0 then
    let bend := wrapInt32 (-bend)
    let note := wrapInt32 (note - 1)
    if bend > 64 then
      let bend := wrapInt32 (bend - 64)
      match note_cmds_at note with
      | .error e => .error e
      | .ok c =>
        let cmd := wrapInt32 (c + fineTune)
        let freq := abs_freq cmd
        let note := wrapInt32 (note - 1)
        bend_pitch_tail false freq note bend fineTune
    else
      let freq := abs_freq hw_cmd
      bend_pitch_tail false freq note bend fineTune
  else .ok hw_cmd

/-- The loop of `bend_channel` with `n` iterations left, the counter at `h`. -/
def bend_channel_loop {W : Type} (aw : W → Int → Int → W) (mus_ch bend : Int) :
    Nat → Nat → musplayer_t W → Except Fault (musplayer_t W)
  | 0, _, mp => .ok mp
  | n + 1, h, mp =>
    if ((mp.hw_voices h).mus_ch : Int) = mus_ch ∧ (mp.hw_voices h).noteid ≥ 0 then
      match bend_pitch (mp.hw_voices h).hw_cmd (mp.hw_voices h).p_note bend
          (mp.hw_voices h).fineTune with
      | .error e => .error e
      | .ok hw_cmd =>
        let mp := adlib_write aw mp (hw_reg h 0xa0 (hw_chan h)) (int_and hw_cmd 255)
        let mp := adlib_write aw mp (hw_reg h 0xb0 (hw_chan h)) (hw_cmd >>> (8 : Nat))
        bend_channel_loop aw mus_ch bend n (h + 1) mp
    else bend_channel_loop aw mus_ch bend n (h + 1) mp

/-- Function `bend_channel(mp, mus_ch, bend)`. -/
def bend_channel {W : Type} (aw : W → Int → Int → W) (mp : musplayer_t W)
    (mus_ch bend : Int) : Except Fault (musplayer_t W) :=
  bend_channel_loop aw mus_ch bend mus_num_voices 0 mp

/-- The attenuation `v_att` of `update_volume` and `key_on`. -/
def voice_att (main_att note_att ch_att pan_bits : Int) : Int :=
  let pan_att := if pan_bits = opl3_pan_centre then opl3_centre_att else 0
  clamp (wrapInt32 (wrapInt32 (wrapInt32 (main_att + note_att) + ch_att) + pan_att)) 0 63

/-- The level `att2` written for operator 2: `hw->lvl2 + v_att` limited to 0..63. -/
def oper2_att (hw : mus_hw_voice_t) (v_att : Int) : Int :=
  let att2 := (hw.lvl2 : Int) + v_att
  if att2 > 63 then 63 else if att2 < 0 then 0 else att2

/-- The level `att1` written for operator 1: `hw->lvl1`, with `v_att` added and the
sum limited to 0..63 in additive mode (`hw->feedback & 1`). -/
def oper1_att (hw : mus_hw_voice_t) (v_att : Int) : Int :=
  let att1 := (hw.lvl1 : Int)
  if hw.feedback &&& 1 ≠ 0 then
    let att1 := att1 + v_att
    if att1 > 63 then 63 else if att1 < 0 then 0 else att1
  else att1

/-- The three register writes shared by `update_volume` and `key_on`: the two operator
levels with the key-scaling bits, then pan and feedback. -/
def write_levels {W : Type} (aw : W → Int → Int → W) (mp : musplayer_t W) (h : Nat)
    (v_att pan_bits : Int) : musplayer_t W :=
  let hw := mp.hw_voices h
  let mp := adlib_write aw mp (hw_reg h 0x40 (chan_oper1.getD (hw_chan h) 0))
    (int_or hw.ksl1 (oper1_att hw v_att))
  let mp := adlib_write aw mp (hw_reg h 0x40 (chan_oper2.getD (hw_chan h) 0))
    (int_or hw.ksl2 (oper2_att hw v_att))
  adlib_write aw mp (hw_reg h 0xC0 (hw_chan h)) (int_or hw.feedback pan_bits)

/-- The loop of `update_volume` with `n` iterations left, the counter at `h`. -/
def update_volume_loop {W : Type} (aw : W → Int → Int → W) (mus_ch ch_att pan_bits : Int) :
    Nat → Nat → musplayer_t W → musplayer_t W
  | 0, _, mp => mp
  | n + 1, h, mp =>
    let mp :=
      if ((mp.hw_voices h).mus_ch : Int) = mus_ch then
        write_levels aw mp h
          (voice_att mp.main_att (mp.hw_voices h).note_att ch_att pan_bits) pan_bits
      else mp
    update_volume_loop aw mus_ch ch_att pan_bits n (h + 1) mp

/-- Function `update_volume(mp, mus_ch, ch_att, pan_bits)`. -/
def update_volume {W : Type} (aw : W → Int → Int → W) (mp : musplayer_t W)
    (mus_ch ch_att pan_bits : Int) : musplayer_t W :=
  update_volume_loop aw mus_ch ch_att pan_bits mus_num_voices 0 mp

/-- Function `key_on(mp, hw_ch, noteid, note, noteOfs, note_att, ch_att, mus_ch, bend,
pan_bits)`. -/
def key_on {W : Type} (aw : W → Int → Int → W) (mp : musplayer_t W) (hw_ch : Nat)
    (noteid note noteOfs note_att ch_att mus_ch bend pan_bits : Int) :
    Except Fault (musplayer_t W) :=
  let mp := write_levels aw mp hw_ch (voice_att mp.main_att note_att ch_att pan_bits) pan_bits
  match note_cmds_at (wrapInt32 (note + noteOfs)) with
  | .error e => .error e
  | .ok c =>
    let hw_cmd : Nat := toUInt16 (c + (mp.hw_voices hw_ch).fineTune)
    let bent : Except Fault Nat :=
      if bend ≠ 0 then
        match bend_pitch hw_cmd (wrapInt32 (note + noteOfs)) bend (mp.hw_voices hw_ch).fineTune with
        | .error e => .error e
        | .ok b => .ok (toUInt16 b)
      else .ok hw_cmd
    match bent with
    | .error e => .error e
    | .ok hw_cmd =>
      let mp := adlib_write aw mp (hw_reg hw_ch 0xA0 (hw_chan hw_ch)) ((hw_cmd &&& 255 : Nat) : Int)
      let mp := adlib_write aw mp (hw_reg hw_ch 0xB0 (hw_chan hw_ch)) ((hw_cmd >>> 8 : Nat) : Int)
      let hw := { mp.hw_voices hw_ch with
        seq := mp.next_keyon_seq
        noteid := toInt16 noteid
        note_att := toInt8 note_att
        hw_cmd := hw_cmd
        p_note := toUInt8 (wrapInt32 (note + noteOfs))
        mus_ch := toUInt8 mus_ch }
      .ok { mp with
        next_keyon_seq := wrapInt32 (mp.next_keyon_seq + 1)
        hw_voices := Function.update mp.hw_voices hw_ch hw }

/-! ## Voice allocation and note start -/

/-- The locals of `choose_hw_voice`; `-1` in `oldest_koff` and `oldest_reuse` stands
for "none yet". Both `REUSE_INSTRUMENTS` and `KILL_OLDEST` are defined (lines 503,
504). -/
structure VoiceScan where
  oldest_koff_seq : Int
  oldest_koff : Int
  oldest_reuse_seq : Int
  oldest_reuse : Int
  oldest_seq : Int
  oldest : Nat

/-- The initial values of the locals of `choose_hw_voice`. -/
def VoiceScan.init : VoiceScan :=
  { oldest_koff_seq := 0x7FFFFFFF, oldest_koff := -1, oldest_reuse_seq := 0x7FFFFFFF,
    oldest_reuse := -1, oldest_seq := 0x7FFFFFFF, oldest := 0 }

/-- The loop of `choose_hw_voice` with `n` iterations left, the counter at `i`: the
voice at which the loop returns early (the same note is keyed on there), if any, and
the locals. -/
def choose_hw_voice_scan {W : Type} (mp : musplayer_t W) (ins_sel mus_ch noteid : Int) :
    Nat → Nat → VoiceScan → Option Nat × VoiceScan
  | 0, _, a => (none, a)
  | n + 1, i, a =>
    let seq := (mp.hw_voices i).seq
    let a := if seq < a.oldest_seq then { a with oldest_seq := seq, oldest := i } else a
    if (mp.hw_voices i).noteid < 0 then
      let a :=
        if seq < a.oldest_koff_seq then { a with oldest_koff_seq := seq, oldest_koff := i }
        else a
      let a :=
        if seq < a.oldest_reuse_seq ∧ (mp.hw_voices i).ins_sel = ins_sel then
          { a with oldest_reuse_seq := seq, oldest_reuse := i }
        else a
      choose_hw_voice_scan mp ins_sel mus_ch noteid n (i + 1) a
    else if (mp.hw_voices i).noteid = noteid ∧ ((mp.hw_voices i).mus_ch : Int) = mus_ch then
      (some i, a)
    else choose_hw_voice_scan mp ins_sel mus_ch noteid n (i + 1) a

/-- Function `choose_hw_voice(mp, ins_sel, mus_ch, noteid)`: the player afterwards and
the voice returned. -/
def choose_hw_voice {W : Type} (aw : W → Int → Int → W) (mp : musplayer_t W)
    (ins_sel mus_ch noteid : Int) : musplayer_t W × Int :=
  match choose_hw_voice_scan mp ins_sel mus_ch noteid mus_num_voices 0 VoiceScan.init with
  | (some i, _) => (key_off_hw aw mp i, (i : Int))
  | (none, a) =>
    if a.oldest_reuse ≥ 0 then (mp, a.oldest_reuse)
    else if a.oldest_koff ≥ 0 then (mp, a.oldest_koff)
    else (key_off_hw aw mp a.oldest, (a.oldest : Int))

/-- Function `play_note(mp, ins_sel, noteid, note, noteOfs, note_att, ch_att, mus_ch,
bend, pan)`. -/
def play_note {W : Type} (aw : W → Int → Int → W) (mp : musplayer_t W)
    (ins_sel noteid note noteOfs note_att ch_att mus_ch bend pan : Int) :
    Except Fault (musplayer_t W) :=
  let r := choose_hw_voice aw mp ins_sel mus_ch noteid
  if r.2 < 0 then .ok r.1
  else
    let loaded :=
      if (r.1.hw_voices r.2.toNat).ins_sel ≠ ins_sel then
        load_hw_instrument aw r.1 r.2.toNat ins_sel
      else .ok r.1
    match loaded with
    | .error e => .error e
    | .ok mp => key_on aw mp r.2.toNat noteid note noteOfs note_att ch_att mus_ch bend pan

/-! ## Controllers -/

/-- Update of the channel `mus_ch` through the pointer `ch`. -/
def set_channel {W : Type} (mp : musplayer_t W) (mus_ch : Nat)
    (f : mus_channel_t → mus_channel_t) : musplayer_t W :=
  { mp with channels := Function.update mp.channels mus_ch (f (mp.channels mus_ch)) }

/-- Function `mus_event(mp, ctrl, value, mus_ch, ch)` with `ch = &mp->channels[mus_ch]`,
as at its two calls. -/
def mus_event {W : Type} (aw : W → Int → Int → W) (mp : musplayer_t W) (ctrl value : Int)
    (mus_ch : Nat) : Except Fault (musplayer_t W) :=
  if ctrl > 14 then .ok mp
  else if ctrl = 0 then
    let value := if value ≥ 175 then 0 else value
    let mp := set_channel mp mus_ch (fun ch => { ch with ins_idx := toUInt8 value })
    .ok (set_channel mp mus_ch (fun ch => { ch with ins := value.toNat }))
  else if ctrl = 1 then .ok mp
  else if ctrl = 2 then .ok mp
  else if ctrl = 3 then
    let value := if value > 127 then 127 else value
    match att_log_square_at value with
    | .error e => .error e
    | .ok att =>
      let mp := set_channel mp mus_ch (fun ch => { ch with vol_att := att })
      .ok (update_volume aw mp mus_ch
        (wrapInt32 ((mp.channels mus_ch).vol_att + (mp.channels mus_ch).exp_att))
        (mp.channels mus_ch).pan_bits)
  else if ctrl = 4 then
    let pan_bits :=
      if value ≤ 64 - opl3_pan_threshold then opl3_pan_left
      else if value ≥ 64 + opl3_pan_threshold then opl3_pan_right
      else opl3_pan_centre
    let mp := set_channel mp mus_ch (fun ch => { ch with pan_bits := pan_bits })
    .ok (update_volume aw mp mus_ch
      (wrapInt32 ((mp.channels mus_ch).vol_att + (mp.channels mus_ch).exp_att))
      (mp.channels mus_ch).pan_bits)
  else if ctrl = 5 then
    let value := if value > 127 then 127 else value
    match att_log_square_at value with
    | .error e => .error e
    | .ok att =>
      let mp := set_channel mp mus_ch (fun ch => { ch with exp_att := att })
      .ok (update_volume aw mp mus_ch
        (wrapInt32 ((mp.channels mus_ch).vol_att + (mp.channels mus_ch).exp_att))
        (mp.channels mus_ch).pan_bits)
  else if ctrl = 6 then .ok mp
  else if ctrl = 7 then .ok mp
  else if ctrl = 8 then .ok mp
  else if ctrl = 9 then .ok mp
  else if ctrl = 10 then .ok (silence_mus_all aw mp mus_ch)
  else if ctrl = 11 then .ok (key_off_mus_all aw mp mus_ch)
  else if ctrl = 12 then .ok (set_channel mp mus_ch (fun ch => { ch with mono := 1 }))
  else if ctrl = 13 then .ok (set_channel mp mus_ch (fun ch => { ch with mono := 0 }))
  else if ctrl = 14 then
    let mp :=
      if (mp.channels mus_ch).vol_att ≠ 0 ∨ (mp.channels mus_ch).exp_att ≠ 0 then
        let mp := set_channel mp mus_ch (fun ch => { ch with vol_att := 0 })
        let mp := set_channel mp mus_ch (fun ch => { ch with exp_att := 0 })
        let mp := set_channel mp mus_ch (fun ch => { ch with pan_bits := opl3_pan_centre })
        update_volume aw mp mus_ch
          (wrapInt32 ((mp.channels mus_ch).vol_att + (mp.channels mus_ch).exp_att))
          (mp.channels mus_ch).pan_bits
      else mp
    let bent :=
      if (mp.channels mus_ch).bend ≠ 0 then
        bend_channel aw (set_channel mp mus_ch (fun ch => { ch with bend := 0 })) mus_ch 0
      else .ok mp
    match bent with
    | .error e => .error e
    | .ok mp => .ok (set_channel mp mus_ch (fun ch => { ch with mono := 0 }))
  else .ok mp

/-! ## musplay_update -/

/-- The statement pair `play_note(mp, ins_sel, note, n, ofs0, ...); if (ins->flags &
musf_double_voice) play_note(mp, ins_sel|(1<<8), note|(1<<8), n, ofs1, ...);` that
ends each of the three branches of the note event (lines 728-732, 739-743, 746-750);
`ins` is `&mp->op2bank[k]`, and `ch->bend`, `ch->pan_bits` are read at each call. -/
def play_voices {W : Type} (aw : W → Int → Int → W) (mp : musplayer_t W) (mus_ch k : Nat)
    (ins_sel note n ofs0 ofs1 note_att ch_att : Int) : Except Fault (musplayer_t W) :=
  match play_note aw mp ins_sel note n ofs0 note_att ch_att mus_ch
      (mp.channels mus_ch).bend (mp.channels mus_ch).pan_bits with
  | .error e => .error e
  | .ok mp =>
    if int_and (mp.op2bank k).flags 4 ≠ 0 then
      play_note aw mp (int_or ins_sel (int_shl 1 8)) (int_or note (int_shl 1 8)) n ofs1
        note_att ch_att mus_ch (mp.channels mus_ch).bend (mp.channels mus_ch).pan_bits
    else .ok mp

/-- The note event from `if (ch->mono)` on (lines 712-752), for the MIDI note `note`
(7 bits) and the volume `vol`. -/
def note_on {W : Type} (aw : W → Int → Int → W) (mp : musplayer_t W) (mus_ch : Nat)
    (note vol : Int) : Except Fault (musplayer_t W) :=
  let mp := if (mp.channels mus_ch).mono ≠ 0 then key_off_mus_all aw mp mus_ch else mp
  match att_log_square_at vol with
  | .error e => .error e
  | .ok note_att =>
    let ch_att := (mp.channels mus_ch).vol_att
    if mus_ch = 15 then
      if note ≥ 35 ∧ note ≤ 81 then
        let ins_sel := 128 - 35 + note
        play_voices aw mp mus_ch ins_sel.toNat ins_sel note
          (mp.op2bank ins_sel.toNat).noteNum 0 0 note_att ch_att
      else .ok mp
    else
      let k := (mp.channels mus_ch).ins
      let ins_sel : Int := (mp.channels mus_ch).ins_idx
      if int_and (mp.op2bank k).flags 1 ≠ 0 then
        play_voices aw mp mus_ch k ins_sel note (mp.op2bank k).noteNum 0 0 note_att ch_att
      else
        play_voices aw mp mus_ch k ins_sel note note ((mp.op2bank k).voice 0).noteOfs
          ((mp.op2bank k).voice 1).noteOfs note_att ch_att

/-- The loop `for (int i=0; i<mus_num_voices; i++) key_off_hw(mp, i);` of the
end-of-score event and of `musplay_stop`, with `n` iterations left. -/
def key_off_all_loop {W : Type} (aw : W → Int → Int → W) :
    Nat → Nat → musplayer_t W → musplayer_t W
  | 0, _, mp => mp
  | n + 1, i, mp => key_off_all_loop aw n (i + 1) (key_off_hw aw mp i)

/-- How one pass through the `switch (event)` of `musplay_update` ends: with `break`,
leaving the command byte `cmd`, or with `return ret`. -/
inductive EventResult (W : Type) where
  | next (mp : musplayer_t W) (cmd : Nat)
  | done (mp : musplayer_t W) (ret : Int)

/-- The case `event_release` of the switch (lines 697-702); `mp` is the player after
the command byte `cmd` has been read. -/
def event_release {W : Type} (aw : W → Int → Int → W) (mem : Int → Nat) (mp : musplayer_t W)
    (cmd : Nat) : Except Fault (EventResult W) :=
  let note := read8 mem mp.score
  let mp := { mp with score := mp.score + 1 }
  .ok (.next (key_off_note aw mp ((cmd &&& 15 : Nat) : Int) note) cmd)

/-- The case `event_note` of the switch (lines 703-755). -/
def event_note {W : Type} (aw : W → Int → Int → W) (mem : Int → Nat) (mp : musplayer_t W)
    (cmd : Nat) : Except Fault (EventResult W) :=
  let mus_ch := cmd &&& 15
  let note := read8 mem mp.score
  let mp := { mp with score := mp.score + 1 }
  let vol := if note &&& 0x80 ≠ 0 then read8 mem mp.score else (mp.channels mus_ch).last_vol
  let mp :=
    if note &&& 0x80 ≠ 0 then
      set_channel { mp with score := mp.score + 1 } mus_ch (fun ch => { ch with last_vol := vol })
    else mp
  let note := note &&& 0x7F
  match note_on aw mp mus_ch note vol with
  | .error e => .error e
  | .ok mp => .ok (.next mp cmd)

/-- The case `event_pitch_wheel` of the switch (lines 756-763). -/
def event_pitch_wheel {W : Type} (aw : W → Int → Int → W) (mem : Int → Nat)
    (mp : musplayer_t W) (cmd : Nat) : Except Fault (EventResult W) :=
  let mus_ch := cmd &&& 15
  let bend : Int := (read8 mem mp.score : Int) - 128
  let mp := { mp with score := mp.score + 1 }
  let mp := set_channel mp mus_ch (fun ch => { ch with bend := toInt8 bend })
  match bend_channel aw mp mus_ch bend with
  | .error e => .error e
  | .ok mp => .ok (.next mp cmd)

/-- The case `event_system` of the switch (lines 764-768). -/
def event_system {W : Type} (aw : W → Int → Int → W) (mem : Int → Nat) (mp : musplayer_t W)
    (cmd : Nat) : Except Fault (EventResult W) :=
  let ctrl := read8 mem mp.score &&& 0x7F
  let mp := { mp with score := mp.score + 1 }
  match mus_event aw mp ctrl 0 (cmd &&& 15) with
  | .error e => .error e
  | .ok mp => .ok (.next mp cmd)

/-- The case `event_controller` of the switch (lines 769-777). -/
def event_controller {W : Type} (aw : W → Int → Int → W) (mem : Int → Nat)
    (mp : musplayer_t W) (cmd : Nat) : Except Fault (EventResult W) :=
  let ctrl := read8 mem mp.score &&& 0x7F
  let mp := { mp with score := mp.score + 1 }
  let value := read8 mem mp.score
  let mp := { mp with score := mp.score + 1 }
  if ctrl < 10 then
    match mus_event aw mp ctrl value (cmd &&& 15) with
    | .error e => .error e
    | .ok mp => .ok (.next mp cmd)
  else .ok (.next mp cmd)

/-- The case `event_end_of_score` of the switch (lines 780-793). -/
def event_end_of_score {W : Type} (aw : W → Int → Int → W) (mp : musplayer_t W) :
    Except Fault (EventResult W) :=
  if mp.loop_score ≠ 0 then .ok (.done { mp with score := mp.loop_score } 1)
  else .ok (.done { key_off_all_loop aw mus_num_voices 0 mp with score := 0 } 0)

/-- One round of the inner loop of `musplay_update` (lines 692-797): read the command
byte and execute the event. `mem` is the memory that holds the score. -/
def mus_step {W : Type} (aw : W → Int → Int → W) (mem : Int → Nat) (mp : musplayer_t W) :
    Except Fault (EventResult W) :=
  let cmd := read8 mem mp.score
  let mp := { mp with score := mp.score + 1 }
  let event := (cmd >>> 4) &&& 7
  if event = 0 then event_release aw mem mp cmd
  else if event = 1 then event_note aw mem mp cmd
  else if event = 2 then event_pitch_wheel aw mem mp cmd
  else if event = 3 then event_system aw mem mp cmd
  else if event = 4 then event_controller aw mem mp cmd
  else if event = 5 then .ok (.next mp cmd)
  else if event = 6 then event_end_of_score aw mp
  else .ok (.next { mp with score := mp.score + 1 } cmd)

/-- The loop `do { ... } while (!(cmd & 0x80));` that executes one group of events,
with `n` rounds allowed. -/
def mus_events {W : Type} (aw : W → Int → Int → W) (mem : Int → Nat) :
    Nat → musplayer_t W → Except Fault (EventResult W)
  | 0, _ => .error .fuel
  | n + 1, mp =>
    match mus_step aw mem mp with
    | .error e => .error e
    | .ok (.done mp ret) => .ok (.done mp ret)
    | .ok (.next mp cmd) =>
      if cmd &&& 0x80 = 0 then mus_events aw mem n mp else .ok (.next mp cmd)

/-- The loop `do { cmd = *mp->score++; mp->delay <<= 7; mp->delay += cmd & 0x7F; }
while (cmd & 0x80);` (lines 800-804), with `n` rounds allowed. -/
def parse_delay {W : Type} (mem : Int → Nat) : Nat → musplayer_t W → Except Fault (musplayer_t W)
  | 0, _ => .error .fuel
  | n + 1, mp =>
    let cmd := read8 mem mp.score
    let mp := { mp with score := mp.score + 1 }
    let mp := { mp with delay := int_shl mp.delay 7 }
    let mp := { mp with delay := wrapInt32 (mp.delay + ((cmd &&& 0x7F : Nat) : Int)) }
    if cmd &&& 0x80 ≠ 0 then parse_delay mem n mp else .ok mp

/-- The outer loop `do { ... } while (ticks > 0);` of `musplay_update`, with `n` rounds
allowed, each inner loop being allowed `fuel` rounds. -/
def musplay_update_loop {W : Type} (aw : W → Int → Int → W) (mem : Int → Nat) (fuel : Nat) :
    Nat → musplayer_t W → Int → Except Fault (musplayer_t W × Int)
  | 0, _, _ => .error .fuel
  | n + 1, mp, ticks =>
    if mp.delay > 0 ∧ mp.delay > ticks then
      .ok ({ mp with
        delay := wrapInt32 (mp.delay - ticks), mus_time := wrapInt32 (mp.mus_time + ticks) }, 1)
    else
      let ticks := if mp.delay > 0 then wrapInt32 (ticks - mp.delay) else ticks
      let mp :=
        if mp.delay > 0 then
          { mp with mus_time := wrapInt32 (mp.mus_time + mp.delay), delay := 0 }
        else mp
      match mus_events aw mem fuel mp with
      | .error e => .error e
      | .ok (.done mp ret) => .ok (mp, ret)
      | .ok (.next mp _) =>
        match parse_delay mem fuel mp with
        | .error e => .error e
        | .ok mp =>
          if ticks > 0 then musplay_update_loop aw mem fuel n mp ticks else .ok (mp, 1)

/-- Function `musplay_update(mp, ticks)`: the player afterwards and the value returned.
Every loop of the call is allowed `fuel` rounds. -/
def musplay_update {W : Type} (aw : W → Int → Int → W) (mem : Int → Nat) (fuel : Nat)
    (mp : musplayer_t W) (ticks : Int) : Except Fault (musplayer_t W × Int) :=
  if mp.score = 0 then .ok (mp, 0) else musplay_update_loop aw mem fuel fuel mp ticks

/-! ## musplay_op2bank, musplay_volume, musplay_start, musplay_stop -/

/-- Function `musplay_op2bank(mp, data)`; `bank` is the content of `data` read as 175
entries of `MUS_instrument`. -/
def musplay_op2bank {W : Type} (mp : musplayer_t W) (bank : Nat → MUS_instrument) :
    musplayer_t W :=
  { mp with op2bank := fun k => if k < 175 then bank k else mp.op2bank k }

/-- Function `musplay_volume(mp, volume)`; the index is within the table after the
two limits. -/
def musplay_volume {W : Type} (mp : musplayer_t W) (volume : Int) : musplayer_t W :=
  let volume := if volume > 127 then 127 else if volume < 0 then 0 else volume
  { mp with main_att := att_log_square.getD volume.toNat 0 }

/-- The field `scoreStart` of the `MUS_header` at `data` (an `int16_t` at offset 6,
low byte first). -/
def MUS_header_scoreStart (mem : Int → Nat) (data : Int) : Int :=
  toInt16 ((read8 mem (data + 6) + 256 * read8 mem (data + 7) : Nat) : Int)

/-- An all-zero `mus_channel_t`. -/
def mus_channel_t.zero : mus_channel_t :=
  { mono := 0, last_vol := 0, vol_att := 0, exp_att := 0, bend := 0, pan_bits := 0,
    ins_idx := 0, ins := 0 }

/-- An all-zero `mus_hw_voice_t`. -/
def mus_hw_voice_t.zero : mus_hw_voice_t :=
  { seq := 0, release := 0, noteid := 0, note_att := 0, hw_cmd := 0, p_note := 0, mus_ch := 0,
    ins_sel := 0, ksl1 := 0, ksl2 := 0, lvl1 := 0, lvl2 := 0, feedback := 0, fineTune := 0 }

/-- The loop over the MUS channels in `musplay_start`, with `n` iterations left. -/
def start_channels_loop : Nat → Nat → (Nat → mus_channel_t) → (Nat → mus_channel_t)
  | 0, _, c => c
  | n + 1, m, c =>
    start_channels_loop n (m + 1)
      (Function.update c m { c m with last_vol := 0, ins := 0, pan_bits := opl3_pan_centre })

/-- The loop over the hardware voices in `musplay_start`, with `n` iterations left. -/
def start_voices_loop : Nat → Nat → (Nat → mus_hw_voice_t) → (Nat → mus_hw_voice_t)
  | 0, _, v => v
  | n + 1, h, v =>
    start_voices_loop n (h + 1)
      (Function.update v h { v h with noteid := -1, mus_ch := toUInt8 (-1), ins_sel := -1 })

/-- The loop `for (int reg = 0x01; reg <= 0xf5; reg++) adlib_write(mp, reg, 0);` with
`n` iterations left. -/
def clear_regs_loop {W : Type} (aw : W → Int → Int → W) :
    Nat → Int → musplayer_t W → musplayer_t W
  | 0, _, mp => mp
  | n + 1, reg, mp => clear_regs_loop aw n (reg + 1) (adlib_write aw mp reg 0)

/-- Function `musplay_start(mp, data, loop)`; `mem` is the memory that holds the lump. -/
def musplay_start {W : Type} (aw : W → Int → Int → W) (mem : Int → Nat) (mp : musplayer_t W)
    (data loop : Int) : musplayer_t W :=
  let mp := { mp with score := data + MUS_header_scoreStart mem data }
  let mp := { mp with loop_score := if loop ≠ 0 then mp.score else 0 }
  let mp := { mp with delay := 0 }
  let mp := { mp with
    channels := fun m => if m < mus_num_channels then mus_channel_t.zero else mp.channels m }
  let mp := { mp with channels := start_channels_loop mus_num_channels 0 mp.channels }
  let mp := { mp with
    hw_voices := fun h => if h < mus_num_voices then mus_hw_voice_t.zero else mp.hw_voices h }
  let mp := { mp with hw_voices := start_voices_loop mus_num_voices 0 mp.hw_voices }
  let mp := clear_regs_loop aw 0xf5 0x01 mp
  let mp := adlib_write aw mp 0x01 0x20
  adlib_write aw mp 0x105 0x01

/-- Function `musplay_stop(mp)`. -/
def musplay_stop {W : Type} (aw : W → Int → Int → W) (mp : musplayer_t W) : musplayer_t W :=
  let mp := adlib_write aw mp 0xbd 0
  let mp := key_off_all_loop aw mus_num_voices 0 mp
  { mp with score := 0 }

/-! ## Reachable player states -/

/-- The player states that arise once a song has been started: `musplay_start` from
any state, then any calls of `musplay_update` that return, of `musplay_volume`, of
`musplay_op2bank` and of `musplay_stop`. -/
inductive Started {W : Type} (aw : W → Int → Int → W) (mem : Int → Nat) :
    musplayer_t W → Prop
  | start (mp : musplayer_t W) (data loop : Int) : Started aw mem (musplay_start aw mem mp data loop)
  | update (mp mp' : musplayer_t W) (fuel : Nat) (ticks ret : Int) :
      Started aw mem mp → musplay_update aw mem fuel mp ticks = .ok (mp', ret) →
      Started aw mem mp'
  | volume (mp : musplayer_t W) (volume : Int) :
      Started aw mem mp → Started aw mem (musplay_volume mp volume)
  | op2bank (mp : musplayer_t W) (bank : Nat → MUS_instrument) :
      Started aw mem mp → Started aw mem (musplay_op2bank mp bank)
  | stop (mp : musplayer_t W) : Started aw mem mp → Started aw mem (musplay_stop aw mp)

/-! ## Music driver (thirdparty/LittleMUS/musdriver.c) -/

/-- Value `OPL_CLOCKRATE`. -/
def OPL_CLOCKRATE : Nat := 49716

/-- Value `SAMPLES_PER_TICK`. -/
def SAMPLES_PER_TICK : Nat := 355

/-- Value `OPL_EXTRA_SAMPLES`. -/
def OPL_EXTRA_SAMPLES : Nat := 1

/-- Value `OPL_CHANNELS`. -/
def OPL_CHANNELS : Nat := 2

/-- What the driver calls on its fields `player` and `opl3`, which are kept together
in one value of type `P` because `adlib_write` makes the player write to the chip:
the three player functions (`musplay_update` gives the player afterwards and the value
returned) and the two functions of the OPL3 emulator (opl3.h; `OPL3_Generate` gives
the chip afterwards and the two samples it stores). -/
structure ChipOps (P : Type) where
  musplay_start : P → Int → Int → P
  musplay_stop : P → P
  musplay_update : P → Int → P × Int
  OPL3_Reset : P → Nat → P
  OPL3_Generate : P → P × Int × Int

/-- The struct `mus_driver_t`: `player` stands for the fields `player` and `opl3`,
`opl_buf` for the content of the buffer `opl_buf` points to, and `res` for the two
resampling filters, whose `float` state has a type `R` left open. The array `writes`
is not used by the code. -/
structure mus_driver_t (P R : Type) where
  player : P
  opl_buf : Nat → Int
  buf_ofs : Nat
  opl_max_frames : Nat
  out_sample_rate : Nat
  until_tick : Nat
  playing : Int
  wr_pos : Nat
  res : R

/-- The loop `for (i = 0; i < num_frames; i++)` of `musdriver_gen_opl` with `n`
iterations left: the chip, the buffer and `ofs` afterwards. -/
def gen_opl_loop {P : Type} (ops : ChipOps P) : Nat → Nat → P → (Nat → Int) → P × (Nat → Int) × Nat
  | 0, ofs, p, buf => (p, buf, ofs)
  | n + 1, ofs, p, buf =>
    let r := ops.OPL3_Generate p
    gen_opl_loop ops n ((ofs + OPL_CHANNELS) % 18446744073709551616) r.1
      (Function.update (Function.update buf ofs r.2.1) (ofs + 1) r.2.2)

/-- Function `musdriver_gen_opl(mp, num_frames)`: the driver afterwards and the value
returned. `num_frames * OPL_CHANNELS` is a 32-bit product, the sums are `size_t`. -/
def musdriver_gen_opl {P R : Type} (ops : ChipOps P) (d : mus_driver_t P R) (num_frames : Nat) :
    mus_driver_t P R × Int :=
  if (d.buf_ofs + num_frames * OPL_CHANNELS % 4294967296) % 18446744073709551616
      > d.opl_max_frames * OPL_CHANNELS % 18446744073709551616 then (d, 0)
  else
    let r := gen_opl_loop ops num_frames d.buf_ofs d.player d.opl_buf
    ({ d with player := r.1, opl_buf := r.2.1, buf_ofs := r.2.2 }, 1)

/-- The loop `while (opl_frames_needed >= mp->until_tick)` of `musdriver_advance` with
`n` rounds allowed: the driver afterwards and `opl_frames_needed` at the exit of the
loop, or `none` when the function returned 0 inside the loop. -/
def musdriver_advance_loop {P R : Type} (ops : ChipOps P) :
    Nat → mus_driver_t P R → Nat → mus_driver_t P R × Option Nat
  | 0, d, _ => (d, none)
  | n + 1, d, opl_frames_needed =>
    if opl_frames_needed ≥ d.until_tick then
      let r := if d.until_tick ≠ 0 then musdriver_gen_opl ops d d.until_tick else (d, 1)
      if r.2 = 0 then (r.1, none)
      else
        let opl_frames_needed :=
          if d.until_tick ≠ 0 then opl_frames_needed - d.until_tick else opl_frames_needed
        let d := r.1
        let d := { d with until_tick := SAMPLES_PER_TICK }
        let d :=
          if d.playing ≠ 0 then
            { d with
              player := (ops.musplay_update d.player 1).1
              playing := (ops.musplay_update d.player 1).2 }
          else d
        musdriver_advance_loop ops n d opl_frames_needed
    else (d, some opl_frames_needed)

/-- Function `musdriver_advance(mp, opl_frames_needed)`: the driver afterwards and the
value returned. The loop makes at most `opl_frames_needed + 2` rounds: the first one
may use up no frame (when `until_tick` is 0), the last one finds the exit, and every
round between them uses up at least one frame. -/
def musdriver_advance {P R : Type} (ops : ChipOps P) (d : mus_driver_t P R)
    (opl_frames_needed : Nat) : mus_driver_t P R × Int :=
  match musdriver_advance_loop ops (opl_frames_needed + 2) d opl_frames_needed with
  | (d, none) => (d, 0)
  | (d, some opl_frames_needed) =>
    if opl_frames_needed ≠ 0 then
      let d := { d with until_tick := d.until_tick - opl_frames_needed }
      let r := musdriver_gen_opl ops d opl_frames_needed
      if r.2 = 0 then (r.1, 0) else (r.1, 1)
    else (d, 1)

/-- The frame count `((out_max_frames * OPL_CLOCKRATE + (out_sample_rate-1)) /
out_sample_rate) + OPL_EXTRA_SAMPLES` of `musdriver_opl_buf_size` and `musdriver_init`,
in `uint32_t` arithmetic. -/
def opl_frames_for (out_sample_rate out_max_frames : Nat) : Nat :=
  (((out_max_frames * OPL_CLOCKRATE % 4294967296
        + (out_sample_rate + 4294967295) % 4294967296) % 4294967296) / out_sample_rate
      + OPL_EXTRA_SAMPLES) % 4294967296

/-- Function `musdriver_opl_buf_size(out_sample_rate, out_max_frames)`. -/
def musdriver_opl_buf_size (out_sample_rate out_max_frames : Nat) : Nat :=
  (opl_frames_for out_sample_rate out_max_frames * 2 * OPL_CHANNELS
    % 18446744073709551616) % 4294967296

/-- Function `musdriver_init(mp, opl_buf, out_sample_rate, out_max_frames,
out_cutoff_hz)`; `opl_buf` is the content of the buffer handed over and `res` the
state that `musdriver_downsample_init` gives the two filters. -/
def musdriver_init {P R : Type} (d : mus_driver_t P R) (opl_buf : Nat → Int)
    (out_sample_rate out_max_frames : Nat) (res : R) : mus_driver_t P R :=
  { d with
    opl_buf := opl_buf
    buf_ofs := 0
    opl_max_frames := opl_frames_for out_sample_rate out_max_frames
    out_sample_rate := out_sample_rate
    until_tick := 0
    playing := 0
    res := res }

/-- Function `musdriver_start(mp, song, loop)`. -/
def musdriver_start {P R : Type} (ops : ChipOps P) (d : mus_driver_t P R) (song loop : Int) :
    mus_driver_t P R :=
  let d := { d with player := ops.OPL3_Reset d.player OPL_CLOCKRATE }
  let d := { d with player := ops.musplay_start d.player song loop }
  { d with playing := 1, until_tick := 0, wr_pos := 0 }

/-- Function `musdriver_stop(mp)`. -/
def musdriver_stop {P R : Type} (ops : ChipOps P) (d : mus_driver_t P R) : mus_driver_t P R :=
  if d.playing ≠ 0 then { d with player := ops.musplay_stop d.player, playing := 0 } else d

/-- Function `musdriver_generate(mp, to_buf, frames_needed, volume)`: the value
returned, the driver afterwards and the content of `to_buf` afterwards. `filter`
stands for `musdriver_filter`, whose arithmetic is in `float`; it is the only code
that stores to `to_buf`. -/
def musdriver_generate {P R : Type} (ops : ChipOps P)
    (filter : mus_driver_t P R → (Nat → Int) → Nat → ℚ → mus_driver_t P R × (Nat → Int))
    (d : mus_driver_t P R) (to_buf : Nat → Int) (frames_needed : Nat) (volume : ℚ) :
    Int × mus_driver_t P R × (Nat → Int) :=
  let opl_frames_needed := (frames_needed * OPL_CLOCKRATE % 4294967296) / d.out_sample_rate
  if opl_frames_needed > d.opl_max_frames then (0, d, to_buf)
  else
    let d := { d with buf_ofs := 0 }
    let r := musdriver_advance ops d opl_frames_needed
    if r.2 = 0 then (0, r.1, to_buf)
    else if r.1.buf_ofs ≠ opl_frames_needed * OPL_CHANNELS % 4294967296 then (0, r.1, to_buf)
    else
      let f := filter r.1 to_buf frames_needed volume
      (1, f.1, f.2)

/-- The state of one "oldest so far" pair of locals of `choose_hw_voice` after the
voices below `i` have been scanned, for the voices that satisfy `p`: no voice chosen
yet (none below the start value `0x7FFFFFFF`), or the chosen voice is the first of
those with the smallest sequence number. -/
def FirstOldest (p : Nat → Prop) (seq : Nat → Int) (i : Nat) (best best_seq : Int) : Prop :=
  (best = -1 ∧ best_seq = 0x7FFFFFFF ∧ ∀ j, j < i → p j → 0x7FFFFFFF ≤ seq j) ∨
  (0 ≤ best ∧ best.toNat < i ∧ p best.toNat ∧ seq best.toNat = best_seq ∧
    best_seq < 0x7FFFFFFF ∧ (∀ j, j < i → p j → best_seq ≤ seq j) ∧
    ∀ j, j < best.toNat → p j → best_seq < seq j)

/-- The state of the locals `oldest`, `oldest_seq` of `choose_hw_voice` after the
voices below `i` have been scanned: still at their start values (no voice below
`0x7FFFFFFF`), or `oldest` is the first of the voices with the smallest sequence
number. -/
def OldestOverall (seq : Nat → Int) (i : Nat) (oldest : Nat) (oldest_seq : Int) : Prop :=
  (oldest = 0 ∧ oldest_seq = 0x7FFFFFFF ∧ ∀ j, j < i → 0x7FFFFFFF ≤ seq j) ∨
  (oldest < i ∧ seq oldest = oldest_seq ∧ oldest_seq < 0x7FFFFFFF ∧
    (∀ j, j < i → oldest_seq ≤ seq j) ∧ ∀ j, j < oldest → oldest_seq < seq j)

/-! ## Predicates used in the statements about the player -/

/-- The player `mp'` differs from `mp` at most in the hardware voices, the key-on
counter and the device. -/
def VoicesOnly {W : Type} (mp mp' : musplayer_t W) : Prop :=
  mp'.loop_score = mp.loop_score ∧ mp'.score = mp.score ∧ mp'.delay = mp.delay ∧
  mp'.mus_time = mp.mus_time ∧ mp'.next_free = mp.next_free ∧ mp'.main_att = mp.main_att ∧
  mp'.channels = mp.channels ∧ mp'.op2bank = mp.op2bank

/-- The delay after the loop of lines 800-804 has taken the bytes `bs` in turn,
starting from the delay `d`. -/
def delay_after (d : Int) : List Nat → Int
  | [] => d
  | b :: bs => delay_after (wrapInt32 (int_shl d 7 + ((b &&& 0x7F : Nat) : Int))) bs

/-- Each hardware voice of `mp'` has the note id it has in `mp`, or a note id that is
not below -1. -/
def NotesFrame {W : Type} (mp mp' : musplayer_t W) : Prop :=
  ∀ h, (mp'.hw_voices h).noteid = (mp.hw_voices h).noteid ∨ -1 ≤ (mp'.hw_voices h).noteid

/-- The player `mp'` has the loop pointer, the main attenuation and the bank of `mp`,
each of its channels has the instrument of `mp` or an instrument index below 175 with
the pointer `ins` at that bank entry, and its voices are in `NotesFrame` with `mp`. -/
def SongFrame {W : Type} (mp mp' : musplayer_t W) : Prop :=
  mp'.loop_score = mp.loop_score ∧ mp'.main_att = mp.main_att ∧ mp'.op2bank = mp.op2bank ∧
  (∀ c, ((mp'.channels c).ins_idx = (mp.channels c).ins_idx
      ∧ (mp'.channels c).ins = (mp.channels c).ins) ∨
    ((mp'.channels c).ins_idx < 175 ∧ (mp'.channels c).ins = (mp'.channels c).ins_idx)) ∧
  NotesFrame mp mp'

/-- The player that a pass through the switch leaves. -/
def EventResult.player {W : Type} : EventResult W → musplayer_t W
  | .next mp _ => mp
  | .done mp _ => mp

/-- Every MUS channel selects an instrument of the bank, with the pointer `ins` at the
entry `ins_idx`, and every hardware voice holds a note id or -1. -/
def InRange {W : Type} (mp : musplayer_t W) : Prop :=
  (∀ c, c < mus_num_channels →
    (mp.channels c).ins_idx < 175 ∧ (mp.channels c).ins = (mp.channels c).ins_idx) ∧
  ∀ h, h < mus_num_voices → -1 ≤ (mp.hw_voices h).noteid

/-- A hardware voice in order: if it holds a note, its owner is one of the 16 MUS
channels and an instrument is loaded; and its owner is one of the 16 MUS channels or
the voice is as `musplay_start` clears it (owner 255, no note, no instrument). -/
def VoiceOwned (hw : mus_hw_voice_t) : Prop :=
  (0 ≤ hw.noteid → hw.mus_ch < 16 ∧ 0 ≤ hw.ins_sel) ∧
  (hw.mus_ch < 16 ∨ (hw.mus_ch = 255 ∧ hw.noteid = -1 ∧ hw.ins_sel = -1))

/-- Every hardware voice that is in order in `mp` is in order in `mp'`. -/
def OwnerFrame {W : Type} (mp mp' : musplayer_t W) : Prop :=
  ∀ h, VoiceOwned (mp.hw_voices h) → VoiceOwned (mp'.hw_voices h)

/-- The player `mp'` has the delay and the time of `mp`, and every voice that is in
order in `mp` is in order in `mp'`. -/
def EventFrame {W : Type} (mp mp' : musplayer_t W) : Prop :=
  mp'.delay = mp.delay ∧ mp'.mus_time = mp.mus_time ∧ OwnerFrame mp mp'

/-! ## The driver frame by frame, after the words of the specification -/

/-- Specification of one native frame: the chip generates one stereo frame, which is
appended to the native buffer. -/
def spec_gen_frame {P R : Type} (ops : ChipOps P) (d : mus_driver_t P R) : mus_driver_t P R :=
  { d with
    player := (ops.OPL3_Generate d.player).1
    opl_buf := Function.update (Function.update d.opl_buf d.buf_ofs (ops.OPL3_Generate d.player).2.1)
      (d.buf_ofs + 1) (ops.OPL3_Generate d.player).2.2
    buf_ofs := d.buf_ofs + OPL_CHANNELS }

/-- Specification of `n` native frames in a row, with no score tick between them. -/
def spec_gen_frames {P R : Type} (ops : ChipOps P) : Nat → mus_driver_t P R → mus_driver_t P R
  | 0, d => d
  | n + 1, d => spec_gen_frames ops n (spec_gen_frame ops d)

/-- Specification of one score tick: the next tick is 355 frames away, and a song
that is playing is advanced by one tick. -/
def spec_score_tick {P R : Type} (ops : ChipOps P) (d : mus_driver_t P R) : mus_driver_t P R :=
  if d.playing ≠ 0 then
    { d with
      until_tick := SAMPLES_PER_TICK
      player := (ops.musplay_update d.player 1).1
      playing := (ops.musplay_update d.player 1).2 }
  else { d with until_tick := SAMPLES_PER_TICK }

/-- Specification of `n` native frames, one by one: each frame brings the next tick
one frame nearer, and the score tick is performed right after the frame that brings
it to 0, before the next frame. -/
def spec_advance_frames {P R : Type} (ops : ChipOps P) :
    Nat → mus_driver_t P R → mus_driver_t P R
  | 0, d => d
  | n + 1, d =>
    spec_advance_frames ops n
      (if d.until_tick - 1 = 0 then
        spec_score_tick ops (spec_gen_frame ops { d with until_tick := d.until_tick - 1 })
      else spec_gen_frame ops { d with until_tick := d.until_tick - 1 })

/-- Specification of `musdriver_advance(n)`: a tick that is due (`until_tick = 0`, as
`musdriver_start` leaves it) is performed before the first frame, then `n` frames
follow one by one. -/
def spec_advance {P R : Type} (ops : ChipOps P) (d : mus_driver_t P R) (n : Nat) :
    mus_driver_t P R :=
  spec_advance_frames ops n (if d.until_tick = 0 then spec_score_tick ops d else d)

/-- A driver whose player-and-chip value is a counter, a pair of the number of frames
generated and the list of the frame counts at which a score tick was performed (the
latest first), at `N` frames: the ticks were performed at the frame counts 0, 355,
710, ... up to `N`, one tick at each, the next tick is due at the next multiple of
355, and the song is playing. -/
def ClockAt {R : Type} (d : mus_driver_t (Nat × List Nat) R) (N : Nat) : Prop :=
  d.player.1 = N ∧
  d.player.2 = ((List.range (N / 355 + 1)).reverse.map (fun i => 355 * i)) ∧
  d.until_tick = 355 - N % 355 ∧ d.playing = 1

/-! ## Concrete inputs for the player and the driver -/

/-- A memory that holds the bytes `bytes` from address `base` on and 0 elsewhere. -/
def lump_at (base : Int) (bytes : List Nat) : Int → Nat :=
  fun p => if base ≤ p then bytes.getD (p - base).toNat 0 else 0

/-- An implementation of `adlib_write` that keeps the writes, the latest first. -/
def log_write (w : List (Int × Int)) (reg val : Int) : List (Int × Int) := (reg, val) :: w

/-- An instrument with the given flags, the note number 60 and two equal voices of
level 10 in additive mode. -/
def plain_instrument (flags : Int) : MUS_instrument where
  flags := flags
  fineTune := 128
  noteNum := 60
  voice := fun _ =>
    { modChar := 1, modAttack := 2, modSustain := 3, modWaveSel := 0, modScale := 0,
      modLevel := 10, feedback := 1, carChar := 1, carAttack := 2, carSustain := 3,
      carWaveSel := 0, carScale := 0, carLevel := 10, reserved := 0, noteOfs := 0 }

/-- A player as zero-initialised static storage holds it, with a bank of plain
single-voice instruments and an empty write log. -/
def idle_player : musplayer_t (List (Int × Int)) where
  loop_score := 0
  score := 0
  delay := 0
  mus_time := 0
  next_free := 0
  next_keyon_seq := 0
  main_att := 0
  channels := fun _ => mus_channel_t.zero
  hw_voices := fun _ => mus_hw_voice_t.zero
  op2bank := fun _ => plain_instrument 0
  dev := []

/-- A MUS lump at address 4096: the 16 header bytes with `scoreStart = 16`, then the
score: instrument 5 on channel 0, note 60 at volume 100 on channel 0, release of note
60 (last event of its group), the delay 2, and the end of the score. -/
def song_mem : Int → Nat :=
  lump_at 4096
    [0x4D, 0x55, 0x53, 0x1A, 10, 0, 16, 0, 1, 0, 0, 0, 1, 0, 0, 0,
     0x40, 0x00, 0x05, 0x10, 0xBC, 0x64, 0x80, 0x3C, 0x02, 0x60]

/-- A player with all 18 voices keyed on for channel 0: voice `h` plays note `40 + h`
with instrument 5 loaded, keyed on with sequence number `100 + h`, except voice 7,
the oldest, with sequence number 3. -/
def busy_player : musplayer_t (List (Int × Int)) :=
  { idle_player with
    score := 4112
    next_keyon_seq := 200
    hw_voices := fun h =>
      { mus_hw_voice_t.zero with
        seq := if h = 7 then 3 else 100 + h
        noteid := 40 + h
        hw_cmd := 0x2A57
        p_note := 40 + h
        mus_ch := 0
        ins_sel := 5
        lvl1 := 10
        lvl2 := 10 } }

/-- The player `busy_player` with the voices 2, 4 and 6 keyed off: voice 2 with
sequence number 50 and instrument 5 loaded, voice 4 with sequence number 20 and
instrument 9, voice 6 with sequence number 30 and instrument 5. -/
def mixed_player : musplayer_t (List (Int × Int)) :=
  { busy_player with
    hw_voices := fun h =>
      if h = 2 then { busy_player.hw_voices 2 with noteid := -1, seq := 50 }
      else if h = 4 then { busy_player.hw_voices 4 with noteid := -1, seq := 20, ins_sel := 9 }
      else if h = 6 then { busy_player.hw_voices 6 with noteid := -1, seq := 30 }
      else busy_player.hw_voices h }

/-- A memory with the five delay bytes 0x88, 0x80, 0x80, 0x80, 0x00 at address 4112;
their base-128 value is 8 * 128^4 = 2^31. -/
def long_delay_mem : Int → Nat := lump_at 4112 [0x88, 0x80, 0x80, 0x80, 0x00]

/-- A memory with the two delay bytes 0x81, 0x05 at address 4112; their base-128 value
is 133. -/
def short_delay_mem : Int → Nat := lump_at 4112 [0x81, 0x05]

/-- The player `idle_player` with the score pointer at 4112. -/
def parked_player : musplayer_t (List (Int × Int)) := { idle_player with score := 4112 }

/-- A memory with a controller event for channel 0 at address 4112: controller 12
(the code of "mono") with the value 7. -/
def ctrl12_mem : Int → Nat := lump_at 4112 [0x40, 0x0C, 0x07]

/-- The player `busy_player` with the score pointer at the last byte of `song_mem`,
the end-of-score event at address 4121. -/
def ending_player : musplayer_t (List (Int × Int)) := { busy_player with score := 4121 }

/-- The player `busy_player` with a double-voice note 60 on channel 2 (voice 3 with
the note id 60, voice 4 with the note id 60 + 256), the same note 60 on channel 1
(voice 5) and the note 61 on channel 2 (voice 6). -/
def duo_player : musplayer_t (List (Int × Int)) :=
  { busy_player with
    hw_voices := fun h =>
      if h = 3 then { busy_player.hw_voices 3 with noteid := 60, mus_ch := 2 }
      else if h = 4 then { busy_player.hw_voices 4 with noteid := 316, mus_ch := 2 }
      else if h = 5 then { busy_player.hw_voices 5 with noteid := 60, mus_ch := 1 }
      else if h = 6 then { busy_player.hw_voices 6 with noteid := 61, mus_ch := 2 }
      else busy_player.hw_voices h }

/-- A MUS lump at address 4096: the 16 header bytes with `scoreStart = 16`, then a note
event on channel 0: note 60 with the volume byte 200. -/
def loud_mem : Int → Nat :=
  lump_at 4096
    [0x4D, 0x55, 0x53, 0x1A, 4, 0, 16, 0, 1, 0, 0, 0, 1, 0, 0, 0,
     0x90, 0xBC, 0xC8, 0x60]

/-- A MUS lump at address 4096: the 16 header bytes with `scoreStart = 16`, then the
controller event "pan = 0" on channel 0 and the system event 14 ("reset all
controllers") on channel 0, the last event of its group. -/
def reset_mem : Int → Nat :=
  lump_at 4096
    [0x4D, 0x55, 0x53, 0x1A, 6, 0, 16, 0, 1, 0, 0, 0, 1, 0, 0, 0,
     0x40, 0x04, 0x00, 0xB0, 0x0E, 0x60]

/-- The player `idle_player` as `musplay_start` leaves it for a lump at 4096 whose
score starts 16 bytes in, the device apart: every channel at its defaults with centre
pan, every voice keyed off with no owner and no instrument. -/
def fresh_player : musplayer_t (List (Int × Int)) :=
  { idle_player with
    score := 4112
    channels := fun _ => { mus_channel_t.zero with pan_bits := opl3_pan_centre }
    hw_voices := fun _ => { mus_hw_voice_t.zero with noteid := -1, mus_ch := 255, ins_sel := -1 } }

/-- A MUS lump at address 4096: the 16 header bytes with `scoreStart = 16`, then three
groups of one system event each ("mono" on the channels 0, 1 and 2), with the delay 1
after the first group, the delay 0 after the second and the delay 5 after the third,
and the end of the score. -/
def zero_delay_mem : Int → Nat :=
  lump_at 4096
    [0x4D, 0x55, 0x53, 0x1A, 10, 0, 16, 0, 1, 0, 0, 0, 1, 0, 0, 0,
     0xB0, 0x0C, 0x01, 0xB1, 0x0C, 0x00, 0xB2, 0x0C, 0x05, 0x60]

/-- A chip and player that count: `OPL3_Generate` counts the frame, `musplay_update`
records the number of frames generated so far and reports that the song goes on;
`OPL3_Reset` and `musplay_start` clear the record. -/
def clock_chip : ChipOps (Nat × List Nat) where
  musplay_start := fun _ _ _ => (0, [])
  musplay_stop := fun p => p
  musplay_update := fun p _ => ((p.1, p.1 :: p.2), 1)
  OPL3_Reset := fun _ _ => (0, [])
  OPL3_Generate := fun p => ((p.1 + 1, p.2), 0, 0)

/-- A driver over `clock_chip` after `musdriver_init` for 44100 Hz and chunks of at
most 1024 frames (`opl_max_frames = 1156`) and after `musdriver_start`. -/
def clock_driver : mus_driver_t (Nat × List Nat) Unit :=
  musdriver_start clock_chip
    (musdriver_init
      { player := (0, []), opl_buf := fun _ => 0, buf_ofs := 0, opl_max_frames := 0,
        out_sample_rate := 0, until_tick := 0, playing := 0, wr_pos := 0, res := () }
      (fun _ => 0) 44100 1024 ()) 8192 1

/-- The player `duo_player` with the instruments of the voices 3 and 4 told apart:
voice 3 is in additive mode (feedback 1) and was keyed on with the note attenuation 20,
voice 4 is in FM mode (feedback 0) with the key-scaling bits 0x40 on operator 2. -/
def level_player : musplayer_t (List (Int × Int)) :=
  { duo_player with
    hw_voices := fun h =>
      if h = 3 then { duo_player.hw_voices 3 with feedback := 1, note_att := 20 }
      else if h = 4 then { duo_player.hw_voices 4 with ksl2 := 0x40 }
      else duo_player.hw_voices h }

/-- The player `duo_player` with the voices of the channels 1 and 2 at the frequency of
the table, as `key_on` stores it for an instrument without note offset: the voices 3, 4
and 5 play note 60 (`note_cmds[60] = 12977`), voice 6 plays note 61
(`note_cmds[61] = 13018`). -/
def tuned_player : musplayer_t (List (Int × Int)) :=
  { duo_player with
    hw_voices := fun h =>
      if h = 3 ∨ h = 4 ∨ h = 5 then { duo_player.hw_voices h with p_note := 60, hw_cmd := 12977 }
      else if h = 6 then { duo_player.hw_voices 6 with p_note := 61, hw_cmd := 13018 }
      else duo_player.hw_voices h }

/-- A memory with a pitch wheel event at address 4112: channel 2, the byte 64. -/
def wheel_mem : Int → Nat := lump_at 4112 [0x22, 0x40]

end LittleMUS

namespace ISound

/-! ## Concrete inputs used to evaluate the definitions -/

/-- An assignment of the six enum values, numbered as in the `sounds.h` of
linuxdoom-1.10 (`sfx_pistol` is the first sound after `sfx_None`). -/
def sounds_h : SfxEnum where
  sfx_sawup := 10
  sfx_sawidl := 11
  sfx_sawful := 12
  sfx_sawhit := 13
  sfx_stnmov := 22
  sfx_pistol := 1

/-- The zero-initialised mixer after the sfx cache has been filled: sound `id` has
256 bytes of sample data at address `4096 + 256 * id`. -/
def cached_mixer : Mixer :=
  { Mixer.zero with
    sfx_data := fun id => 4096 + 256 * id
    sfx_length := fun _ => 256 }

/-- The mixer after a run of `I_StartSound` calls from `m`; `m` itself when the run
stops in `I_Error`. -/
def mixer_after (sfx : SfxEnum) (m : Mixer) (calls : List StartCall) : Mixer :=
  match start_sounds sfx m calls with
  | .ok (m', _) => m'
  | .error _ => m

/-- Eight calls of `I_StartSound`, one per game tic 1..8, at full volume, centre
separation and pitch 128: the sounds 2, 3, 4, 5, 6, then the pistol (sound 1), then
the sounds 8 and 9. -/
def eight_calls : List StartCall :=
  [⟨1, 2, 127, 128, 128, 0⟩, ⟨2, 3, 127, 128, 128, 0⟩, ⟨3, 4, 127, 128, 128, 0⟩,
   ⟨4, 5, 127, 128, 128, 0⟩, ⟨5, 6, 127, 128, 128, 0⟩, ⟨6, 1, 127, 128, 128, 0⟩,
   ⟨7, 8, 127, 128, 128, 0⟩, ⟨8, 9, 127, 128, 128, 0⟩]

/-- The mixer with all eight channels playing, reached from `cached_mixer` by
`eight_calls`: channel `i` started at tic `i + 1`, channel 5 plays the pistol. -/
def busy_mixer : Mixer := mixer_after sounds_h cached_mixer eight_calls

/-- Eight calls of `I_StartSound` with a game clock that steps back: the first sound
starts at tic 10, the seven others at tic 5. -/
def late_calls : List StartCall :=
  [⟨10, 2, 127, 128, 128, 0⟩, ⟨5, 3, 127, 128, 128, 0⟩, ⟨5, 4, 127, 128, 128, 0⟩,
   ⟨5, 5, 127, 128, 128, 0⟩, ⟨5, 6, 127, 128, 128, 0⟩, ⟨5, 7, 127, 128, 128, 0⟩,
   ⟨5, 8, 127, 128, 128, 0⟩, ⟨5, 9, 127, 128, 128, 0⟩]

/-- The mixer reached from `cached_mixer` by `late_calls`. -/
def late_mixer : Mixer := mixer_after sounds_h cached_mixer late_calls

/-- A ninth call at tic 9: sound 3, which is not one of the duplicate-suppressed ids. -/
def ninth_call : StartCall := ⟨9, 3, 127, 128, 128, 0⟩

/-- The zero-initialised mixer after a cache fill in which sound 3 came from a lump
of 8 bytes, a header without samples: its cached length is 0. -/
def empty_sound_mixer : Mixer :=
  { Mixer.zero with
    sfx_data := fun id => 4096 + 256 * id
    sfx_length := fun id => if id = 3 then 0 else 256 }

/-- A music driver whose whole state is its `playing` flag: starting sets it,
stopping clears it, and generating leaves the buffer as it is. -/
def flag_driver : MusDriverOps Int where
  playing := fun d => d
  musdriver_stop := fun _ => 0
  musdriver_start := fun _ _ _ => 1
  musdriver_generate := fun d buf _ _ => (1, d, buf)

/-- The music variables with a song playing at the volume of the static initialiser
(`music_volume = {127}`): the song at address 8192 has been taken up by the mixer, and
the downmix buffer holds the sample 1000 everywhere. -/
def playing_music : Music Int where
  music_downmix := fun _ => 1000
  music_volume := 127
  music_loop := 1
  music_songptr := 8192
  music_finished := 0
  music_paused := 0
  mixer_last_song := 8192
  music_driver := 1
  last_registered_song := 8192
  started_playing := 1

/-- An audio state with chunks of at most 512 frames, no voice playing, and an output
buffer that holds the sample 7 everywhere. -/
def stale_audio : AudioState Unit Int where
  mix_max_frames := 512
  mix := { mixer := cached_mixer, pcm_lpf_left := (), pcm_lpf_right := (), mixbuffer := fun _ => 7 }
  music := playing_music

/-- A music driver that is always playing and whose state records the gain of the
last `musdriver_generate` call. -/
def probe_driver : MusDriverOps ℚ where
  playing := fun _ => 1
  musdriver_stop := fun d => d
  musdriver_start := fun d _ _ => d
  musdriver_generate := fun _ buf _ volume => (1, volume, buf)

/-- The music variables of `playing_music` for the driver `probe_driver`. -/
def probe_music : Music ℚ where
  music_downmix := fun _ => 1000
  music_volume := 127
  music_loop := 1
  music_songptr := 8192
  music_finished := 0
  music_paused := 0
  mixer_last_song := 8192
  music_driver := 0
  last_registered_song := 8192
  started_playing := 1

/-- One cycle of the game starting sound 2 at tic 0 and stopping it at once. -/
def start_stop_cycle (m : Mixer) : Mixer :=
  match I_StartSound sounds_h 0 m 2 127 128 128 0 with
  | .ok (m', handle) => I_StopSound m' handle
  | .error _ => m

/-- The mixer after `n` cycles of `start_stop_cycle`. -/
def start_stop_cycles (n : Nat) (m : Mixer) : Mixer :=
  Nat.iterate start_stop_cycle n m

/-- The call that starts the chainsaw sound `sfx_sawup` (sound 10) at tic 0. -/
def saw_call : StartCall := ⟨0, 10, 127, 128, 128, 0⟩

/-- The mixer after `saw_call` on `cached_mixer`: slot 0 plays the chainsaw with
sequence 0, the counter is at 8. -/
def saw_mixer : Mixer := mixer_after sounds_h cached_mixer [saw_call]

/-- The mixer after 2^29 - 1 further allocations while the chainsaw keeps playing:
each one starts sound 2 in slot 1 and stops it again. -/
def wrapped_mixer : Mixer := start_stop_cycles 536870911 saw_mixer

/-- An OPL3 chip and player without state: every sample generated is 0 and
`musplay_update` reports that the song goes on. -/
def still_chip : LittleMUS.ChipOps Unit where
  musplay_start := fun p _ _ => p
  musplay_stop := fun p => p
  musplay_update := fun p _ => (p, 1)
  OPL3_Reset := fun p _ => p
  OPL3_Generate := fun p => (p, 0, 0)

/-- A `musdriver_filter` that stores silence. -/
def mute_filter (d : LittleMUS.mus_driver_t Unit Unit) (_to_buf : Nat → Int)
    (_frames_needed : Nat) (_volume : ℚ) : LittleMUS.mus_driver_t Unit Unit × (Nat → Int) :=
  (d, fun _ => 0)

/-- The driver as the static initialiser `{0}` leaves it. -/
def zero_driver : LittleMUS.mus_driver_t Unit Unit where
  player := ()
  opl_buf := fun _ => 0
  buf_ofs := 0
  opl_max_frames := 0
  out_sample_rate := 0
  until_tick := 0
  playing := 0
  wr_pos := 0
  res := ()

/-- The driver after `musdriver_init` for 44100 Hz and chunks of at most 86392 frames
and after `musdriver_start`. In `uint32_t`, `86392 * 49716` is `2^32 + 97376` wrapped
to 97376, so `opl_max_frames = (97376 + 44099) / 44100 + 1 = 4`. -/
def wrapped_driver : LittleMUS.mus_driver_t Unit Unit :=
  LittleMUS.musdriver_start still_chip
    (LittleMUS.musdriver_init zero_driver (fun _ => 0) 44100 86392 ()) 8192 1

/-- The mixer `cached_mixer` with the volume table as `I_SetChannels` fills it: the
entry `i * 256 + j` holds `((i * i) >> 7) * (j - 128) * 256 / 127` for `i` in 0..127
and `j` in 0..255. -/
def tabled_mixer : Mixer :=
  { cached_mixer with
    vol_lookup := fun k =>
      if 0 ≤ k ∧ k < 32768 then
        Int.tdiv ((((k / 256) * (k / 256)) >>> (7 : Nat)) * (k % 256 - 128) * 256) 127
      else 0 }

/-- A sample memory in which the byte at address `p` is `p mod 256`: sample `i` of the
sound at address 4608 is the byte `i`. -/
def ramp_mem : Int → Nat := fun p => (p % 256).toNat

/-- The mixer `busy_mixer` with the voice of slot 2 at the last sample of its sound, in
the last of the four rounds of that sample: step 65536, step remainder 3 * 65536, data
pointer one below the end pointer 5376. -/
def ending_mixer : Mixer :=
  { busy_mixer with
    channels := Function.update busy_mixer.channels 2 5375
    channelstep := Function.update busy_mixer.channelstep 2 65536
    channelstepremainder := Function.update busy_mixer.channelstepremainder 2 196608 }

/-! ## Auxiliary lemmas -/

theorem wrapInt32_of_range {x : Int} (h1 : -2147483648 ≤ x) (h2 : x < 2147483648) :
    wrapInt32 x = x := by
  unfold wrapInt32; omega

theorem shiftRight_sixteen (x : Int) : x >>> (16 : Nat) = x / 65536 := by
  rw [Int.shiftRight_eq_div_pow]; norm_num

theorem clamp16_range (d : Int) : -32768 ≤ clamp16 d ∧ clamp16 d ≤ 32767 := by
  unfold clamp16
  split
  · omega
  · split <;> omega

/-- Every sample below the write position of `mix_loop` stays in the 16-bit range. -/
theorem mix_loop_range {F : Type} (biquadlp_step : F → Int → F × Int) (mem : Int → Nat)
    (music_downmix : Nat → Int) (n : Nat) :
    ∀ (o mb : Nat) (s : MixState F),
      (∀ k, k < o → -32768 ≤ s.mixbuffer k ∧ s.mixbuffer k ≤ 32767) →
      ∀ k, k < o + 2 * n →
        -32768 ≤ (mix_loop biquadlp_step mem music_downmix n o (o + 1) mb s).mixbuffer k ∧
        (mix_loop biquadlp_step mem music_downmix n o (o + 1) mb s).mixbuffer k ≤ 32767 := by
  induction n with
  | zero => intro o mb s h k hk; exact h k (by omega)
  | succ n ih =>
    intro o mb s h k hk
    simp only [mix_loop, MIX_CHANNELS]
    have e : o + 1 + 2 = o + 2 + 1 := by omega
    rw [e]
    apply ih (o + 2)
    · intro k' hk'
      dsimp only
      by_cases h1 : k' = o + 1
      · subst h1; rw [Function.update_same]; exact clamp16_range _
      · rw [Function.update_noteq h1]
        by_cases h0 : k' = o
        · subst h0; rw [Function.update_same]; exact clamp16_range _
        · rw [Function.update_noteq h0]; exact h k' (by omega)
    · omega

theorem vol_lookup_inner_other (v : Int) (i : Nat) (n : Nat) :
    ∀ (j0 : Nat) (tbl : Int → Int) (x : Int),
      (x < (i : Int) * 256 + j0 ∨ (i : Int) * 256 + j0 + n ≤ x) →
      vol_lookup_inner v i n j0 tbl x = tbl x := by
  induction n with
  | zero => intro j0 tbl x _; rfl
  | succ n ih =>
    intro j0 tbl x hx
    rw [vol_lookup_inner, ih (j0 + 1) _ x (by push_cast; omega)]
    exact Function.update_noteq (by omega) _ _

theorem vol_lookup_inner_at (v : Int) (i : Nat) (n : Nat) :
    ∀ (j0 : Nat) (tbl : Int → Int) (j : Nat), j0 ≤ j → j < j0 + n →
      vol_lookup_inner v i n j0 tbl ((i : Int) * 256 + j)
        = Int.tdiv (v * ((j : Int) - 128) * 256) 127 := by
  induction n with
  | zero => intro j0 tbl j h1 h2; omega
  | succ n ih =>
    intro j0 tbl j h1 h2
    rw [vol_lookup_inner]
    by_cases hj : j = j0
    · subst hj
      rw [vol_lookup_inner_other v i n (j + 1) _ _ (by push_cast; omega)]
      exact Function.update_same _ _ _
    · exact ih (j0 + 1) _ j (by omega) (by omega)

theorem vol_lookup_outer_other (n : Nat) :
    ∀ (i0 : Nat) (tbl : Int → Int) (x : Int),
      (x < (i0 : Int) * 256 ∨ ((i0 : Int) + n) * 256 ≤ x) →
      vol_lookup_outer n i0 tbl x = tbl x := by
  induction n with
  | zero => intro i0 tbl x _; rfl
  | succ n ih =>
    intro i0 tbl x hx
    rw [vol_lookup_outer]
    rw [ih (i0 + 1) _ x (by push_cast at hx ⊢; omega)]
    exact vol_lookup_inner_other _ i0 256 0 tbl x (by push_cast at hx ⊢; omega)

theorem vol_lookup_outer_at (n : Nat) :
    ∀ (i0 : Nat) (tbl : Int → Int) (i j : Nat), i0 ≤ i → i < i0 + n → j < 256 →
      vol_lookup_outer n i0 tbl ((i : Int) * 256 + j)
        = Int.tdiv ((((i : Int) * (i : Int)) >>> (7 : Nat)) * ((j : Int) - 128) * 256) 127 := by
  induction n with
  | zero => intro i0 tbl i j h1 h2; omega
  | succ n ih =>
    intro i0 tbl i j h1 h2 hj
    rw [vol_lookup_outer]
    by_cases hi : i = i0
    · subst hi
      rw [vol_lookup_outer_other n (i + 1) _ _ (by push_cast; omega)]
      exact vol_lookup_inner_at _ i 256 0 tbl j (by omega) (by omega)
    · exact ih (i0 + 1) _ i j (by omega) (by omega) hj

theorem vol_sq_bound (v a : Int) (hv : 0 ≤ v) (h1 : -256 ≤ a) (h2 : a ≤ 256) :
    0 ≤ v * a * a ∧ v * a * a ≤ 65536 * v := by
  have q1 : 0 ≤ a * a := mul_self_nonneg a
  have q2 : a * a ≤ 65536 := by nlinarith
  have e : v * a * a = v * (a * a) := by ring
  rw [e]
  constructor
  · exact mul_nonneg hv q1
  · nlinarith [mul_le_mul_of_nonneg_left q2 hv]

/-- On volumes 0..127 and separations 0..255 no intermediate value of the split leaves
the `int` range, so the split is the plain formula. -/
theorem stereo_volumes_eq {volume seperation : Int}
    (hv0 : 0 ≤ volume) (hv1 : volume ≤ 127) (hs0 : 0 ≤ seperation) (hs1 : seperation ≤ 255) :
    stereo_volumes volume seperation =
      (volume - volume * (seperation + 1) * (seperation + 1) / 65536,
       volume - volume * (seperation - 256) * (seperation - 256) / 65536) := by
  have a1 : 0 ≤ volume * (seperation + 1) := by positivity
  have a2 : volume * (seperation + 1) ≤ 127 * 256 := by nlinarith
  obtain ⟨a3, a4⟩ := vol_sq_bound volume (seperation + 1) hv0 (by omega) (by omega)
  have b1 : volume * (seperation - 256) ≤ 0 := by nlinarith
  have b2 : -(127 * 256) ≤ volume * (seperation - 256) := by nlinarith
  obtain ⟨b3, b4⟩ := vol_sq_bound volume (seperation - 256) hv0 (by omega) (by omega)
  have e : seperation + 1 - 257 = seperation - 256 := by ring
  unfold stereo_volumes
  simp only [shiftRight_sixteen]
  rw [wrapInt32_of_range (x := seperation + 1) (by omega) (by omega)]
  rw [wrapInt32_of_range (x := seperation + 1 - 257) (by omega) (by omega), e]
  rw [wrapInt32_of_range (x := volume * (seperation + 1)) (by omega) (by omega)]
  rw [wrapInt32_of_range (x := volume * (seperation + 1) * (seperation + 1)) (by omega) (by omega)]
  rw [wrapInt32_of_range (x := volume * (seperation - 256)) (by omega) (by omega)]
  rw [wrapInt32_of_range (x := volume * (seperation - 256) * (seperation - 256))
    (by omega) (by omega)]
  generalize volume * (seperation + 1) * (seperation + 1) = P at a3 a4 ⊢
  generalize volume * (seperation - 256) * (seperation - 256) = Q at b3 b4 ⊢
  rw [wrapInt32_of_range (x := volume - P / 65536) (by omega) (by omega)]
  rw [wrapInt32_of_range (x := volume - Q / 65536) (by omega) (by omega)]

theorem stereo_volumes_range {volume seperation : Int}
    (hv0 : 0 ≤ volume) (hv1 : volume ≤ 127) (hs0 : 0 ≤ seperation) (hs1 : seperation ≤ 255) :
    (0 ≤ (stereo_volumes volume seperation).1 ∧ (stereo_volumes volume seperation).1 ≤ 127) ∧
    (0 ≤ (stereo_volumes volume seperation).2 ∧ (stereo_volumes volume seperation).2 ≤ 127) := by
  obtain ⟨a3, a4⟩ := vol_sq_bound volume (seperation + 1) hv0 (by omega) (by omega)
  obtain ⟨b3, b4⟩ := vol_sq_bound volume (seperation - 256) hv0 (by omega) (by omega)
  rw [stereo_volumes_eq hv0 hv1 hs0 hs1]
  generalize volume * (seperation + 1) * (seperation + 1) = P at a3 a4 ⊢
  generalize volume * (seperation - 256) * (seperation - 256) = Q at b3 b4 ⊢
  dsimp only
  omega

/-- The duplicate-suppression loop writes nothing but `channels`. -/
theorem addsfx_stop_duplicate_fields (sfxid : Int) (m : Mixer) (n : Nat) :
    ∀ i : Nat,
      (addsfx_stop_duplicate sfxid m n i).nexthandle = m.nexthandle ∧
      (addsfx_stop_duplicate sfxid m n i).sfx_data = m.sfx_data ∧
      (addsfx_stop_duplicate sfxid m n i).sfx_length = m.sfx_length ∧
      (addsfx_stop_duplicate sfxid m n i).channelstep = m.channelstep ∧
      (addsfx_stop_duplicate sfxid m n i).channelstepremainder = m.channelstepremainder ∧
      (addsfx_stop_duplicate sfxid m n i).channelsend = m.channelsend ∧
      (addsfx_stop_duplicate sfxid m n i).channelstart = m.channelstart ∧
      (addsfx_stop_duplicate sfxid m n i).channelhandles = m.channelhandles ∧
      (addsfx_stop_duplicate sfxid m n i).channelids = m.channelids ∧
      (addsfx_stop_duplicate sfxid m n i).steptable = m.steptable ∧
      (addsfx_stop_duplicate sfxid m n i).vol_lookup = m.vol_lookup ∧
      (addsfx_stop_duplicate sfxid m n i).channelleftvol_lookup = m.channelleftvol_lookup ∧
      (addsfx_stop_duplicate sfxid m n i).channelrightvol_lookup = m.channelrightvol_lookup := by
  induction n with
  | zero => intro i; simp [addsfx_stop_duplicate]
  | succ n ih =>
    intro i
    rw [addsfx_stop_duplicate]
    split
    · simp
    · exact ih (i + 1)

/-- The mixer and the handle that a returning `addsfx_with_lock` produces, field by
field, in terms of the selected slot. -/
theorem addsfx_with_lock_fields {sfx : SfxEnum} {gametic : Int} {m m' : Mixer}
    {sfxid volume step seperation handle : Int}
    (h : addsfx_with_lock sfx gametic m sfxid volume step seperation = .ok (m', handle)) :
    handle = toInt32 (m.nexthandle ||| (addsfx_select_slot sfx gametic m sfxid).2) ∧
    m'.nexthandle = (m.nexthandle + 8) % 4294967296 ∧
    m'.channels = Function.update (addsfx_select_slot sfx gametic m sfxid).1.channels
      (addsfx_select_slot sfx gametic m sfxid).2 (m.sfx_data sfxid) ∧
    m'.channelsend = Function.update m.channelsend
      (addsfx_select_slot sfx gametic m sfxid).2 (m.sfx_data sfxid + m.sfx_length sfxid) ∧
    m'.channelstep = Function.update m.channelstep
      (addsfx_select_slot sfx gametic m sfxid).2 (toUInt32 step) ∧
    m'.channelstepremainder = Function.update m.channelstepremainder
      (addsfx_select_slot sfx gametic m sfxid).2 0 ∧
    m'.channelstart = Function.update m.channelstart
      (addsfx_select_slot sfx gametic m sfxid).2 gametic ∧
    m'.channelhandles = Function.update m.channelhandles
      (addsfx_select_slot sfx gametic m sfxid).2 m.nexthandle ∧
    m'.channelids = Function.update m.channelids
      (addsfx_select_slot sfx gametic m sfxid).2 sfxid ∧
    m'.channelleftvol_lookup = Function.update m.channelleftvol_lookup
      (addsfx_select_slot sfx gametic m sfxid).2 ((stereo_volumes volume seperation).1 * 256) ∧
    m'.channelrightvol_lookup = Function.update m.channelrightvol_lookup
      (addsfx_select_slot sfx gametic m sfxid).2 ((stereo_volumes volume seperation).2 * 256) ∧
    m'.sfx_data = m.sfx_data ∧ m'.sfx_length = m.sfx_length ∧
    m'.steptable = m.steptable ∧ m'.vol_lookup = m.vol_lookup := by
  have hsel : (addsfx_select_slot sfx gametic m sfxid).1.nexthandle = m.nexthandle ∧
      (addsfx_select_slot sfx gametic m sfxid).1.sfx_data = m.sfx_data ∧
      (addsfx_select_slot sfx gametic m sfxid).1.sfx_length = m.sfx_length ∧
      (addsfx_select_slot sfx gametic m sfxid).1.channelstep = m.channelstep ∧
      (addsfx_select_slot sfx gametic m sfxid).1.channelstepremainder = m.channelstepremainder ∧
      (addsfx_select_slot sfx gametic m sfxid).1.channelsend = m.channelsend ∧
      (addsfx_select_slot sfx gametic m sfxid).1.channelstart = m.channelstart ∧
      (addsfx_select_slot sfx gametic m sfxid).1.channelhandles = m.channelhandles ∧
      (addsfx_select_slot sfx gametic m sfxid).1.channelids = m.channelids ∧
      (addsfx_select_slot sfx gametic m sfxid).1.steptable = m.steptable ∧
      (addsfx_select_slot sfx gametic m sfxid).1.vol_lookup = m.vol_lookup ∧
      (addsfx_select_slot sfx gametic m sfxid).1.channelleftvol_lookup
        = m.channelleftvol_lookup ∧
      (addsfx_select_slot sfx gametic m sfxid).1.channelrightvol_lookup
        = m.channelrightvol_lookup := by
    simp only [addsfx_select_slot]
    split
    · exact addsfx_stop_duplicate_fields sfxid m NUM_CHANNELS 0
    · simp
  obtain ⟨e1, e2, e3, e4, e5, e6, e7, e8, e9, e10, e11, e12, e13⟩ := hsel
  simp only [addsfx_with_lock] at h
  split at h
  · exact absurd h (by simp)
  · split at h
    · exact absurd h (by simp)
    · simp only [Except.ok.injEq, Prod.mk.injEq] at h
      obtain ⟨hm, hh⟩ := h
      subst hm hh
      simp [e1, e2, e3, e4, e5, e6, e7, e8, e9, e10, e11, e12, e13, NUM_CHANNELS_POW2,
        Function.update_same]

/-- With both volumes of the split in 0..127 neither `I_Error` of `addsfx_with_lock`
is reached: the call returns. -/
theorem addsfx_with_lock_returns (sfx : SfxEnum) (gametic : Int) (m : Mixer)
    (sfxid volume step seperation : Int)
    (hl : 0 ≤ (stereo_volumes volume seperation).1 ∧ (stereo_volumes volume seperation).1 ≤ 127)
    (hr : 0 ≤ (stereo_volumes volume seperation).2 ∧ (stereo_volumes volume seperation).2 ≤ 127) :
    ∃ m' h, addsfx_with_lock sfx gametic m sfxid volume step seperation = .ok (m', h) := by
  simp only [addsfx_with_lock]
  rw [if_neg (by omega), if_neg (by omega)]
  exact ⟨_, _, rfl⟩

/-! ### Handles, reachable states and the slot scan -/

theorem toUInt32_toInt32 {x : Nat} (h : x < 4294967296) : toUInt32 (toInt32 x) = x := by
  unfold toUInt32 toInt32 wrapInt32; omega

theorem toInt32_injective {x y : Nat} (hx : x < 4294967296) (hy : y < 4294967296)
    (h : toInt32 x = toInt32 y) : x = y := by
  unfold toInt32 wrapInt32 at h; omega

theorem or_slot_eq_add {n slot : Nat} (hn : n % 8 = 0) (hs : slot < 8) :
    n ||| slot = n + slot := by
  have h := Nat.mul_add_lt_is_or (i := 3) (b := slot) (by simpa using hs) (n / 8)
  have e : 2 ^ 3 * (n / 8) = n := by omega
  rw [e] at h
  exact h.symm

theorem and_seven (x : Nat) : x &&& 7 = x % 8 := by
  have := Nat.and_pow_two_sub_one_eq_mod x 3
  simpa using this

theorem and_seq_mask {x : Nat} (h : x < 4294967296) : x &&& 4294967288 = x - x % 8 := by
  have e1 : (4294967288 : Nat) = (2 ^ 29 - 1) <<< 3 := by decide
  have e2 : x - x % 8 = (x >>> 3) <<< 3 := by
    rw [Nat.shiftLeft_eq, Nat.shiftRight_eq_div_pow]; omega
  rw [e1, e2]
  apply Nat.eq_of_testBit_eq
  intro i
  simp only [Nat.testBit_and, Nat.testBit_shiftLeft, Nat.testBit_shiftRight,
    Nat.testBit_two_pow_sub_one]
  by_cases h3 : 3 ≤ i
  · by_cases h32 : i < 32
    · have : i - 3 < 29 := by omega
      simp [h3, this]
    · have hx : x < 2 ^ i := lt_of_lt_of_le h (by
        calc 4294967296 = 2 ^ 32 := by norm_num
          _ ≤ 2 ^ i := Nat.pow_le_pow_right (by norm_num) (by omega))
      have e3 : 3 + (i - 3) = i := by omega
      simp [h3, e3, Nat.testBit_lt_two_pow hx]
  · simp [h3]

theorem seq_mask_value : toUInt32 (~~~((NUM_CHANNELS_POW2 : Int) - 1)) = 4294967288 := by
  decide

theorem handle_slot_encode {n slot : Nat} (hn : n % 8 = 0) (hlt : n < 4294967296)
    (hs : slot < 8) : handle_slot (toInt32 (n ||| slot)) = slot := by
  rw [or_slot_eq_add hn hs]
  unfold handle_slot
  rw [toUInt32_toInt32 (by omega)]
  simp only [NUM_CHANNELS_POW2]
  rw [show (8 - 1 : Nat) = 7 by rfl, and_seven]
  omega

theorem handle_seq_encode {n slot : Nat} (hn : n % 8 = 0) (hlt : n < 4294967296)
    (hs : slot < 8) : handle_seq (toInt32 (n ||| slot)) = n := by
  rw [or_slot_eq_add hn hs]
  unfold handle_seq
  rw [toUInt32_toInt32 (by omega), seq_mask_value, and_seq_mask (by omega)]
  omega

theorem mix_channel_nexthandle (mem : Int → Nat) (chan : Nat) (a : ChanAcc) :
    (mix_channel mem chan a).mixer.nexthandle = a.mixer.nexthandle := by
  simp only [mix_channel]
  split
  · split <;> rfl
  · rfl

theorem mix_channels_nexthandle (mem : Int → Nat) (n : Nat) :
    ∀ (chan : Nat) (a : ChanAcc),
      (mix_channels mem n chan a).mixer.nexthandle = a.mixer.nexthandle := by
  induction n with
  | zero => intro chan a; rfl
  | succ n ih =>
    intro chan a
    rw [mix_channels, ih, mix_channel_nexthandle]

theorem mix_loop_nexthandle {F : Type} (biquadlp_step : F → Int → F × Int) (mem : Int → Nat)
    (music_downmix : Nat → Int) (n : Nat) :
    ∀ (lo ro mb : Nat) (s : MixState F),
      (mix_loop biquadlp_step mem music_downmix n lo ro mb s).mixer.nexthandle
        = s.mixer.nexthandle := by
  induction n with
  | zero => intro lo ro mb s; rfl
  | succ n ih =>
    intro lo ro mb s
    rw [mix_loop, ih, mix_channels_nexthandle]

/-- The sequence counter of a reachable mixer is a 32-bit multiple of 8. -/
theorem Reachable.nexthandle_inv {sfx : SfxEnum} {m : Mixer} (h : Reachable sfx m) :
    m.nexthandle % 8 = 0 ∧ m.nexthandle < 4294967296 := by
  induction h with
  | boot => decide
  | initSound m data len _ ih => exact ih
  | setChannels m powstep _ ih => exact ih
  | startSound m m' gametic id vol sep pitch priority handle _ hok ih =>
    obtain ⟨-, e, -⟩ := addsfx_with_lock_fields hok
    rw [e]; omega
  | stopSound m handle _ ih =>
    unfold I_StopSound
    dsimp only
    split
    · exact ih
    · exact ih
  | updateSoundParams m m' handle volume seperation pitch _ hok ih =>
    unfold I_UpdateSoundParams at hok
    dsimp only at hok
    split at hok
    · split at hok
      · exact absurd hok (by simp)
      · split at hok
        · exact absurd hok (by simp)
        · simp only [Except.ok.injEq] at hok
          subst hok
          exact ih
    · simp only [Except.ok.injEq] at hok
      subst hok
      exact ih
  | mixSamples F step mem music s s' samples _ hok ih =>
    unfold mix_samples at hok
    split at hok
    · simp only [Option.some.injEq] at hok
      subst hok
      rw [mix_loop_nexthandle]
      exact ih
    · exact absurd hok (by simp)

theorem addsfx_find_oldest_bounds (m : Mixer) (n : Nat) :
    ∀ (i : Nat) (oldest : Int) (oldestnum : Nat),
      (addsfx_find_oldest m n i oldest oldestnum).1 ≤ i + n ∧
      ((addsfx_find_oldest m n i oldest oldestnum).2 = oldestnum ∨
        (addsfx_find_oldest m n i oldest oldestnum).2 < i + n) := by
  induction n with
  | zero => intro i o k; simp [addsfx_find_oldest]
  | succ n ih =>
    intro i o k
    rw [addsfx_find_oldest]
    split
    · split
      · obtain ⟨h1, h2⟩ := ih (i + 1) (m.channelstart i) i
        exact ⟨by omega, by omega⟩
      · obtain ⟨h1, h2⟩ := ih (i + 1) o k
        exact ⟨by omega, by omega⟩
    · exact ⟨by simp, Or.inl rfl⟩

theorem addsfx_select_slot_lt (sfx : SfxEnum) (gametic : Int) (m : Mixer) (sfxid : Int) :
    (addsfx_select_slot sfx gametic m sfxid).2 < 8 := by
  simp only [addsfx_select_slot]
  generalize (if is_single_sfx sfx sfxid then addsfx_stop_duplicate sfxid m NUM_CHANNELS 0
    else m) = m1
  obtain ⟨h1, h2⟩ := addsfx_find_oldest_bounds m1 NUM_CHANNELS 0 gametic 0
  simp only [NUM_CHANNELS] at h1 h2 ⊢
  split <;> omega

/-- The scan stops at the first free channel. -/
theorem addsfx_find_oldest_first_free (m : Mixer) (n : Nat) :
    ∀ (i : Nat) (oldest : Int) (oldestnum : Nat) (j : Nat),
      i ≤ j → j < i + n → m.channels j = 0 → (∀ k, i ≤ k → k < j → m.channels k ≠ 0) →
      (addsfx_find_oldest m n i oldest oldestnum).1 = j := by
  induction n with
  | zero => intro i o k j h1 h2; omega
  | succ n ih =>
    intro i o k j h1 h2 hj hbefore
    rw [addsfx_find_oldest]
    by_cases hij : j = i
    · subst hij
      rw [if_neg (by simp [hj])]
    · have hi : m.channels i ≠ 0 := hbefore i (le_refl i) (by omega)
      rw [if_pos hi]
      split
      · exact ih (i + 1) _ _ j (by omega) (by omega) hj
          (fun k hk1 hk2 => hbefore k (by omega) hk2)
      · exact ih (i + 1) _ _ j (by omega) (by omega) hj
          (fun k hk1 hk2 => hbefore k (by omega) hk2)

/-- With every scanned channel active the scan runs to the end and `oldestnum` is a
channel whose start tic is the least seen, unless none was below the initial `oldest`. -/
theorem addsfx_find_oldest_all_active (m : Mixer) (n : Nat) :
    ∀ (i : Nat) (oldest : Int) (oldestnum : Nat),
      (∀ k, i ≤ k → k < i + n → m.channels k ≠ 0) →
      (addsfx_find_oldest m n i oldest oldestnum).1 = i + n ∧
      ∃ o' : Int, o' ≤ oldest ∧ (∀ k, i ≤ k → k < i + n → o' ≤ m.channelstart k) ∧
        ((o' = oldest ∧ (addsfx_find_oldest m n i oldest oldestnum).2 = oldestnum) ∨
          (i ≤ (addsfx_find_oldest m n i oldest oldestnum).2 ∧
            (addsfx_find_oldest m n i oldest oldestnum).2 < i + n ∧
            m.channelstart (addsfx_find_oldest m n i oldest oldestnum).2 = o')) := by
  induction n with
  | zero =>
    intro i o k _
    exact ⟨rfl, o, le_refl o, fun k h1 h2 => absurd h2 (by omega), Or.inl ⟨rfl, rfl⟩⟩
  | succ n ih =>
    intro i o k hact
    have hi : m.channels i ≠ 0 := hact i (le_refl i) (by omega)
    rw [addsfx_find_oldest, if_pos hi]
    split
    · rename_i hlt
      obtain ⟨e, o', ho', hmin, hcase⟩ := ih (i + 1) (m.channelstart i) i
        (fun k hk1 hk2 => hact k (by omega) (by omega))
      refine ⟨by omega, o', by omega, ?_, ?_⟩
      · intro k hk1 hk2
        by_cases hki : k = i
        · subst hki; exact ho'
        · exact hmin k (by omega) (by omega)
      · rcases hcase with ⟨h1, h2⟩ | ⟨h1, h2, h3⟩
        · exact Or.inr ⟨by omega, by omega, by rw [h2]; exact h1.symm⟩
        · exact Or.inr ⟨by omega, by omega, h3⟩
    · rename_i hge
      obtain ⟨e, o', ho', hmin, hcase⟩ := ih (i + 1) o k
        (fun k hk1 hk2 => hact k (by omega) (by omega))
      refine ⟨by omega, o', ho', ?_, ?_⟩
      · intro k hk1 hk2
        by_cases hki : k = i
        · subst hki; omega
        · exact hmin k (by omega) (by omega)
      · rcases hcase with ⟨h1, h2⟩ | ⟨h1, h2, h3⟩
        · exact Or.inl ⟨h1, h2⟩
        · exact Or.inr ⟨by omega, by omega, h3⟩

/-- Without an active channel that plays `sfxid` the duplicate loop changes nothing. -/
theorem addsfx_stop_duplicate_no_match (sfxid : Int) (m : Mixer) (n : Nat) :
    ∀ i : Nat, (∀ k, i ≤ k → k < i + n → ¬ (m.channels k ≠ 0 ∧ m.channelids k = sfxid)) →
      addsfx_stop_duplicate sfxid m n i = m := by
  induction n with
  | zero => intro i _; rfl
  | succ n ih =>
    intro i h
    rw [addsfx_stop_duplicate, if_neg (h i (le_refl i) (by omega))]
    exact ih (i + 1) (fun k h1 h2 => h k (by omega) (by omega))

/-- A run of `I_StartSound` calls with volumes and separations in range never stops
in `I_Error`. -/
theorem start_sounds_returns (sfx : SfxEnum) (calls : List StartCall) :
    ∀ m : Mixer, (∀ c ∈ calls, 0 ≤ c.vol ∧ c.vol ≤ 127 ∧ 0 ≤ c.sep ∧ c.sep ≤ 254) →
      ∃ m' hs, start_sounds sfx m calls = .ok (m', hs) := by
  induction calls with
  | nil => intro m _; exact ⟨m, [], rfl⟩
  | cons c cs ih =>
    intro m hr
    obtain ⟨hv0, hv1, hs0, hs1⟩ := hr c (List.mem_cons_self c cs)
    obtain ⟨hl, hrr⟩ := stereo_volumes_range hv0 hv1 hs0 (by omega : c.sep ≤ 255)
    obtain ⟨m1, h1, hok⟩ := addsfx_with_lock_returns sfx c.gametic m c.id c.vol
      (m.steptable c.pitch) c.sep hl hrr
    obtain ⟨m2, hs, hok2⟩ := ih m1 (fun c' hc' => hr c' (List.mem_cons_of_mem c hc'))
    refine ⟨m2, h1 :: hs, ?_⟩
    simp only [start_sounds, I_StartSound, hok, hok2]

/-- The handles of a run: the `i`-th call returns the counter advanced `i` times,
combined with a slot index below 8. -/
theorem start_sounds_handles (sfx : SfxEnum) (calls : List StartCall) :
    ∀ (m m' : Mixer) (hs : List Int), m.nexthandle % 8 = 0 → m.nexthandle < 4294967296 →
      start_sounds sfx m calls = .ok (m', hs) →
      hs.length = calls.length ∧
      ∀ i, i < hs.length → ∃ slot, slot < 8 ∧
        hs[i]? = some (toInt32 ((m.nexthandle + 8 * i) % 4294967296 ||| slot)) := by
  induction calls with
  | nil =>
    intro m m' hs _ _ h
    simp only [start_sounds, Except.ok.injEq, Prod.mk.injEq] at h
    obtain ⟨-, rfl⟩ := h
    exact ⟨rfl, fun i hi => absurd hi (by simp)⟩
  | cons c cs ih =>
    intro m m' hs h8 hlt h
    simp only [start_sounds] at h
    split at h
    · exact absurd h (by simp)
    · rename_i m1 h1 hok
      split at h
      · exact absurd h (by simp)
      · rename_i m2 hs2 hok2
        simp only [Except.ok.injEq, Prod.mk.injEq] at h
        obtain ⟨-, rfl⟩ := h
        simp only [I_StartSound] at hok
        obtain ⟨eh, en, -⟩ := addsfx_with_lock_fields hok
        obtain ⟨hlen, hrest⟩ := ih m1 m2 hs2 (by rw [en]; omega) (by rw [en]; omega) hok2
        refine ⟨by simp [hlen], ?_⟩
        intro i hi
        cases i with
        | zero =>
          refine ⟨_, addsfx_select_slot_lt sfx c.gametic m c.id, ?_⟩
          have e0 : (m.nexthandle + 8 * 0) % 4294967296 = m.nexthandle := by omega
          rw [eh, e0]
          exact List.getElem?_cons_zero
        | succ i =>
          obtain ⟨slot, hslot, e⟩ := hrest i (by simpa using hi)
          refine ⟨slot, hslot, ?_⟩
          have e1 : ((m.nexthandle + 8) % 4294967296 + 8 * i) % 4294967296
              = (m.nexthandle + 8 * (i + 1)) % 4294967296 := by omega
          rw [List.getElem?_cons_succ, e, en, e1]

/-- Starting sounds keeps the mixer reachable. -/
theorem start_sounds_reachable (sfx : SfxEnum) (calls : List StartCall) :
    ∀ (m m' : Mixer) (hs : List Int), Reachable sfx m →
      start_sounds sfx m calls = .ok (m', hs) → Reachable sfx m' := by
  induction calls with
  | nil =>
    intro m m' hs hm h
    simp only [start_sounds, Except.ok.injEq, Prod.mk.injEq] at h
    obtain ⟨rfl, -⟩ := h
    exact hm
  | cons c cs ih =>
    intro m m' hs hm h
    simp only [start_sounds] at h
    split at h
    · exact absurd h (by simp)
    · rename_i m1 h1 hok
      split at h
      · exact absurd h (by simp)
      · rename_i m2 hs2 hok2
        simp only [Except.ok.injEq, Prod.mk.injEq] at h
        obtain ⟨rfl, -⟩ := h
        exact ih m1 m2 hs2 (Reachable.startSound m m1 _ _ _ _ _ _ _ hm hok) hok2

/-- Filling the sfx cache is the first step of every run. -/
theorem cached_mixer_reachable : Reachable sounds_h cached_mixer :=
  Reachable.initSound Mixer.zero _ _ Reachable.boot

/-- The busy mixer is reached by `eight_calls`. -/
theorem busy_mixer_reachable : Reachable sounds_h busy_mixer := by
  obtain ⟨m', hs, hok⟩ := start_sounds_returns sounds_h eight_calls cached_mixer (by decide)
  have e : busy_mixer = m' := by
    simp only [busy_mixer, mixer_after, hok]
  rw [e]
  exact start_sounds_reachable sounds_h eight_calls cached_mixer m' hs cached_mixer_reachable hok

/-! ### The channel loop, stopping and updating a voice -/

/-- The channel-loop body writes nothing but `channels` and `channelstepremainder`. -/
theorem mix_channel_fields (mem : Int → Nat) (chan : Nat) (a : ChanAcc) :
    (mix_channel mem chan a).mixer.sfx_data = a.mixer.sfx_data ∧
    (mix_channel mem chan a).mixer.sfx_length = a.mixer.sfx_length ∧
    (mix_channel mem chan a).mixer.channelstep = a.mixer.channelstep ∧
    (mix_channel mem chan a).mixer.channelsend = a.mixer.channelsend ∧
    (mix_channel mem chan a).mixer.channelstart = a.mixer.channelstart ∧
    (mix_channel mem chan a).mixer.channelhandles = a.mixer.channelhandles ∧
    (mix_channel mem chan a).mixer.channelids = a.mixer.channelids ∧
    (mix_channel mem chan a).mixer.steptable = a.mixer.steptable ∧
    (mix_channel mem chan a).mixer.vol_lookup = a.mixer.vol_lookup ∧
    (mix_channel mem chan a).mixer.channelleftvol_lookup = a.mixer.channelleftvol_lookup ∧
    (mix_channel mem chan a).mixer.channelrightvol_lookup = a.mixer.channelrightvol_lookup := by
  simp only [mix_channel]
  split
  · split <;> simp
  · simp

/-- The channel-loop body on its own channel: an active channel moves by
`voice_advance`, an inactive one stays as it is with the sums untouched. -/
theorem mix_channel_self (mem : Int → Nat) (chan : Nat) (a : ChanAcc) :
    (a.mixer.channels chan = 0 → mix_channel mem chan a = a) ∧
    (a.mixer.channels chan ≠ 0 →
      (mix_channel mem chan a).mixer.channels chan
        = (voice_advance (a.mixer.channels chan) (a.mixer.channelsend chan)
            (a.mixer.channelstepremainder chan) (a.mixer.channelstep chan)).1 ∧
      (mix_channel mem chan a).mixer.channelstepremainder chan
        = (voice_advance (a.mixer.channels chan) (a.mixer.channelsend chan)
            (a.mixer.channelstepremainder chan) (a.mixer.channelstep chan)).2) := by
  constructor
  · intro h
    simp only [mix_channel]
    rw [if_neg (by simp [h])]
  · intro h
    simp only [mix_channel, voice_advance]
    rw [if_pos h]
    split
    · rename_i hge
      simp only [Function.update_same, ge_iff_le] at hge
      simp [Function.update_same, hge]
    · rename_i hlt
      simp only [Function.update_same, ge_iff_le] at hlt
      simp [Function.update_same, hlt]

/-- The channel-loop body leaves the other channels alone. -/
theorem mix_channel_other (mem : Int → Nat) (chan : Nat) (a : ChanAcc) (k : Nat)
    (hk : k ≠ chan) :
    (mix_channel mem chan a).mixer.channels k = a.mixer.channels k ∧
    (mix_channel mem chan a).mixer.channelstepremainder k = a.mixer.channelstepremainder k := by
  simp only [mix_channel]
  split
  · split <;> simp [Function.update_noteq hk]
  · simp

/-- The channel loop writes nothing but `channels` and `channelstepremainder`. -/
theorem mix_channels_fields (mem : Int → Nat) (n : Nat) :
    ∀ (chan : Nat) (a : ChanAcc),
      (mix_channels mem n chan a).mixer.sfx_data = a.mixer.sfx_data ∧
      (mix_channels mem n chan a).mixer.sfx_length = a.mixer.sfx_length ∧
      (mix_channels mem n chan a).mixer.channelstep = a.mixer.channelstep ∧
      (mix_channels mem n chan a).mixer.channelsend = a.mixer.channelsend ∧
      (mix_channels mem n chan a).mixer.channelstart = a.mixer.channelstart ∧
      (mix_channels mem n chan a).mixer.channelhandles = a.mixer.channelhandles ∧
      (mix_channels mem n chan a).mixer.channelids = a.mixer.channelids ∧
      (mix_channels mem n chan a).mixer.steptable = a.mixer.steptable ∧
      (mix_channels mem n chan a).mixer.vol_lookup = a.mixer.vol_lookup ∧
      (mix_channels mem n chan a).mixer.channelleftvol_lookup = a.mixer.channelleftvol_lookup ∧
      (mix_channels mem n chan a).mixer.channelrightvol_lookup
        = a.mixer.channelrightvol_lookup := by
  induction n with
  | zero => intro chan a; simp [mix_channels]
  | succ n ih =>
    intro chan a
    rw [mix_channels]
    obtain ⟨h1, h2, h3, h4, h5, h6, h7, h8, h9, h10, h11⟩ := ih (chan + 1) (mix_channel mem chan a)
    obtain ⟨g1, g2, g3, g4, g5, g6, g7, g8, g9, g10, g11⟩ := mix_channel_fields mem chan a
    exact ⟨h1.trans g1, h2.trans g2, h3.trans g3, h4.trans g4, h5.trans g5, h6.trans g6,
      h7.trans g7, h8.trans g8, h9.trans g9, h10.trans g10, h11.trans g11⟩

/-- The channel loop over the channels `chan .. chan+n-1` leaves the others alone. -/
theorem mix_channels_outside (mem : Int → Nat) (n : Nat) :
    ∀ (chan : Nat) (a : ChanAcc) (k : Nat), (k < chan ∨ chan + n ≤ k) →
      (mix_channels mem n chan a).mixer.channels k = a.mixer.channels k ∧
      (mix_channels mem n chan a).mixer.channelstepremainder k
        = a.mixer.channelstepremainder k := by
  induction n with
  | zero => intro chan a k _; simp [mix_channels]
  | succ n ih =>
    intro chan a k hk
    rw [mix_channels]
    obtain ⟨h1, h2⟩ := ih (chan + 1) (mix_channel mem chan a) k (by omega)
    obtain ⟨g1, g2⟩ := mix_channel_other mem chan a k (by omega)
    exact ⟨h1.trans g1, h2.trans g2⟩

/-- The channel loop on a channel it visits: an inactive channel stays inactive, an
active one moves by `voice_advance`. -/
theorem mix_channels_inside (mem : Int → Nat) (n : Nat) :
    ∀ (chan : Nat) (a : ChanAcc) (k : Nat), chan ≤ k → k < chan + n →
      (a.mixer.channels k = 0 →
        (mix_channels mem n chan a).mixer.channels k = 0 ∧
        (mix_channels mem n chan a).mixer.channelstepremainder k
          = a.mixer.channelstepremainder k) ∧
      (a.mixer.channels k ≠ 0 →
        (mix_channels mem n chan a).mixer.channels k
          = (voice_advance (a.mixer.channels k) (a.mixer.channelsend k)
              (a.mixer.channelstepremainder k) (a.mixer.channelstep k)).1 ∧
        (mix_channels mem n chan a).mixer.channelstepremainder k
          = (voice_advance (a.mixer.channels k) (a.mixer.channelsend k)
              (a.mixer.channelstepremainder k) (a.mixer.channelstep k)).2) := by
  induction n with
  | zero => intro chan a k h1 h2; omega
  | succ n ih =>
    intro chan a k h1 h2
    rw [mix_channels]
    by_cases hk : k = chan
    · subst hk
      obtain ⟨o1, o2⟩ := mix_channels_outside mem n (k + 1) (mix_channel mem k a) k (by omega)
      rw [o1, o2]
      obtain ⟨s1, s2⟩ := mix_channel_self mem k a
      constructor
      · intro h0
        rw [s1 h0]
        exact ⟨h0, rfl⟩
      · intro h0
        exact s2 h0
    · obtain ⟨i1, i2⟩ := ih (chan + 1) (mix_channel mem chan a) k (by omega) (by omega)
      obtain ⟨g1, g2⟩ := mix_channel_other mem chan a k hk
      obtain ⟨-, -, f3, f4, -⟩ := mix_channel_fields mem chan a
      simp only [g1, g2, f3, f4] at i1 i2
      exact ⟨i1, i2⟩

/-- Splitting the loop `while (leftout != leftend)`: `j + k` rounds are `j` rounds
followed by `k` rounds. -/
theorem mix_loop_add {F : Type} (biquadlp_step : F → Int → F × Int) (mem : Int → Nat)
    (music_downmix : Nat → Int) (j : Nat) :
    ∀ (k lo ro mb : Nat) (s : MixState F),
      mix_loop biquadlp_step mem music_downmix (j + k) lo ro mb s
        = mix_loop biquadlp_step mem music_downmix k (lo + 2 * j) (ro + 2 * j) (mb + 2 * j)
            (mix_loop biquadlp_step mem music_downmix j lo ro mb s) := by
  induction j with
  | zero => intro k lo ro mb s; simp [mix_loop]
  | succ j ih =>
    intro k lo ro mb s
    have e : j + 1 + k = (j + k) + 1 := by omega
    rw [e, mix_loop, mix_loop, ih]
    simp only [MIX_CHANNELS]
    have e1 : lo + 2 + 2 * j = lo + 2 * (j + 1) := by omega
    have e2 : ro + 2 + 2 * j = ro + 2 * (j + 1) := by omega
    have e3 : mb + 2 + 2 * j = mb + 2 * (j + 1) := by omega
    rw [e1, e2, e3]

/-- The mixer loop writes nothing but `channels` and `channelstepremainder`. -/
theorem mix_loop_fields {F : Type} (biquadlp_step : F → Int → F × Int) (mem : Int → Nat)
    (music_downmix : Nat → Int) (n : Nat) :
    ∀ (lo ro mb : Nat) (s : MixState F),
      (mix_loop biquadlp_step mem music_downmix n lo ro mb s).mixer.channelstep
        = s.mixer.channelstep ∧
      (mix_loop biquadlp_step mem music_downmix n lo ro mb s).mixer.channelsend
        = s.mixer.channelsend ∧
      (mix_loop biquadlp_step mem music_downmix n lo ro mb s).mixer.channelstart
        = s.mixer.channelstart ∧
      (mix_loop biquadlp_step mem music_downmix n lo ro mb s).mixer.channelhandles
        = s.mixer.channelhandles ∧
      (mix_loop biquadlp_step mem music_downmix n lo ro mb s).mixer.channelids
        = s.mixer.channelids ∧
      (mix_loop biquadlp_step mem music_downmix n lo ro mb s).mixer.channelleftvol_lookup
        = s.mixer.channelleftvol_lookup ∧
      (mix_loop biquadlp_step mem music_downmix n lo ro mb s).mixer.channelrightvol_lookup
        = s.mixer.channelrightvol_lookup := by
  induction n with
  | zero => intro lo ro mb s; simp [mix_loop]
  | succ n ih =>
    intro lo ro mb s
    rw [mix_loop]
    obtain ⟨h1, h2, h3, h4, h5, h6, h7⟩ := ih (lo + MIX_CHANNELS) (ro + MIX_CHANNELS)
      (mb + MIX_CHANNELS)
      { mixer := (mix_channels mem NUM_CHANNELS 0 { mixer := s.mixer, dl := 0, dr := 0 }).mixer,
        pcm_lpf_left := (biquadlp_step s.pcm_lpf_left
          (mix_channels mem NUM_CHANNELS 0 { mixer := s.mixer, dl := 0, dr := 0 }).dl).1,
        pcm_lpf_right := (biquadlp_step s.pcm_lpf_right
          (mix_channels mem NUM_CHANNELS 0 { mixer := s.mixer, dl := 0, dr := 0 }).dr).1,
        mixbuffer := Function.update (Function.update s.mixbuffer lo
          (clamp16 (wrapInt32 ((biquadlp_step s.pcm_lpf_left
            (mix_channels mem NUM_CHANNELS 0 { mixer := s.mixer, dl := 0, dr := 0 }).dl).2
              + music_downmix mb)))) ro
          (clamp16 (wrapInt32 ((biquadlp_step s.pcm_lpf_right
            (mix_channels mem NUM_CHANNELS 0 { mixer := s.mixer, dl := 0, dr := 0 }).dr).2
              + music_downmix (mb + 1)))) }
    obtain ⟨-, -, g3, g4, g5, g6, g7, -, -, g10, g11⟩ :=
      mix_channels_fields mem NUM_CHANNELS 0 { mixer := s.mixer, dl := 0, dr := 0 }
    exact ⟨h1.trans g3, h2.trans g4, h3.trans g5, h4.trans g6, h5.trans g7, h6.trans g10,
      h7.trans g11⟩

/-- A returning `I_UpdateSoundParams`, field by field: nothing but the step and the
two volume tables of the handle's slot is written, and only if the handle matches. -/
theorem I_UpdateSoundParams_fields {m m' : Mixer} {handle volume seperation pitch : Int}
    (h : I_UpdateSoundParams m handle volume seperation pitch = .ok m') :
    (handle_matches m handle →
      m'.channelstep = Function.update m.channelstep (handle_slot handle)
        (toUInt32 (m.steptable pitch)) ∧
      m'.channelleftvol_lookup = Function.update m.channelleftvol_lookup (handle_slot handle)
        ((stereo_volumes volume seperation).1 * 256) ∧
      m'.channelrightvol_lookup = Function.update m.channelrightvol_lookup (handle_slot handle)
        ((stereo_volumes volume seperation).2 * 256)) ∧
    (¬ handle_matches m handle → m' = m) ∧
    m'.channels = m.channels ∧ m'.channelsend = m.channelsend ∧
    m'.channelstepremainder = m.channelstepremainder ∧ m'.channelstart = m.channelstart ∧
    m'.channelhandles = m.channelhandles ∧ m'.channelids = m.channelids ∧
    m'.nexthandle = m.nexthandle ∧ m'.sfx_data = m.sfx_data ∧ m'.sfx_length = m.sfx_length ∧
    m'.steptable = m.steptable ∧ m'.vol_lookup = m.vol_lookup := by
  simp only [I_UpdateSoundParams] at h
  split at h
  · rename_i hm
    split at h
    · exact absurd h (by simp)
    · split at h
      · exact absurd h (by simp)
      · simp only [Except.ok.injEq] at h
        subst h
        simp [hm]
  · rename_i hm
    simp only [Except.ok.injEq] at h
    subst h
    simp [hm]

/-- With both volumes of the split in 0..127 `I_UpdateSoundParams` returns. -/
theorem I_UpdateSoundParams_returns (m : Mixer) (handle volume seperation pitch : Int)
    (hl : 0 ≤ (stereo_volumes volume seperation).1 ∧ (stereo_volumes volume seperation).1 ≤ 127)
    (hr : 0 ≤ (stereo_volumes volume seperation).2 ∧ (stereo_volumes volume seperation).2 ≤ 127) :
    ∃ m', I_UpdateSoundParams m handle volume seperation pitch = .ok m' := by
  simp only [I_UpdateSoundParams]
  split
  · rw [if_neg (by omega), if_neg (by omega)]
    exact ⟨_, rfl⟩
  · exact ⟨_, rfl⟩

/-- The mixer after `I_StopSound`, field by field: nothing but the data pointer of
the handle's slot is written, and only if the handle matches. -/
theorem I_StopSound_fields (m : Mixer) (handle : Int) :
    (handle_matches m handle →
      (I_StopSound m handle).channels = Function.update m.channels (handle_slot handle) 0) ∧
    (¬ handle_matches m handle → I_StopSound m handle = m) ∧
    (I_StopSound m handle).channelsend = m.channelsend ∧
    (I_StopSound m handle).channelstep = m.channelstep ∧
    (I_StopSound m handle).channelstepremainder = m.channelstepremainder ∧
    (I_StopSound m handle).channelstart = m.channelstart ∧
    (I_StopSound m handle).channelhandles = m.channelhandles ∧
    (I_StopSound m handle).channelids = m.channelids ∧
    (I_StopSound m handle).channelleftvol_lookup = m.channelleftvol_lookup ∧
    (I_StopSound m handle).channelrightvol_lookup = m.channelrightvol_lookup ∧
    (I_StopSound m handle).nexthandle = m.nexthandle ∧
    (I_StopSound m handle).sfx_data = m.sfx_data ∧
    (I_StopSound m handle).sfx_length = m.sfx_length ∧
    (I_StopSound m handle).steptable = m.steptable ∧
    (I_StopSound m handle).vol_lookup = m.vol_lookup := by
  simp only [I_StopSound]
  split
  · rename_i hm
    simp [hm]
  · rename_i hm
    simp [hm]

/-- The slot of a handle is one of the 8 channels. -/
theorem handle_slot_lt (handle : Int) : handle_slot handle < 8 := by
  unfold handle_slot
  simp only [NUM_CHANNELS_POW2]
  rw [show (8 - 1 : Nat) = 7 by rfl, and_seven]
  omega

/-- Splitting the channel loop: `a + b` rounds are `a` rounds followed by `b` rounds. -/
theorem mix_channels_add (mem : Int → Nat) (a : Nat) :
    ∀ (b chan : Nat) (x : ChanAcc),
      mix_channels mem (a + b) chan x = mix_channels mem b (chan + a) (mix_channels mem a chan x) := by
  induction a with
  | zero => intro b chan x; simp [mix_channels]
  | succ a ih =>
    intro b chan x
    have e : a + 1 + b = (a + b) + 1 := by omega
    rw [e, mix_channels, mix_channels, ih]
    have e1 : chan + 1 + a = chan + (a + 1) := by omega
    rw [e1]

/-- An inactive channel contributes nothing to a round of the channel loop: the loop
gives what it gives when the body is skipped for that channel. -/
theorem mix_channels_skip_inactive (mem : Int → Nat) (s : Nat) (hs : s < 8) (x : ChanAcc)
    (h0 : x.mixer.channels s = 0) :
    mix_channel mem s (mix_channels mem s 0 x) = mix_channels mem s 0 x ∧
    mix_channels mem NUM_CHANNELS 0 x
      = mix_channels mem (NUM_CHANNELS - 1 - s) (s + 1) (mix_channels mem s 0 x) := by
  have hz : (mix_channels mem s 0 x).mixer.channels s = 0 := by
    rw [(mix_channels_outside mem s 0 x s (by omega)).1]; exact h0
  have hskip := (mix_channel_self mem s (mix_channels mem s 0 x)).1 hz
  refine ⟨hskip, ?_⟩
  have e : NUM_CHANNELS = s + ((NUM_CHANNELS - 1 - s) + 1) := by
    simp only [NUM_CHANNELS]; omega
  conv_lhs => rw [e]
  rw [mix_channels_add, mix_channels]
  simp only [Nat.zero_add]
  rw [hskip]

/-- A channel that is inactive stays inactive through the mixer loop. -/
theorem mix_loop_inactive {F : Type} (biquadlp_step : F → Int → F × Int) (mem : Int → Nat)
    (music_downmix : Nat → Int) (k : Nat) (n : Nat) :
    ∀ (lo ro mb : Nat) (s : MixState F), s.mixer.channels k = 0 →
      (mix_loop biquadlp_step mem music_downmix n lo ro mb s).mixer.channels k = 0 := by
  induction n with
  | zero => intro lo ro mb s h; exact h
  | succ n ih =>
    intro lo ro mb s h
    rw [mix_loop]
    apply ih
    show (mix_channels mem NUM_CHANNELS 0 { mixer := s.mixer, dl := 0, dr := 0 }).mixer.channels k
      = 0
    by_cases hk : k < NUM_CHANNELS
    · exact ((mix_channels_inside mem NUM_CHANNELS 0 { mixer := s.mixer, dl := 0, dr := 0 } k
        (Nat.zero_le k) (by omega)).1 h).1
    · rw [(mix_channels_outside mem NUM_CHANNELS 0 { mixer := s.mixer, dl := 0, dr := 0 } k
        (by omega)).1]
      exact h

/-- A run that starts no sound in slot `s` keeps the sequence stored for that slot. -/
theorem SlotKept.channelhandles_eq {sfx : SfxEnum} {s : Nat} {m m' : Mixer}
    (h : SlotKept sfx s m m') : m'.channelhandles s = m.channelhandles s := by
  induction h with
  | refl m0 => rfl
  | startSound m0 m1 m2 gametic id vol sep pitch priority handle _ hok hne ih =>
    simp only [I_StartSound] at hok
    obtain ⟨-, -, -, -, -, -, -, ehd, -⟩ := addsfx_with_lock_fields hok
    rw [ehd, Function.update_noteq (Ne.symm hne), ih]
  | stopSound m0 m1 handle _ ih =>
    obtain ⟨-, -, -, -, -, -, e, -⟩ := I_StopSound_fields m1 handle
    rw [e, ih]
  | updateSoundParams m0 m1 m2 handle volume seperation pitch _ hok ih =>
    obtain ⟨-, -, -, -, -, -, e, -⟩ := I_UpdateSoundParams_fields hok
    rw [e, ih]
  | mixSamples F step mem music m0 st st' samples _ hok ih =>
    unfold mix_samples at hok
    split at hok
    · simp only [Option.some.injEq] at hok
      subst hok
      rw [(mix_loop_fields step mem music _ 0 1 0 st).2.2.2.1, ih]
    · exact absurd hok (by simp)

/-- The step of a voice with shifts and masks written as division and remainder. -/
theorem voice_advance_eq (p e : Int) (r st : Nat) :
    voice_advance p e r st
      = (if e ≤ p + (((r + st) % 4294967296 / 262144 : Nat) : Int) then 0
          else p + (((r + st) % 4294967296 / 262144 : Nat) : Int),
         (r + st) % 4294967296 % 262144) := by
  have e1 : ∀ x : Nat, x >>> (16 + SFX_STEP_SHIFT) = x / 262144 := by
    intro x
    rw [Nat.shiftRight_eq_div_pow]
    rfl
  have e2 : ∀ x : Nat, x &&& ((1 <<< (16 + SFX_STEP_SHIFT)) - 1) = x % 262144 := by
    intro x
    have := Nat.and_pow_two_sub_one_eq_mod x 18
    simpa [SFX_STEP_SHIFT] using this
  simp only [voice_advance, e1, e2, ge_iff_le]

/-- After its step a voice is inactive or below its end pointer. -/
theorem voice_advance_in_bounds (p e : Int) (r st : Nat) :
    (voice_advance p e r st).1 = 0 ∨ (voice_advance p e r st).1 < e := by
  rw [voice_advance_eq]
  dsimp only
  split
  · exact Or.inl rfl
  · right; omega

/-- After one round of the channel loop every slot is inactive or below its end
pointer, whatever the mixer was before. -/
theorem mix_channels_in_bounds (mem : Int → Nat) (a : ChanAcc) :
    VoicesInBounds (mix_channels mem NUM_CHANNELS 0 a).mixer := by
  intro i hi
  obtain ⟨c0, c1⟩ := mix_channels_inside mem NUM_CHANNELS 0 a i (Nat.zero_le i) (by omega)
  rw [(mix_channels_fields mem NUM_CHANNELS 0 a).2.2.2.1]
  by_cases h0 : a.mixer.channels i = 0
  · exact Or.inl (c0 h0).1
  · rw [(c1 h0).1]
    exact voice_advance_in_bounds _ _ _ _

/-- The mixer loop keeps the voice-table invariant. -/
theorem mix_loop_in_bounds {F : Type} (biquadlp_step : F → Int → F × Int) (mem : Int → Nat)
    (music_downmix : Nat → Int) (n : Nat) :
    ∀ (lo ro mb : Nat) (s : MixState F), VoicesInBounds s.mixer →
      VoicesInBounds (mix_loop biquadlp_step mem music_downmix n lo ro mb s).mixer := by
  induction n with
  | zero => intro lo ro mb s h; exact h
  | succ n ih =>
    intro lo ro mb s _
    rw [mix_loop]
    apply ih
    exact mix_channels_in_bounds mem { mixer := s.mixer, dl := 0, dr := 0 }

/-- One round of the channel loop on a voice of step 65536 that has played `j`
rounds of a sound at `p` with end pointer `p + len`. -/
theorem mix_channels_unit_step (mem : Int → Nat) (a : ChanAcc) (s j : Nat) (p len : Int)
    (hs : s < 8) (hp : 0 < p) (hj : (j : Int) < 4 * len)
    (h1 : a.mixer.channels s = p + ((j / 4 : Nat) : Int))
    (h2 : a.mixer.channelstepremainder s = j % 4 * 65536)
    (h3 : a.mixer.channelstep s = 65536)
    (h4 : a.mixer.channelsend s = p + len) :
    ((mix_channels mem NUM_CHANNELS 0 a).mixer.channels s
        = if (j : Int) + 1 < 4 * len then p + (((j + 1) / 4 : Nat) : Int) else 0) ∧
    (mix_channels mem NUM_CHANNELS 0 a).mixer.channelstepremainder s = (j + 1) % 4 * 65536 ∧
    (mix_channels mem NUM_CHANNELS 0 a).mixer.channelstep s = 65536 ∧
    (mix_channels mem NUM_CHANNELS 0 a).mixer.channelsend s = p + len := by
  obtain ⟨-, c1⟩ := mix_channels_inside mem NUM_CHANNELS 0 a s (Nat.zero_le s)
    (by simp only [NUM_CHANNELS]; omega)
  obtain ⟨-, -, f3, f4, -⟩ := mix_channels_fields mem NUM_CHANNELS 0 a
  have hne : a.mixer.channels s ≠ 0 := by rw [h1]; omega
  obtain ⟨g1, g2⟩ := c1 hne
  rw [g1, g2, f3, f4, h1, h2, h3, h4, voice_advance_eq]
  dsimp only
  have hr : (j % 4 * 65536 + 65536) % 4294967296 = (j % 4 + 1) * 65536 := by omega
  rw [hr]
  refine ⟨?_, by omega, rfl, rfl⟩
  have hq : ((((j % 4 + 1) * 65536 / 262144 : Nat) : Int)) = (((j + 1) / 4 : Nat) : Int)
      - ((j / 4 : Nat) : Int) := by omega
  rw [hq]
  split
  · rw [if_neg (by omega)]
  · rw [if_pos (by omega)]; omega

/-- A voice of step 65536 through the mixer loop: after `j + n` rounds in all it is at
sample `(j + n) / 4` while that is inside the sound, and inactive from then on. -/
theorem mix_loop_unit_step {F : Type} (biquadlp_step : F → Int → F × Int) (mem : Int → Nat)
    (music_downmix : Nat → Int) (s : Nat) (p len : Int) (hs : s < 8) (hp : 0 < p) (n : Nat) :
    ∀ (j lo ro mb : Nat) (st : MixState F), (j : Int) < 4 * len →
      st.mixer.channels s = p + ((j / 4 : Nat) : Int) →
      st.mixer.channelstepremainder s = j % 4 * 65536 →
      st.mixer.channelstep s = 65536 →
      st.mixer.channelsend s = p + len →
      (mix_loop biquadlp_step mem music_downmix n lo ro mb st).mixer.channels s
        = if ((j + n : Nat) : Int) < 4 * len then p + (((j + n) / 4 : Nat) : Int) else 0 := by
  induction n with
  | zero =>
    intro j lo ro mb st hj h1 _ _ _
    simp only [mix_loop, Nat.add_zero]
    rw [if_pos hj, h1]
  | succ n ih =>
    intro j lo ro mb st hj h1 h2 h3 h4
    obtain ⟨g1, g2, g3, g4⟩ := mix_channels_unit_step mem { mixer := st.mixer, dl := 0, dr := 0 }
      s j p len hs hp hj h1 h2 h3 h4
    rw [mix_loop]
    by_cases hnext : (j : Int) + 1 < 4 * len
    · rw [if_pos hnext] at g1
      have e : j + (n + 1) = (j + 1) + n := by omega
      rw [e]
      exact ih (j + 1) _ _ _ _ (by push_cast; exact hnext) g1 g2 g3 g4
    · rw [if_neg hnext] at g1
      rw [if_neg (by push_cast; omega)]
      exact mix_loop_inactive biquadlp_step mem music_downmix s n _ _ _ _ g1

/-- The duplicate loop frees the first active channel that plays `sfxid`. -/
theorem addsfx_stop_duplicate_first_match (sfxid : Int) (m : Mixer) (n : Nat) :
    ∀ (i j : Nat), i ≤ j → j < i + n → (m.channels j ≠ 0 ∧ m.channelids j = sfxid) →
      (∀ k, i ≤ k → k < j → ¬ (m.channels k ≠ 0 ∧ m.channelids k = sfxid)) →
      addsfx_stop_duplicate sfxid m n i = { m with channels := Function.update m.channels j 0 } := by
  induction n with
  | zero => intro i j h1 h2; omega
  | succ n ih =>
    intro i j h1 h2 hj hbefore
    rw [addsfx_stop_duplicate]
    by_cases hij : j = i
    · subst hij
      rw [if_pos hj]
    · rw [if_neg (hbefore i (le_refl i) (by omega))]
      exact ih (i + 1) j (by omega) (by omega) hj (fun k hk1 hk2 => hbefore k (by omega) hk2)

/-- After the duplicate loop every data pointer is as before or null. -/
theorem addsfx_select_slot_channels (sfx : SfxEnum) (gametic : Int) (m : Mixer) (sfxid : Int)
    (k : Nat) :
    (addsfx_select_slot sfx gametic m sfxid).1.channels k = m.channels k ∨
    (addsfx_select_slot sfx gametic m sfxid).1.channels k = 0 := by
  simp only [addsfx_select_slot]
  split
  · by_cases hex : ∃ j, j < 8 ∧ (m.channels j ≠ 0 ∧ m.channelids j = sfxid)
    · have hj := Nat.find_spec hex
      have hmin : ∀ k, 0 ≤ k → k < Nat.find hex →
          ¬ (m.channels k ≠ 0 ∧ m.channelids k = sfxid) := by
        intro k _ hk hmatch
        exact Nat.find_min hex hk ⟨lt_trans hk hj.1, hmatch⟩
      rw [addsfx_stop_duplicate_first_match sfxid m NUM_CHANNELS 0 (Nat.find hex) (Nat.zero_le _)
        (by simpa [NUM_CHANNELS] using hj.1) hj.2 hmin]
      by_cases hk : k = Nat.find hex
      · right; rw [hk]; exact Function.update_same _ _ _
      · left; exact Function.update_noteq hk _ _
    · rw [addsfx_stop_duplicate_no_match sfxid m NUM_CHANNELS 0
        (fun k _ hk hmatch => hex ⟨k, by simpa [NUM_CHANNELS] using hk, hmatch⟩)]
      exact Or.inl rfl
  · exact Or.inl rfl

theorem shiftRight_seven (x : Int) : x >>> (7 : Nat) = x / 128 := by
  rw [Int.shiftRight_eq_div_pow]; norm_num

/-- For a volume in 0..127 `I_SetMusicVolume` returns and stores `((v+2)^2) >> 7`. -/
theorem I_SetMusicVolume_value {D : Type} (mu : Music D) (v : Int) (h0 : 0 ≤ v)
    (h1 : v ≤ 127) :
    I_SetMusicVolume mu v = .ok { mu with music_volume := (v + 2) ^ 2 / 128 } := by
  have hsq : (v + 2) * (v + 2) ≤ 16641 := by nlinarith
  have hsq0 : 0 ≤ (v + 2) * (v + 2) := mul_self_nonneg _
  simp only [I_SetMusicVolume]
  rw [if_neg (by omega)]
  rw [wrapInt32_of_range (x := v + 2) (by omega) (by omega)]
  rw [wrapInt32_of_range (x := (v + 2) * (v + 2)) (by omega) (by omega)]
  rw [shiftRight_seven, pow_two]

/-- With a stored music volume of 0 `mix_music` clears the first `2 * frames` samples
of the downmix buffer. -/
theorem mix_music_zero_volume {D : Type} (ops : MusDriverOps D) (mu : Music D) (frames : Int)
    (h0 : 0 ≤ frames) (h1 : frames < 2147483648) (hvol : mu.music_volume = 0) (k : Nat)
    (hk : (k : Int) < 2 * frames) :
    (mix_music ops mu frames).music_downmix k = 0 := by
  have hn : toSizeT frames * 2 * MIX_CHANNELS % 18446744073709551616 = 4 * frames.toNat := by
    simp only [toSizeT, MIX_CHANNELS]; omega
  simp only [mix_music, hvol, hn]
  rw [if_pos (by simp)]
  simp only [memset_zero16]
  rw [if_pos (by omega)]

/-- The padding loop writes 128 to the bytes `i .. i+n-1` and nothing else. -/
theorem getsfx_pad_loop_spec (n : Nat) :
    ∀ (i : Int) (b : Int → Nat) (x : Int),
      getsfx_pad_loop n i b x = if i ≤ x ∧ x < i + n then 128 else b x := by
  induction n with
  | zero =>
    intro i b x
    rw [getsfx_pad_loop, if_neg (by push_cast; omega)]
  | succ n ih =>
    intro i b x
    rw [getsfx_pad_loop, ih]
    by_cases hx : x = i
    · subst hx
      rw [if_neg (by omega), if_pos (by push_cast; omega), Function.update_same]
    · rw [Function.update_noteq hx]
      by_cases h : i + 1 ≤ x ∧ x < i + 1 + n
      · rw [if_pos h, if_pos (by push_cast; omega)]
      · rw [if_neg h, if_neg (by push_cast; omega)]

/-- Rounding `a` up to a multiple of `m`: the result is the least multiple of `m`
that is at least `a`. -/
theorem round_up_multiple (a m : Int) (hm : 0 < m) :
    (a + (m - 1)) / m * m % m = 0 ∧ a ≤ (a + (m - 1)) / m * m ∧
    ∀ k : Int, k % m = 0 → a ≤ k → (a + (m - 1)) / m * m ≤ k := by
  have h1 := Int.ediv_add_emod (a + (m - 1)) m
  have h2 := Int.emod_nonneg (a + (m - 1)) (ne_of_gt hm)
  have h3 := Int.emod_lt_of_pos (a + (m - 1)) hm
  have hc : (a + (m - 1)) / m * m = m * ((a + (m - 1)) / m) := mul_comm _ _
  refine ⟨Int.mul_emod_left _ _, by rw [hc]; omega, ?_⟩
  intro k hk hak
  obtain ⟨t, ht⟩ := Int.dvd_of_emod_eq_zero hk
  have hq : (a + (m - 1)) / m < t + 1 := by
    apply Int.ediv_lt_of_lt_mul hm
    rw [ht] at hak
    nlinarith
  have hqt : (a + (m - 1)) / m ≤ t := by omega
  rw [ht, mul_comm m t]
  exact mul_le_mul_of_nonneg_right hqt (le_of_lt hm)

/-- The length `getsfx` reports when it fits in an `int`. -/
theorem getsfx_len (m : Nat) (size : Int) (sfx block : Int → Nat)
    (h8 : 8 ≤ size) (hm : 0 < m) (hmt : m < 18446744073709551616)
    (hfit : (size - 8 + ((m : Int) - 1)) / m * m < 2147483648) :
    (getsfx m size sfx block).len = (size - 8 + ((m : Int) - 1)) / m * m := by
  have hmi : (0 : Int) < m := by exact_mod_cast hm
  obtain ⟨-, r2, -⟩ := round_up_multiple (size - 8) m hmi
  have h1 := Int.ediv_add_emod (size - 8 + ((m : Int) - 1)) m
  have h2 := Int.emod_nonneg (size - 8 + ((m : Int) - 1)) (ne_of_gt hmi)
  have h3 := Int.emod_lt_of_pos (size - 8 + ((m : Int) - 1)) hmi
  have hc : (size - 8 + ((m : Int) - 1)) / m * m = m * ((size - 8 + ((m : Int) - 1)) / m) :=
    mul_comm _ _
  have hq0 : 0 ≤ (size - 8 + ((m : Int) - 1)) / m := Int.ediv_nonneg (by omega) (by omega)
  have hmP : 9 ≤ size → (m : Int) ≤ (size - 8 + ((m : Int) - 1)) / m * m := by
    intro h9
    have hq1 : 1 ≤ (size - 8 + ((m : Int) - 1)) / m := by
      have := Int.le_ediv_of_mul_le hmi (show 1 * (m : Int) ≤ size - 8 + ((m : Int) - 1) by omega)
      exact this
    nlinarith
  -- the value computed in `size_t`
  have hN : (((size - 8).toNat + (m - 1) : Nat) : Int) = size - 8 + ((m : Int) - 1) := by
    omega
  have hdiv : ((((size - 8).toNat + (m - 1)) / m * m : Nat) : Int)
      = (size - 8 + ((m : Int) - 1)) / m * m := by
    push_cast [Int.natCast_div]
    rw [← hN]
    push_cast
    rfl
  have e1 : toSizeT (wrapInt32 (size - 8)) = (size - 8).toNat := by
    rw [wrapInt32_of_range (by omega) (by omega)]
    unfold toSizeT; omega
  have e2 : toSizeT ((m : Int) - 1) = m - 1 := by
    unfold toSizeT; omega
  have e3 : ((size - 8).toNat + (m - 1)) % 18446744073709551616
      = (size - 8).toNat + (m - 1) := by
    apply Nat.mod_eq_of_lt
    by_cases h9 : 9 ≤ size
    · have := hmP h9
      omega
    · omega
  have hlt : ((size - 8).toNat + (m - 1)) / m * m < 2147483648 := by
    have : ((((size - 8).toNat + (m - 1)) / m * m : Nat) : Int) < 2147483648 := by
      rw [hdiv]; exact hfit
    exact_mod_cast this
  have e4 : ((size - 8).toNat + (m - 1)) / m * m % 18446744073709551616
      = ((size - 8).toNat + (m - 1)) / m * m := Nat.mod_eq_of_lt (by omega)
  simp only [getsfx, e1, e2, e3, e4]
  unfold toInt32
  rw [wrapInt32_of_range (by omega) (by omega)]
  exact hdiv

/-- For a sound that is not duplicate-suppressed the slot is the first free one. -/
theorem addsfx_select_slot_first_free (sfx : SfxEnum) (gametic : Int) (m : Mixer) (sfxid : Int)
    (j : Nat) (hnd : ¬ is_single_sfx sfx sfxid) (hj : j < 8) (hfree : m.channels j = 0)
    (hbefore : ∀ k, k < j → m.channels k ≠ 0) :
    addsfx_select_slot sfx gametic m sfxid = (m, j) := by
  simp only [addsfx_select_slot, if_neg hnd]
  have e := addsfx_find_oldest_first_free m NUM_CHANNELS 0 gametic 0 j
    (Nat.zero_le _) (by simpa [NUM_CHANNELS] using hj) hfree (fun k _ hk => hbefore k hk)
  rw [e, if_neg (by simp only [NUM_CHANNELS]; omega)]

/-- For a duplicate-suppressed sound played by at most one active channel: after the
duplicate loop no active channel plays it, and the channel that played it is free. -/
theorem addsfx_select_slot_dedup (sfx : SfxEnum) (gametic : Int) (m : Mixer) (sfxid : Int)
    (hsingle : is_single_sfx sfx sfxid)
    (hone : ∀ i j, i < 8 → j < 8 → (m.channels i ≠ 0 ∧ m.channelids i = sfxid) →
      (m.channels j ≠ 0 ∧ m.channelids j = sfxid) → i = j) :
    (∀ k, k < 8 → (addsfx_select_slot sfx gametic m sfxid).1.channels k ≠ 0 →
      m.channelids k ≠ sfxid) ∧
    (∀ k, k < 8 → m.channels k ≠ 0 → m.channelids k = sfxid →
      (addsfx_select_slot sfx gametic m sfxid).1.channels k = 0) := by
  have hsel : (addsfx_select_slot sfx gametic m sfxid).1
      = addsfx_stop_duplicate sfxid m NUM_CHANNELS 0 := by
    simp only [addsfx_select_slot, if_pos hsingle]
  rw [hsel]
  by_cases hex : ∃ j, j < 8 ∧ (m.channels j ≠ 0 ∧ m.channelids j = sfxid)
  · have hj := Nat.find_spec hex
    have hmin : ∀ k, 0 ≤ k → k < Nat.find hex →
        ¬ (m.channels k ≠ 0 ∧ m.channelids k = sfxid) := by
      intro k _ hk hmatch
      exact Nat.find_min hex hk ⟨lt_trans hk hj.1, hmatch⟩
    rw [addsfx_stop_duplicate_first_match sfxid m NUM_CHANNELS 0 (Nat.find hex) (Nat.zero_le _)
      (by simpa [NUM_CHANNELS] using hj.1) hj.2 hmin]
    constructor
    · intro k hk hne hid
      by_cases hkf : k = Nat.find hex
      · rw [hkf] at hne
        exact hne (Function.update_same _ _ _)
      · have hch : m.channels k ≠ 0 := by
          rw [show ({ m with channels := Function.update m.channels (Nat.find hex) 0 } : Mixer).channels k
            = Function.update m.channels (Nat.find hex) 0 k from rfl,
            Function.update_noteq hkf] at hne
          exact hne
        exact hkf (hone k (Nat.find hex) hk hj.1 ⟨hch, hid⟩ hj.2)
    · intro k hk hch hid
      have hkf : k = Nat.find hex := hone k (Nat.find hex) hk hj.1 ⟨hch, hid⟩ hj.2
      rw [hkf]
      exact Function.update_same _ _ _
  · rw [addsfx_stop_duplicate_no_match sfxid m NUM_CHANNELS 0
      (fun k _ hk hmatch => hex ⟨k, by simpa [NUM_CHANNELS] using hk, hmatch⟩)]
    constructor
    · intro k hk hne hid
      exact hex ⟨k, hk, hne, hid⟩
    · intro k hk hch hid
      exact absurd ⟨k, hk, hch, hid⟩ hex

/-- What holds of the mixer after `saw_call` and `k` start/stop cycles. -/
theorem saw_cycle_step (k : Nat) (m : Mixer)
    (h : Reachable sounds_h m ∧ m.nexthandle = (8 + 8 * k) % 4294967296 ∧
      m.sfx_data 2 = 4608 ∧ m.sfx_data 10 = 6656 ∧ m.channels 0 = 6656 ∧
      m.channelids 0 = 10 ∧ m.channelhandles 0 = 0 ∧ ∀ i, 1 ≤ i → i < 8 → m.channels i = 0) :
    Reachable sounds_h (start_stop_cycle m) ∧
    (start_stop_cycle m).nexthandle = (8 + 8 * (k + 1)) % 4294967296 ∧
    (start_stop_cycle m).sfx_data 2 = 4608 ∧ (start_stop_cycle m).sfx_data 10 = 6656 ∧
    (start_stop_cycle m).channels 0 = 6656 ∧ (start_stop_cycle m).channelids 0 = 10 ∧
    (start_stop_cycle m).channelhandles 0 = 0 ∧
    ∀ i, 1 ≤ i → i < 8 → (start_stop_cycle m).channels i = 0 := by
  obtain ⟨hr, hn, hd2, hd10, hc0, hi0, hh0, hfree⟩ := h
  obtain ⟨h8, hlt⟩ := hr.nexthandle_inv
  obtain ⟨m', handle, hok⟩ := addsfx_with_lock_returns sounds_h 0 m 2 127 (m.steptable 128) 128
    (by decide) (by decide)
  have hstart : I_StartSound sounds_h 0 m 2 127 128 128 0 = .ok (m', handle) := hok
  have hsel : addsfx_select_slot sounds_h 0 m 2 = (m, 1) :=
    addsfx_select_slot_first_free sounds_h 0 m 2 1 (by decide) (by decide)
      (hfree 1 (le_refl 1) (by decide)) (fun k hk => by
        have : k = 0 := by omega
        rw [this, hc0]; decide)
  obtain ⟨eh, en, ec, -, -, -, -, ehd, eid, -, -, esd, -⟩ := addsfx_with_lock_fields hok
  rw [hsel] at eh ec ehd eid
  dsimp only at eh ec ehd eid
  have hslot : handle_slot handle = 1 := by
    rw [eh]; exact handle_slot_encode h8 hlt (by decide)
  have hseq : handle_seq handle = m.nexthandle := by
    rw [eh]; exact handle_seq_encode h8 hlt (by decide)
  have hmatch : handle_matches m' handle := by
    constructor
    · rw [hslot, ec, Function.update_same, hd2]; decide
    · rw [hslot, ehd, Function.update_same, hseq]
  have hcyc : start_stop_cycle m = I_StopSound m' handle := by
    simp only [start_stop_cycle, hstart]
  obtain ⟨f1, -, -, -, -, -, f7, f8, -, -, f11, f12, -⟩ := I_StopSound_fields m' handle
  rw [hcyc]
  refine ⟨Reachable.stopSound m' handle (Reachable.startSound m m' _ _ _ _ _ _ _ hr hstart),
    ?_, ?_, ?_, ?_, ?_, ?_, ?_⟩
  · rw [f11, en, hn]; omega
  · rw [f12, esd, hd2]
  · rw [f12, esd, hd10]
  · rw [f1 hmatch, hslot, ec, Function.update_noteq (by decide), Function.update_noteq (by decide),
      hc0]
  · rw [f8, eid, Function.update_noteq (by decide), hi0]
  · rw [f7, ehd, Function.update_noteq (by decide), hh0]
  · intro i hi1 hi8
    rw [f1 hmatch, hslot, ec]
    by_cases hi : i = 1
    · rw [hi, Function.update_same]
    · rw [Function.update_noteq hi, Function.update_noteq hi]
      exact hfree i hi1 hi8

/-- The mixer after the chainsaw call is reachable. -/
theorem saw_mixer_reachable : Reachable sounds_h saw_mixer := by
  obtain ⟨m', hs, hok⟩ := start_sounds_returns sounds_h [saw_call] cached_mixer (by decide)
  have e : saw_mixer = m' := by
    simp only [saw_mixer, mixer_after, hok]
  rw [e]
  exact start_sounds_reachable sounds_h [saw_call] cached_mixer m' hs cached_mixer_reachable hok

/-- One more cycle is one cycle first, then the others. -/
theorem start_stop_cycles_succ (n : Nat) (m : Mixer) :
    start_stop_cycles (n + 1) m = start_stop_cycles n (start_stop_cycle m) :=
  Function.iterate_succ_apply start_stop_cycle n m

/-- The same after any number of cycles. -/
theorem saw_cycles (n : Nat) :
    ∀ (k : Nat) (m : Mixer),
      (Reachable sounds_h m ∧ m.nexthandle = (8 + 8 * k) % 4294967296 ∧
        m.sfx_data 2 = 4608 ∧ m.sfx_data 10 = 6656 ∧ m.channels 0 = 6656 ∧
        m.channelids 0 = 10 ∧ m.channelhandles 0 = 0 ∧
        ∀ i, 1 ≤ i → i < 8 → m.channels i = 0) →
      Reachable sounds_h (start_stop_cycles n m) ∧
      (start_stop_cycles n m).nexthandle = (8 + 8 * (k + n)) % 4294967296 ∧
      (start_stop_cycles n m).sfx_data 2 = 4608 ∧ (start_stop_cycles n m).sfx_data 10 = 6656 ∧
      (start_stop_cycles n m).channels 0 = 6656 ∧ (start_stop_cycles n m).channelids 0 = 10 ∧
      (start_stop_cycles n m).channelhandles 0 = 0 ∧
      ∀ i, 1 ≤ i → i < 8 → (start_stop_cycles n m).channels i = 0 := by
  induction n with
  | zero =>
    intro k m h
    have e : start_stop_cycles 0 m = m := rfl
    rw [e, Nat.add_zero]
    exact h
  | succ n ih =>
    intro k m h
    have e : k + (n + 1) = (k + 1) + n := by omega
    rw [start_stop_cycles_succ, e]
    exact ih (k + 1) (start_stop_cycle m) (saw_cycle_step k m h)


/-- The state `wrapped_mixer`: the counter is back at 0 while slot 0 still plays the
chainsaw under sequence 0, and every other slot is free. -/
theorem wrapped_mixer_facts :
    Reachable sounds_h wrapped_mixer ∧ wrapped_mixer.nexthandle = 0 ∧
    wrapped_mixer.sfx_data 2 = 4608 ∧ wrapped_mixer.sfx_data 10 = 6656 ∧
    wrapped_mixer.channels 0 = 6656 ∧ wrapped_mixer.channelids 0 = 10 ∧
    wrapped_mixer.channelhandles 0 = 0 ∧
    ∀ i, 1 ≤ i → i < 8 → wrapped_mixer.channels i = 0 := by
  have h := saw_cycles 536870911 0 saw_mixer
    ⟨saw_mixer_reachable, by decide, by decide, by decide, by decide, by decide, by decide,
      by decide⟩
  have e : (8 + 8 * (0 + 536870911)) % 4294967296 = 0 := by norm_num
  have ew : wrapped_mixer = start_stop_cycles 536870911 saw_mixer := rfl
  rw [e] at h
  rw [ew]
  exact h

/-- Restarting the chainsaw when slot 0 plays it under sequence 0, the other slots are
free and the counter is at 0: the call returns handle 0 again and that handle plays. -/
theorem restart_at_wrapped_counter (m : Mixer)
    (h : Reachable sounds_h m ∧ m.nexthandle = 0 ∧
      m.sfx_data 2 = 4608 ∧ m.sfx_data 10 = 6656 ∧ m.channels 0 = 6656 ∧
      m.channelids 0 = 10 ∧ m.channelhandles 0 = 0 ∧ ∀ i, 1 ≤ i → i < 8 → m.channels i = 0) :
    (∀ i j, i < 8 → j < 8 → (m.channels i ≠ 0 ∧ m.channelids i = 10) →
      (m.channels j ≠ 0 ∧ m.channelids j = 10) → i = j) ∧
    I_SoundIsPlaying m 0 = 1 ∧ m.channelids (handle_slot 0) = 10 ∧
    (∃ m' handle, addsfx_with_lock sounds_h 0 m 10 127 65536 128 = .ok (m', handle)) ∧
    ∀ m' handle, addsfx_with_lock sounds_h 0 m 10 127 65536 128 = .ok (m', handle) →
      handle = 0 ∧ I_SoundIsPlaying m' 0 = 1 := by
  obtain ⟨-, hn, -, hd10, hc0, hi0, hh0, hfree⟩ := h
  have hslot : handle_slot 0 = 0 := by decide
  have hseq : handle_seq 0 = 0 := by decide
  have hzero : ∀ i, i < 8 → m.channels i ≠ 0 → i = 0 := by
    intro i hi hc
    by_contra hne
    exact hc (hfree i (by omega) hi)
  have hmatch : handle_matches m 0 := by
    constructor
    · rw [hslot, hc0]; decide
    · rw [hslot, hh0, hseq]
  have hsel : addsfx_select_slot sounds_h 0 m 10
      = ({ m with channels := Function.update m.channels 0 0 }, 0) := by
    simp only [addsfx_select_slot, if_pos (by decide : is_single_sfx sounds_h 10)]
    rw [addsfx_stop_duplicate_first_match 10 m NUM_CHANNELS 0 0 (le_refl 0) (by decide)
      ⟨by rw [hc0]; decide, hi0⟩ (fun k h1 h2 => absurd h2 (Nat.not_lt_zero k))]
    rw [addsfx_find_oldest_first_free _ NUM_CHANNELS 0 0 0 0 (le_refl 0) (by decide)
      (by exact Function.update_same 0 0 m.channels)
      (fun k h1 h2 => absurd h2 (Nat.not_lt_zero k))]
    rw [if_neg (by decide)]
  refine ⟨?_, ?_, ?_, ?_, ?_⟩
  · intro i j hi hj h1 h2
    rw [hzero i hi h1.1, hzero j hj h2.1]
  · simp only [I_SoundIsPlaying]
    rw [if_pos hmatch]
  · rw [hslot, hi0]
  · exact addsfx_with_lock_returns sounds_h 0 m 10 127 65536 128 (by decide) (by decide)
  · intro m' handle hok
    obtain ⟨eh, -, ec, -, -, -, -, ehd, -⟩ := addsfx_with_lock_fields hok
    rw [hsel] at eh ec ehd
    dsimp only at eh ec ehd
    have e0 : handle = 0 := by
      rw [eh, hn]; decide
    refine ⟨e0, ?_⟩
    have hmatch' : handle_matches m' 0 := by
      constructor
      · rw [hslot, ec, Function.update_same, hd10]; decide
      · rw [hslot, ehd, Function.update_same, hn, hseq]
    simp only [I_SoundIsPlaying]
    rw [if_pos hmatch']

/-- The channel-loop body on an active channel: the byte at the data pointer is read
and its two volume-table entries are added to the sums. -/
theorem mix_channel_sums (mem : Int → Nat) (chan : Nat) (a : ChanAcc)
    (h : a.mixer.channels chan ≠ 0) :
    (mix_channel mem chan a).dl
      = wrapInt32 (a.dl + a.mixer.vol_lookup
          (a.mixer.channelleftvol_lookup chan + ((mem (a.mixer.channels chan) % 256 : Nat) : Int))) ∧
    (mix_channel mem chan a).dr
      = wrapInt32 (a.dr + a.mixer.vol_lookup
          (a.mixer.channelrightvol_lookup chan
            + ((mem (a.mixer.channels chan) % 256 : Nat) : Int))) := by
  simp only [mix_channel]
  rw [if_pos h]
  exact ⟨rfl, rfl⟩

/-- The channel loop over channels that are all inactive does nothing. -/
theorem mix_channels_all_inactive (mem : Int → Nat) (n : Nat) :
    ∀ (chan : Nat) (a : ChanAcc),
      (∀ k, chan ≤ k → k < chan + n → a.mixer.channels k = 0) →
      mix_channels mem n chan a = a := by
  induction n with
  | zero => intro chan a _; rfl
  | succ n ih =>
    intro chan a h
    rw [mix_channels, (mix_channel_self mem chan a).1 (h chan (le_refl chan) (by omega))]
    exact ih (chan + 1) a (fun k k1 k2 => h k (by omega) (by omega))

/-- The mixer loop leaves the volume table as it is. -/
theorem mix_loop_vol_lookup {F : Type} (biquadlp_step : F → Int → F × Int) (mem : Int → Nat)
    (music_downmix : Nat → Int) (n : Nat) :
    ∀ (lo ro mb : Nat) (s : MixState F),
      (mix_loop biquadlp_step mem music_downmix n lo ro mb s).mixer.vol_lookup
        = s.mixer.vol_lookup := by
  induction n with
  | zero => intro lo ro mb s; rfl
  | succ n ih =>
    intro lo ro mb s
    rw [mix_loop]
    refine (ih _ _ _ _).trans ?_
    exact (mix_channels_fields mem NUM_CHANNELS 0 { mixer := s.mixer, dl := 0, dr := 0 }).2.2.2.2.2.2.2.2.1

/-- The read of the channel loop on an active slot `s`: the loop of a round is the
loop over the channels below `s`, the body for `s`, and the loop over the channels
above `s`; the body for `s` reads the byte at the data pointer the slot had at the
start of the round and adds its volume-table entries to the sums. -/
theorem mix_channels_read (mem : Int → Nat) (s : Nat) (hs : s < 8) (x : ChanAcc)
    (h : x.mixer.channels s ≠ 0) :
    mix_channels mem NUM_CHANNELS 0 x
      = mix_channels mem (NUM_CHANNELS - 1 - s) (s + 1)
          (mix_channel mem s (mix_channels mem s 0 x)) ∧
    (mix_channel mem s (mix_channels mem s 0 x)).dl
      = wrapInt32 ((mix_channels mem s 0 x).dl + x.mixer.vol_lookup
          (x.mixer.channelleftvol_lookup s + ((mem (x.mixer.channels s) % 256 : Nat) : Int))) ∧
    (mix_channel mem s (mix_channels mem s 0 x)).dr
      = wrapInt32 ((mix_channels mem s 0 x).dr + x.mixer.vol_lookup
          (x.mixer.channelrightvol_lookup s + ((mem (x.mixer.channels s) % 256 : Nat) : Int))) := by
  have hc : (mix_channels mem s 0 x).mixer.channels s = x.mixer.channels s :=
    (mix_channels_outside mem s 0 x s (by omega)).1
  obtain ⟨-, -, -, -, -, -, -, -, f9, f10, f11⟩ := mix_channels_fields mem s 0 x
  have hne : (mix_channels mem s 0 x).mixer.channels s ≠ 0 := by rw [hc]; exact h
  obtain ⟨g1, g2⟩ := mix_channel_sums mem s (mix_channels mem s 0 x) hne
  rw [hc, f9, f10] at g1
  rw [hc, f9, f11] at g2
  refine ⟨?_, g1, g2⟩
  have e : NUM_CHANNELS = s + ((NUM_CHANNELS - 1 - s) + 1) := by
    simp only [NUM_CHANNELS]; omega
  conv_lhs => rw [e]
  rw [mix_channels_add, mix_channels]
  simp only [Nat.zero_add]

/-- A round of the channel loop when slot `s` is the only active one: the sums of the
round are the two volume-table entries of the byte at the data pointer of `s`. -/
theorem mix_channels_single (mem : Int → Nat) (s : Nat) (hs : s < 8) (m : Mixer)
    (h : m.channels s ≠ 0) (hothers : ∀ k, k < NUM_CHANNELS → k ≠ s → m.channels k = 0) :
    (mix_channels mem NUM_CHANNELS 0 { mixer := m, dl := 0, dr := 0 }).dl
      = wrapInt32 (0 + m.vol_lookup
          (m.channelleftvol_lookup s + ((mem (m.channels s) % 256 : Nat) : Int))) ∧
    (mix_channels mem NUM_CHANNELS 0 { mixer := m, dl := 0, dr := 0 }).dr
      = wrapInt32 (0 + m.vol_lookup
          (m.channelrightvol_lookup s + ((mem (m.channels s) % 256 : Nat) : Int))) := by
  have hb : mix_channels mem s 0 { mixer := m, dl := 0, dr := 0 }
      = { mixer := m, dl := 0, dr := 0 } :=
    mix_channels_all_inactive mem s 0 _
      (fun k _ k2 => hothers k (by simp only [NUM_CHANNELS]; omega) (by omega))
  obtain ⟨e, g1, g2⟩ := mix_channels_read mem s hs { mixer := m, dl := 0, dr := 0 } h
  rw [hb] at e g1 g2
  have ha : mix_channels mem (NUM_CHANNELS - 1 - s) (s + 1)
      (mix_channel mem s { mixer := m, dl := 0, dr := 0 })
      = mix_channel mem s { mixer := m, dl := 0, dr := 0 } :=
    mix_channels_all_inactive mem _ (s + 1) _
      (fun k k1 k2 => by
        rw [(mix_channel_other mem s { mixer := m, dl := 0, dr := 0 } k (by omega)).1]
        exact hothers k (by simp only [NUM_CHANNELS] at k2 ⊢; omega) (by omega))
  rw [e, ha]
  exact ⟨g1, g2⟩

/-- The volume table of `tabled_mixer` is the one that `I_SetChannels` builds. -/
theorem tabled_mixer_vol_lookup (powstep : Int → Int) :
    tabled_mixer.vol_lookup = (I_SetChannels powstep cached_mixer).vol_lookup := by
  funext x
  simp only [tabled_mixer, I_SetChannels]
  by_cases hx : 0 ≤ x ∧ x < 32768
  · rw [if_pos hx]
    have e := vol_lookup_outer_at 128 0 cached_mixer.vol_lookup (x / 256).toNat (x % 256).toNat
      (Nat.zero_le _) (by omega) (by omega)
    have e1 : (((x / 256).toNat : Nat) : Int) = x / 256 := by omega
    have e2 : (((x % 256).toNat : Nat) : Int) = x % 256 := by omega
    rw [e1, e2] at e
    have e3 : x / 256 * 256 + x % 256 = x := by omega
    rw [e3] at e
    exact e.symm
  · rw [if_neg hx]
    rw [vol_lookup_outer_other 128 0 cached_mixer.vol_lookup x (by push_cast; omega)]
    rfl

/-! ## The claims -/

/-- Claim C1: whatever the voice table, the filter states (and whatever the filter
step computes) and the music buffer hold, `mix_samples` ends for an even, non-negative
`samples_needed` and every left and right sample it has written to the output buffer
lies in [-32768, 32767]. -/
theorem mix_samples_output_in_int16_range {F : Type} (biquadlp_step : F → Int → F × Int)
    (mem : Int → Nat) (music_downmix : Nat → Int) (s : MixState F) (samples_needed : Int)
    (h0 : 0 ≤ samples_needed) (h2 : samples_needed % 2 = 0) :
    ∃ s', mix_samples biquadlp_step mem music_downmix s samples_needed = some s' ∧
      ∀ k : Nat, (k : Int) < samples_needed →
        -32768 ≤ s'.mixbuffer k ∧ s'.mixbuffer k ≤ 32767 := by
  refine ⟨_, if_pos ⟨h0, h2⟩, ?_⟩
  intro k hk
  have := mix_loop_range biquadlp_step mem music_downmix (samples_needed / 2).toNat 0 0 s
    (fun k hk => absurd hk (Nat.not_lt_zero k)) k (by omega)
  simpa using this

/-- Witness of C1: a chunk of 4 samples mixed from the zero state with a filter that
outputs the constant 100000 and a music buffer of constant -100000. -/
theorem mix_samples_output_in_int16_range_witness :
    ((0 : Int) ≤ 4 ∧ (4 : Int) % 2 = 0) ∧
    ∃ s', mix_samples (fun (f : Unit) (_ : Int) => (f, 100000)) (fun _ => 128)
        (fun _ => -100000) ⟨Mixer.zero, (), (), fun _ => 0⟩ 4 = some s' ∧
      ∀ k : Nat, (k : Int) < 4 → -32768 ≤ s'.mixbuffer k ∧ s'.mixbuffer k ≤ 32767 :=
  ⟨by decide, mix_samples_output_in_int16_range _ _ _ _ 4 (by decide) (by decide)⟩

/-- Claim C2: after `I_SetChannels`, for every `i` in 0..127 and `j` in 0..255,
`vol_lookup[i*256+j]` is `(((i*i)>>7) * (j-128) * 256) / 127` with truncating
division, and `vol_lookup[i*256+128] = 0` for every volume `i`. -/
theorem I_SetChannels_vol_lookup_value (powstep : Int → Int) (m : Mixer) (i j : Nat)
    (hi : i < 128) (hj : j < 256) :
    (I_SetChannels powstep m).vol_lookup ((i : Int) * 256 + j)
        = Int.tdiv ((((i : Int) * (i : Int)) >>> (7 : Nat)) * ((j : Int) - 128) * 256) 127
      ∧ (I_SetChannels powstep m).vol_lookup ((i : Int) * 256 + 128) = 0 := by
  constructor
  · simp only [I_SetChannels]
    exact vol_lookup_outer_at 128 0 m.vol_lookup i j (by omega) (by omega) hj
  · have := vol_lookup_outer_at 128 0 m.vol_lookup i 128 (by omega) (by omega) (by omega)
    simp only [I_SetChannels]
    rw [show ((i : Int) * 256 + 128) = (i : Int) * 256 + ((128 : Nat) : Int) by norm_num, this]
    simp

/-- Witness of C2 at full volume 127 and sample 255. -/
theorem I_SetChannels_vol_lookup_value_witness :
    (127 < 128 ∧ 255 < 256) ∧
    ((I_SetChannels (fun _ => 0) Mixer.zero).vol_lookup (((127 : Nat) : Int) * 256 + (255 : Nat))
        = Int.tdiv ((((127 : Nat) : Int) * ((127 : Nat) : Int)) >>> (7 : Nat)
            * (((255 : Nat) : Int) - 128) * 256) 127
      ∧ (I_SetChannels (fun _ => 0) Mixer.zero).vol_lookup (((127 : Nat) : Int) * 256 + 128) = 0) :=
  ⟨by decide, I_SetChannels_vol_lookup_value (fun _ => 0) Mixer.zero 127 255 (by decide) (by decide)⟩

/-- Claim C3: for every volume in 0..127 and every separation in 0..254 the `leftvol`
and `rightvol` of the panning formula lie in 0..127; hence `addsfx_with_lock` and
`I_UpdateSoundParams` do not reach `I_Error`, and the volume-table pointers they
store address `vol_lookup[0 .. 128*256-1]` for every sample byte 0..255. -/
theorem panning_volumes_in_range (sfx : SfxEnum) (gametic : Int) (m : Mixer)
    (sfxid volume step seperation handle pitch : Int)
    (hv0 : 0 ≤ volume) (hv1 : volume ≤ 127) (hs0 : 0 ≤ seperation) (hs1 : seperation ≤ 254) :
    ((0 ≤ (stereo_volumes volume seperation).1 ∧ (stereo_volumes volume seperation).1 ≤ 127) ∧
      (0 ≤ (stereo_volumes volume seperation).2 ∧ (stereo_volumes volume seperation).2 ≤ 127)) ∧
    (∃ m' h, addsfx_with_lock sfx gametic m sfxid volume step seperation = .ok (m', h) ∧
      ∀ sample : Nat, sample < 256 →
        (0 ≤ m'.channelleftvol_lookup (addsfx_select_slot sfx gametic m sfxid).2 + sample ∧
          m'.channelleftvol_lookup (addsfx_select_slot sfx gametic m sfxid).2 + sample
            < 128 * 256) ∧
        (0 ≤ m'.channelrightvol_lookup (addsfx_select_slot sfx gametic m sfxid).2 + sample ∧
          m'.channelrightvol_lookup (addsfx_select_slot sfx gametic m sfxid).2 + sample
            < 128 * 256)) ∧
    (∃ m', I_UpdateSoundParams m handle volume seperation pitch = .ok m' ∧
      (handle_matches m handle → ∀ sample : Nat, sample < 256 →
        (0 ≤ m'.channelleftvol_lookup (handle_slot handle) + sample ∧
          m'.channelleftvol_lookup (handle_slot handle) + sample < 128 * 256) ∧
        (0 ≤ m'.channelrightvol_lookup (handle_slot handle) + sample ∧
          m'.channelrightvol_lookup (handle_slot handle) + sample < 128 * 256))) := by
  have hr := stereo_volumes_range hv0 hv1 hs0 (by omega : seperation ≤ 255)
  obtain ⟨hl, hrr⟩ := hr
  refine ⟨⟨hl, hrr⟩, ?_, ?_⟩
  · obtain ⟨m', h, hok⟩ := addsfx_with_lock_returns sfx gametic m sfxid volume step seperation
      hl hrr
    refine ⟨m', h, hok, ?_⟩
    obtain ⟨-, -, -, -, -, -, -, -, -, eL, eR, -⟩ := addsfx_with_lock_fields hok
    intro sample hs
    rw [eL, eR, Function.update_same, Function.update_same]
    omega
  · simp only [I_UpdateSoundParams]
    by_cases hm : handle_matches m handle
    · rw [if_pos hm, if_neg (by omega), if_neg (by omega)]
      refine ⟨_, rfl, ?_⟩
      intro _ sample hs
      simp only [Function.update_same]
      omega
    · rw [if_neg hm]
      exact ⟨_, rfl, fun h => absurd h hm⟩

/-- Witness of C3 at full volume and centre separation. -/
theorem panning_volumes_in_range_witness :
    ((0 : Int) ≤ 127 ∧ (127 : Int) ≤ 127 ∧ (0 : Int) ≤ 128 ∧ (128 : Int) ≤ 254) ∧
    (0 ≤ (stereo_volumes 127 128).1 ∧ (stereo_volumes 127 128).1 ≤ 127) ∧
    (0 ≤ (stereo_volumes 127 128).2 ∧ (stereo_volumes 127 128).2 ≤ 127) :=
  ⟨by decide,
    (panning_volumes_in_range sounds_h 0 cached_mixer 2 127 65536 128 0 128
      (by decide) (by decide) (by decide) (by decide)).1⟩

/-- Claim C4: for every volume in 0..127, `addsfx_with_lock` called with separation 0
returns and selects `leftvol = volume` and `rightvol = 0` (full left): the slot it
fills gets the volume tables of `volume` and of 0. -/
theorem addsfx_separation_zero_full_left (sfx : SfxEnum) (gametic : Int) (m : Mixer)
    (sfxid volume step : Int) (hv0 : 0 ≤ volume) (hv1 : volume ≤ 127) :
    stereo_volumes volume 0 = (volume, 0) ∧
    ∃ m' h, addsfx_with_lock sfx gametic m sfxid volume step 0 = .ok (m', h) ∧
      m'.channelleftvol_lookup (addsfx_select_slot sfx gametic m sfxid).2 = volume * 256 ∧
      m'.channelrightvol_lookup (addsfx_select_slot sfx gametic m sfxid).2 = 0 * 256 := by
  have e : stereo_volumes volume 0 = (volume, 0) := by
    rw [stereo_volumes_eq hv0 hv1 (le_refl 0) (by omega)]
    have q : volume * (0 - 256) * (0 - 256) = 65536 * volume := by ring
    rw [q]
    simp only [zero_add, mul_one]
    ext <;> dsimp only <;> omega
  refine ⟨e, ?_⟩
  obtain ⟨m', h, hok⟩ := addsfx_with_lock_returns sfx gametic m sfxid volume step 0
    (by rw [e]; dsimp only; omega) (by rw [e]; dsimp only; omega)
  refine ⟨m', h, hok, ?_⟩
  obtain ⟨-, -, -, -, -, -, -, -, -, eL, eR, -⟩ := addsfx_with_lock_fields hok
  rw [eL, eR, Function.update_same, Function.update_same, e]
  exact ⟨rfl, rfl⟩

/-- Witness of C4 at volume 100. -/
theorem addsfx_separation_zero_full_left_witness :
    ((0 : Int) ≤ 100 ∧ (100 : Int) ≤ 127) ∧ stereo_volumes 100 0 = (100, 0) :=
  ⟨by decide,
    (addsfx_separation_zero_full_left sounds_h 0 cached_mixer 2 100 65536
      (by decide) (by decide)).1⟩

/-- Counterexample to C5: at volume 127 and separation 254 the split gives
`leftvol = 1`, not 0, so it is not the mirror of separation 0, which gives
`(127, 0)`; `addsfx_with_lock` stores the table of volume 1 for the left side. -/
theorem separation_254_is_not_the_mirror :
    stereo_volumes 127 0 = (127, 0) ∧ stereo_volumes 127 254 = (1, 127) ∧
    (stereo_volumes 127 254).1 ≠ 0 ∧
    (stereo_volumes 127 254).1 ≠ (stereo_volumes 127 0).2 ∧
    (addsfx_with_lock sounds_h 0 cached_mixer 2 127 65536 254).toOption.map
      (fun r => (r.1.channelleftvol_lookup 0, r.1.channelrightvol_lookup 0, r.2))
      = some (1 * 256, 127 * 256, 0) := by
  decide

/-- Claim C5, amended: for every volume in 0..127, `addsfx_with_lock` called with
separation 254 returns with `rightvol = volume` and `leftvol = 1`, or `leftvol = 0`
when the volume is 0: the mirror of separation 0 up to one step of left volume. -/
theorem addsfx_separation_254_near_mirror (sfx : SfxEnum) (gametic : Int) (m : Mixer)
    (sfxid volume step : Int) (hv0 : 0 ≤ volume) (hv1 : volume ≤ 127) :
    stereo_volumes volume 254 = (if volume = 0 then 0 else 1, volume) ∧
    ∃ m' h, addsfx_with_lock sfx gametic m sfxid volume step 254 = .ok (m', h) ∧
      m'.channelleftvol_lookup (addsfx_select_slot sfx gametic m sfxid).2
        = (if volume = 0 then 0 else 1) * 256 ∧
      m'.channelrightvol_lookup (addsfx_select_slot sfx gametic m sfxid).2 = volume * 256 := by
  have e : stereo_volumes volume 254 = (if volume = 0 then 0 else 1, volume) := by
    rw [stereo_volumes_eq hv0 hv1 (by omega) (by omega)]
    have q1 : volume * (254 + 1) * (254 + 1) = 65025 * volume := by ring
    have q2 : volume * (254 - 256) * (254 - 256) = 4 * volume := by ring
    rw [q1, q2]
    ext
    · dsimp only; split <;> omega
    · dsimp only; omega
  refine ⟨e, ?_⟩
  have hl : 0 ≤ (stereo_volumes volume 254).1 ∧ (stereo_volumes volume 254).1 ≤ 127 := by
    rw [e]; dsimp only; split <;> omega
  obtain ⟨m', h, hok⟩ := addsfx_with_lock_returns sfx gametic m sfxid volume step 254
    hl (by rw [e]; dsimp only; omega)
  refine ⟨m', h, hok, ?_⟩
  obtain ⟨-, -, -, -, -, -, -, -, -, eL, eR, -⟩ := addsfx_with_lock_fields hok
  rw [eL, eR, Function.update_same, Function.update_same, e]
  exact ⟨rfl, rfl⟩

/-- Witness of amended C5 at full volume. -/
theorem addsfx_separation_254_near_mirror_witness :
    ((0 : Int) ≤ 127 ∧ (127 : Int) ≤ 127) ∧
    stereo_volumes 127 254 = (if (127 : Int) = 0 then 0 else 1, 127) :=
  ⟨by decide,
    (addsfx_separation_254_near_mirror sounds_h 0 cached_mixer 2 127 65536
      (by decide) (by decide)).1⟩

/-- Claim C6: every call of `addsfx_with_lock` in a reachable state that returns (as
every call with volume in 0..127 and separation in 0..254 does) returns a handle
whose low 3 bits are the index of the slot just filled and whose remaining bits are
`nexthandle` before the call; that value is stored in `channelhandles[slot]`, and
`nexthandle` advances by exactly 8 modulo 2^32. -/
theorem addsfx_handle_encoding (sfx : SfxEnum) (m : Mixer) (hm : Reachable sfx m)
    (gametic sfxid volume step seperation : Int) :
    (0 ≤ volume → volume ≤ 127 → 0 ≤ seperation → seperation ≤ 254 →
      ∃ m' handle, addsfx_with_lock sfx gametic m sfxid volume step seperation
        = .ok (m', handle)) ∧
    ∀ m' handle, addsfx_with_lock sfx gametic m sfxid volume step seperation
        = .ok (m', handle) →
      handle_slot handle = (addsfx_select_slot sfx gametic m sfxid).2 ∧
      handle_slot handle < 8 ∧
      m'.channels (handle_slot handle) = m.sfx_data sfxid ∧
      m'.channelids (handle_slot handle) = sfxid ∧
      handle_seq handle = m.nexthandle ∧
      m'.channelhandles (handle_slot handle) = m.nexthandle ∧
      m'.nexthandle = (m.nexthandle + 8) % 4294967296 := by
  obtain ⟨h8, hlt⟩ := hm.nexthandle_inv
  constructor
  · intro hv0 hv1 hs0 hs1
    obtain ⟨hl, hr⟩ := stereo_volumes_range hv0 hv1 hs0 (by omega : seperation ≤ 255)
    exact addsfx_with_lock_returns sfx gametic m sfxid volume step seperation hl hr
  · intro m' handle hok
    obtain ⟨eh, en, ec, -, -, -, -, ehd, eid, -⟩ := addsfx_with_lock_fields hok
    have hs := addsfx_select_slot_lt sfx gametic m sfxid
    have e1 : handle_slot handle = (addsfx_select_slot sfx gametic m sfxid).2 := by
      rw [eh]; exact handle_slot_encode h8 hlt hs
    refine ⟨e1, by omega, ?_, ?_, ?_, ?_, en⟩
    · rw [e1, ec, Function.update_same]
    · rw [e1, eid, Function.update_same]
    · rw [eh]; exact handle_seq_encode h8 hlt hs
    · rw [e1, ehd, Function.update_same]

/-- Witness of C6: sound 2 started at tic 7 on the mixer whose cache is filled. -/
theorem addsfx_handle_encoding_witness :
    Reachable sounds_h cached_mixer ∧
    ((0 : Int) ≤ 127 → (127 : Int) ≤ 127 → (0 : Int) ≤ 128 → (128 : Int) ≤ 254 →
      ∃ m' handle, addsfx_with_lock sounds_h 7 cached_mixer 2 127 65536 128
        = .ok (m', handle)) ∧
    ∀ m' handle, addsfx_with_lock sounds_h 7 cached_mixer 2 127 65536 128
        = .ok (m', handle) →
      handle_slot handle = (addsfx_select_slot sounds_h 7 cached_mixer 2).2 ∧
      handle_slot handle < 8 ∧
      m'.channels (handle_slot handle) = cached_mixer.sfx_data 2 ∧
      m'.channelids (handle_slot handle) = 2 ∧
      handle_seq handle = cached_mixer.nexthandle ∧
      m'.channelhandles (handle_slot handle) = cached_mixer.nexthandle ∧
      m'.nexthandle = (cached_mixer.nexthandle + 8) % 4294967296 :=
  ⟨cached_mixer_reachable,
    addsfx_handle_encoding sounds_h cached_mixer cached_mixer_reachable 7 2 127 65536 128⟩

/-- Claim C7: in a run of `I_StartSound` calls from a reachable state (a run that
returns a handle per call whenever the volumes and separations are in range), two
calls fewer than 2^29 allocations apart return different handles, whatever slots
they use. -/
theorem start_sound_handles_distinct (sfx : SfxEnum) (m : Mixer) (hm : Reachable sfx m)
    (calls : List StartCall) :
    ((∀ c ∈ calls, 0 ≤ c.vol ∧ c.vol ≤ 127 ∧ 0 ≤ c.sep ∧ c.sep ≤ 254) →
      ∃ m' hs, start_sounds sfx m calls = .ok (m', hs)) ∧
    ∀ m' hs, start_sounds sfx m calls = .ok (m', hs) →
      hs.length = calls.length ∧
      ∀ i j, i < j → j < hs.length → j - i < 2 ^ 29 → hs[i]? ≠ hs[j]? := by
  obtain ⟨h8, hlt⟩ := hm.nexthandle_inv
  refine ⟨start_sounds_returns sfx calls m, ?_⟩
  intro m' hs hok
  obtain ⟨hlen, hh⟩ := start_sounds_handles sfx calls m m' hs h8 hlt hok
  refine ⟨hlen, ?_⟩
  intro i j hij hj hd heq
  obtain ⟨s, hs8, ei⟩ := hh i (by omega)
  obtain ⟨t, ht8, ej⟩ := hh j hj
  rw [ei, ej, Option.some.injEq] at heq
  have ha : (m.nexthandle + 8 * i) % 4294967296 % 8 = 0 := by omega
  have hb : (m.nexthandle + 8 * j) % 4294967296 % 8 = 0 := by omega
  rw [or_slot_eq_add ha hs8, or_slot_eq_add hb ht8] at heq
  have := toInt32_injective (by omega) (by omega) heq
  norm_num at hd
  omega

/-- Witness of C7: the eight handles of `eight_calls`. -/
theorem start_sound_handles_distinct_witness :
    Reachable sounds_h cached_mixer ∧
    ((∀ c ∈ eight_calls, 0 ≤ c.vol ∧ c.vol ≤ 127 ∧ 0 ≤ c.sep ∧ c.sep ≤ 254) →
      ∃ m' hs, start_sounds sounds_h cached_mixer eight_calls = .ok (m', hs)) ∧
    ∀ m' hs, start_sounds sounds_h cached_mixer eight_calls = .ok (m', hs) →
      hs.length = eight_calls.length ∧
      ∀ i j, i < j → j < hs.length → j - i < 2 ^ 29 → hs[i]? ≠ hs[j]? :=
  ⟨cached_mixer_reachable,
    start_sound_handles_distinct sounds_h cached_mixer cached_mixer_reachable eight_calls⟩

/-- Claim C8: when `addsfx_with_lock` is called for a sound that is not
duplicate-suppressed while some slot is inactive, then, if it returns (as it does for
volume in 0..127 and separation in 0..254), the new sound is in the lowest-indexed
inactive slot `j`, and for every other slot the data pointer, end pointer, step, step
remainder, start tic, handle, id and volume tables are unchanged. -/
theorem addsfx_fills_first_free_slot (sfx : SfxEnum) (gametic : Int) (m : Mixer)
    (sfxid volume step seperation : Int)
    (hnd : ¬ is_single_sfx sfx sfxid) (hfree : ∃ i, i < 8 ∧ m.channels i = 0) :
    (0 ≤ volume → volume ≤ 127 → 0 ≤ seperation → seperation ≤ 254 →
      ∃ m' handle, addsfx_with_lock sfx gametic m sfxid volume step seperation
        = .ok (m', handle)) ∧
    ∀ m' handle, addsfx_with_lock sfx gametic m sfxid volume step seperation
        = .ok (m', handle) →
      ∃ j, j < 8 ∧ m.channels j = 0 ∧ (∀ k, k < j → m.channels k ≠ 0) ∧
        m'.channels j = m.sfx_data sfxid ∧
        m'.channelsend j = m.sfx_data sfxid + m.sfx_length sfxid ∧
        m'.channelstep j = toUInt32 step ∧
        m'.channelstepremainder j = 0 ∧
        m'.channelstart j = gametic ∧
        m'.channelids j = sfxid ∧
        m'.channelhandles j = m.nexthandle ∧
        ∀ k, k ≠ j →
          m'.channels k = m.channels k ∧ m'.channelsend k = m.channelsend k ∧
          m'.channelstep k = m.channelstep k ∧
          m'.channelstepremainder k = m.channelstepremainder k ∧
          m'.channelstart k = m.channelstart k ∧
          m'.channelhandles k = m.channelhandles k ∧
          m'.channelids k = m.channelids k ∧
          m'.channelleftvol_lookup k = m.channelleftvol_lookup k ∧
          m'.channelrightvol_lookup k = m.channelrightvol_lookup k := by
  constructor
  · intro hv0 hv1 hs0 hs1
    obtain ⟨hl, hr⟩ := stereo_volumes_range hv0 hv1 hs0 (by omega : seperation ≤ 255)
    exact addsfx_with_lock_returns sfx gametic m sfxid volume step seperation hl hr
  · intro m' handle hok
    have hj := Nat.find_spec hfree
    have hmin : ∀ k, k < Nat.find hfree → m.channels k ≠ 0 := by
      intro k hk hz
      have hk8 : k < 8 := lt_trans hk hj.1
      exact Nat.find_min hfree hk ⟨hk8, hz⟩
    have hsel : addsfx_select_slot sfx gametic m sfxid = (m, Nat.find hfree) := by
      simp only [addsfx_select_slot, if_neg hnd]
      have e := addsfx_find_oldest_first_free m NUM_CHANNELS 0 gametic 0 (Nat.find hfree)
        (Nat.zero_le _) (by simpa [NUM_CHANNELS] using hj.1) hj.2
        (fun k _ hk => hmin k hk)
      rw [e, if_neg (by simp only [NUM_CHANNELS]; omega)]
    obtain ⟨-, -, ec, ece, ecs, ecr, ect, ehd, eid, eL, eR, -⟩ := addsfx_with_lock_fields hok
    rw [hsel] at ec ece ecs ecr ect ehd eid eL eR
    dsimp only at ec ece ecs ecr ect ehd eid eL eR
    refine ⟨Nat.find hfree, hj.1, hj.2, hmin, ?_, ?_, ?_, ?_, ?_, ?_, ?_, ?_⟩
    · rw [ec, Function.update_same]
    · rw [ece, Function.update_same]
    · rw [ecs, Function.update_same]
    · rw [ecr, Function.update_same]
    · rw [ect, Function.update_same]
    · rw [eid, Function.update_same]
    · rw [ehd, Function.update_same]
    · intro k hk
      rw [ec, ece, ecs, ecr, ect, ehd, eid, eL, eR]
      simp only [Function.update_noteq hk, and_self]

/-- Witness of C8: sound 3 started on the mixer whose cache is filled and whose
channels are all free goes to slot 0. -/
theorem addsfx_fills_first_free_slot_witness :
    (¬ is_single_sfx sounds_h 3 ∧ ∃ i, i < 8 ∧ cached_mixer.channels i = 0) ∧
    ∃ m' handle, addsfx_with_lock sounds_h 7 cached_mixer 3 127 65536 128
        = .ok (m', handle) :=
  ⟨⟨by decide, 0, by decide, rfl⟩,
    (addsfx_fills_first_free_slot sounds_h 7 cached_mixer 3 127 65536 128 (by decide)
      ⟨0, by decide, rfl⟩).1 (by decide) (by decide) (by decide) (by decide)⟩

/-- Counterexample to C9. First, on `busy_mixer` all eight slots are active with
start tics 1..8 and slot 5 plays the pistol; starting the pistol again at tic 9 frees
slot 5 and puts the new sound there, though slot 0 holds the least start tic.
Second, on `late_mixer` the slots started at tics 10, 5, .., 5; a sound started at
tic 5 goes to slot 0, whose start tic 10 is not the least. -/
theorem addsfx_all_active_not_oldest :
    ((∀ i, i < 8 → busy_mixer.channels i ≠ 0) ∧
      (List.range 8).map busy_mixer.channelstart = [1, 2, 3, 4, 5, 6, 7, 8] ∧
      busy_mixer.channelids 5 = sounds_h.sfx_pistol ∧
      (addsfx_with_lock sounds_h 9 busy_mixer 1 127 65536 128).toOption.map
        (fun r => (handle_slot r.2, r.1.channelids 5, r.1.channelstart 5,
          r.1.channelids 0, r.1.channelstart 0)) = some (5, 1, 9, 2, 1) ∧
      busy_mixer.channelstart 0 < busy_mixer.channelstart 5) ∧
    ((∀ i, i < 8 → late_mixer.channels i ≠ 0) ∧
      (List.range 8).map late_mixer.channelstart = [10, 5, 5, 5, 5, 5, 5, 5] ∧
      (addsfx_with_lock sounds_h 5 late_mixer 3 127 65536 128).toOption.map
        (fun r => (handle_slot r.2, r.1.channelids 0, r.1.channelstart 0,
          r.1.channelids 1, r.1.channelstart 1)) = some (0, 3, 5, 3, 5) ∧
      late_mixer.channelstart 1 < late_mixer.channelstart 0) := by
  decide

/-- Claim C9, amended: when all 8 slots are active, the call frees none of them by
duplicate suppression (the sound is not duplicate-suppressed, or no slot plays it) and
no slot started after the current `gametic`, then `addsfx_with_lock`, if it returns
(as it does for volume in 0..127 and separation in 0..254), has put the new sound in
a slot whose `start_tic` was the minimum over all 8 slots, and the low 3 bits of the
returned handle are that slot index. -/
theorem addsfx_all_active_takes_oldest (sfx : SfxEnum) (m : Mixer) (hm : Reachable sfx m)
    (gametic sfxid volume step seperation : Int)
    (hact : ∀ i, i < 8 → m.channels i ≠ 0)
    (hkeep : is_single_sfx sfx sfxid → ∀ i, i < 8 → m.channelids i ≠ sfxid)
    (hclock : ∀ i, i < 8 → m.channelstart i ≤ gametic) :
    (0 ≤ volume → volume ≤ 127 → 0 ≤ seperation → seperation ≤ 254 →
      ∃ m' handle, addsfx_with_lock sfx gametic m sfxid volume step seperation
        = .ok (m', handle)) ∧
    ∀ m' handle, addsfx_with_lock sfx gametic m sfxid volume step seperation
        = .ok (m', handle) →
      handle_slot handle < 8 ∧
      (∀ i, i < 8 → m.channelstart (handle_slot handle) ≤ m.channelstart i) ∧
      m'.channels (handle_slot handle) = m.sfx_data sfxid ∧
      m'.channelids (handle_slot handle) = sfxid ∧
      m'.channelstart (handle_slot handle) = gametic := by
  obtain ⟨h8, hlt⟩ := hm.nexthandle_inv
  constructor
  · intro hv0 hv1 hs0 hs1
    obtain ⟨hl, hr⟩ := stereo_volumes_range hv0 hv1 hs0 (by omega : seperation ≤ 255)
    exact addsfx_with_lock_returns sfx gametic m sfxid volume step seperation hl hr
  · intro m' handle hok
    obtain ⟨eh, -, ec, -, -, -, ect, -, eid, -⟩ := addsfx_with_lock_fields hok
    have hs := addsfx_select_slot_lt sfx gametic m sfxid
    have e1 : handle_slot handle = (addsfx_select_slot sfx gametic m sfxid).2 := by
      rw [eh]; exact handle_slot_encode h8 hlt hs
    have hdup : (if is_single_sfx sfx sfxid then addsfx_stop_duplicate sfxid m NUM_CHANNELS 0
        else m) = m := by
      split
      · rename_i hsingle
        exact addsfx_stop_duplicate_no_match sfxid m NUM_CHANNELS 0
          (fun k _ hk hc => hkeep hsingle k (by simpa [NUM_CHANNELS] using hk) hc.2)
      · rfl
    obtain ⟨efull, o', ho', hmin, hcase⟩ := addsfx_find_oldest_all_active m NUM_CHANNELS 0
      gametic 0 (fun k _ hk => hact k (by simpa [NUM_CHANNELS] using hk))
    have hslot : (addsfx_select_slot sfx gametic m sfxid).2
        = (addsfx_find_oldest m NUM_CHANNELS 0 gametic 0).2 := by
      simp only [addsfx_select_slot, hdup, efull, zero_add, if_true]
    refine ⟨by omega, ?_, ?_, ?_, ?_⟩
    · intro i hi
      rw [e1, hslot]
      have hmi := hmin i (Nat.zero_le i) (by simpa [NUM_CHANNELS] using hi)
      rcases hcase with ⟨ho, hz⟩ | ⟨-, -, hmatch⟩
      · rw [hz]
        have := hclock 0 (by omega)
        omega
      · rw [hmatch]; exact hmi
    · rw [e1, ec, Function.update_same]
    · rw [e1, eid, Function.update_same]
    · rw [e1, ect, Function.update_same]

/-- Witness of amended C9: sound 3 started at tic 9 on `busy_mixer`. -/
theorem addsfx_all_active_takes_oldest_witness :
    (Reachable sounds_h busy_mixer ∧ (∀ i, i < 8 → busy_mixer.channels i ≠ 0) ∧
      (is_single_sfx sounds_h 3 → ∀ i, i < 8 → busy_mixer.channelids i ≠ 3) ∧
      (∀ i, i < 8 → busy_mixer.channelstart i ≤ 9)) ∧
    ∃ m' handle, addsfx_with_lock sounds_h 9 busy_mixer 3 127 65536 128
        = .ok (m', handle) :=
  ⟨⟨busy_mixer_reachable, by decide, by decide, by decide⟩,
    (addsfx_all_active_takes_oldest sounds_h busy_mixer busy_mixer_reachable 9 3 127 65536 128
      (by decide) (by decide) (by decide)).1 (by decide) (by decide) (by decide) (by decide)⟩

/-- Counterexample to C10: nine sounds started in a row from `cached_mixer` return
the handles 0, 9, 18, .., 63, 64; the sequence part of the ninth is 64 above that of
the first, not 72. -/
theorem ninth_handle_is_not_72_above :
    (start_sounds sounds_h cached_mixer (eight_calls ++ [ninth_call])).toOption.map Prod.snd
      = some [0, 9, 18, 27, 36, 45, 54, 63, 64] ∧
    handle_seq 0 = 0 ∧ handle_seq 64 = 64 ∧ handle_slot 64 = 0 ∧
    handle_seq 64 ≠ handle_seq 0 + 72 := by
  decide

/-- Claim C10, amended: starting nine sounds in a row with `I_StartSound` from a
reachable state, the high bits (handle with the low 3 bits cleared) of the 9th
returned handle exceed those of the 1st by exactly 8×8 = 64, modulo 2^32. -/
theorem ninth_handle_is_64_above (sfx : SfxEnum) (m : Mixer) (hm : Reachable sfx m)
    (calls : List StartCall) (hnine : calls.length = 9) :
    ((∀ c ∈ calls, 0 ≤ c.vol ∧ c.vol ≤ 127 ∧ 0 ≤ c.sep ∧ c.sep ≤ 254) →
      ∃ m' hs, start_sounds sfx m calls = .ok (m', hs)) ∧
    ∀ m' hs, start_sounds sfx m calls = .ok (m', hs) →
      ∃ first ninth, hs[0]? = some first ∧ hs[8]? = some ninth ∧
        handle_seq ninth = (handle_seq first + 64) % 4294967296 ∧
        (m.nexthandle + 64 < 4294967296 → handle_seq ninth = handle_seq first + 64) := by
  obtain ⟨h8, hlt⟩ := hm.nexthandle_inv
  refine ⟨start_sounds_returns sfx calls m, ?_⟩
  intro m' hs hok
  obtain ⟨hlen, hh⟩ := start_sounds_handles sfx calls m m' hs h8 hlt hok
  obtain ⟨s, hs8, e0⟩ := hh 0 (by omega)
  obtain ⟨t, ht8, e8⟩ := hh 8 (by omega)
  refine ⟨_, _, e0, e8, ?_⟩
  have ha : (m.nexthandle + 8 * 0) % 4294967296 % 8 = 0 := by omega
  have hb : (m.nexthandle + 8 * 8) % 4294967296 % 8 = 0 := by omega
  rw [handle_seq_encode ha (by omega) hs8, handle_seq_encode hb (by omega) ht8]
  omega

/-- Witness of amended C10: `eight_calls` followed by `ninth_call`. -/
theorem ninth_handle_is_64_above_witness :
    (Reachable sounds_h cached_mixer ∧ (eight_calls ++ [ninth_call]).length = 9) ∧
    ∃ m' hs, start_sounds sounds_h cached_mixer (eight_calls ++ [ninth_call]) = .ok (m', hs) :=
  ⟨⟨cached_mixer_reachable, by decide⟩,
    (ninth_handle_is_64_above sounds_h cached_mixer cached_mixer_reachable
      (eight_calls ++ [ninth_call]) (by decide)).1 (by decide)⟩

/-- Claim C12: if `handle` was returned by `I_StartSound` in a reachable state and no
later `I_StartSound` filled its slot, then after `I_StopSound(handle)` the data
pointer of the slot is null, `I_SoundIsPlaying(handle)` is 0, every other slot and
every other field is as before, and in each round of the next `mix_samples` call the
slot is still inactive and the channel loop gives what it gives with the body skipped
for that slot: no contribution to either sum. -/
theorem stop_sound_silences_slot (sfx : SfxEnum) (m0 m1 m : Mixer)
    (gametic id vol sep pitch priority handle : Int)
    (hm0 : Reachable sfx m0)
    (hstart : I_StartSound sfx gametic m0 id vol sep pitch priority = .ok (m1, handle))
    (hkept : SlotKept sfx (handle_slot handle) m1 m) :
    (I_StopSound m handle).channels (handle_slot handle) = 0 ∧
    I_SoundIsPlaying (I_StopSound m handle) handle = 0 ∧
    (∀ k, k ≠ handle_slot handle → (I_StopSound m handle).channels k = m.channels k) ∧
    ((I_StopSound m handle).channelsend = m.channelsend ∧
      (I_StopSound m handle).channelstep = m.channelstep ∧
      (I_StopSound m handle).channelstepremainder = m.channelstepremainder ∧
      (I_StopSound m handle).channelstart = m.channelstart ∧
      (I_StopSound m handle).channelhandles = m.channelhandles ∧
      (I_StopSound m handle).channelids = m.channelids ∧
      (I_StopSound m handle).channelleftvol_lookup = m.channelleftvol_lookup ∧
      (I_StopSound m handle).channelrightvol_lookup = m.channelrightvol_lookup ∧
      (I_StopSound m handle).nexthandle = m.nexthandle) ∧
    ∀ (F : Type) (biquadlp_step : F → Int → F × Int) (mem : Int → Nat)
      (music_downmix : Nat → Int) (st : MixState F), st.mixer = I_StopSound m handle →
      ∀ j lo ro mb : Nat,
        (mix_loop biquadlp_step mem music_downmix j lo ro mb st).mixer.channels
          (handle_slot handle) = 0 ∧
        mix_channels mem NUM_CHANNELS 0
            { mixer := (mix_loop biquadlp_step mem music_downmix j lo ro mb st).mixer,
              dl := 0, dr := 0 }
          = mix_channels mem (NUM_CHANNELS - 1 - handle_slot handle) (handle_slot handle + 1)
              (mix_channels mem (handle_slot handle) 0
                { mixer := (mix_loop biquadlp_step mem music_downmix j lo ro mb st).mixer,
                  dl := 0, dr := 0 }) := by
  obtain ⟨h8, hlt⟩ := hm0.nexthandle_inv
  simp only [I_StartSound] at hstart
  obtain ⟨eh, -, -, -, -, -, -, ehd, -⟩ := addsfx_with_lock_fields hstart
  have hs := addsfx_select_slot_lt sfx gametic m0 id
  have e1 : handle_slot handle = (addsfx_select_slot sfx gametic m0 id).2 := by
    rw [eh]; exact handle_slot_encode h8 hlt hs
  have e2 : handle_seq handle = m0.nexthandle := by
    rw [eh]; exact handle_seq_encode h8 hlt hs
  have e3 : m.channelhandles (handle_slot handle) = handle_seq handle := by
    rw [hkept.channelhandles_eq, ehd, e1, Function.update_same, e2]
  obtain ⟨f1, f2, f3, f4, f5, f6, f7, f8, f9, f10, f11, -⟩ := I_StopSound_fields m handle
  have hz : (I_StopSound m handle).channels (handle_slot handle) = 0 := by
    by_cases hmatch : handle_matches m handle
    · rw [f1 hmatch, Function.update_same]
    · rw [f2 hmatch]
      by_contra hne
      exact hmatch ⟨hne, e3⟩
  refine ⟨hz, ?_, ?_, ⟨f3, f4, f5, f6, f7, f8, f9, f10, f11⟩, ?_⟩
  · simp only [I_SoundIsPlaying]
    rw [if_neg (fun hmm => hmm.1 hz)]
  · intro k hk
    by_cases hmatch : handle_matches m handle
    · rw [f1 hmatch, Function.update_noteq hk]
    · rw [f2 hmatch]
  · intro F step mem music st hst j lo ro mb
    have hj := mix_loop_inactive step mem music (handle_slot handle) j lo ro mb st
      (by rw [hst]; exact hz)
    exact ⟨hj, (mix_channels_skip_inactive mem (handle_slot handle) (handle_slot_lt handle)
      { mixer := (mix_loop step mem music j lo ro mb st).mixer, dl := 0, dr := 0 } hj).2⟩

/-- Witness of C12: sound 2 started at tic 7 on `cached_mixer` and stopped at once. -/
theorem stop_sound_silences_slot_witness :
    ∃ m1 handle, Reachable sounds_h cached_mixer ∧
      I_StartSound sounds_h 7 cached_mixer 2 127 128 128 0 = .ok (m1, handle) ∧
      SlotKept sounds_h (handle_slot handle) m1 m1 ∧
      (I_StopSound m1 handle).channels (handle_slot handle) = 0 ∧
      I_SoundIsPlaying (I_StopSound m1 handle) handle = 0 := by
  obtain ⟨m1, handle, hok⟩ := addsfx_with_lock_returns sounds_h 7 cached_mixer 2 127
    (cached_mixer.steptable 128) 128 (by decide) (by decide)
  have h := stop_sound_silences_slot sounds_h cached_mixer m1 m1 7 2 127 128 128 0 handle
    cached_mixer_reachable hok (SlotKept.refl m1)
  exact ⟨m1, handle, cached_mixer_reachable, hok, SlotKept.refl m1, h.1, h.2.1⟩

/-- Claim C13: a stale handle is rejected without side effects. If the slot in the
low 3 bits of `handle` is inactive or stores a sequence other than the high bits of
`handle`, then `I_StopSound` leaves the mixer as it is, `I_UpdateSoundParams` returns
with the mixer as it is whatever the volume and separation are, and
`I_SoundIsPlaying` returns 0. -/
theorem stale_handle_is_ignored (m : Mixer) (handle volume seperation pitch : Int)
    (hstale : m.channels (handle_slot handle) = 0 ∨
      m.channelhandles (handle_slot handle) ≠ handle_seq handle) :
    I_StopSound m handle = m ∧
    I_UpdateSoundParams m handle volume seperation pitch = .ok m ∧
    I_SoundIsPlaying m handle = 0 := by
  have hno : ¬ handle_matches m handle := by
    intro hm
    rcases hstale with h | h
    · exact hm.1 h
    · exact h hm.2
  refine ⟨(I_StopSound_fields m handle).2.1 hno, ?_, ?_⟩
  · simp only [I_UpdateSoundParams]
    rw [if_neg hno]
  · simp only [I_SoundIsPlaying]
    rw [if_neg hno]

/-- Witness of C13: on `busy_mixer` slot 3 stores sequence 24, so handle 3 (sequence
0) is stale, also with a volume of 1000 that would be fatal for a live handle. -/
theorem stale_handle_is_ignored_witness :
    (busy_mixer.channels (handle_slot 3) = 0 ∨
      busy_mixer.channelhandles (handle_slot 3) ≠ handle_seq 3) ∧
    I_StopSound busy_mixer 3 = busy_mixer ∧
    I_UpdateSoundParams busy_mixer 3 1000 (-5) 128 = .ok busy_mixer ∧
    I_SoundIsPlaying busy_mixer 3 = 0 :=
  ⟨Or.inr (by decide), stale_handle_is_ignored busy_mixer 3 1000 (-5) 128 (Or.inr (by decide))⟩

/-- Claim C14: for a handle that still matches its slot, a returning
`I_UpdateSoundParams` (it returns for volume in 0..127 and separation in 0..254) sets
the slot's step to `steptable[pitch]` and its two volume tables to those of the new
`leftvol` and `rightvol`; the data pointer, end pointer, step remainder, start tic,
stored handle and sfx id of the slot and every field of every other slot are as
before. -/
theorem update_params_touches_step_and_volumes (m : Mixer)
    (handle volume seperation pitch : Int) (hmatch : handle_matches m handle) :
    (0 ≤ volume → volume ≤ 127 → 0 ≤ seperation → seperation ≤ 254 →
      ∃ m', I_UpdateSoundParams m handle volume seperation pitch = .ok m') ∧
    ∀ m', I_UpdateSoundParams m handle volume seperation pitch = .ok m' →
      (m'.channelstep (handle_slot handle) = toUInt32 (m.steptable pitch) ∧
        m'.channelleftvol_lookup (handle_slot handle)
          = (stereo_volumes volume seperation).1 * 256 ∧
        m'.channelrightvol_lookup (handle_slot handle)
          = (stereo_volumes volume seperation).2 * 256) ∧
      (∀ k, k ≠ handle_slot handle →
        m'.channelstep k = m.channelstep k ∧
        m'.channelleftvol_lookup k = m.channelleftvol_lookup k ∧
        m'.channelrightvol_lookup k = m.channelrightvol_lookup k) ∧
      (m'.channels = m.channels ∧ m'.channelsend = m.channelsend ∧
        m'.channelstepremainder = m.channelstepremainder ∧
        m'.channelstart = m.channelstart ∧ m'.channelhandles = m.channelhandles ∧
        m'.channelids = m.channelids ∧ m'.nexthandle = m.nexthandle) := by
  constructor
  · intro hv0 hv1 hs0 hs1
    obtain ⟨hl, hr⟩ := stereo_volumes_range hv0 hv1 hs0 (by omega : seperation ≤ 255)
    exact I_UpdateSoundParams_returns m handle volume seperation pitch hl hr
  · intro m' hok
    obtain ⟨f1, -, f3, f4, f5, f6, f7, f8, f9, -⟩ := I_UpdateSoundParams_fields hok
    obtain ⟨g1, g2, g3⟩ := f1 hmatch
    refine ⟨⟨?_, ?_, ?_⟩, ?_, ⟨f3, f4, f5, f6, f7, f8, f9⟩⟩
    · rw [g1, Function.update_same]
    · rw [g2, Function.update_same]
    · rw [g3, Function.update_same]
    · intro k hk
      rw [g1, g2, g3]
      simp only [Function.update_noteq hk, and_self]

/-- Witness of C14: handle 0 is live on `busy_mixer`. -/
theorem update_params_touches_step_and_volumes_witness :
    handle_matches busy_mixer 0 ∧
    ∃ m', I_UpdateSoundParams busy_mixer 0 64 200 140 = .ok m' :=
  ⟨by decide,
    (update_params_touches_step_and_volumes busy_mixer 0 64 200 140 (by decide)).1
      (by decide) (by decide) (by decide) (by decide)⟩

/-- Counterexample to C17: sound 3 of `empty_sound_mixer` has cached length 0, as
`getsfx` reports for a lump of 8 bytes. The voice table is within bounds before
`addsfx_with_lock` starts that sound; afterwards slot 0 is active with its data
pointer equal to its end pointer. -/
theorem addsfx_breaks_voice_bounds :
    (getsfx 512 8 (fun _ => 0) (fun _ => 0)).len = 0 ∧
    Reachable sounds_h empty_sound_mixer ∧
    VoicesInBounds empty_sound_mixer ∧
    (addsfx_with_lock sounds_h 7 empty_sound_mixer 3 127 65536 128).toOption.map
      (fun r => (r.1.channels 0, r.1.channelsend 0)) = some (4864, 4864) ∧
    ∀ m' handle, addsfx_with_lock sounds_h 7 empty_sound_mixer 3 127 65536 128
      = .ok (m', handle) → ¬ VoicesInBounds m' := by
  refine ⟨by decide, Reachable.initSound Mixer.zero _ _ Reachable.boot, ?_, by decide, ?_⟩
  · intro i _
    exact Or.inl rfl
  · intro m' handle hok hinv
    have h : (addsfx_with_lock sounds_h 7 empty_sound_mixer 3 127 65536 128).toOption.map
        (fun r => (r.1.channels 0, r.1.channelsend 0)) = some (4864, 4864) := by decide
    rw [hok] at h
    simp only [Except.toOption, Option.map_some', Option.some.injEq, Prod.mk.injEq] at h
    have := hinv 0 (by decide)
    omega

/-- Claim C17, amended: the voice-table invariant (every slot is inactive or has its
data pointer below its end pointer) is kept by `addsfx_with_lock` when the sound it
starts has a null data pointer or a cached length above 0, by `I_StopSound`, by
`I_UpdateSoundParams`, and by every round of `mix_samples`; each round even
establishes it, because a voice whose position reaches or passes the end pointer in
a round is made inactive in that round and otherwise keeps its new position (the
advance `remainder >> 18` is written `remainder / 262144`). -/
theorem voice_bounds_are_kept (sfx : SfxEnum) (m : Mixer) (hinv : VoicesInBounds m) :
    (∀ (gametic sfxid volume step seperation : Int) (m' : Mixer) (handle : Int),
      (m.sfx_data sfxid = 0 ∨ 0 < m.sfx_length sfxid) →
      addsfx_with_lock sfx gametic m sfxid volume step seperation = .ok (m', handle) →
      VoicesInBounds m') ∧
    (∀ handle : Int, VoicesInBounds (I_StopSound m handle)) ∧
    (∀ (handle volume seperation pitch : Int) (m' : Mixer),
      I_UpdateSoundParams m handle volume seperation pitch = .ok m' → VoicesInBounds m') ∧
    (∀ (mem : Int → Nat) (a : ChanAcc),
      VoicesInBounds (mix_channels mem NUM_CHANNELS 0 a).mixer ∧
      ∀ i, i < NUM_CHANNELS → a.mixer.channels i ≠ 0 →
        (a.mixer.channelsend i ≤ a.mixer.channels i
            + (((a.mixer.channelstepremainder i + a.mixer.channelstep i) % 4294967296
                / 262144 : Nat) : Int) →
          (mix_channels mem NUM_CHANNELS 0 a).mixer.channels i = 0) ∧
        (a.mixer.channels i
            + (((a.mixer.channelstepremainder i + a.mixer.channelstep i) % 4294967296
                / 262144 : Nat) : Int) < a.mixer.channelsend i →
          (mix_channels mem NUM_CHANNELS 0 a).mixer.channels i = a.mixer.channels i
            + (((a.mixer.channelstepremainder i + a.mixer.channelstep i) % 4294967296
                / 262144 : Nat) : Int))) ∧
    (∀ (F : Type) (biquadlp_step : F → Int → F × Int) (mem : Int → Nat)
      (music_downmix : Nat → Int) (st : MixState F) (n lo ro mb : Nat), st.mixer = m →
      VoicesInBounds (mix_loop biquadlp_step mem music_downmix n lo ro mb st).mixer) := by
  refine ⟨?_, ?_, ?_, ?_, ?_⟩
  · intro gametic sfxid volume step seperation m' handle hlen hok i hi
    obtain ⟨-, -, ec, ece, -⟩ := addsfx_with_lock_fields hok
    rw [ec, ece]
    by_cases his : i = (addsfx_select_slot sfx gametic m sfxid).2
    · rw [his, Function.update_same, Function.update_same]
      rcases hlen with h | h
      · exact Or.inl h
      · right; omega
    · rw [Function.update_noteq his, Function.update_noteq his]
      rcases addsfx_select_slot_channels sfx gametic m sfxid i with h | h
      · rw [h]; exact hinv i hi
      · exact Or.inl h
  · intro handle i hi
    obtain ⟨f1, f2, f3, -⟩ := I_StopSound_fields m handle
    by_cases hmatch : handle_matches m handle
    · rw [f1 hmatch, f3]
      by_cases his : i = handle_slot handle
      · rw [his, Function.update_same]; exact Or.inl rfl
      · rw [Function.update_noteq his]; exact hinv i hi
    · rw [f2 hmatch]; exact hinv i hi
  · intro handle volume seperation pitch m' hok i hi
    obtain ⟨-, -, f3, f4, -⟩ := I_UpdateSoundParams_fields hok
    rw [f3, f4]; exact hinv i hi
  · intro mem a
    refine ⟨mix_channels_in_bounds mem a, ?_⟩
    intro i hi hne
    obtain ⟨-, c1⟩ := mix_channels_inside mem NUM_CHANNELS 0 a i (Nat.zero_le i) (by omega)
    rw [(c1 hne).1, voice_advance_eq]
    dsimp only
    constructor
    · intro h; rw [if_pos h]
    · intro h; rw [if_neg (by omega)]
  · intro F step mem music st n lo ro mb hst
    exact mix_loop_in_bounds step mem music n lo ro mb st (by rw [hst]; exact hinv)

/-- Witness of amended C17: `busy_mixer`, where all eight slots are active and within
bounds. A ninth sound of cached length 256 takes slot 0 and the table is within bounds
afterwards, with all eight slots active; stopping the voice of slot 0 and updating its
parameters keep the bounds; so do a round of the channel loop and four rounds of the
mixer loop. In `ending_mixer` the voice of slot 2 reaches its end pointer in the round
and is inactive after it, while the voice of slot 3 keeps its position. The voice of
length 0 of `empty_sound_mixer`, started with its data pointer at its end pointer, is
inactive after one round. -/
theorem voice_bounds_are_kept_witness :
    VoicesInBounds busy_mixer ∧
    (∀ i, i < NUM_CHANNELS → busy_mixer.channels i ≠ 0) ∧
    (0 : Int) < busy_mixer.sfx_length 3 ∧
    (∃ m' handle, addsfx_with_lock sounds_h 9 busy_mixer 3 127 65536 128 = .ok (m', handle) ∧
      (∀ i, i < NUM_CHANNELS → m'.channels i ≠ 0) ∧ VoicesInBounds m') ∧
    (handle_matches busy_mixer 0 ∧ (I_StopSound busy_mixer 0).channels 0 = 0 ∧
      VoicesInBounds (I_StopSound busy_mixer 0)) ∧
    (∃ m', I_UpdateSoundParams busy_mixer 0 64 200 140 = .ok m' ∧ VoicesInBounds m') ∧
    VoicesInBounds
      (mix_channels (fun _ => 128) NUM_CHANNELS 0 { mixer := busy_mixer, dl := 0, dr := 0 }).mixer ∧
    VoicesInBounds
      (mix_loop (fun (f : Unit) (x : Int) => (f, x)) (fun _ => 128) (fun _ => 0) 4 0 1 0
        ⟨busy_mixer, (), (), fun _ => 0⟩).mixer ∧
    (ending_mixer.channels 2 = 5375 ∧ ending_mixer.channelsend 2 = 5376 ∧
      (mix_channels (fun _ => 128) NUM_CHANNELS 0
        { mixer := ending_mixer, dl := 0, dr := 0 }).mixer.channels 2 = 0 ∧
      (mix_channels (fun _ => 128) NUM_CHANNELS 0
        { mixer := ending_mixer, dl := 0, dr := 0 }).mixer.channels 3 = 5376) ∧
    (∃ m' handle, addsfx_with_lock sounds_h 7 empty_sound_mixer 3 127 65536 128
        = .ok (m', handle) ∧
      m'.channels 0 = 4864 ∧ m'.channelsend 0 = 4864 ∧
      (mix_channels (fun _ => 128) NUM_CHANNELS 0
        { mixer := m', dl := 0, dr := 0 }).mixer.channels 0 = 0) := by
  have hinv : VoicesInBounds busy_mixer := by
    unfold VoicesInBounds
    decide
  have T := voice_bounds_are_kept sounds_h busy_mixer hinv
  obtain ⟨t1, t2, t3, t4, t5⟩ := T
  obtain ⟨m9, h9, hok9⟩ := addsfx_with_lock_returns sounds_h 9 busy_mixer 3 127 65536 128
    (by decide) (by decide)
  have hact9 : ∀ i, i < NUM_CHANNELS → m9.channels i ≠ 0 := by
    have h : (addsfx_with_lock sounds_h 9 busy_mixer 3 127 65536 128).toOption.map
        (fun r => decide (∀ i, i < NUM_CHANNELS → r.1.channels i ≠ 0)) = some true := by
      decide
    rw [hok9] at h
    simp only [Except.toOption, Option.map_some', Option.some.injEq, decide_eq_true_eq] at h
    exact h
  obtain ⟨mu, hoku⟩ := I_UpdateSoundParams_returns busy_mixer 0 64 200 140 (by decide) (by decide)
  obtain ⟨m0, h0, hok0⟩ := addsfx_with_lock_returns sounds_h 7 empty_sound_mixer 3 127 65536 128
    (by decide) (by decide)
  have hz : (addsfx_with_lock sounds_h 7 empty_sound_mixer 3 127 65536 128).toOption.map
      (fun r => (r.1.channels 0, r.1.channelsend 0, r.1.channelstepremainder 0,
        r.1.channelstep 0)) = some (4864, 4864, 0, 65536) := by
    decide
  rw [hok0] at hz
  simp only [Except.toOption, Option.map_some', Option.some.injEq, Prod.mk.injEq] at hz
  obtain ⟨z1, z2, z3, z4⟩ := hz
  refine ⟨hinv, by decide, by decide, ⟨m9, h9, hok9, hact9, ?_⟩, ⟨by decide, by decide, t2 0⟩,
    ⟨mu, hoku, t3 0 64 200 140 mu hoku⟩, (t4 (fun _ => 128) _).1,
    t5 Unit (fun f x => (f, x)) (fun _ => 128) (fun _ => 0) ⟨busy_mixer, (), (), fun _ => 0⟩
      4 0 1 0 rfl, ⟨by decide, by decide, ?_, ?_⟩, ⟨m0, h0, hok0, z1, z2, ?_⟩⟩
  · exact t1 9 3 127 65536 128 m9 h9 (Or.inr (by decide)) hok9
  · exact ((t4 (fun _ => 128) { mixer := ending_mixer, dl := 0, dr := 0 }).2 2 (by decide)
      (by decide)).1 (by decide)
  · exact (((t4 (fun _ => 128) { mixer := ending_mixer, dl := 0, dr := 0 }).2 3 (by decide)
      (by decide)).2 (by decide)).trans (by decide)
  · refine ((t4 (fun _ => 128) { mixer := m0, dl := 0, dr := 0 }).2 0 (by decide) ?_).1 ?_
    · show m0.channels 0 ≠ 0
      rw [z1]; decide
    · show m0.channelsend 0 ≤ m0.channels 0
        + (((m0.channelstepremainder 0 + m0.channelstep 0) % 4294967296 / 262144 : Nat) : Int)
      rw [z1, z2, z3, z4]; decide

/-- Claim C18: a voice started by `addsfx_with_lock` with step 65536 on a sound at a
valid address with cached length `L > 0` is, after `n` rounds of the mixer loop, at
sample `n / 4` of the sound for every `n < 4 L`, so it is active through the first
`4 L - 1` rounds; after `4 L` rounds, and from then on, it is inactive. The byte read
in round `n` (counted from 0), the round that produces output frame `n`, is sample
`floor(n / 4)`: that round is one more round from the state after `n` rounds, its
channel loop runs the body for the slot of the voice between the channels below and
above it, and the body adds to the two sums the volume-table entries of the byte at
`sfx_data + n / 4`, taken at the left and right volumes of the start call; when no
other slot is active these entries are the sums of the round. -/
theorem voice_lasts_four_rounds_per_sample (sfx : SfxEnum) (gametic : Int) (m m1 : Mixer)
    (sfxid volume seperation handle : Int)
    (hstart : addsfx_with_lock sfx gametic m sfxid volume 65536 seperation = .ok (m1, handle))
    (hp : 0 < m.sfx_data sfxid) (hlen : 0 < m.sfx_length sfxid) :
    ∀ (F : Type) (biquadlp_step : F → Int → F × Int) (mem : Int → Nat)
      (music_downmix : Nat → Int) (st : MixState F) (n lo ro mb : Nat), st.mixer = m1 →
      ((n : Int) < 4 * m.sfx_length sfxid →
        (mix_loop biquadlp_step mem music_downmix n lo ro mb st).mixer.channels
            (addsfx_select_slot sfx gametic m sfxid).2
          = m.sfx_data sfxid + ((n / 4 : Nat) : Int) ∧
        (mix_loop biquadlp_step mem music_downmix n lo ro mb st).mixer.channels
            (addsfx_select_slot sfx gametic m sfxid).2 ≠ 0 ∧
        mem ((mix_loop biquadlp_step mem music_downmix n lo ro mb st).mixer.channels
            (addsfx_select_slot sfx gametic m sfxid).2)
          = mem (m.sfx_data sfxid + ((n / 4 : Nat) : Int)) ∧
        mix_loop biquadlp_step mem music_downmix (n + 1) lo ro mb st
          = mix_loop biquadlp_step mem music_downmix 1 (lo + 2 * n) (ro + 2 * n) (mb + 2 * n)
              (mix_loop biquadlp_step mem music_downmix n lo ro mb st) ∧
        mix_channels mem NUM_CHANNELS 0
            { mixer := (mix_loop biquadlp_step mem music_downmix n lo ro mb st).mixer,
              dl := 0, dr := 0 }
          = mix_channels mem (NUM_CHANNELS - 1 - (addsfx_select_slot sfx gametic m sfxid).2)
              ((addsfx_select_slot sfx gametic m sfxid).2 + 1)
              (mix_channel mem (addsfx_select_slot sfx gametic m sfxid).2
                (mix_channels mem (addsfx_select_slot sfx gametic m sfxid).2 0
                  { mixer := (mix_loop biquadlp_step mem music_downmix n lo ro mb st).mixer,
                    dl := 0, dr := 0 })) ∧
        (mix_channel mem (addsfx_select_slot sfx gametic m sfxid).2
            (mix_channels mem (addsfx_select_slot sfx gametic m sfxid).2 0
              { mixer := (mix_loop biquadlp_step mem music_downmix n lo ro mb st).mixer,
                dl := 0, dr := 0 })).dl
          = wrapInt32
              ((mix_channels mem (addsfx_select_slot sfx gametic m sfxid).2 0
                { mixer := (mix_loop biquadlp_step mem music_downmix n lo ro mb st).mixer,
                  dl := 0, dr := 0 }).dl
                + m.vol_lookup ((stereo_volumes volume seperation).1 * 256
                    + ((mem (m.sfx_data sfxid + ((n / 4 : Nat) : Int)) % 256 : Nat) : Int))) ∧
        (mix_channel mem (addsfx_select_slot sfx gametic m sfxid).2
            (mix_channels mem (addsfx_select_slot sfx gametic m sfxid).2 0
              { mixer := (mix_loop biquadlp_step mem music_downmix n lo ro mb st).mixer,
                dl := 0, dr := 0 })).dr
          = wrapInt32
              ((mix_channels mem (addsfx_select_slot sfx gametic m sfxid).2 0
                { mixer := (mix_loop biquadlp_step mem music_downmix n lo ro mb st).mixer,
                  dl := 0, dr := 0 }).dr
                + m.vol_lookup ((stereo_volumes volume seperation).2 * 256
                    + ((mem (m.sfx_data sfxid + ((n / 4 : Nat) : Int)) % 256 : Nat) : Int))) ∧
        ((∀ k, k < NUM_CHANNELS → k ≠ (addsfx_select_slot sfx gametic m sfxid).2 →
            m1.channels k = 0) →
          (mix_channels mem NUM_CHANNELS 0
              { mixer := (mix_loop biquadlp_step mem music_downmix n lo ro mb st).mixer,
                dl := 0, dr := 0 }).dl
            = wrapInt32 (0 + m.vol_lookup ((stereo_volumes volume seperation).1 * 256
                + ((mem (m.sfx_data sfxid + ((n / 4 : Nat) : Int)) % 256 : Nat) : Int))) ∧
          (mix_channels mem NUM_CHANNELS 0
              { mixer := (mix_loop biquadlp_step mem music_downmix n lo ro mb st).mixer,
                dl := 0, dr := 0 }).dr
            = wrapInt32 (0 + m.vol_lookup ((stereo_volumes volume seperation).2 * 256
                + ((mem (m.sfx_data sfxid + ((n / 4 : Nat) : Int)) % 256 : Nat) : Int))))) ∧
      (4 * m.sfx_length sfxid ≤ (n : Int) →
        (mix_loop biquadlp_step mem music_downmix n lo ro mb st).mixer.channels
            (addsfx_select_slot sfx gametic m sfxid).2 = 0) := by
  intro F step mem music st n lo ro mb hst
  obtain ⟨-, -, ec, ece, ecs, ecr, -, -, -, el, er, -, -, -, ev⟩ :=
    addsfx_with_lock_fields hstart
  have hs := addsfx_select_slot_lt sfx gametic m sfxid
  have key := mix_loop_unit_step step mem music (addsfx_select_slot sfx gametic m sfxid).2
    (m.sfx_data sfxid) (m.sfx_length sfxid) hs hp n 0 lo ro mb st (by omega)
    (by rw [hst, ec, Function.update_same]; simp)
    (by rw [hst, ecr, Function.update_same])
    (by rw [hst, ecs, Function.update_same]; decide)
    (by rw [hst, ece, Function.update_same])
  simp only [Nat.zero_add] at key
  constructor
  · intro hn
    rw [if_pos hn] at key
    have hne : (mix_loop step mem music n lo ro mb st).mixer.channels
        (addsfx_select_slot sfx gametic m sfxid).2 ≠ 0 := by
      rw [key]; omega
    have hvol : (mix_loop step mem music n lo ro mb st).mixer.vol_lookup = m.vol_lookup := by
      rw [mix_loop_vol_lookup, hst, ev]
    obtain ⟨-, -, -, -, -, fl, fr⟩ := mix_loop_fields step mem music n lo ro mb st
    have hl : (mix_loop step mem music n lo ro mb st).mixer.channelleftvol_lookup
        (addsfx_select_slot sfx gametic m sfxid).2 = (stereo_volumes volume seperation).1 * 256 := by
      rw [fl, hst, el, Function.update_same]
    have hr : (mix_loop step mem music n lo ro mb st).mixer.channelrightvol_lookup
        (addsfx_select_slot sfx gametic m sfxid).2 = (stereo_volumes volume seperation).2 * 256 := by
      rw [fr, hst, er, Function.update_same]
    obtain ⟨r1, r2, r3⟩ := mix_channels_read mem (addsfx_select_slot sfx gametic m sfxid).2 hs
      { mixer := (mix_loop step mem music n lo ro mb st).mixer, dl := 0, dr := 0 } hne
    dsimp only at r2 r3
    rw [hvol, hl, key] at r2
    rw [hvol, hr, key] at r3
    refine ⟨key, hne, by rw [key], ?_, r1, r2, r3, ?_⟩
    · have e := mix_loop_add step mem music n 1 lo ro mb st
      exact e
    · intro hothers
      obtain ⟨q1, q2⟩ := mix_channels_single mem (addsfx_select_slot sfx gametic m sfxid).2 hs
        (mix_loop step mem music n lo ro mb st).mixer hne
        (fun k k1 k2 => mix_loop_inactive step mem music k n lo ro mb st
          (by rw [hst]; exact hothers k k1 k2))
      rw [hvol, hl, key] at q1
      rw [hvol, hr, key] at q2
      exact ⟨q1, q2⟩
  · intro hn
    rw [if_neg (by omega)] at key
    exact key

/-- Witness of C18: sound 2 of `tabled_mixer`, 256 bytes at address 4608, started at
volume 127 and separation 128 (left volume 95, right volume 96) as the only voice. It
is at its last sample after 1023 rounds and inactive after 1024. Over `ramp_mem` the
round 5 reads sample 1, the byte 1, whose table entries -17920 and -18432 are the sums
of that round; and the first five output frames, with a filter that passes its input
and silent music, hold the entries of sample 0 four times and then those of sample 1. -/
theorem voice_lasts_four_rounds_per_sample_witness :
    ∃ m1 handle, addsfx_with_lock sounds_h 7 tabled_mixer 2 127 65536 128 = .ok (m1, handle) ∧
      (0 : Int) < tabled_mixer.sfx_data 2 ∧ (0 : Int) < tabled_mixer.sfx_length 2 ∧
      (mix_loop (fun (f : Unit) (x : Int) => (f, x)) ramp_mem (fun _ => 0) 1023 0 1 0
          ⟨m1, (), (), fun _ => 0⟩).mixer.channels
          (addsfx_select_slot sounds_h 7 tabled_mixer 2).2
        = tabled_mixer.sfx_data 2 + ((1023 / 4 : Nat) : Int) ∧
      (mix_loop (fun (f : Unit) (x : Int) => (f, x)) ramp_mem (fun _ => 0) 1024 0 1 0
          ⟨m1, (), (), fun _ => 0⟩).mixer.channels
          (addsfx_select_slot sounds_h 7 tabled_mixer 2).2 = 0 ∧
      (mix_channels ramp_mem NUM_CHANNELS 0
          { mixer := (mix_loop (fun (f : Unit) (x : Int) => (f, x)) ramp_mem (fun _ => 0) 5 0 1 0
              ⟨m1, (), (), fun _ => 0⟩).mixer,
            dl := 0, dr := 0 }).dl = -17920 ∧
      (mix_channels ramp_mem NUM_CHANNELS 0
          { mixer := (mix_loop (fun (f : Unit) (x : Int) => (f, x)) ramp_mem (fun _ => 0) 5 0 1 0
              ⟨m1, (), (), fun _ => 0⟩).mixer,
            dl := 0, dr := 0 }).dr = -18432 ∧
      (List.range 10).map
        (mix_loop (fun (f : Unit) (x : Int) => (f, x)) ramp_mem (fun _ => 0) 5 0 1 0
          ⟨m1, (), (), fun _ => 0⟩).mixbuffer
        = [-18061, -18577, -18061, -18577, -18061, -18577, -18061, -18577, -17920, -18432] := by
  obtain ⟨m1, handle, hok⟩ := addsfx_with_lock_returns sounds_h 7 tabled_mixer 2 127 65536 128
    (by decide) (by decide)
  have hothers : ∀ k, k < NUM_CHANNELS → k ≠ (addsfx_select_slot sounds_h 7 tabled_mixer 2).2 →
      m1.channels k = 0 := by
    intro k _ hk
    rw [(addsfx_with_lock_fields hok).2.2.1, Function.update_noteq hk]
    rcases addsfx_select_slot_channels sounds_h 7 tabled_mixer 2 k with h | h
    · rw [h]; rfl
    · exact h
  have hbuf : (addsfx_with_lock sounds_h 7 tabled_mixer 2 127 65536 128).toOption.map
      (fun r => (List.range 10).map
        (mix_loop (fun (f : Unit) (x : Int) => (f, x)) ramp_mem (fun _ => 0) 5 0 1 0
          ⟨r.1, (), (), fun _ => 0⟩).mixbuffer)
      = some [-18061, -18577, -18061, -18577, -18061, -18577, -18061, -18577, -17920, -18432] := by
    decide
  rw [hok] at hbuf
  simp only [Except.toOption, Option.map_some', Option.some.injEq] at hbuf
  have T := fun n => voice_lasts_four_rounds_per_sample sounds_h 7 tabled_mixer m1 2 127 128
    handle hok (by decide) (by decide) Unit (fun f x => (f, x)) ramp_mem (fun _ => 0)
    ⟨m1, (), (), fun _ => 0⟩ n 0 1 0 rfl
  obtain ⟨-, -, -, -, -, -, -, t5⟩ := (T 5).1 (by decide)
  exact ⟨m1, handle, hok, by decide, by decide, ((T 1023).1 (by decide)).1,
    (T 1024).2 (by decide), (t5 hothers).1.trans (by decide), (t5 hothers).2.trans (by decide),
    hbuf⟩

/-- Claim C15: for every `v` in 0..127 `I_SetMusicVolume(v)` stores `((v+2)^2) >> 7`,
which is 0 for `v = 0`; and whenever the stored music volume is 0, `mix_music` fills
the whole music chunk, `2 * frames` samples, with zeros, whatever the driver state is
(also with a song playing). -/
theorem music_volume_zero_gives_silence {D : Type} (ops : MusDriverOps D) (mu : Music D) :
    (∀ v : Int, 0 ≤ v → v ≤ 127 →
      I_SetMusicVolume mu v = .ok { mu with music_volume := ((v + 2) ^ 2) >>> (7 : Nat) }) ∧
    I_SetMusicVolume mu 0 = .ok { mu with music_volume := 0 } ∧
    (∀ frames : Int, 0 ≤ frames → frames < 2147483648 → mu.music_volume = 0 →
      ∀ k : Nat, (k : Int) < 2 * frames → (mix_music ops mu frames).music_downmix k = 0) := by
  refine ⟨?_, ?_, ?_⟩
  · intro v h0 h1
    rw [I_SetMusicVolume_value mu v h0 h1, shiftRight_seven]
  · rw [I_SetMusicVolume_value mu 0 (le_refl 0) (by omega)]
    rfl
  · intro frames h0 h1 hvol k hk
    exact mix_music_zero_volume ops mu frames h0 h1 hvol k hk

/-- Witness of C15: `playing_music`, a song playing with the buffer full of the sample
1000; volume 0 is stored as 0 and the next chunk of 512 frames is all zeros. -/
theorem music_volume_zero_gives_silence_witness :
    I_SetMusicVolume playing_music 0 = .ok { playing_music with music_volume := 0 } ∧
    ∀ k : Nat, (k : Int) < 2 * 512 →
      (mix_music flag_driver { playing_music with music_volume := 0 } 512).music_downmix k = 0 :=
  ⟨(music_volume_zero_gives_silence flag_driver playing_music).2.1,
    (music_volume_zero_gives_silence flag_driver { playing_music with music_volume := 0 }).2.2
      512 (by decide) (by decide) rfl⟩

/-- Counterexample to C16: for the requested volumes 126 and 127 `I_SetMusicVolume`
stores 128 and 130, both above 127; with 130 stored, the gain that `mix_music` hands
to `musdriver_generate` is 260/127, above 2. -/
theorem music_volume_exceeds_127 :
    (I_SetMusicVolume probe_music 126).toOption.map (fun mu => mu.music_volume) = some 128 ∧
    (I_SetMusicVolume probe_music 127).toOption.map (fun mu => mu.music_volume) = some 130 ∧
    (127 : Int) < 130 ∧
    (∀ mu', I_SetMusicVolume probe_music 127 = .ok mu' →
      (mix_music probe_driver mu' 512).music_driver = 260 / 127) ∧
    (2 : ℚ) < 260 / 127 := by
  refine ⟨by decide, by decide, by decide, ?_, by norm_num⟩
  intro mu' hok
  rw [I_SetMusicVolume_value probe_music 127 (by decide) (by decide)] at hok
  simp only [Except.ok.injEq] at hok
  subst hok
  simp only [mix_music, probe_music, probe_driver, music_gain]
  norm_num

/-- Claim C16, amended: for every requested volume `v` in 0..127 the music volume
that `I_SetMusicVolume` stores lies in 0..130; it is at most 127 exactly when
`v ≤ 125`. Hence the gain `musvol*2/127` that `mix_music` hands to
`musdriver_generate` never exceeds 260/127, about 2.047. -/
theorem music_volume_at_most_130 {D : Type} (mu : Music D) (v : Int) (h0 : 0 ≤ v)
    (h1 : v ≤ 127) :
    ∃ mu', I_SetMusicVolume mu v = .ok mu' ∧
      0 ≤ mu'.music_volume ∧ mu'.music_volume ≤ 130 ∧
      (mu'.music_volume ≤ 127 ↔ v ≤ 125) ∧
      music_gain mu'.music_volume ≤ 260 / 127 := by
  have hsq : (v + 2) ^ 2 ≤ 16641 := by nlinarith
  have hsq0 : 0 ≤ (v + 2) ^ 2 := by positivity
  have hbig : 126 ≤ v → 16384 ≤ (v + 2) ^ 2 := by intro h; nlinarith
  have hsmall : v ≤ 125 → (v + 2) ^ 2 < 16384 := by intro h; nlinarith
  refine ⟨_, I_SetMusicVolume_value mu v h0 h1, ?_, ?_, ?_, ?_⟩
  · show 0 ≤ (v + 2) ^ 2 / 128
    omega
  · show (v + 2) ^ 2 / 128 ≤ 130
    omega
  · show (v + 2) ^ 2 / 128 ≤ 127 ↔ v ≤ 125
    constructor
    · intro h
      by_contra hc
      have := hbig (by omega)
      omega
    · intro h
      have := hsmall h
      omega
  · show music_gain ((v + 2) ^ 2 / 128) ≤ 260 / 127
    have hle : (v + 2) ^ 2 / 128 ≤ 130 := by omega
    have hq : (((v + 2) ^ 2 / 128 : Int) : ℚ) ≤ 130 := by exact_mod_cast hle
    unfold music_gain
    linarith

/-- Witness of amended C16 at full volume. -/
theorem music_volume_at_most_130_witness :
    ((0 : Int) ≤ 127 ∧ (127 : Int) ≤ 127) ∧
    ∃ mu', I_SetMusicVolume probe_music 127 = .ok mu' ∧
      0 ≤ mu'.music_volume ∧ mu'.music_volume ≤ 130 ∧
      (mu'.music_volume ≤ 127 ↔ (127 : Int) ≤ 125) ∧
      music_gain mu'.music_volume ≤ 260 / 127 :=
  ⟨by decide, music_volume_at_most_130 probe_music 127 (by decide) (by decide)⟩

/-- Counterexample to C20: with `mix_max_frames = 512`, a call for 4096 bytes (1024
frames) returns with the buffer as it was handed in, the sample 7 everywhere, not
silence. -/
theorem oversize_callback_is_not_silence :
    (512 : Int) < 4096 / 4 ∧
    (mix_callback (fun (f : Unit) (x : Int) => (f, x)) flag_driver (fun _ => 128)
        stale_audio 4096).map
      (fun s => (s.mix.mixbuffer 0, s.mix.mixbuffer 1, s.mix.mixbuffer 2047)) = some (7, 7, 7) := by
  decide

/-- Claim C20, amended: when `mix_callback` is invoked with a buffer whose frame
count (`byte_size / 4`) exceeds `mix_max_frames`, it returns at once: every sample of
the supplied buffer keeps the value it had on entry, and no voice, filter or music
state is advanced. -/
theorem oversize_callback_changes_nothing {F D : Type} (biquadlp_step : F → Int → F × Int)
    (ops : MusDriverOps D) (mem : Int → Nat) (s : AudioState F D) (buffer_size : Int)
    (h0 : 0 ≤ buffer_size) (h1 : buffer_size < 2147483648)
    (hbig : (s.mix_max_frames : Int) < buffer_size / 4) :
    mix_callback biquadlp_step ops mem s buffer_size = some s := by
  have e1 : toSizeT buffer_size / 2 = (buffer_size / 2).toNat := by
    unfold toSizeT; omega
  have e2 : toInt32 ((buffer_size / 2).toNat) = buffer_size / 2 := by
    unfold toInt32
    rw [wrapInt32_of_range (by omega) (by omega)]
    omega
  have e3 : Int.tdiv (buffer_size / 2) ((MIX_CHANNELS : Nat) : Int) = buffer_size / 4 := by
    rw [Int.tdiv_eq_ediv (by omega) (by simp [MIX_CHANNELS])]
    simp only [MIX_CHANNELS]
    omega
  have hc : toSizeT (Int.tdiv (toInt32 (toSizeT buffer_size / 2)) ((MIX_CHANNELS : Nat) : Int))
      > s.mix_max_frames := by
    rw [e1, e2, e3]
    unfold toSizeT
    omega
  unfold mix_callback
  exact if_pos hc

/-- Witness of amended C20: the call of the counterexample. -/
theorem oversize_callback_changes_nothing_witness :
    ((0 : Int) ≤ 4096 ∧ (4096 : Int) < 2147483648 ∧
      (stale_audio.mix_max_frames : Int) < 4096 / 4) ∧
    mix_callback (fun (f : Unit) (x : Int) => (f, x)) flag_driver (fun _ => 128)
      stale_audio 4096 = some stale_audio :=
  ⟨by decide, oversize_callback_changes_nothing _ flag_driver _ stale_audio 4096
    (by decide) (by decide) (by decide)⟩

/-- Claim C19: for a lump of `size ≥ 8` bytes and a chunk size `m = mix_max_frames > 0`
whose padded block (the padded length and the 8 header bytes) fits in the `int` that
holds its size, `getsfx` reports a padded length
that is the smallest multiple of `m` that is at least `size - 8`; byte `k` of the
returned sample data (`paddedsfx + 8`) is byte `k + 8` of the lump for
`k < size - 8`, and 128 from index `size - 8` up to the padded length. -/
theorem getsfx_pads_to_chunk_multiple (m : Nat) (size : Int) (sfx block : Int → Nat)
    (h8 : 8 ≤ size) (hm : 0 < m) (hmt : m < 18446744073709551616)
    (hfit : (size - 8 + ((m : Int) - 1)) / m * m + 8 < 2147483648) :
    ((getsfx m size sfx block).len % m = 0 ∧ size - 8 ≤ (getsfx m size sfx block).len ∧
      ∀ k : Int, k % m = 0 → size - 8 ≤ k → (getsfx m size sfx block).len ≤ k) ∧
    (∀ k : Int, 0 ≤ k → k < size - 8 →
      (getsfx m size sfx block).paddedsfx (k + 8) = sfx (k + 8)) ∧
    (∀ k : Int, size - 8 ≤ k → k < (getsfx m size sfx block).len →
      (getsfx m size sfx block).paddedsfx (k + 8) = 128) := by
  have hmi : (0 : Int) < m := by exact_mod_cast hm
  have hlen := getsfx_len m size sfx block h8 hm hmt (by omega)
  obtain ⟨r1, r2, r3⟩ := round_up_multiple (size - 8) m hmi
  have hpad : (getsfx m size sfx block).paddedsfx
      = getsfx_pad_loop (wrapInt32 ((getsfx m size sfx block).len + 8) - size).toNat size
          (memcpy_bytes block sfx (toSizeT size)) := by
    simp only [getsfx]
  have hw : wrapInt32 ((getsfx m size sfx block).len + 8) = (getsfx m size sfx block).len + 8 := by
    rw [hlen]
    exact wrapInt32_of_range (by omega) hfit
  refine ⟨⟨by rw [hlen]; exact r1, by rw [hlen]; exact r2, by rw [hlen]; exact r3⟩, ?_, ?_⟩
  · intro k hk0 hk
    rw [hpad, getsfx_pad_loop_spec, if_neg (by omega)]
    simp only [memcpy_bytes]
    rw [if_pos (by unfold toSizeT; omega)]
  · intro k hk0 hk
    rw [hpad, getsfx_pad_loop_spec, hw, if_pos (by omega)]

/-- Witness of C19: a lump of 1008 bytes, 1000 samples, with chunks of 512 frames is
padded to 1024 samples. -/
theorem getsfx_pads_to_chunk_multiple_witness :
    ((8 : Int) ≤ 1008 ∧ 0 < 512 ∧ 512 < 18446744073709551616 ∧
      ((1008 : Int) - 8 + (((512 : Nat) : Int) - 1)) / ((512 : Nat) : Int) * ((512 : Nat) : Int) + 8
        < 2147483648) ∧
    (getsfx 512 1008 (fun i => (i % 256).toNat) (fun _ => 0)).len = 1024 ∧
    (getsfx 512 1008 (fun i => (i % 256).toNat) (fun _ => 0)).paddedsfx (999 + 8) = 239 ∧
    (getsfx 512 1008 (fun i => (i % 256).toNat) (fun _ => 0)).paddedsfx (1000 + 8) = 128 := by
  have h := getsfx_pads_to_chunk_multiple 512 1008 (fun i => (i % 256).toNat) (fun _ => 0)
    (by decide) (by decide) (by decide) (by decide)
  refine ⟨by decide, by decide, ?_, ?_⟩
  · rw [h.2.1 999 (by decide) (by decide)]; decide
  · exact h.2.2 1000 (by decide) (by decide)

/-- Claim C11 (counterexample): `wrapped_mixer` is reached by starting the chainsaw
(`sfx_sawup`, handle 0) and then starting and stopping another sound 2^29 - 1 times
while the chainsaw keeps playing, which brings the 32-bit handle counter back to 0.
Exactly one active voice plays the chainsaw there, yet starting the chainsaw again
returns the handle 0 a second time and `I_SoundIsPlaying` of the earlier handle 0 is
1 afterwards: the new handle does not differ and the earlier one is not stale. -/
theorem dedup_handle_repeats_after_wrap :
    (start_sounds sounds_h cached_mixer [saw_call]).toOption.map Prod.snd = some [0] ∧
    Reachable sounds_h wrapped_mixer ∧ is_single_sfx sounds_h 10 ∧
    (∀ i j, i < 8 → j < 8 → (wrapped_mixer.channels i ≠ 0 ∧ wrapped_mixer.channelids i = 10) →
      (wrapped_mixer.channels j ≠ 0 ∧ wrapped_mixer.channelids j = 10) → i = j) ∧
    I_SoundIsPlaying wrapped_mixer 0 = 1 ∧ wrapped_mixer.channelids (handle_slot 0) = 10 ∧
    (∃ m' handle, addsfx_with_lock sounds_h 0 wrapped_mixer 10 127 65536 128
      = .ok (m', handle)) ∧
    ∀ m' handle, addsfx_with_lock sounds_h 0 wrapped_mixer 10 127 65536 128
      = .ok (m', handle) → handle = 0 ∧ I_SoundIsPlaying m' 0 = 1 :=
  ⟨by decide, wrapped_mixer_facts.1, by decide,
    restart_at_wrapped_counter wrapped_mixer wrapped_mixer_facts⟩

/-- Claim C11 (amended): in a reachable state where the sample data of a
duplicate-suppressed sound (sawup, sawidl, sawful, sawhit, stnmov, pistol) is cached
and at most one active voice plays it, `addsfx_with_lock` with that sound returns for
in-range volume and separation, and whenever it returns exactly one active voice plays
the sound afterwards; for every earlier handle that was playing the sound and whose
sequence differs from the current value of the handle counter (the counter has not
wrapped round to it), the returned handle differs from the earlier one and
`I_SoundIsPlaying` of the earlier handle is 0. -/
theorem dedup_restart_makes_earlier_handle_stale (sfx : SfxEnum) (m : Mixer)
    (hm : Reachable sfx m) (gametic sfxid volume step seperation : Int)
    (hsingle : is_single_sfx sfx sfxid) (hdata : m.sfx_data sfxid ≠ 0)
    (hone : ∀ i j, i < 8 → j < 8 → (m.channels i ≠ 0 ∧ m.channelids i = sfxid) →
      (m.channels j ≠ 0 ∧ m.channelids j = sfxid) → i = j) :
    (0 ≤ volume → volume ≤ 127 → 0 ≤ seperation → seperation ≤ 254 →
      ∃ m' handle,
        addsfx_with_lock sfx gametic m sfxid volume step seperation = .ok (m', handle)) ∧
    ∀ m' handle,
      addsfx_with_lock sfx gametic m sfxid volume step seperation = .ok (m', handle) →
      (∃ i, i < 8 ∧ (m'.channels i ≠ 0 ∧ m'.channelids i = sfxid) ∧
        ∀ j, j < 8 → (m'.channels j ≠ 0 ∧ m'.channelids j = sfxid) → j = i) ∧
      ∀ earlier : Int, handle_matches m earlier →
        m.channelids (handle_slot earlier) = sfxid → handle_seq earlier ≠ m.nexthandle →
        handle ≠ earlier ∧ I_SoundIsPlaying m' earlier = 0 := by
  constructor
  · intro hv0 hv1 hs0 hs1
    obtain ⟨hl, hr⟩ := stereo_volumes_range hv0 hv1 hs0 (by omega : seperation ≤ 255)
    exact addsfx_with_lock_returns sfx gametic m sfxid volume step seperation hl hr
  · intro m' handle hok
    obtain ⟨h8, hlt⟩ := hm.nexthandle_inv
    obtain ⟨eh, -, ec, -, -, -, -, ehd, eid, -⟩ := addsfx_with_lock_fields hok
    obtain ⟨d1, d2⟩ := addsfx_select_slot_dedup sfx gametic m sfxid hsingle hone
    have hs := addsfx_select_slot_lt sfx gametic m sfxid
    generalize addsfx_select_slot sfx gametic m sfxid = sel at eh ec ehd eid d1 d2 hs
    constructor
    · refine ⟨sel.2, hs, ⟨?_, ?_⟩, ?_⟩
      · rw [ec, Function.update_same]; exact hdata
      · rw [eid, Function.update_same]
      · intro j hj hji
        obtain ⟨hc, hi⟩ := hji
        by_contra hne
        rw [ec, Function.update_noteq hne] at hc
        rw [eid, Function.update_noteq hne] at hi
        exact d1 j hj hc hi
    · intro earlier hmatch hid hseq
      constructor
      · intro he
        apply hseq
        rw [← he, eh]
        exact handle_seq_encode h8 hlt hs
      · have hfree := d2 (handle_slot earlier) (handle_slot_lt earlier) hmatch.1 hid
        simp only [I_SoundIsPlaying]
        rw [if_neg]
        intro hm'
        obtain ⟨c1, c2⟩ := hm'
        by_cases hse : handle_slot earlier = sel.2
        · rw [ehd, hse, Function.update_same] at c2
          exact hseq c2.symm
        · rw [ec, Function.update_noteq hse] at c1
          exact c1 hfree

/-- Witness of C11: `saw_mixer`, where slot 0 plays the chainsaw under handle 0 and
the counter is at 8, restarted with the chainsaw at full volume and centre
separation. -/
theorem dedup_restart_makes_earlier_handle_stale_witness :
    (Reachable sounds_h saw_mixer ∧ is_single_sfx sounds_h 10 ∧ saw_mixer.sfx_data 10 ≠ 0 ∧
      ∀ i j, i < 8 → j < 8 → (saw_mixer.channels i ≠ 0 ∧ saw_mixer.channelids i = 10) →
        (saw_mixer.channels j ≠ 0 ∧ saw_mixer.channelids j = 10) → i = j) ∧
    (((0 : Int) ≤ 127 → (127 : Int) ≤ 127 → (0 : Int) ≤ 128 → (128 : Int) ≤ 254 →
      ∃ m' handle, addsfx_with_lock sounds_h 1 saw_mixer 10 127 65536 128 = .ok (m', handle)) ∧
    ∀ m' handle, addsfx_with_lock sounds_h 1 saw_mixer 10 127 65536 128 = .ok (m', handle) →
      (∃ i, i < 8 ∧ (m'.channels i ≠ 0 ∧ m'.channelids i = 10) ∧
        ∀ j, j < 8 → (m'.channels j ≠ 0 ∧ m'.channelids j = 10) → j = i) ∧
      ∀ earlier : Int, handle_matches saw_mixer earlier →
        saw_mixer.channelids (handle_slot earlier) = 10 →
        handle_seq earlier ≠ saw_mixer.nexthandle →
        handle ≠ earlier ∧ I_SoundIsPlaying m' earlier = 0) :=
  have hzero : ∀ i, i < 8 → saw_mixer.channels i ≠ 0 → i = 0 := by decide
  have hone : ∀ i j, i < 8 → j < 8 → (saw_mixer.channels i ≠ 0 ∧ saw_mixer.channelids i = 10) →
      (saw_mixer.channels j ≠ 0 ∧ saw_mixer.channelids j = 10) → i = j :=
    fun i j hi hj h1 h2 => (hzero i hi h1.1).trans (hzero j hj h2.1).symm
  ⟨⟨saw_mixer_reachable, by decide, by decide, hone⟩,
    dedup_restart_makes_earlier_handle_stale sounds_h saw_mixer saw_mixer_reachable 1 10 127
      65536 128 (by decide) (by decide) hone⟩

/-- Counterexample to C22: the game registers the song at 8192, plays it and stops it
(`playing_music` is the state while it plays). The last registered song pointer is
still non-null and the mixer has not reported that song as finished, yet
`I_QrySongPlaying` returns 0. -/
theorem stopped_song_is_not_playing :
    playing_music.last_registered_song = 8192 ∧ playing_music.started_playing = 1 ∧
    I_QrySongPlaying playing_music 1 = 1 ∧
    (I_StopSong playing_music 1).last_registered_song ≠ 0 ∧
    (I_StopSong playing_music 1).music_finished ≠ (I_StopSong playing_music 1).last_registered_song ∧
    I_QrySongPlaying (I_UnRegisterSong (I_StopSong playing_music 1) 1) 1 = 0 := by
  decide

/-- Claim C22, amended: `I_QrySongPlaying` returns 1 if and only if `started_playing`
is set and `music_finished` differs from the last registered song pointer, and 0
otherwise. `started_playing` is set by an `I_PlaySong` that finds a registered song,
cleared by `I_StopSong`, and left alone by `I_RegisterSong`, `I_UnRegisterSong`,
`I_PauseSong` and `I_ResumeSong`. -/
theorem song_playing_iff_started_and_not_finished {D : Type} (mu : Music D) (handle : Int) :
    (I_QrySongPlaying mu handle = 1 ↔
      (mu.started_playing ≠ 0 ∧ mu.music_finished ≠ mu.last_registered_song)) ∧
    (I_QrySongPlaying mu handle = 0 ∨ I_QrySongPlaying mu handle = 1) ∧
    (∀ loop : Int, mu.last_registered_song ≠ 0 → (I_PlaySong mu handle loop).started_playing = 1) ∧
    (∀ loop : Int, mu.last_registered_song = 0 →
      (I_PlaySong mu handle loop).started_playing = mu.started_playing) ∧
    (I_StopSong mu handle).started_playing = 0 ∧
    (∀ data : Int, (I_RegisterSong mu data).1.started_playing = mu.started_playing) ∧
    (I_UnRegisterSong mu handle).started_playing = mu.started_playing ∧
    (I_PauseSong mu handle).started_playing = mu.started_playing ∧
    (I_ResumeSong mu handle).started_playing = mu.started_playing := by
  refine ⟨?_, ?_, ?_, ?_, rfl, fun _ => rfl, rfl, rfl, rfl⟩
  · unfold I_QrySongPlaying
    constructor
    · intro h
      by_contra hc
      rw [if_neg hc] at h
      exact absurd h (by decide)
    · intro h
      rw [if_pos h]
  · unfold I_QrySongPlaying
    split
    · exact Or.inr rfl
    · exact Or.inl rfl
  · intro loop h
    simp only [I_PlaySong, if_pos h]
  · intro loop h
    simp only [I_PlaySong, h, ne_eq, not_true_eq_false, if_false]

/-- Witness of amended C22: the song of `playing_music` is registered and started. -/
theorem song_playing_iff_started_and_not_finished_witness :
    playing_music.last_registered_song ≠ 0 ∧
    (I_PlaySong playing_music 1 1).started_playing = 1 :=
  ⟨by decide,
    (song_playing_iff_started_and_not_finished playing_music 1).2.2.1 1 (by decide)⟩

end ISound

namespace LittleMUS

open ISound (wrapInt32 toUInt32 toInt32)

/-! ## Auxiliary lemmas about the player and the driver -/

/-- The channel loop of `musplay_start` leaves the entries outside its range alone
and sets the three fields of those inside. -/
theorem start_channels_loop_spec (n : Nat) :
    ∀ (m : Nat) (c : Nat → mus_channel_t) (k : Nat),
      start_channels_loop n m c k
        = if m ≤ k ∧ k < m + n then
            { c k with last_vol := 0, ins := 0, pan_bits := opl3_pan_centre }
          else c k := by
  induction n with
  | zero =>
    intro m c k
    rw [start_channels_loop, if_neg (by omega)]
  | succ n ih =>
    intro m c k
    rw [start_channels_loop, ih]
    by_cases hk : k = m
    · subst hk
      rw [if_neg (by omega), if_pos (by omega), Function.update_same]
    · rw [Function.update_noteq hk]
      by_cases h : m + 1 ≤ k ∧ k < m + 1 + n
      · rw [if_pos h, if_pos (by omega)]
      · rw [if_neg h, if_neg (by omega)]

/-- The voice loop of `musplay_start` leaves the entries outside its range alone and
sets the three fields of those inside. -/
theorem start_voices_loop_spec (n : Nat) :
    ∀ (h : Nat) (v : Nat → mus_hw_voice_t) (k : Nat),
      start_voices_loop n h v k
        = if h ≤ k ∧ k < h + n then
            { v k with noteid := -1, mus_ch := toUInt8 (-1), ins_sel := -1 }
          else v k := by
  induction n with
  | zero =>
    intro h v k
    rw [start_voices_loop, if_neg (by omega)]
  | succ n ih =>
    intro h v k
    rw [start_voices_loop, ih]
    by_cases hk : k = h
    · subst hk
      rw [if_neg (by omega), if_pos (by omega), Function.update_same]
    · rw [Function.update_noteq hk]
      by_cases hh : h + 1 ≤ k ∧ k < h + 1 + n
      · rw [if_pos hh, if_pos (by omega)]
      · rw [if_neg hh, if_neg (by omega)]

/-- Register writes change nothing but the device. -/
theorem clear_regs_loop_fields {W : Type} (aw : W → Int → Int → W) (n : Nat) :
    ∀ (reg : Int) (mp : musplayer_t W),
      (clear_regs_loop aw n reg mp).loop_score = mp.loop_score ∧
      (clear_regs_loop aw n reg mp).score = mp.score ∧
      (clear_regs_loop aw n reg mp).delay = mp.delay ∧
      (clear_regs_loop aw n reg mp).mus_time = mp.mus_time ∧
      (clear_regs_loop aw n reg mp).next_keyon_seq = mp.next_keyon_seq ∧
      (clear_regs_loop aw n reg mp).main_att = mp.main_att ∧
      (clear_regs_loop aw n reg mp).channels = mp.channels ∧
      (clear_regs_loop aw n reg mp).hw_voices = mp.hw_voices ∧
      (clear_regs_loop aw n reg mp).op2bank = mp.op2bank := by
  induction n with
  | zero => intro reg mp; simp [clear_regs_loop]
  | succ n ih =>
    intro reg mp
    rw [clear_regs_loop]
    obtain ⟨h1, h2, h3, h4, h5, h6, h7, h8, h9⟩ := ih (reg + 1) (adlib_write aw mp reg 0)
    rw [h1, h2, h3, h4, h5, h6, h7, h8, h9]
    simp [adlib_write]

/-- The fields of the player after `musplay_start`, the device apart. -/
theorem musplay_start_fields {W : Type} (aw : W → Int → Int → W) (mem : Int → Nat)
    (mp : musplayer_t W) (data loop : Int) :
    (musplay_start aw mem mp data loop).score = data + MUS_header_scoreStart mem data ∧
    (musplay_start aw mem mp data loop).loop_score
      = (if loop ≠ 0 then data + MUS_header_scoreStart mem data else 0) ∧
    (musplay_start aw mem mp data loop).delay = 0 ∧
    (musplay_start aw mem mp data loop).mus_time = mp.mus_time ∧
    (musplay_start aw mem mp data loop).next_keyon_seq = mp.next_keyon_seq ∧
    (musplay_start aw mem mp data loop).main_att = mp.main_att ∧
    (musplay_start aw mem mp data loop).op2bank = mp.op2bank ∧
    (∀ m, m < 16 → (musplay_start aw mem mp data loop).channels m
      = { mus_channel_t.zero with pan_bits := opl3_pan_centre }) ∧
    (∀ h, h < 18 → (musplay_start aw mem mp data loop).hw_voices h
      = { mus_hw_voice_t.zero with noteid := -1, mus_ch := 255, ins_sel := -1 }) := by
  simp only [musplay_start, adlib_write]
  refine ⟨?_, ?_, ?_, ?_, ?_, ?_, ?_, ?_, ?_⟩
  · exact (clear_regs_loop_fields aw _ _ _).2.1
  · exact (clear_regs_loop_fields aw _ _ _).1
  · exact (clear_regs_loop_fields aw _ _ _).2.2.1
  · exact (clear_regs_loop_fields aw _ _ _).2.2.2.1
  · exact (clear_regs_loop_fields aw _ _ _).2.2.2.2.1
  · exact (clear_regs_loop_fields aw _ _ _).2.2.2.2.2.1
  · exact (clear_regs_loop_fields aw _ _ _).2.2.2.2.2.2.2.2
  · intro m hm
    rw [(clear_regs_loop_fields aw _ _ _).2.2.2.2.2.2.1]
    simp only [start_channels_loop_spec, mus_num_channels]
    rw [if_pos (by omega), if_pos hm]
    rfl
  · intro h hh
    rw [(clear_regs_loop_fields aw _ _ _).2.2.2.2.2.2.2.1]
    simp only [start_voices_loop_spec, mus_num_voices]
    rw [if_pos (by omega), if_pos hh]
    rfl

/-- The loop of `choose_hw_voice` returns at the first voice that is keyed on with
the same note of the same channel, whatever the voices after it hold. -/
theorem choose_hw_voice_scan_match {W : Type} (mp : musplayer_t W) (ins_sel mus_ch noteid : Int)
    (n : Nat) :
    ∀ (i j : Nat) (a : VoiceScan), i ≤ j → j < i + n →
      (0 ≤ (mp.hw_voices j).noteid ∧ (mp.hw_voices j).noteid = noteid
        ∧ ((mp.hw_voices j).mus_ch : Int) = mus_ch) →
      (∀ k, i ≤ k → k < j →
        ¬ (0 ≤ (mp.hw_voices k).noteid ∧ (mp.hw_voices k).noteid = noteid
          ∧ ((mp.hw_voices k).mus_ch : Int) = mus_ch)) →
      (choose_hw_voice_scan mp ins_sel mus_ch noteid n i a).1 = some j := by
  induction n with
  | zero => intro i j a h1 h2; omega
  | succ n ih =>
    intro i j a h1 h2 hj hbefore
    rw [choose_hw_voice_scan]
    by_cases hij : j = i
    · subst hij
      simp only
      rw [if_neg (by omega), if_pos ⟨hj.2.1, hj.2.2⟩]
    · have hi := hbefore i (le_refl i) (by omega)
      simp only
      split
      · exact ih (i + 1) j _ (by omega) (by omega) hj (fun k hk1 hk2 => hbefore k (by omega) hk2)
      · rename_i hneg
        rw [if_neg (fun h => hi ⟨by omega, h.1, h.2⟩)]
        exact ih (i + 1) j _ (by omega) (by omega) hj (fun k hk1 hk2 => hbefore k (by omega) hk2)

/-- One round of the scan keeps `FirstOldest`, for a voice that satisfies `p` and is
taken when its sequence number is below the best so far. -/
theorem FirstOldest.step_in {p : Nat → Prop} {seq : Nat → Int} {i : Nat} {best best_seq : Int}
    (h : FirstOldest p seq i best best_seq) (hp : p i) :
    FirstOldest p seq (i + 1) (if seq i < best_seq then (i : Int) else best)
      (if seq i < best_seq then seq i else best_seq) := by
  by_cases hlt : seq i < best_seq
  · rw [if_pos hlt, if_pos hlt]
    right
    rcases h with ⟨h1, h2, h3⟩ | ⟨h1, h2, h3, h4, h5, h6, h7⟩
    · refine ⟨by omega, by simp, by simpa using hp, by simp, by omega, ?_, ?_⟩
      · intro j hj hpj
        by_cases hji : j = i
        · rw [hji]
        · have := h3 j (by omega) hpj
          omega
      · intro j hj hpj
        simp only [Int.toNat_ofNat] at hj
        have := h3 j hj hpj
        omega
    · refine ⟨by omega, by simp, by simpa using hp, by simp, by omega, ?_, ?_⟩
      · intro j hj hpj
        by_cases hji : j = i
        · rw [hji]
        · have := h6 j (by omega) hpj
          omega
      · intro j hj hpj
        simp only [Int.toNat_ofNat] at hj
        have := h6 j hj hpj
        omega
  · rw [if_neg hlt, if_neg hlt]
    rcases h with ⟨h1, h2, h3⟩ | ⟨h1, h2, h3, h4, h5, h6, h7⟩
    · left
      refine ⟨h1, h2, ?_⟩
      intro j hj hpj
      by_cases hji : j = i
      · rw [hji]; omega
      · exact h3 j (by omega) hpj
    · right
      refine ⟨h1, by omega, h3, h4, h5, ?_, h7⟩
      intro j hj hpj
      by_cases hji : j = i
      · rw [hji]; omega
      · exact h6 j (by omega) hpj

/-- One round of the scan keeps `FirstOldest` when the voice does not satisfy `p` and
the locals are left alone. -/
theorem FirstOldest.step_out {p : Nat → Prop} {seq : Nat → Int} {i : Nat} {best best_seq : Int}
    (h : FirstOldest p seq i best best_seq) (hp : ¬ p i) :
    FirstOldest p seq (i + 1) best best_seq := by
  rcases h with ⟨h1, h2, h3⟩ | ⟨h1, h2, h3, h4, h5, h6, h7⟩
  · left
    refine ⟨h1, h2, ?_⟩
    intro j hj hpj
    by_cases hji : j = i
    · rw [hji] at hpj; exact absurd hpj hp
    · exact h3 j (by omega) hpj
  · right
    refine ⟨h1, by omega, h3, h4, h5, ?_, h7⟩
    intro j hj hpj
    by_cases hji : j = i
    · rw [hji] at hpj; exact absurd hpj hp
    · exact h6 j (by omega) hpj

/-- One round of the scan keeps `OldestOverall`. -/
theorem OldestOverall.step {seq : Nat → Int} {i oldest : Nat} {oldest_seq : Int}
    (h : OldestOverall seq i oldest oldest_seq) :
    OldestOverall seq (i + 1) (if seq i < oldest_seq then i else oldest)
      (if seq i < oldest_seq then seq i else oldest_seq) := by
  by_cases hlt : seq i < oldest_seq
  · rw [if_pos hlt, if_pos hlt]
    right
    rcases h with ⟨h1, h2, h3⟩ | ⟨h1, h2, h3, h4, h5⟩
    · refine ⟨by omega, rfl, by omega, ?_, ?_⟩
      · intro j hj
        by_cases hji : j = i
        · rw [hji]
        · have := h3 j (by omega)
          omega
      · intro j hj
        have := h3 j hj
        omega
    · refine ⟨by omega, rfl, by omega, ?_, ?_⟩
      · intro j hj
        by_cases hji : j = i
        · rw [hji]
        · have := h4 j (by omega)
          omega
      · intro j hj
        have := h4 j hj
        omega
  · rw [if_neg hlt, if_neg hlt]
    rcases h with ⟨h1, h2, h3⟩ | ⟨h1, h2, h3, h4, h5⟩
    · left
      refine ⟨h1, h2, ?_⟩
      intro j hj
      by_cases hji : j = i
      · rw [hji]; omega
      · exact h3 j (by omega)
    · right
      refine ⟨by omega, h2, h3, ?_, h5⟩
      intro j hj
      by_cases hji : j = i
      · rw [hji]; omega
      · exact h4 j (by omega)

/-- Where no voice is keyed on with the incoming note, the loop of `choose_hw_voice`
runs to the end and its three pairs of locals name the first oldest voice of their
kind: keyed off, keyed off with the selector `ins_sel` loaded, and any. -/
theorem choose_hw_voice_scan_no_match {W : Type} (mp : musplayer_t W)
    (ins_sel mus_ch noteid : Int) (n : Nat) :
    ∀ (i : Nat) (a : VoiceScan),
      (∀ k, i ≤ k → k < i + n →
        ¬ (0 ≤ (mp.hw_voices k).noteid ∧ (mp.hw_voices k).noteid = noteid
          ∧ ((mp.hw_voices k).mus_ch : Int) = mus_ch)) →
      FirstOldest (fun k => (mp.hw_voices k).noteid < 0) (fun k => (mp.hw_voices k).seq) i
        a.oldest_koff a.oldest_koff_seq →
      FirstOldest (fun k => (mp.hw_voices k).noteid < 0 ∧ (mp.hw_voices k).ins_sel = ins_sel)
        (fun k => (mp.hw_voices k).seq) i a.oldest_reuse a.oldest_reuse_seq →
      OldestOverall (fun k => (mp.hw_voices k).seq) i a.oldest a.oldest_seq →
      ∃ a', choose_hw_voice_scan mp ins_sel mus_ch noteid n i a = (none, a') ∧
        FirstOldest (fun k => (mp.hw_voices k).noteid < 0) (fun k => (mp.hw_voices k).seq)
          (i + n) a'.oldest_koff a'.oldest_koff_seq ∧
        FirstOldest (fun k => (mp.hw_voices k).noteid < 0 ∧ (mp.hw_voices k).ins_sel = ins_sel)
          (fun k => (mp.hw_voices k).seq) (i + n) a'.oldest_reuse a'.oldest_reuse_seq ∧
        OldestOverall (fun k => (mp.hw_voices k).seq) (i + n) a'.oldest a'.oldest_seq := by
  induction n with
  | zero =>
    intro i a _ h1 h2 h3
    exact ⟨a, rfl, h1, h2, h3⟩
  | succ n ih =>
    intro i a hno h1 h2 h3
    have hi := hno i (le_refl i) (by omega)
    have hrest : ∀ k, i + 1 ≤ k → k < i + 1 + n →
        ¬ (0 ≤ (mp.hw_voices k).noteid ∧ (mp.hw_voices k).noteid = noteid
          ∧ ((mp.hw_voices k).mus_ch : Int) = mus_ch) :=
      fun k hk1 hk2 => hno k (by omega) (by omega)
    have e : i + (n + 1) = i + 1 + n := by omega
    rw [e, choose_hw_voice_scan]
    have h3' := h3.step
    by_cases hk : (mp.hw_voices i).noteid < 0
    · simp only [if_pos hk]
      have h1' := h1.step_in (p := fun k => (mp.hw_voices k).noteid < 0) hk
      by_cases hs : (mp.hw_voices i).ins_sel = ins_sel
      · have h2' := h2.step_in
          (p := fun k => (mp.hw_voices k).noteid < 0 ∧ (mp.hw_voices k).ins_sel = ins_sel) ⟨hk, hs⟩
        apply ih (i + 1) _ hrest
        · by_cases c : (mp.hw_voices i).seq < a.oldest_koff_seq <;>
            by_cases c2 : (mp.hw_voices i).seq < a.oldest_seq <;>
            by_cases c3 : (mp.hw_voices i).seq < a.oldest_reuse_seq <;>
            simpa [c, c2, c3, hs] using h1'
        · by_cases c : (mp.hw_voices i).seq < a.oldest_koff_seq <;>
            by_cases c2 : (mp.hw_voices i).seq < a.oldest_seq <;>
            by_cases c3 : (mp.hw_voices i).seq < a.oldest_reuse_seq <;>
            simpa [c, c2, c3, hs] using h2'
        · by_cases c : (mp.hw_voices i).seq < a.oldest_koff_seq <;>
            by_cases c2 : (mp.hw_voices i).seq < a.oldest_seq <;>
            by_cases c3 : (mp.hw_voices i).seq < a.oldest_reuse_seq <;>
            simpa [c, c2, c3, hs] using h3'
      · have h2' := h2.step_out
          (p := fun k => (mp.hw_voices k).noteid < 0 ∧ (mp.hw_voices k).ins_sel = ins_sel)
          (fun h => hs h.2)
        apply ih (i + 1) _ hrest
        · by_cases c : (mp.hw_voices i).seq < a.oldest_koff_seq <;>
            by_cases c2 : (mp.hw_voices i).seq < a.oldest_seq <;>
            simpa [c, c2, hs] using h1'
        · by_cases c : (mp.hw_voices i).seq < a.oldest_koff_seq <;>
            by_cases c2 : (mp.hw_voices i).seq < a.oldest_seq <;>
            simpa [c, c2, hs] using h2'
        · by_cases c : (mp.hw_voices i).seq < a.oldest_koff_seq <;>
            by_cases c2 : (mp.hw_voices i).seq < a.oldest_seq <;>
            simpa [c, c2, hs] using h3'
    · simp only [if_neg hk]
      rw [if_neg (fun h => hi ⟨by omega, h.1, h.2⟩)]
      have h1' := h1.step_out (p := fun k => (mp.hw_voices k).noteid < 0) hk
      have h2' := h2.step_out
        (p := fun k => (mp.hw_voices k).noteid < 0 ∧ (mp.hw_voices k).ins_sel = ins_sel)
        (fun h => hk h.1)
      apply ih (i + 1) _ hrest
      · by_cases c2 : (mp.hw_voices i).seq < a.oldest_seq <;> simpa [c2] using h1'
      · by_cases c2 : (mp.hw_voices i).seq < a.oldest_seq <;> simpa [c2] using h2'
      · by_cases c2 : (mp.hw_voices i).seq < a.oldest_seq <;> simpa [c2] using h3'

/-- A player differs from itself in nothing. -/
theorem VoicesOnly.refl {W : Type} (mp : musplayer_t W) : VoicesOnly mp mp :=
  ⟨rfl, rfl, rfl, rfl, rfl, rfl, rfl, rfl⟩

/-- The relation `VoicesOnly` composes. -/
theorem VoicesOnly.trans {W : Type} {a b c : musplayer_t W} (h1 : VoicesOnly a b)
    (h2 : VoicesOnly b c) : VoicesOnly a c := by
  obtain ⟨a1, a2, a3, a4, a5, a6, a7, a8⟩ := h1
  obtain ⟨b1, b2, b3, b4, b5, b6, b7, b8⟩ := h2
  exact ⟨b1.trans a1, b2.trans a2, b3.trans a3, b4.trans a4, b5.trans a5, b6.trans a6,
    b7.trans a7, b8.trans a8⟩

/-- A register write changes the device only. -/
theorem adlib_write_voicesOnly {W : Type} (aw : W → Int → Int → W) (mp : musplayer_t W)
    (reg val : Int) : VoicesOnly mp (adlib_write aw mp reg val) :=
  ⟨rfl, rfl, rfl, rfl, rfl, rfl, rfl, rfl⟩

/-- What `key_off_hw` does: nothing to a voice that is keyed off; for a voice that is
keyed on, one register write, `noteid = -1` and the release time, nothing else. -/
theorem key_off_hw_spec {W : Type} (aw : W → Int → Int → W) (mp : musplayer_t W) (h : Nat) :
    ((mp.hw_voices h).noteid < 0 → key_off_hw aw mp h = mp) ∧
    (0 ≤ (mp.hw_voices h).noteid →
      key_off_hw aw mp h =
        { mp with
          dev := aw mp.dev (hw_reg h 0xb0 (hw_chan h))
            ((((mp.hw_voices h).hw_cmd >>> 8) &&& 0xdf : Nat) : Int)
          hw_voices := Function.update mp.hw_voices h
            { mp.hw_voices h with noteid := -1, release := wrapInt32 (mp.mus_time + 4) } }) := by
  constructor
  · intro hn
    unfold key_off_hw
    rw [if_neg (by omega)]
  · intro hn
    unfold key_off_hw
    rw [if_pos (by omega)]
    rfl

/-- The fields of the player after `key_off_hw`. -/
theorem key_off_hw_fields {W : Type} (aw : W → Int → Int → W) (mp : musplayer_t W) (h : Nat) :
    VoicesOnly mp (key_off_hw aw mp h) ∧
    (key_off_hw aw mp h).next_keyon_seq = mp.next_keyon_seq ∧
    (∀ k, k ≠ h → (key_off_hw aw mp h).hw_voices k = mp.hw_voices k) ∧
    ((key_off_hw aw mp h).hw_voices h).noteid
      = (if 0 ≤ (mp.hw_voices h).noteid then -1 else (mp.hw_voices h).noteid) ∧
    ((key_off_hw aw mp h).hw_voices h).seq = (mp.hw_voices h).seq ∧
    ((key_off_hw aw mp h).hw_voices h).mus_ch = (mp.hw_voices h).mus_ch ∧
    ((key_off_hw aw mp h).hw_voices h).ins_sel = (mp.hw_voices h).ins_sel ∧
    ((key_off_hw aw mp h).hw_voices h).lvl1 = (mp.hw_voices h).lvl1 ∧
    ((key_off_hw aw mp h).hw_voices h).lvl2 = (mp.hw_voices h).lvl2 ∧
    ((key_off_hw aw mp h).hw_voices h).feedback = (mp.hw_voices h).feedback := by
  by_cases hn : 0 ≤ (mp.hw_voices h).noteid
  · rw [(key_off_hw_spec aw mp h).2 hn, if_pos hn]
    refine ⟨⟨rfl, rfl, rfl, rfl, rfl, rfl, rfl, rfl⟩, rfl, ?_, ?_, ?_, ?_, ?_, ?_, ?_, ?_⟩
    · intro k hk
      exact Function.update_noteq hk _ _
    all_goals simp [Function.update_same]
  · rw [(key_off_hw_spec aw mp h).1 (by omega), if_neg hn]
    exact ⟨VoicesOnly.refl mp, rfl, fun _ _ => rfl, rfl, rfl, rfl, rfl, rfl, rfl, rfl⟩

/-- In every case the voice is keyed off after `key_off_hw`. -/
theorem key_off_hw_noteid_neg {W : Type} (aw : W → Int → Int → W) (mp : musplayer_t W) (h : Nat) :
    ((key_off_hw aw mp h).hw_voices h).noteid < 0 := by
  rw [(key_off_hw_fields aw mp h).2.2.2.1]
  split <;> omega

/-- The three level writes change the device only. -/
theorem write_levels_fields {W : Type} (aw : W → Int → Int → W) (mp : musplayer_t W) (h : Nat)
    (v_att pan_bits : Int) :
    VoicesOnly mp (write_levels aw mp h v_att pan_bits) ∧
    (write_levels aw mp h v_att pan_bits).next_keyon_seq = mp.next_keyon_seq ∧
    (write_levels aw mp h v_att pan_bits).hw_voices = mp.hw_voices := by
  unfold VoicesOnly
  simp only [write_levels, adlib_write, and_self]

/-- The ten writes of `load_hw_instrument` change the device only. -/
theorem load_hw_writes_fields {W : Type} (aw : W → Int → Int → W) (mp : musplayer_t W) (h : Nat)
    (v : MUS_voice) :
    VoicesOnly mp (load_hw_writes aw mp h v) ∧
    (load_hw_writes aw mp h v).next_keyon_seq = mp.next_keyon_seq ∧
    (load_hw_writes aw mp h v).hw_voices = mp.hw_voices := by
  unfold VoicesOnly
  simp only [load_hw_writes, adlib_write, and_self]

/-- The voice after the assignments of `load_hw_instrument`: the playing note stays,
the selector is stored, both levels are at most 63. -/
theorem loaded_voice_fields (hw : mus_hw_voice_t) (inn : MUS_instrument) (v : MUS_voice)
    (vi ins_sel : Int) :
    (loaded_voice hw inn v vi ins_sel).seq = hw.seq ∧
    (loaded_voice hw inn v vi ins_sel).release = hw.release ∧
    (loaded_voice hw inn v vi ins_sel).noteid = hw.noteid ∧
    (loaded_voice hw inn v vi ins_sel).note_att = hw.note_att ∧
    (loaded_voice hw inn v vi ins_sel).hw_cmd = hw.hw_cmd ∧
    (loaded_voice hw inn v vi ins_sel).p_note = hw.p_note ∧
    (loaded_voice hw inn v vi ins_sel).mus_ch = hw.mus_ch ∧
    (loaded_voice hw inn v vi ins_sel).ins_sel = toInt16 ins_sel ∧
    (loaded_voice hw inn v vi ins_sel).lvl1 ≤ 63 ∧
    (loaded_voice hw inn v vi ins_sel).lvl2 ≤ 63 := by
  unfold loaded_voice
  by_cases h1 : 63 < v.modLevel <;> by_cases h2 : 63 < v.carLevel <;>
    simp [h1, h2] <;> omega

/-- The fields of the player after a returning `load_hw_instrument`: only the
instrument part of voice `h` and the device change; for a selector whose low byte is
below 175 the selector is stored and both levels are at most 63. -/
theorem load_hw_instrument_fields {W : Type} {aw : W → Int → Int → W} {mp mp' : musplayer_t W}
    {h : Nat} {ins_sel : Int} (hok : load_hw_instrument aw mp h ins_sel = .ok mp') :
    VoicesOnly mp mp' ∧ mp'.next_keyon_seq = mp.next_keyon_seq ∧
    (∀ k, k ≠ h → mp'.hw_voices k = mp.hw_voices k) ∧
    (mp'.hw_voices h).seq = (mp.hw_voices h).seq ∧
    (mp'.hw_voices h).noteid = (mp.hw_voices h).noteid ∧
    (mp'.hw_voices h).mus_ch = (mp.hw_voices h).mus_ch ∧
    (int_and ins_sel 0xFF < 175 →
      (mp'.hw_voices h).ins_sel = toInt16 ins_sel ∧ (mp'.hw_voices h).lvl1 ≤ 63 ∧
      (mp'.hw_voices h).lvl2 ≤ 63) := by
  unfold load_hw_instrument at hok
  simp only at hok
  split at hok
  · rename_i hbad
    simp only [Except.ok.injEq] at hok
    subst hok
    exact ⟨VoicesOnly.refl mp, rfl, fun _ _ => rfl, rfl, rfl, rfl, fun hlt => by omega⟩
  · split at hok
    · exact absurd hok (by simp)
    · simp only [Except.ok.injEq] at hok
      obtain ⟨w1, w2, w3⟩ := load_hw_writes_fields aw mp h
        ((mp.op2bank (int_and ins_sel 0xFF).toNat).voice (ins_sel >>> (8 : Nat)).toNat)
      obtain ⟨l1, -, l3, -, -, -, l7, l8, l9, l10⟩ := loaded_voice_fields
        ((load_hw_writes aw mp h
          ((mp.op2bank (int_and ins_sel 0xFF).toNat).voice (ins_sel >>> (8 : Nat)).toNat)).hw_voices h)
        (mp.op2bank (int_and ins_sel 0xFF).toNat)
        ((mp.op2bank (int_and ins_sel 0xFF).toNat).voice (ins_sel >>> (8 : Nat)).toNat)
        (ins_sel >>> (8 : Nat)) ins_sel
      rw [← hok]
      refine ⟨w1, w2, ?_, ?_, ?_, ?_, ?_⟩
      · intro k hk
        simp only
        rw [Function.update_noteq hk, w3]
      · simp only
        rw [Function.update_same, l1, w3]
      · simp only
        rw [Function.update_same, l3, w3]
      · simp only
        rw [Function.update_same, l7, w3]
      · intro _
        simp only
        rw [Function.update_same]
        exact ⟨l8, l9, l10⟩

/-- The fields of the player after a returning `key_on`: voice `hw_ch` now holds the
note, its channel and the next sequence number; its loaded instrument, the other
voices and everything outside the voices stay. -/
theorem key_on_fields {W : Type} {aw : W → Int → Int → W} {mp mp' : musplayer_t W}
    {hw_ch : Nat} {noteid note noteOfs note_att ch_att mus_ch bend pan_bits : Int}
    (hok : key_on aw mp hw_ch noteid note noteOfs note_att ch_att mus_ch bend pan_bits
      = .ok mp') :
    VoicesOnly mp mp' ∧ mp'.next_keyon_seq = wrapInt32 (mp.next_keyon_seq + 1) ∧
    (∀ k, k ≠ hw_ch → mp'.hw_voices k = mp.hw_voices k) ∧
    (mp'.hw_voices hw_ch).seq = mp.next_keyon_seq ∧
    (mp'.hw_voices hw_ch).noteid = toInt16 noteid ∧
    (mp'.hw_voices hw_ch).mus_ch = toUInt8 mus_ch ∧
    (mp'.hw_voices hw_ch).ins_sel = (mp.hw_voices hw_ch).ins_sel ∧
    (mp'.hw_voices hw_ch).lvl1 = (mp.hw_voices hw_ch).lvl1 ∧
    (mp'.hw_voices hw_ch).lvl2 = (mp.hw_voices hw_ch).lvl2 ∧
    (mp'.hw_voices hw_ch).feedback = (mp.hw_voices hw_ch).feedback := by
  unfold key_on at hok
  simp only at hok
  split at hok
  · exact absurd hok (by simp)
  · split at hok
    · exact absurd hok (by simp)
    · simp only [Except.ok.injEq] at hok
      rw [← hok]
      unfold VoicesOnly
      simp only [adlib_write, write_levels, Function.update_same]
      refine ⟨⟨trivial, trivial, trivial, trivial, trivial, trivial, trivial, trivial⟩,
        trivial, ?_, trivial, trivial, trivial, trivial, trivial, trivial, trivial⟩
      intro k hk
      exact Function.update_noteq hk _ _

/-- With no voice keyed on with the incoming note among the 18, the loop of
`choose_hw_voice` ends without an early return and its locals name the first oldest
voices. -/
theorem choose_hw_voice_scan_all {W : Type} (mp : musplayer_t W) (ins_sel mus_ch noteid : Int)
    (hno : ∀ k, k < 18 →
      ¬ (0 ≤ (mp.hw_voices k).noteid ∧ (mp.hw_voices k).noteid = noteid
        ∧ ((mp.hw_voices k).mus_ch : Int) = mus_ch)) :
    ∃ a', choose_hw_voice_scan mp ins_sel mus_ch noteid mus_num_voices 0 VoiceScan.init
        = (none, a') ∧
      FirstOldest (fun k => (mp.hw_voices k).noteid < 0) (fun k => (mp.hw_voices k).seq)
        18 a'.oldest_koff a'.oldest_koff_seq ∧
      FirstOldest (fun k => (mp.hw_voices k).noteid < 0 ∧ (mp.hw_voices k).ins_sel = ins_sel)
        (fun k => (mp.hw_voices k).seq) 18 a'.oldest_reuse a'.oldest_reuse_seq ∧
      OldestOverall (fun k => (mp.hw_voices k).seq) 18 a'.oldest a'.oldest_seq := by
  have h := choose_hw_voice_scan_no_match mp ins_sel mus_ch noteid 18 0 VoiceScan.init
    (fun k _ hk => hno k (by omega))
    (Or.inl ⟨rfl, rfl, fun j hj => absurd hj (Nat.not_lt_zero j)⟩)
    (Or.inl ⟨rfl, rfl, fun j hj => absurd hj (Nat.not_lt_zero j)⟩)
    (Or.inl ⟨rfl, rfl, fun j hj => absurd hj (Nat.not_lt_zero j)⟩)
  simpa [mus_num_voices] using h

/-- The player that `choose_hw_voice` returns is the one it was given, or that one
after `key_off_hw` on the voice returned. -/
theorem choose_hw_voice_player {W : Type} (aw : W → Int → Int → W) (mp : musplayer_t W)
    (ins_sel mus_ch noteid : Int) :
    (choose_hw_voice aw mp ins_sel mus_ch noteid).1 = mp ∨
    (0 ≤ (choose_hw_voice aw mp ins_sel mus_ch noteid).2 ∧
      (choose_hw_voice aw mp ins_sel mus_ch noteid).1
        = key_off_hw aw mp (choose_hw_voice aw mp ins_sel mus_ch noteid).2.toNat) := by
  unfold choose_hw_voice
  generalize choose_hw_voice_scan mp ins_sel mus_ch noteid mus_num_voices 0 VoiceScan.init = r
  obtain ⟨r1, r2⟩ := r
  cases r1 with
  | some i =>
    right
    simp only [Int.toNat_ofNat, and_true]
    omega
  | none =>
    simp only
    split
    · left; rfl
    · split
      · left; rfl
      · right
        simp only [Int.toNat_ofNat, and_true]
        omega

/-- The fields of the player after `choose_hw_voice`. -/
theorem choose_hw_voice_fields {W : Type} (aw : W → Int → Int → W) (mp : musplayer_t W)
    (ins_sel mus_ch noteid : Int) :
    VoicesOnly mp (choose_hw_voice aw mp ins_sel mus_ch noteid).1 ∧
    (choose_hw_voice aw mp ins_sel mus_ch noteid).1.next_keyon_seq = mp.next_keyon_seq := by
  rcases choose_hw_voice_player aw mp ins_sel mus_ch noteid with h | ⟨-, h⟩
  · rw [h]
    exact ⟨VoicesOnly.refl mp, rfl⟩
  · rw [h]
    exact ⟨(key_off_hw_fields aw mp _).1, (key_off_hw_fields aw mp _).2.1⟩

/-- The fields of the player after a returning `play_note`: when the allocator names a
voice, that voice holds the new note afterwards, with the next sequence number, and
the voices other than it are as the allocator left them. -/
theorem play_note_fields {W : Type} {aw : W → Int → Int → W} {mp mp' : musplayer_t W}
    {ins_sel noteid note noteOfs note_att ch_att mus_ch bend pan : Int}
    (hok : play_note aw mp ins_sel noteid note noteOfs note_att ch_att mus_ch bend pan
      = .ok mp') :
    VoicesOnly mp mp' ∧
    ((choose_hw_voice aw mp ins_sel mus_ch noteid).2 < 0 →
      mp' = (choose_hw_voice aw mp ins_sel mus_ch noteid).1) ∧
    (0 ≤ (choose_hw_voice aw mp ins_sel mus_ch noteid).2 →
      (mp'.hw_voices (choose_hw_voice aw mp ins_sel mus_ch noteid).2.toNat).noteid
        = toInt16 noteid ∧
      (mp'.hw_voices (choose_hw_voice aw mp ins_sel mus_ch noteid).2.toNat).mus_ch
        = toUInt8 mus_ch ∧
      (mp'.hw_voices (choose_hw_voice aw mp ins_sel mus_ch noteid).2.toNat).seq
        = mp.next_keyon_seq ∧
      mp'.next_keyon_seq = wrapInt32 (mp.next_keyon_seq + 1) ∧
      (∀ k, k ≠ (choose_hw_voice aw mp ins_sel mus_ch noteid).2.toNat →
        mp'.hw_voices k = (choose_hw_voice aw mp ins_sel mus_ch noteid).1.hw_voices k) ∧
      (int_and ins_sel 0xFF < 175 → toInt16 ins_sel = ins_sel →
        (mp'.hw_voices (choose_hw_voice aw mp ins_sel mus_ch noteid).2.toNat).ins_sel
          = ins_sel)) := by
  obtain ⟨c1, c2⟩ := choose_hw_voice_fields aw mp ins_sel mus_ch noteid
  unfold play_note at hok
  simp only at hok
  generalize choose_hw_voice aw mp ins_sel mus_ch noteid = r at hok c1 c2 ⊢
  split at hok
  · rename_i hneg
    simp only [Except.ok.injEq] at hok
    subst hok
    exact ⟨c1, fun _ => rfl, fun h => by omega⟩
  · rename_i hpos
    split at hok
    · exact absurd hok (by simp)
    · rename_i mp1 hload
      obtain ⟨k1, k2, k3, k4, k5, k6, k7, -⟩ := key_on_fields hok
      by_cases hsel : (r.1.hw_voices r.2.toNat).ins_sel ≠ ins_sel
      · rw [if_pos hsel] at hload
        obtain ⟨l1, l2, l3, -, -, -, l7⟩ := load_hw_instrument_fields hload
        refine ⟨(c1.trans l1).trans k1, fun h => absurd h hpos, fun _ =>
          ⟨k5, k6, ?_, ?_, ?_, ?_⟩⟩
        · rw [k4, l2, c2]
        · rw [k2, l2, c2]
        · intro k hk
          rw [k3 k hk, l3 k hk]
        · intro hlt h16
          rw [k7, (l7 hlt).1, h16]
      · rw [if_neg hsel] at hload
        simp only [Except.ok.injEq] at hload
        subst hload
        refine ⟨c1.trans k1, fun h => absurd h hpos, fun _ => ⟨k5, k6, ?_, ?_, k3, ?_⟩⟩
        · rw [k4, c2]
        · rw [k2, c2]
        · intro _ _
          rw [k7]
          exact not_not.mp hsel

/-- The delay loop takes the bytes up to and including the first one with bit 7
clear, whatever their values. -/
theorem parse_delay_bytes {W : Type} (mem : Int → Nat) (bs : List Nat) :
    ∀ (fuel : Nat) (mp : musplayer_t W), bs ≠ [] → bs.length ≤ fuel →
      (∀ i, i < bs.length → read8 mem (mp.score + (i : Int)) = bs.getD i 0) →
      (∀ i, i + 1 < bs.length → bs.getD i 0 &&& 0x80 ≠ 0) →
      bs.getD (bs.length - 1) 0 &&& 0x80 = 0 →
      parse_delay mem fuel mp
        = .ok { mp with score := mp.score + (bs.length : Int), delay := delay_after mp.delay bs } := by
  induction bs with
  | nil => intro fuel mp h; exact absurd rfl h
  | cons b rest ih =>
    intro fuel mp _ hfuel hbytes hcont hlast
    obtain ⟨n, rfl⟩ : ∃ n, fuel = n + 1 := ⟨fuel - 1, by simp only [List.length_cons] at hfuel; omega⟩
    have hb : read8 mem mp.score = b := by
      have := hbytes 0 (by simp)
      simpa using this
    rw [parse_delay]
    simp only [hb]
    by_cases hrest : rest = []
    · subst hrest
      have hl : b &&& 0x80 = 0 := by simpa using hlast
      rw [if_neg (by simp [hl])]
      simp [delay_after]
    · have hlen : 0 < rest.length := List.length_pos.mpr hrest
      have hc : b &&& 0x80 ≠ 0 := by
        have := hcont 0 (by simp only [List.length_cons]; omega)
        simpa using this
      rw [if_pos hc]
      rw [ih n _ hrest (by simp only [List.length_cons] at hfuel; omega)]
      · simp only [delay_after, List.length_cons, Nat.cast_add, Nat.cast_one]
        congr 2
        omega
      · intro i hi
        have := hbytes (i + 1) (by simp only [List.length_cons]; omega)
        simp only [List.getD_cons_succ, Nat.cast_add, Nat.cast_one] at this
        rw [← this]
        congr 1
        show mp.score + 1 + (i : Int) = mp.score + ((i : Int) + 1)
        omega
      · intro i hi
        have := hcont (i + 1) (by simp only [List.length_cons]; omega)
        simpa using this
      · have : (b :: rest).length - 1 = (rest.length - 1) + 1 := by
          simp only [List.length_cons]; omega
        rw [this] at hlast
        simpa using hlast

/-- Without overflow the delay after the bytes `bs` is `d * 128^k` plus their
big-endian base-128 value. -/
theorem delay_after_value (bs : List Nat) :
    ∀ d : Int, 0 ≤ d →
      d * 128 ^ bs.length + (Nat.ofDigits 128 ((bs.map (fun b => b &&& 0x7F)).reverse) : Nat)
        < 2147483648 →
      delay_after d bs
        = d * 128 ^ bs.length + (Nat.ofDigits 128 ((bs.map (fun b => b &&& 0x7F)).reverse) : Nat) := by
  induction bs with
  | nil =>
    intro d _ _
    simp [delay_after]
  | cons b rest ih =>
    intro d hd hfit
    have hv : Nat.ofDigits 128 (((b :: rest).map (fun b => b &&& 0x7F)).reverse)
        = Nat.ofDigits 128 ((rest.map (fun b => b &&& 0x7F)).reverse)
          + 128 ^ rest.length * (b &&& 0x7F) := by
      simp [Nat.ofDigits_append]
    rw [hv] at hfit ⊢
    have hpow : (1 : Int) ≤ 128 ^ rest.length := one_le_pow₀ (by norm_num)
    have hb0 : (0 : Int) ≤ ((b &&& 0x7F : Nat) : Int) := Int.ofNat_nonneg _
    have hr0 : (0 : Int) ≤ (Nat.ofDigits 128 ((rest.map (fun b => b &&& 0x7F)).reverse) : Nat) :=
      Int.ofNat_nonneg _
    simp only [List.length_cons, pow_succ, Nat.cast_add, Nat.cast_mul, Nat.cast_pow,
      Nat.cast_ofNat] at hfit ⊢
    have hd' : d * 128 + ((b &&& 0x7F : Nat) : Int) < 2147483648 := by
      nlinarith [mul_nonneg hd (sub_nonneg.mpr hpow),
        mul_nonneg hb0 (sub_nonneg.mpr hpow)]
    have hd128 : d * 128 < 2147483648 := by omega
    have e1 : int_shl d 7 = d * 128 := by
      unfold int_shl
      rw [ISound.wrapInt32_of_range (by omega) (by omega)]
      norm_num
    have e2 : wrapInt32 (int_shl d 7 + ((b &&& 0x7F : Nat) : Int))
        = d * 128 + ((b &&& 0x7F : Nat) : Int) := by
      rw [e1, ISound.wrapInt32_of_range (by omega) (by omega)]
    rw [delay_after, e2, ih _ (by omega) (by nlinarith)]
    ring

/-- What the loop of `key_off_mus_all` does to the voices: those in its range that
are owned by `mus_ch` are keyed off (`noteid = -1` where a note was on), every other
voice is as before; nothing outside the voices and the device changes. -/
theorem key_off_mus_all_loop_spec {W : Type} (aw : W → Int → Int → W) (mus_ch : Int) (n : Nat) :
    ∀ (h : Nat) (mp : musplayer_t W),
      VoicesOnly mp (key_off_mus_all_loop aw mus_ch n h mp) ∧
      (key_off_mus_all_loop aw mus_ch n h mp).next_keyon_seq = mp.next_keyon_seq ∧
      ∀ k,
        ((key_off_mus_all_loop aw mus_ch n h mp).hw_voices k).mus_ch = (mp.hw_voices k).mus_ch ∧
        ((key_off_mus_all_loop aw mus_ch n h mp).hw_voices k).ins_sel = (mp.hw_voices k).ins_sel ∧
        ((key_off_mus_all_loop aw mus_ch n h mp).hw_voices k).seq = (mp.hw_voices k).seq ∧
        ((h ≤ k ∧ k < h + n) ∧ ((mp.hw_voices k).mus_ch : Int) = mus_ch →
          ((key_off_mus_all_loop aw mus_ch n h mp).hw_voices k).noteid
            = if 0 ≤ (mp.hw_voices k).noteid then -1 else (mp.hw_voices k).noteid) ∧
        (¬ ((h ≤ k ∧ k < h + n) ∧ ((mp.hw_voices k).mus_ch : Int) = mus_ch) →
          (key_off_mus_all_loop aw mus_ch n h mp).hw_voices k = mp.hw_voices k) := by
  induction n with
  | zero =>
    intro h mp
    refine ⟨VoicesOnly.refl mp, rfl, fun k => ⟨rfl, rfl, rfl, fun hk => by omega, fun _ => rfl⟩⟩
  | succ n ih =>
    intro h mp
    rw [key_off_mus_all_loop]
    by_cases hc : ((mp.hw_voices h).mus_ch : Int) = mus_ch
    · rw [if_pos hc]
      obtain ⟨i1, i2, i3⟩ := ih (h + 1) (key_off_hw aw mp h)
      obtain ⟨f1, f2, f3, f4, f5, f6, f7, -⟩ := key_off_hw_fields aw mp h
      refine ⟨f1.trans i1, i2.trans f2, fun k => ?_⟩
      obtain ⟨j1, j2, j3, j4, j5⟩ := i3 k
      by_cases hk : k = h
      · subst hk
        have e := j5 (by omega)
        refine ⟨by rw [j1, f6], by rw [j2, f7], by rw [j3, f5], fun _ => by rw [e, f4],
          fun hn => absurd ⟨⟨le_refl k, by omega⟩, hc⟩ hn⟩
      · rw [f3 k hk] at j1 j2 j3 j4 j5
        refine ⟨j1, j2, j3, fun hr => j4 ⟨⟨by omega, by omega⟩, hr.2⟩,
          fun hn => j5 (fun hr => hn ⟨⟨by omega, by omega⟩, hr.2⟩)⟩
    · rw [if_neg hc]
      obtain ⟨i1, i2, i3⟩ := ih (h + 1) mp
      refine ⟨i1, i2, fun k => ?_⟩
      obtain ⟨j1, j2, j3, j4, j5⟩ := i3 k
      refine ⟨j1, j2, j3, fun hr => j4 ⟨⟨?_, by omega⟩, hr.2⟩,
        fun hn => j5 (fun hr => hn ⟨⟨by omega, by omega⟩, hr.2⟩)⟩
      by_contra hlt
      have : k = h := by omega
      rw [this] at hr
      exact hc hr.2

/-- What the loop that keys off every voice does: each voice in its range is keyed
off (`noteid = -1` where a note was on), every other voice is as before. -/
theorem key_off_all_loop_spec {W : Type} (aw : W → Int → Int → W) (n : Nat) :
    ∀ (h : Nat) (mp : musplayer_t W),
      VoicesOnly mp (key_off_all_loop aw n h mp) ∧
      (key_off_all_loop aw n h mp).next_keyon_seq = mp.next_keyon_seq ∧
      ∀ k,
        ((key_off_all_loop aw n h mp).hw_voices k).mus_ch = (mp.hw_voices k).mus_ch ∧
        ((key_off_all_loop aw n h mp).hw_voices k).ins_sel = (mp.hw_voices k).ins_sel ∧
        ((key_off_all_loop aw n h mp).hw_voices k).seq = (mp.hw_voices k).seq ∧
        ((h ≤ k ∧ k < h + n) →
          ((key_off_all_loop aw n h mp).hw_voices k).noteid
            = if 0 ≤ (mp.hw_voices k).noteid then -1 else (mp.hw_voices k).noteid) ∧
        (¬ (h ≤ k ∧ k < h + n) → (key_off_all_loop aw n h mp).hw_voices k = mp.hw_voices k) := by
  induction n with
  | zero =>
    intro h mp
    refine ⟨VoicesOnly.refl mp, rfl, fun k => ⟨rfl, rfl, rfl, fun hk => by omega, fun _ => rfl⟩⟩
  | succ n ih =>
    intro h mp
    rw [key_off_all_loop]
    obtain ⟨i1, i2, i3⟩ := ih (h + 1) (key_off_hw aw mp h)
    obtain ⟨f1, f2, f3, f4, f5, f6, f7, -⟩ := key_off_hw_fields aw mp h
    refine ⟨f1.trans i1, i2.trans f2, fun k => ?_⟩
    obtain ⟨j1, j2, j3, j4, j5⟩ := i3 k
    by_cases hk : k = h
    · subst hk
      have e := j5 (by omega)
      refine ⟨by rw [j1, f6], by rw [j2, f7], by rw [j3, f5], fun _ => by rw [e, f4],
        fun hn => absurd ⟨le_refl k, by omega⟩ hn⟩
    · rw [f3 k hk] at j1 j2 j3 j4 j5
      refine ⟨j1, j2, j3, fun hr => j4 ⟨by omega, by omega⟩,
        fun hn => j5 (fun hr => hn ⟨by omega, by omega⟩)⟩

/-- The step dispatches on the event type of the command byte. -/
theorem mus_step_dispatch {W : Type} (aw : W → Int → Int → W) (mem : Int → Nat)
    (mp : musplayer_t W) :
    ((read8 mem mp.score >>> 4) &&& 7 = 0 →
      mus_step aw mem mp
        = event_release aw mem { mp with score := mp.score + 1 } (read8 mem mp.score)) ∧
    ((read8 mem mp.score >>> 4) &&& 7 = 1 →
      mus_step aw mem mp
        = event_note aw mem { mp with score := mp.score + 1 } (read8 mem mp.score)) ∧
    ((read8 mem mp.score >>> 4) &&& 7 = 2 →
      mus_step aw mem mp
        = event_pitch_wheel aw mem { mp with score := mp.score + 1 } (read8 mem mp.score)) ∧
    ((read8 mem mp.score >>> 4) &&& 7 = 3 →
      mus_step aw mem mp
        = event_system aw mem { mp with score := mp.score + 1 } (read8 mem mp.score)) ∧
    ((read8 mem mp.score >>> 4) &&& 7 = 4 →
      mus_step aw mem mp
        = event_controller aw mem { mp with score := mp.score + 1 } (read8 mem mp.score)) ∧
    ((read8 mem mp.score >>> 4) &&& 7 = 5 →
      mus_step aw mem mp
        = .ok (.next { mp with score := mp.score + 1 } (read8 mem mp.score))) ∧
    ((read8 mem mp.score >>> 4) &&& 7 = 6 →
      mus_step aw mem mp = event_end_of_score aw { mp with score := mp.score + 1 }) ∧
    ((read8 mem mp.score >>> 4) &&& 7 = 7 →
      mus_step aw mem mp
        = .ok (.next { mp with score := mp.score + 1 + 1 } (read8 mem mp.score))) := by
  refine ⟨?_, ?_, ?_, ?_, ?_, ?_, ?_, ?_⟩ <;> intro hev <;> unfold mus_step <;>
    simp only [hev, Nat.reduceEqDiff, if_true, if_false]

/-- The event type of a command byte is one of 0..7. -/
theorem event_type_cases (cmd : Nat) :
    (cmd >>> 4) &&& 7 = 0 ∨ (cmd >>> 4) &&& 7 = 1 ∨ (cmd >>> 4) &&& 7 = 2 ∨
    (cmd >>> 4) &&& 7 = 3 ∨ (cmd >>> 4) &&& 7 = 4 ∨ (cmd >>> 4) &&& 7 = 5 ∨
    (cmd >>> 4) &&& 7 = 6 ∨ (cmd >>> 4) &&& 7 = 7 := by
  have h : (cmd >>> 4) &&& 7 < 8 := by
    rw [show (7 : Nat) = 2 ^ 3 - 1 from rfl, Nat.and_pow_two_sub_one_eq_mod]
    exact Nat.mod_lt _ (by decide)
  omega

/-- The channel of a command byte is one of the 16 MUS channels. -/
theorem event_channel_lt (cmd : Nat) : cmd &&& 15 < 16 := by
  rw [show (15 : Nat) = 2 ^ 4 - 1 from rfl, Nat.and_pow_two_sub_one_eq_mod]
  exact Nat.mod_lt _ (by decide)

/-- The loop of `key_off_note` changes voices and device only. -/
theorem key_off_note_loop_voicesOnly {W : Type} (aw : W → Int → Int → W) (mus_ch note : Int)
    (n : Nat) :
    ∀ (h : Nat) (mp : musplayer_t W), VoicesOnly mp (key_off_note_loop aw mus_ch note n h mp) := by
  induction n with
  | zero => intro h mp; exact VoicesOnly.refl mp
  | succ n ih =>
    intro h mp
    rw [key_off_note_loop]
    split
    · exact (key_off_hw_fields aw mp h).1.trans (ih (h + 1) _)
    · exact ih (h + 1) mp

/-- Function `silence_hw` changes voices and device only. -/
theorem silence_hw_voicesOnly {W : Type} (aw : W → Int → Int → W) (mp : musplayer_t W)
    (h : Nat) : VoicesOnly mp (silence_hw aw mp h) := by
  unfold silence_hw
  simp only
  have h1 := adlib_write_voicesOnly aw mp (hw_reg h 0x80 (chan_oper1.getD (hw_chan h) 0)) 15
  have h2 := adlib_write_voicesOnly aw
    (adlib_write aw mp (hw_reg h 0x80 (chan_oper1.getD (hw_chan h) 0)) 15)
    (hw_reg h 0x80 (chan_oper2.getD (hw_chan h) 0)) 15
  have h3 := (key_off_hw_fields aw
    (adlib_write aw (adlib_write aw mp (hw_reg h 0x80 (chan_oper1.getD (hw_chan h) 0)) 15)
      (hw_reg h 0x80 (chan_oper2.getD (hw_chan h) 0)) 15) h).1
  have h4 := (h1.trans h2).trans h3
  obtain ⟨a1, a2, a3, a4, a5, a6, a7, a8⟩ := h4
  exact ⟨a1, a2, a3, a4, a5, a6, a7, a8⟩

/-- The loop of `silence_mus_all` changes voices and device only. -/
theorem silence_mus_all_loop_voicesOnly {W : Type} (aw : W → Int → Int → W) (mus_ch : Int)
    (n : Nat) :
    ∀ (h : Nat) (mp : musplayer_t W), VoicesOnly mp (silence_mus_all_loop aw mus_ch n h mp) := by
  induction n with
  | zero => intro h mp; exact VoicesOnly.refl mp
  | succ n ih =>
    intro h mp
    rw [silence_mus_all_loop]
    split
    · exact (silence_hw_voicesOnly aw mp h).trans (ih (h + 1) _)
    · exact ih (h + 1) mp

/-- The loop of `update_volume` changes the device only. -/
theorem update_volume_loop_voicesOnly {W : Type} (aw : W → Int → Int → W)
    (mus_ch ch_att pan_bits : Int) (n : Nat) :
    ∀ (h : Nat) (mp : musplayer_t W),
      VoicesOnly mp (update_volume_loop aw mus_ch ch_att pan_bits n h mp) := by
  induction n with
  | zero => intro h mp; exact VoicesOnly.refl mp
  | succ n ih =>
    intro h mp
    rw [update_volume_loop]
    split
    · exact (write_levels_fields aw mp h _ _).1.trans (ih (h + 1) _)
    · exact ih (h + 1) mp

/-- A returning loop of `bend_channel` changes the device only. -/
theorem bend_channel_loop_voicesOnly {W : Type} (aw : W → Int → Int → W) (mus_ch bend : Int)
    (n : Nat) :
    ∀ (h : Nat) (mp mp' : musplayer_t W),
      bend_channel_loop aw mus_ch bend n h mp = .ok mp' → VoicesOnly mp mp' := by
  induction n with
  | zero =>
    intro h mp mp' hok
    rw [bend_channel_loop] at hok
    simp only [Except.ok.injEq] at hok
    subst hok
    exact VoicesOnly.refl mp
  | succ n ih =>
    intro h mp mp' hok
    rw [bend_channel_loop] at hok
    split at hok
    · split at hok
      · exact absurd hok (by simp)
      · exact ((adlib_write_voicesOnly aw mp _ _).trans (adlib_write_voicesOnly aw _ _ _)).trans
          (ih (h + 1) _ mp' hok)
    · exact ih (h + 1) mp mp' hok

/-- A returning `play_voices` changes voices, key-on counter and device only. -/
theorem play_voices_voicesOnly {W : Type} {aw : W → Int → Int → W} {mp mp' : musplayer_t W}
    {mus_ch k : Nat} {ins_sel note n ofs0 ofs1 note_att ch_att : Int}
    (hok : play_voices aw mp mus_ch k ins_sel note n ofs0 ofs1 note_att ch_att = .ok mp') :
    VoicesOnly mp mp' := by
  unfold play_voices at hok
  split at hok
  · exact absurd hok (by simp)
  · rename_i mp1 h1
    have f1 := (play_note_fields h1).1
    split at hok
    · exact f1.trans (play_note_fields hok).1
    · simp only [Except.ok.injEq] at hok
      subst hok
      exact f1

/-- A returning `note_on` changes voices, key-on counter and device only. -/
theorem note_on_voicesOnly {W : Type} {aw : W → Int → Int → W} {mp mp' : musplayer_t W}
    {mus_ch : Nat} {note vol : Int} (hok : note_on aw mp mus_ch note vol = .ok mp') :
    VoicesOnly mp mp' := by
  unfold note_on at hok
  simp only at hok
  have hk : VoicesOnly mp
      (if (mp.channels mus_ch).mono ≠ 0 then key_off_mus_all aw mp mus_ch else mp) := by
    split
    · exact (key_off_mus_all_loop_spec aw mus_ch mus_num_voices 0 mp).1
    · exact VoicesOnly.refl mp
  generalize (if (mp.channels mus_ch).mono ≠ 0 then key_off_mus_all aw mp mus_ch else mp)
    = mp1 at hok hk
  split at hok
  · exact absurd hok (by simp)
  · split at hok
    · split at hok
      · exact hk.trans (play_voices_voicesOnly hok)
      · simp only [Except.ok.injEq] at hok
        subst hok
        exact hk
    · split at hok
      · exact hk.trans (play_voices_voicesOnly hok)
      · exact hk.trans (play_voices_voicesOnly hok)

/-- A player is in `NotesFrame` with itself. -/
theorem NotesFrame.notes_refl {W : Type} (mp : musplayer_t W) : NotesFrame mp mp :=
  fun _ => Or.inl rfl

/-- The relation `NotesFrame` composes. -/
theorem NotesFrame.notes_trans {W : Type} {a b c : musplayer_t W} (h1 : NotesFrame a b)
    (h2 : NotesFrame b c) : NotesFrame a c := by
  intro h
  rcases h2 h with e | e
  · rcases h1 h with f | f
    · exact Or.inl (e.trans f)
    · exact Or.inr (by rw [e]; exact f)
  · exact Or.inr e

/-- Players with the same voices are in `NotesFrame`. -/
theorem NotesFrame.of_eq {W : Type} {mp mp' : musplayer_t W}
    (h : mp'.hw_voices = mp.hw_voices) : NotesFrame mp mp' :=
  fun k => Or.inl (by rw [h])

/-- A register write keeps the notes. -/
theorem adlib_write_notesFrame {W : Type} (aw : W → Int → Int → W) (mp : musplayer_t W)
    (reg val : Int) : NotesFrame mp (adlib_write aw mp reg val) :=
  NotesFrame.of_eq rfl

/-- Function `key_off_hw` leaves -1 in place of a note id. -/
theorem key_off_hw_notesFrame {W : Type} (aw : W → Int → Int → W) (mp : musplayer_t W)
    (h : Nat) : NotesFrame mp (key_off_hw aw mp h) := by
  intro k
  obtain ⟨-, -, ho, hn, -⟩ := key_off_hw_fields aw mp h
  by_cases hk : k = h
  · subst hk
    rw [hn]
    split
    · right; exact le_refl _
    · left; rfl
  · left; rw [ho k hk]

/-- Function `silence_hw` leaves -1 in place of a note id. -/
theorem silence_hw_notesFrame {W : Type} (aw : W → Int → Int → W) (mp : musplayer_t W)
    (h : Nat) : NotesFrame mp (silence_hw aw mp h) := by
  have h3 := key_off_hw_notesFrame aw
    (adlib_write aw (adlib_write aw mp (hw_reg h 0x80 (chan_oper1.getD (hw_chan h) 0)) 15)
      (hw_reg h 0x80 (chan_oper2.getD (hw_chan h) 0)) 15) h
  intro k
  have h4 := h3 k
  unfold silence_hw
  simp only
  by_cases hk : k = h
  · subst hk
    simp only [Function.update_same]
    exact h4
  · simp only [ne_eq, hk, not_false_eq_true, Function.update_noteq]
    exact h4

/-- The loop of `key_off_note` keeps the notes or leaves -1. -/
theorem key_off_note_loop_notesFrame {W : Type} (aw : W → Int → Int → W) (mus_ch note : Int)
    (n : Nat) :
    ∀ (h : Nat) (mp : musplayer_t W), NotesFrame mp (key_off_note_loop aw mus_ch note n h mp) := by
  induction n with
  | zero => intro h mp; exact NotesFrame.notes_refl mp
  | succ n ih =>
    intro h mp
    rw [key_off_note_loop]
    split
    · exact (key_off_hw_notesFrame aw mp h).notes_trans (ih (h + 1) _)
    · exact ih (h + 1) mp

/-- The loop of `key_off_mus_all` keeps the notes or leaves -1. -/
theorem key_off_mus_all_loop_notesFrame {W : Type} (aw : W → Int → Int → W) (mus_ch : Int)
    (n : Nat) :
    ∀ (h : Nat) (mp : musplayer_t W), NotesFrame mp (key_off_mus_all_loop aw mus_ch n h mp) := by
  induction n with
  | zero => intro h mp; exact NotesFrame.notes_refl mp
  | succ n ih =>
    intro h mp
    rw [key_off_mus_all_loop]
    split
    · exact (key_off_hw_notesFrame aw mp h).notes_trans (ih (h + 1) _)
    · exact ih (h + 1) mp

/-- The loop that keys off every voice keeps the notes or leaves -1. -/
theorem key_off_all_loop_notesFrame {W : Type} (aw : W → Int → Int → W) (n : Nat) :
    ∀ (h : Nat) (mp : musplayer_t W), NotesFrame mp (key_off_all_loop aw n h mp) := by
  induction n with
  | zero => intro h mp; exact NotesFrame.notes_refl mp
  | succ n ih =>
    intro h mp
    rw [key_off_all_loop]
    exact (key_off_hw_notesFrame aw mp h).notes_trans (ih (h + 1) _)

/-- The loop of `silence_mus_all` keeps the notes or leaves -1. -/
theorem silence_mus_all_loop_notesFrame {W : Type} (aw : W → Int → Int → W) (mus_ch : Int)
    (n : Nat) :
    ∀ (h : Nat) (mp : musplayer_t W), NotesFrame mp (silence_mus_all_loop aw mus_ch n h mp) := by
  induction n with
  | zero => intro h mp; exact NotesFrame.notes_refl mp
  | succ n ih =>
    intro h mp
    rw [silence_mus_all_loop]
    split
    · exact (silence_hw_notesFrame aw mp h).notes_trans (ih (h + 1) _)
    · exact ih (h + 1) mp

/-- The loop of `update_volume` keeps the notes. -/
theorem update_volume_loop_notesFrame {W : Type} (aw : W → Int → Int → W)
    (mus_ch ch_att pan_bits : Int) (n : Nat) :
    ∀ (h : Nat) (mp : musplayer_t W),
      NotesFrame mp (update_volume_loop aw mus_ch ch_att pan_bits n h mp) := by
  induction n with
  | zero => intro h mp; exact NotesFrame.notes_refl mp
  | succ n ih =>
    intro h mp
    rw [update_volume_loop]
    split
    · exact (NotesFrame.of_eq (write_levels_fields aw mp h _ _).2.2).notes_trans (ih (h + 1) _)
    · exact ih (h + 1) mp

/-- A returning loop of `bend_channel` keeps the notes. -/
theorem bend_channel_loop_notesFrame {W : Type} (aw : W → Int → Int → W) (mus_ch bend : Int)
    (n : Nat) :
    ∀ (h : Nat) (mp mp' : musplayer_t W),
      bend_channel_loop aw mus_ch bend n h mp = .ok mp' → NotesFrame mp mp' := by
  induction n with
  | zero =>
    intro h mp mp' hok
    rw [bend_channel_loop] at hok
    simp only [Except.ok.injEq] at hok
    subst hok
    exact NotesFrame.notes_refl mp
  | succ n ih =>
    intro h mp mp' hok
    rw [bend_channel_loop] at hok
    split at hok
    · split at hok
      · exact absurd hok (by simp)
      · exact ((adlib_write_notesFrame aw mp _ _).notes_trans (adlib_write_notesFrame aw _ _ _)).notes_trans
          (ih (h + 1) _ mp' hok)
    · exact ih (h + 1) mp mp' hok

/-- Function `update_volume` keeps the notes. -/
theorem update_volume_notesFrame {W : Type} (aw : W → Int → Int → W) (mp : musplayer_t W)
    (mus_ch ch_att pan_bits : Int) : NotesFrame mp (update_volume aw mp mus_ch ch_att pan_bits) :=
  update_volume_loop_notesFrame aw mus_ch ch_att pan_bits mus_num_voices 0 mp

/-- Function `silence_mus_all` keeps the notes or leaves -1. -/
theorem silence_mus_all_notesFrame {W : Type} (aw : W → Int → Int → W) (mp : musplayer_t W)
    (mus_ch : Int) : NotesFrame mp (silence_mus_all aw mp mus_ch) :=
  silence_mus_all_loop_notesFrame aw mus_ch mus_num_voices 0 mp

/-- Function `key_off_mus_all` keeps the notes or leaves -1. -/
theorem key_off_mus_all_notesFrame {W : Type} (aw : W → Int → Int → W) (mp : musplayer_t W)
    (mus_ch : Int) : NotesFrame mp (key_off_mus_all aw mp mus_ch) :=
  key_off_mus_all_loop_notesFrame aw mus_ch mus_num_voices 0 mp

/-- Function `key_off_note` keeps the notes or leaves -1. -/
theorem key_off_note_notesFrame {W : Type} (aw : W → Int → Int → W) (mp : musplayer_t W)
    (mus_ch note : Int) : NotesFrame mp (key_off_note aw mp mus_ch note) :=
  key_off_note_loop_notesFrame aw mus_ch note mus_num_voices 0 mp

/-- Function `key_off_note` changes voices and device only. -/
theorem key_off_note_voicesOnly {W : Type} (aw : W → Int → Int → W) (mp : musplayer_t W)
    (mus_ch note : Int) : VoicesOnly mp (key_off_note aw mp mus_ch note) :=
  key_off_note_loop_voicesOnly aw mus_ch note mus_num_voices 0 mp

/-- A returning `bend_channel` keeps the notes. -/
theorem bend_channel_notesFrame {W : Type} (aw : W → Int → Int → W) (mp mp' : musplayer_t W)
    (mus_ch bend : Int) (hok : bend_channel aw mp mus_ch bend = .ok mp') : NotesFrame mp mp' :=
  bend_channel_loop_notesFrame aw mus_ch bend mus_num_voices 0 mp mp' hok

/-- The value `x | (1 << 8)` of a 15-bit `x` is a 15-bit value. -/
theorem int_or_bit8_bounds (x : Int) (h0 : 0 ≤ x) (h1 : x < 32768) :
    0 ≤ int_or x (int_shl 1 8) ∧ int_or x (int_shl 1 8) < 32768 := by
  obtain ⟨n, rfl⟩ := Int.eq_ofNat_of_zero_le h0
  have hn : n < 2 ^ 15 := by omega
  have e1 : int_shl 1 8 = 256 := by decide
  have hl : n ||| 256 < 2 ^ 15 := Nat.or_lt_two_pow hn (by decide)
  rw [e1]
  unfold int_or toInt32 toUInt32 wrapInt32
  have e2 : ((n : Int) % 4294967296).toNat = n := by omega
  have e3 : ((256 : Int) % 4294967296).toNat = 256 := by decide
  rw [e2, e3]
  generalize n ||| 256 = m at hl
  omega

/-- The low byte of `x | (1 << 8)` is the low byte of `x`. -/
theorem int_and_or_bit8 (x : Int) (h0 : 0 ≤ x) (h1 : x < 256) :
    int_and (int_or x (int_shl 1 8)) 0xFF = x := by
  obtain ⟨n, rfl⟩ := Int.eq_ofNat_of_zero_le h0
  have hn : n < 256 := by omega
  have e1 : int_shl 1 8 = 256 := by decide
  have hl : n ||| 256 < 2 ^ 15 := Nat.or_lt_two_pow (by omega) (by decide)
  have hm : (n ||| 256) &&& 255 = n := by
    interval_cases n <;> rfl
  rw [e1]
  unfold int_and int_or toInt32 toUInt32 wrapInt32
  have e2 : ((n : Int) % 4294967296).toNat = n := by omega
  have e3 : ((256 : Int) % 4294967296).toNat = 256 := by decide
  have e4 : ((255 : Int) % 4294967296).toNat = 255 := by decide
  rw [e2, e3, e4]
  have e5 : ((((n ||| 256 : Nat) : Int) + 2147483648) % 4294967296 - 2147483648)
      = ((n ||| 256 : Nat) : Int) := by
    generalize n ||| 256 = m at hl
    omega
  rw [e5]
  have e6 : (((n ||| 256 : Nat) : Int) % 4294967296).toNat = n ||| 256 := by
    generalize n ||| 256 = m at hl
    omega
  rw [e6, hm]
  omega

/-- A returning `key_on` with a note id of 15 bits keeps the other notes. -/
theorem key_on_notesFrame {W : Type} {aw : W → Int → Int → W} {mp mp' : musplayer_t W}
    {hw_ch : Nat} {noteid note noteOfs note_att ch_att mus_ch bend pan_bits : Int}
    (h0 : 0 ≤ noteid) (h1 : noteid < 32768)
    (hok : key_on aw mp hw_ch noteid note noteOfs note_att ch_att mus_ch bend pan_bits
      = .ok mp') : NotesFrame mp mp' := by
  obtain ⟨-, -, ho, -, hn, -⟩ := key_on_fields hok
  intro k
  by_cases hk : k = hw_ch
  · subst hk
    right
    rw [hn]
    unfold toInt16
    omega
  · left; rw [ho k hk]

/-- A returning `load_hw_instrument` keeps the notes. -/
theorem load_hw_instrument_notesFrame {W : Type} {aw : W → Int → Int → W}
    {mp mp' : musplayer_t W} {h : Nat} {ins_sel : Int}
    (hok : load_hw_instrument aw mp h ins_sel = .ok mp') : NotesFrame mp mp' := by
  obtain ⟨-, -, ho, -, hn, -⟩ := load_hw_instrument_fields hok
  intro k
  by_cases hk : k = h
  · subst hk; left; exact hn
  · left; rw [ho k hk]

/-- Function `choose_hw_voice` keeps the notes or leaves -1. -/
theorem choose_hw_voice_notesFrame {W : Type} (aw : W → Int → Int → W) (mp : musplayer_t W)
    (ins_sel mus_ch noteid : Int) :
    NotesFrame mp (choose_hw_voice aw mp ins_sel mus_ch noteid).1 := by
  rcases choose_hw_voice_player aw mp ins_sel mus_ch noteid with e | ⟨-, e⟩
  · rw [e]; exact NotesFrame.notes_refl mp
  · rw [e]; exact key_off_hw_notesFrame aw mp _

/-- A returning `play_note` with a note id of 15 bits keeps the notes, leaves -1 or
stores the note id. -/
theorem play_note_notesFrame {W : Type} {aw : W → Int → Int → W} {mp mp' : musplayer_t W}
    {ins_sel noteid note noteOfs note_att ch_att mus_ch bend pan : Int}
    (h0 : 0 ≤ noteid) (h1 : noteid < 32768)
    (hok : play_note aw mp ins_sel noteid note noteOfs note_att ch_att mus_ch bend pan
      = .ok mp') : NotesFrame mp mp' := by
  have hc := choose_hw_voice_notesFrame aw mp ins_sel mus_ch noteid
  unfold play_note at hok
  simp only at hok
  split at hok
  · simp only [Except.ok.injEq] at hok
    subst hok
    exact hc
  · split at hok
    · exact absurd hok (by simp)
    · rename_i mp1 hl
      have h2 : NotesFrame (choose_hw_voice aw mp ins_sel mus_ch noteid).1 mp1 := by
        split at hl
        · exact load_hw_instrument_notesFrame hl
        · simp only [Except.ok.injEq] at hl
          subst hl
          exact NotesFrame.notes_refl _
      exact (hc.notes_trans h2).notes_trans (key_on_notesFrame h0 h1 hok)

/-- A returning `play_voices` for a MIDI note keeps the notes, leaves -1 or stores a
note id. -/
theorem play_voices_notesFrame {W : Type} {aw : W → Int → Int → W} {mp mp' : musplayer_t W}
    {mus_ch k : Nat} {ins_sel note n ofs0 ofs1 note_att ch_att : Int}
    (h0 : 0 ≤ note) (h1 : note < 128)
    (hok : play_voices aw mp mus_ch k ins_sel note n ofs0 ofs1 note_att ch_att = .ok mp') :
    NotesFrame mp mp' := by
  unfold play_voices at hok
  split at hok
  · exact absurd hok (by simp)
  · rename_i mp1 h2
    have f1 := play_note_notesFrame h0 (by omega) h2
    split at hok
    · have hb := int_or_bit8_bounds note h0 (by omega)
      exact f1.notes_trans (play_note_notesFrame hb.1 hb.2 hok)
    · simp only [Except.ok.injEq] at hok
      subst hok
      exact f1

/-- A returning `note_on` for a MIDI note keeps the notes, leaves -1 or stores a note
id. -/
theorem note_on_notesFrame {W : Type} {aw : W → Int → Int → W} {mp mp' : musplayer_t W}
    {mus_ch : Nat} {note vol : Int} (h0 : 0 ≤ note) (h1 : note < 128)
    (hok : note_on aw mp mus_ch note vol = .ok mp') : NotesFrame mp mp' := by
  unfold note_on at hok
  simp only at hok
  generalize hk : (if (mp.channels mus_ch).mono ≠ 0 then _ else mp) = mp1 at hok
  have hk : NotesFrame mp mp1 := by
    rw [← hk]
    split
    · exact key_off_mus_all_notesFrame aw mp mus_ch
    · exact NotesFrame.notes_refl mp
  split at hok
  · exact absurd hok (by simp)
  · split at hok
    · split at hok
      · exact hk.notes_trans (play_voices_notesFrame h0 h1 hok)
      · simp only [Except.ok.injEq] at hok
        subst hok
        exact hk
    · split at hok
      · exact hk.notes_trans (play_voices_notesFrame h0 h1 hok)
      · exact hk.notes_trans (play_voices_notesFrame h0 h1 hok)

/-- A player is in `SongFrame` with itself. -/
theorem SongFrame.song_refl {W : Type} (mp : musplayer_t W) : SongFrame mp mp :=
  ⟨rfl, rfl, rfl, fun _ => Or.inl ⟨rfl, rfl⟩, NotesFrame.of_eq rfl⟩

/-- The relation `SongFrame` composes. -/
theorem SongFrame.song_trans {W : Type} {a b c : musplayer_t W} (h1 : SongFrame a b)
    (h2 : SongFrame b c) : SongFrame a c := by
  obtain ⟨a1, a2, a3, a4, a5⟩ := h1
  obtain ⟨b1, b2, b3, b4, b5⟩ := h2
  refine ⟨b1.trans a1, b2.trans a2, b3.trans a3, fun ch => ?_, a5.notes_trans b5⟩
  rcases b4 ch with ⟨e1, e2⟩ | hv
  · rcases a4 ch with ⟨f1, f2⟩ | ⟨f1, f2⟩
    · exact Or.inl ⟨e1.trans f1, e2.trans f2⟩
    · exact Or.inr ⟨by rw [e1]; exact f1, by rw [e1, e2]; exact f2⟩
  · exact Or.inr hv

/-- What changes voices only and keeps the notes keeps the song. -/
theorem VoicesOnly.songFrame {W : Type} {mp mp' : musplayer_t W} (h : VoicesOnly mp mp')
    (hn : NotesFrame mp mp') : SongFrame mp mp' := by
  obtain ⟨a1, -, -, -, -, a6, a7, a8⟩ := h
  exact ⟨a1, a6, a8, fun c => Or.inl ⟨by rw [a7], by rw [a7]⟩, hn⟩

/-- An update of a channel that leaves its instrument alone keeps the song. -/
theorem set_channel_songFrame {W : Type} (mp : musplayer_t W) (mus_ch : Nat)
    (f : mus_channel_t → mus_channel_t)
    (hf : ∀ ch, (f ch).ins_idx = ch.ins_idx ∧ (f ch).ins = ch.ins) :
    SongFrame mp (set_channel mp mus_ch f) := by
  refine ⟨rfl, rfl, rfl, fun c => Or.inl ?_, NotesFrame.of_eq rfl⟩
  unfold set_channel
  simp only
  by_cases hc : c = mus_ch
  · subst hc
    rw [Function.update_same]
    exact hf _
  · rw [Function.update_noteq hc]
    exact ⟨rfl, rfl⟩

/-- A change of the score pointer keeps the song. -/
theorem set_score_songFrame {W : Type} (mp : musplayer_t W) (p : Int) :
    SongFrame mp { mp with score := p } :=
  ⟨rfl, rfl, rfl, fun _ => Or.inl ⟨rfl, rfl⟩, NotesFrame.of_eq rfl⟩

/-- Function `update_volume` changes voices and device only. -/
theorem update_volume_voicesOnly {W : Type} (aw : W → Int → Int → W) (mp : musplayer_t W)
    (mus_ch ch_att pan_bits : Int) : VoicesOnly mp (update_volume aw mp mus_ch ch_att pan_bits) :=
  update_volume_loop_voicesOnly aw mus_ch ch_att pan_bits mus_num_voices 0 mp

/-- Function `silence_mus_all` changes voices and device only. -/
theorem silence_mus_all_voicesOnly {W : Type} (aw : W → Int → Int → W) (mp : musplayer_t W)
    (mus_ch : Int) : VoicesOnly mp (silence_mus_all aw mp mus_ch) :=
  silence_mus_all_loop_voicesOnly aw mus_ch mus_num_voices 0 mp

/-- Function `key_off_mus_all` changes voices and device only. -/
theorem key_off_mus_all_voicesOnly {W : Type} (aw : W → Int → Int → W) (mp : musplayer_t W)
    (mus_ch : Int) : VoicesOnly mp (key_off_mus_all aw mp mus_ch) :=
  (key_off_mus_all_loop_spec aw mus_ch mus_num_voices 0 mp).1

/-- A returning `bend_channel` changes voices and device only. -/
theorem bend_channel_voicesOnly {W : Type} (aw : W → Int → Int → W) (mp mp' : musplayer_t W)
    (mus_ch bend : Int) (hok : bend_channel aw mp mus_ch bend = .ok mp') : VoicesOnly mp mp' :=
  bend_channel_loop_voicesOnly aw mus_ch bend mus_num_voices 0 mp mp' hok

/-- The two volume controllers and the pan controller keep the song. -/
theorem set_volume_songFrame {W : Type} (aw : W → Int → Int → W) (mp : musplayer_t W)
    (mus_ch : Nat) (f : mus_channel_t → mus_channel_t)
    (hf : ∀ ch, (f ch).ins_idx = ch.ins_idx ∧ (f ch).ins = ch.ins) (a p : Int) :
    SongFrame mp (update_volume aw (set_channel mp mus_ch f) mus_ch a p) :=
  (set_channel_songFrame mp mus_ch f hf).song_trans
    ((update_volume_voicesOnly aw (set_channel mp mus_ch f) mus_ch a p).songFrame
      (update_volume_notesFrame aw (set_channel mp mus_ch f) mus_ch a p))

/-- A returning `mus_event` with a value that is not negative keeps the song: the
instrument controller stores an index below 175. -/
theorem mus_event_songFrame {W : Type} {aw : W → Int → Int → W} {mp mp' : musplayer_t W}
    {ctrl value : Int} {mus_ch : Nat} (hv : 0 ≤ value)
    (hok : mus_event aw mp ctrl value mus_ch = .ok mp') : SongFrame mp mp' := by
  unfold mus_event at hok
  by_cases c15 : ctrl > 14
  · rw [if_pos c15] at hok
    simp only [Except.ok.injEq] at hok; subst hok; exact SongFrame.song_refl mp
  rw [if_neg c15] at hok
  by_cases c0 : ctrl = 0
  · rw [if_pos c0] at hok
    simp only [Except.ok.injEq] at hok
    subst hok
    refine ⟨rfl, rfl, rfl, fun c => ?_, NotesFrame.of_eq rfl⟩
    unfold set_channel
    simp only
    by_cases hc : c = mus_ch
    · subst hc
      right
      simp only [Function.update_same]
      unfold toUInt8
      split <;> constructor <;> omega
    · left
      simp only [ne_eq, hc, not_false_eq_true, Function.update_noteq]
      trivial
  rw [if_neg c0] at hok
  by_cases c1 : ctrl = 1
  · rw [if_pos c1] at hok
    simp only [Except.ok.injEq] at hok; subst hok; exact SongFrame.song_refl mp
  rw [if_neg c1] at hok
  by_cases c2 : ctrl = 2
  · rw [if_pos c2] at hok
    simp only [Except.ok.injEq] at hok; subst hok; exact SongFrame.song_refl mp
  rw [if_neg c2] at hok
  by_cases c3 : ctrl = 3
  · rw [if_pos c3] at hok
    simp only at hok
    cases hatt : att_log_square_at (if value > 127 then 127 else value) with
    | error e => rw [hatt] at hok; exact absurd hok (by simp)
    | ok att =>
      rw [hatt] at hok
      simp only [Except.ok.injEq] at hok
      subst hok
      refine set_volume_songFrame aw mp mus_ch _ ?_ _ _
      intro ch; exact ⟨rfl, rfl⟩
  rw [if_neg c3] at hok
  by_cases c4 : ctrl = 4
  · rw [if_pos c4] at hok
    simp only [Except.ok.injEq] at hok
    subst hok
    refine set_volume_songFrame aw mp mus_ch _ ?_ _ _
    intro ch; exact ⟨rfl, rfl⟩
  rw [if_neg c4] at hok
  by_cases c5 : ctrl = 5
  · rw [if_pos c5] at hok
    simp only at hok
    cases hatt : att_log_square_at (if value > 127 then 127 else value) with
    | error e => rw [hatt] at hok; exact absurd hok (by simp)
    | ok att =>
      rw [hatt] at hok
      simp only [Except.ok.injEq] at hok
      subst hok
      refine set_volume_songFrame aw mp mus_ch _ ?_ _ _
      intro ch; exact ⟨rfl, rfl⟩
  rw [if_neg c5] at hok
  by_cases c6 : ctrl = 6
  · rw [if_pos c6] at hok
    simp only [Except.ok.injEq] at hok; subst hok; exact SongFrame.song_refl mp
  rw [if_neg c6] at hok
  by_cases c7 : ctrl = 7
  · rw [if_pos c7] at hok
    simp only [Except.ok.injEq] at hok; subst hok; exact SongFrame.song_refl mp
  rw [if_neg c7] at hok
  by_cases c8 : ctrl = 8
  · rw [if_pos c8] at hok
    simp only [Except.ok.injEq] at hok; subst hok; exact SongFrame.song_refl mp
  rw [if_neg c8] at hok
  by_cases c9 : ctrl = 9
  · rw [if_pos c9] at hok
    simp only [Except.ok.injEq] at hok; subst hok; exact SongFrame.song_refl mp
  rw [if_neg c9] at hok
  by_cases c10 : ctrl = 10
  · rw [if_pos c10] at hok
    simp only [Except.ok.injEq] at hok; subst hok
    exact (silence_mus_all_voicesOnly aw mp _).songFrame (silence_mus_all_notesFrame aw mp _)
  rw [if_neg c10] at hok
  by_cases c11 : ctrl = 11
  · rw [if_pos c11] at hok
    simp only [Except.ok.injEq] at hok; subst hok
    exact (key_off_mus_all_voicesOnly aw mp _).songFrame (key_off_mus_all_notesFrame aw mp _)
  rw [if_neg c11] at hok
  by_cases c12 : ctrl = 12
  · rw [if_pos c12] at hok
    simp only [Except.ok.injEq] at hok; subst hok
    exact set_channel_songFrame mp mus_ch _ (fun _ => ⟨rfl, rfl⟩)
  rw [if_neg c12] at hok
  by_cases c13 : ctrl = 13
  · rw [if_pos c13] at hok
    simp only [Except.ok.injEq] at hok; subst hok
    exact set_channel_songFrame mp mus_ch _ (fun _ => ⟨rfl, rfl⟩)
  rw [if_neg c13] at hok
  by_cases c14 : ctrl = 14
  · rw [if_pos c14] at hok
    simp only at hok
    generalize h1 : (if (mp.channels mus_ch).vol_att ≠ 0 ∨ (mp.channels mus_ch).exp_att ≠ 0 then _
      else mp) = mp1 at hok
    have h1 : SongFrame mp mp1 := by
      rw [← h1]
      split
      · refine SongFrame.song_trans (SongFrame.song_trans (SongFrame.song_trans
          (set_channel_songFrame mp mus_ch _ ?_) (set_channel_songFrame _ mus_ch _ ?_))
          (set_channel_songFrame _ mus_ch _ ?_))
          ((update_volume_voicesOnly aw _ _ _ _).songFrame (update_volume_notesFrame aw _ _ _ _))
        · intro ch; exact ⟨rfl, rfl⟩
        · intro ch; exact ⟨rfl, rfl⟩
        · intro ch; exact ⟨rfl, rfl⟩
      · exact SongFrame.song_refl mp
    generalize h2 : (if (mp1.channels mus_ch).bend ≠ 0 then _ else Except.ok mp1) = bent at hok
    have h2 : ∀ mp2, bent = .ok mp2 → SongFrame mp1 mp2 := by
      intro mp2 hb
      rw [← h2] at hb
      split at hb
      · refine SongFrame.song_trans (set_channel_songFrame mp1 mus_ch _ ?_)
          ((bend_channel_voicesOnly aw _ mp2 _ _ hb).songFrame
            (bend_channel_notesFrame aw _ mp2 _ _ hb))
        intro ch; exact ⟨rfl, rfl⟩
      · simp only [Except.ok.injEq] at hb
        subst hb
        exact SongFrame.song_refl mp1
    cases bent with
    | error e => exact absurd hok (by simp)
    | ok mp2 =>
      simp only [Except.ok.injEq] at hok
      subst hok
      refine SongFrame.song_trans (h1.song_trans (h2 mp2 rfl)) (set_channel_songFrame mp2 mus_ch _ ?_)
      intro ch; exact ⟨rfl, rfl⟩
  rw [if_neg c14] at hok
  simp only [Except.ok.injEq] at hok; subst hok; exact SongFrame.song_refl mp

/-- The invariant `InRange` passes along `SongFrame`. -/
theorem SongFrame.inRange {W : Type} {mp mp' : musplayer_t W} (h : SongFrame mp mp')
    (hi : InRange mp) : InRange mp' := by
  obtain ⟨-, -, -, hc, hn⟩ := h
  obtain ⟨i1, i2⟩ := hi
  constructor
  · intro c hc16
    rcases hc c with ⟨e1, e2⟩ | hv
    · rw [e1, e2]; exact i1 c hc16
    · exact hv
  · intro h hh
    rcases hn h with e | e
    · rw [e]; exact i2 h hh
    · exact e

/-- The low seven bits of a byte, as an `int`, are a MIDI note. -/
theorem and_0x7F_bounds (n : Nat) : (0 : Int) ≤ ((n &&& 0x7F : Nat) : Int)
    ∧ ((n &&& 0x7F : Nat) : Int) < 128 := by
  have h : n &&& 0x7F ≤ 0x7F := Nat.and_le_right
  omega

/-- A pass that ends with `break` in a player that keeps the song. -/
theorem next_frame {W : Type} {mp X : musplayer_t W} (cmd : Nat) (h : SongFrame mp X) :
    SongFrame mp (EventResult.next X cmd).player ∧
      ∃ mp', EventResult.next X cmd = .next mp' cmd :=
  ⟨h, X, rfl⟩

/-- The case `event_release` keeps the song and ends with `break`. -/
theorem event_release_frame {W : Type} {aw : W → Int → Int → W} {mem : Int → Nat}
    {mp : musplayer_t W} {cmd : Nat} {r : EventResult W}
    (hok : event_release aw mem mp cmd = .ok r) :
    SongFrame mp r.player ∧ ∃ mp', r = .next mp' cmd := by
  unfold event_release at hok
  simp only [Except.ok.injEq] at hok
  rw [← hok]
  refine next_frame cmd ?_
  exact (set_score_songFrame mp _).song_trans
    ((key_off_note_voicesOnly aw _ _ _).songFrame (key_off_note_notesFrame aw _ _ _))

/-- The case `event_note` keeps the song and ends with `break`. -/
theorem event_note_frame {W : Type} {aw : W → Int → Int → W} {mem : Int → Nat}
    {mp : musplayer_t W} {cmd : Nat} {r : EventResult W}
    (hok : event_note aw mem mp cmd = .ok r) :
    SongFrame mp r.player ∧ ∃ mp', r = .next mp' cmd := by
  unfold event_note at hok
  dsimp only at hok
  generalize h1 : (if read8 mem mp.score &&& 0x80 ≠ 0 then _ else _ : musplayer_t W) = mp1 at hok
  have h1 : SongFrame mp mp1 := by
    rw [← h1]
    split
    · refine ((set_score_songFrame mp _).song_trans (set_score_songFrame _ _)).song_trans
        (set_channel_songFrame _ _ _ ?_)
      intro ch; exact ⟨rfl, rfl⟩
    · exact set_score_songFrame mp _
  split at hok
  · exact absurd hok (by simp)
  · rename_i mp2 h2
    simp only [Except.ok.injEq] at hok
    rw [← hok]
    refine next_frame cmd ?_
    have hb := and_0x7F_bounds (read8 mem mp.score)
    exact h1.song_trans ((note_on_voicesOnly h2).songFrame (note_on_notesFrame hb.1 hb.2 h2))

/-- The case `event_pitch_wheel` keeps the song and ends with `break`. -/
theorem event_pitch_wheel_frame {W : Type} {aw : W → Int → Int → W} {mem : Int → Nat}
    {mp : musplayer_t W} {cmd : Nat} {r : EventResult W}
    (hok : event_pitch_wheel aw mem mp cmd = .ok r) :
    SongFrame mp r.player ∧ ∃ mp', r = .next mp' cmd := by
  unfold event_pitch_wheel at hok
  dsimp only at hok
  split at hok
  · exact absurd hok (by simp)
  · rename_i mp2 h2
    simp only [Except.ok.injEq] at hok
    rw [← hok]
    refine next_frame cmd ?_
    refine ((set_score_songFrame mp _).song_trans (set_channel_songFrame _ _ _ ?_)).song_trans
      ((bend_channel_voicesOnly aw _ mp2 _ _ h2).songFrame
        (bend_channel_notesFrame aw _ mp2 _ _ h2))
    intro ch; exact ⟨rfl, rfl⟩

/-- The case `event_system` keeps the song and ends with `break`. -/
theorem event_system_frame {W : Type} {aw : W → Int → Int → W} {mem : Int → Nat}
    {mp : musplayer_t W} {cmd : Nat} {r : EventResult W}
    (hok : event_system aw mem mp cmd = .ok r) :
    SongFrame mp r.player ∧ ∃ mp', r = .next mp' cmd := by
  unfold event_system at hok
  dsimp only at hok
  split at hok
  · exact absurd hok (by simp)
  · rename_i mp2 h2
    simp only [Except.ok.injEq] at hok
    rw [← hok]
    refine next_frame cmd ?_
    exact (set_score_songFrame mp _).song_trans (mus_event_songFrame (le_refl 0) h2)

/-- The case `event_controller` keeps the song and ends with `break`. -/
theorem event_controller_frame {W : Type} {aw : W → Int → Int → W} {mem : Int → Nat}
    {mp : musplayer_t W} {cmd : Nat} {r : EventResult W}
    (hok : event_controller aw mem mp cmd = .ok r) :
    SongFrame mp r.player ∧ ∃ mp', r = .next mp' cmd := by
  unfold event_controller at hok
  dsimp only at hok
  split at hok
  · split at hok
    · exact absurd hok (by simp)
    · rename_i mp2 h2
      simp only [Except.ok.injEq] at hok
      rw [← hok]
      refine next_frame cmd ?_
      exact ((set_score_songFrame mp _).song_trans (set_score_songFrame _ _)).song_trans
        (mus_event_songFrame (Int.natCast_nonneg _) h2)
  · simp only [Except.ok.injEq] at hok
    rw [← hok]
    refine next_frame cmd ?_
    exact (set_score_songFrame mp _).song_trans (set_score_songFrame _ _)

/-- The case `event_end_of_score` returns: 1 with the score at the loop start when the
player loops, else 0 with a null score and every voice keyed off. -/
theorem event_end_of_score_spec {W : Type} (aw : W → Int → Int → W) (mp : musplayer_t W) :
    ∃ mp' ret, event_end_of_score aw mp = .ok (.done mp' ret) ∧ SongFrame mp mp' ∧
      (mp.loop_score ≠ 0 → ret = 1 ∧ mp'.score = mp.loop_score ∧
        mp' = { mp with score := mp.loop_score }) ∧
      (mp.loop_score = 0 → ret = 0 ∧ mp'.score = 0 ∧
        ∀ h, h < mus_num_voices → (mp'.hw_voices h).noteid
          = if 0 ≤ (mp.hw_voices h).noteid then -1 else (mp.hw_voices h).noteid) := by
  unfold event_end_of_score
  by_cases hl : mp.loop_score ≠ 0
  · rw [if_pos hl]
    exact ⟨_, _, rfl, set_score_songFrame mp _, fun _ => ⟨rfl, rfl, rfl⟩, fun h => absurd h hl⟩
  · rw [if_neg hl]
    refine ⟨_, _, rfl, ?_, fun h => absurd h hl, fun _ => ⟨rfl, rfl, ?_⟩⟩
    · exact ((key_off_all_loop_spec aw mus_num_voices 0 mp).1.songFrame
        (key_off_all_loop_notesFrame aw mus_num_voices 0 mp)).song_trans (set_score_songFrame _ _)
    · intro h hh
      exact ((key_off_all_loop_spec aw mus_num_voices 0 mp).2.2 h).2.2.2.1 ⟨Nat.zero_le _, by omega⟩

/-- Players that agree on loop pointer, main attenuation, bank, channels and voices
are in `SongFrame`. -/
theorem SongFrame.of_fields {W : Type} {mp mp' : musplayer_t W}
    (h1 : mp'.loop_score = mp.loop_score) (h2 : mp'.main_att = mp.main_att)
    (h3 : mp'.op2bank = mp.op2bank) (h4 : mp'.channels = mp.channels)
    (h5 : mp'.hw_voices = mp.hw_voices) : SongFrame mp mp' :=
  ⟨h1, h2, h3, fun c => Or.inl ⟨by rw [h4], by rw [h4]⟩, NotesFrame.of_eq h5⟩

/-- One round of the event loop keeps the song; it returns only at an end-of-score
event, with 1 and the score at the loop start when the player loops, else with 0, a
null score and every voice keyed off. -/
theorem mus_step_frame {W : Type} {aw : W → Int → Int → W} {mem : Int → Nat}
    {mp : musplayer_t W} {r : EventResult W} (hok : mus_step aw mem mp = .ok r) :
    SongFrame mp r.player ∧
    ∀ mp' ret, r = .done mp' ret →
      (read8 mem mp.score >>> 4) &&& 7 = 6 ∧
      (mp.loop_score ≠ 0 → ret = 1 ∧ mp'.score = mp.loop_score) ∧
      (mp.loop_score = 0 → ret = 0 ∧ mp'.score = 0 ∧
        ∀ h, h < mus_num_voices → (mp'.hw_voices h).noteid
          = if 0 ≤ (mp.hw_voices h).noteid then -1 else (mp.hw_voices h).noteid) := by
  have hs : SongFrame mp { mp with score := mp.score + 1 } := set_score_songFrame mp _
  obtain ⟨d0, d1, d2, d3, d4, d5, d6, d7⟩ := mus_step_dispatch aw mem mp
  rcases event_type_cases (read8 mem mp.score) with e | e | e | e | e | e | e | e
  · rw [d0 e] at hok
    obtain ⟨f, mp1, rfl⟩ := event_release_frame hok
    exact ⟨hs.song_trans f, fun _ _ h => by cases h⟩
  · rw [d1 e] at hok
    obtain ⟨f, mp1, rfl⟩ := event_note_frame hok
    exact ⟨hs.song_trans f, fun _ _ h => by cases h⟩
  · rw [d2 e] at hok
    obtain ⟨f, mp1, rfl⟩ := event_pitch_wheel_frame hok
    exact ⟨hs.song_trans f, fun _ _ h => by cases h⟩
  · rw [d3 e] at hok
    obtain ⟨f, mp1, rfl⟩ := event_system_frame hok
    exact ⟨hs.song_trans f, fun _ _ h => by cases h⟩
  · rw [d4 e] at hok
    obtain ⟨f, mp1, rfl⟩ := event_controller_frame hok
    exact ⟨hs.song_trans f, fun _ _ h => by cases h⟩
  · rw [d5 e] at hok
    simp only [Except.ok.injEq] at hok
    rw [← hok]
    exact ⟨hs, fun _ _ h => by cases h⟩
  · rw [d6 e] at hok
    obtain ⟨mp1, ret1, h1, f, hl, hn⟩ := event_end_of_score_spec aw { mp with score := mp.score + 1 }
    rw [h1] at hok
    simp only [Except.ok.injEq] at hok
    rw [← hok]
    refine ⟨hs.song_trans f, ?_⟩
    intro mp' ret h
    simp only [EventResult.done.injEq] at h
    obtain ⟨rfl, rfl⟩ := h
    exact ⟨e, fun h => ⟨(hl h).1, (hl h).2.1⟩, hn⟩
  · rw [d7 e] at hok
    simp only [Except.ok.injEq] at hok
    rw [← hok]
    exact ⟨set_score_songFrame mp _, fun _ _ h => by cases h⟩

/-- A group of events keeps the song; it returns only through an end-of-score event. -/
theorem mus_events_frame {W : Type} {aw : W → Int → Int → W} {mem : Int → Nat} (n : Nat) :
    ∀ {mp : musplayer_t W} {r : EventResult W}, mus_events aw mem n mp = .ok r →
    SongFrame mp r.player ∧
    ∀ mp' ret, r = .done mp' ret →
      (mp.loop_score ≠ 0 → ret = 1 ∧ mp'.score = mp.loop_score) ∧
      (mp.loop_score = 0 → ret = 0 ∧ mp'.score = 0 ∧
        (InRange mp → ∀ h, h < mus_num_voices → (mp'.hw_voices h).noteid = -1)) := by
  induction n with
  | zero =>
    intro mp r hok
    rw [mus_events] at hok
    exact absurd hok (by simp)
  | succ n ih =>
    intro mp r hok
    rw [mus_events] at hok
    split at hok
    · exact absurd hok (by simp)
    · rename_i mp1 ret1 hstep
      simp only [Except.ok.injEq] at hok
      rw [← hok]
      obtain ⟨f, hd⟩ := mus_step_frame hstep
      obtain ⟨-, hl, hn⟩ := hd mp1 ret1 rfl
      refine ⟨f, ?_⟩
      intro mp' ret h
      simp only [EventResult.done.injEq] at h
      obtain ⟨rfl, rfl⟩ := h
      refine ⟨hl, fun h0 => ⟨(hn h0).1, (hn h0).2.1, ?_⟩⟩
      intro hi h hh
      rw [(hn h0).2.2 h hh]
      have := hi.2 h hh
      split
      · rfl
      · omega
    · rename_i mp1 cmd hstep
      obtain ⟨f, -⟩ := mus_step_frame hstep
      have f : SongFrame mp mp1 := f
      split at hok
      · obtain ⟨g, hd⟩ := ih hok
        refine ⟨f.song_trans g, ?_⟩
        intro mp' ret h
        obtain ⟨hl, hn⟩ := hd mp' ret h
        rw [f.1] at hl hn
        exact ⟨hl, fun h0 => ⟨(hn h0).1, (hn h0).2.1, fun hi => (hn h0).2.2 (f.inRange hi)⟩⟩
      · simp only [Except.ok.injEq] at hok
        rw [← hok]
        exact ⟨f, fun _ _ h => by cases h⟩

/-- The delay loop keeps the song. -/
theorem parse_delay_frame {W : Type} (mem : Int → Nat) (n : Nat) :
    ∀ {mp mp' : musplayer_t W}, parse_delay mem n mp = .ok mp' → SongFrame mp mp' := by
  induction n with
  | zero =>
    intro mp mp' hok
    rw [parse_delay] at hok
    exact absurd hok (by simp)
  | succ n ih =>
    intro mp mp' hok
    rw [parse_delay] at hok
    dsimp only at hok
    split at hok
    · refine SongFrame.song_trans ?_ (ih hok)
      exact SongFrame.of_fields rfl rfl rfl rfl rfl
    · simp only [Except.ok.injEq] at hok
      rw [← hok]
      exact SongFrame.of_fields rfl rfl rfl rfl rfl

/-- The outer loop of `musplay_update` keeps the song; it returns 1, or 0 from an
end-of-score event of a player that does not loop, with a null score and every voice
keyed off. -/
theorem musplay_update_loop_frame {W : Type} {aw : W → Int → Int → W} {mem : Int → Nat}
    (fuel n : Nat) :
    ∀ {mp mp' : musplayer_t W} {ticks ret : Int},
      musplay_update_loop aw mem fuel n mp ticks = .ok (mp', ret) →
      SongFrame mp mp' ∧
      (ret = 1 ∨ (ret = 0 ∧ mp.loop_score = 0 ∧ mp'.score = 0 ∧
        (InRange mp → ∀ h, h < mus_num_voices → (mp'.hw_voices h).noteid = -1))) := by
  induction n with
  | zero =>
    intro mp mp' ticks ret hok
    rw [musplay_update_loop] at hok
    exact absurd hok (by simp)
  | succ n ih =>
    intro mp mp' ticks ret hok
    rw [musplay_update_loop] at hok
    split at hok
    · simp only [Except.ok.injEq, Prod.mk.injEq] at hok
      obtain ⟨rfl, rfl⟩ := hok
      exact ⟨SongFrame.of_fields rfl rfl rfl rfl rfl, Or.inl rfl⟩
    · dsimp only at hok
      generalize (if mp.delay > 0 then wrapInt32 (ticks - mp.delay) else ticks) = t at hok
      generalize h1 : (if mp.delay > 0 then _ else mp : musplayer_t W) = mp1 at hok
      have h1 : SongFrame mp mp1 := by
        rw [← h1]
        split
        · exact SongFrame.of_fields rfl rfl rfl rfl rfl
        · exact SongFrame.song_refl mp
      split at hok
      · exact absurd hok (by simp)
      · rename_i mp2 ret2 hev
        simp only [Except.ok.injEq, Prod.mk.injEq] at hok
        obtain ⟨rfl, rfl⟩ := hok
        obtain ⟨f, hd⟩ := mus_events_frame fuel hev
        obtain ⟨hl, hn⟩ := hd mp2 ret2 rfl
        rw [h1.1] at hl hn
        refine ⟨h1.song_trans f, ?_⟩
        by_cases h0 : mp.loop_score = 0
        · right
          exact ⟨(hn h0).1, h0, (hn h0).2.1, fun hi => (hn h0).2.2 (h1.inRange hi)⟩
        · left
          exact (hl h0).1
      · rename_i mp2 cmd hev
        obtain ⟨f, -⟩ := mus_events_frame fuel hev
        have f : SongFrame mp1 mp2 := f
        split at hok
        · exact absurd hok (by simp)
        · rename_i mp3 hpd
          have g := parse_delay_frame mem fuel hpd
          have fg : SongFrame mp mp3 := (h1.song_trans f).song_trans g
          split at hok
          · obtain ⟨k, hr⟩ := ih hok
            refine ⟨fg.song_trans k, ?_⟩
            rcases hr with hr | ⟨r0, r1, r2, r3⟩
            · exact Or.inl hr
            · right
              rw [fg.1] at r1
              exact ⟨r0, r1, r2, fun hi => r3 (fg.inRange hi)⟩
          · simp only [Except.ok.injEq, Prod.mk.injEq] at hok
            obtain ⟨rfl, rfl⟩ := hok
            exact ⟨fg, Or.inl rfl⟩

/-- A returning `musplay_update` keeps the song and returns 0 or 1; when it returns 0
the score is null afterwards, and a player that had a score did not loop and has
every voice keyed off. -/
theorem musplay_update_frame {W : Type} {aw : W → Int → Int → W} {mem : Int → Nat}
    {fuel : Nat} {mp mp' : musplayer_t W} {ticks ret : Int}
    (hok : musplay_update aw mem fuel mp ticks = .ok (mp', ret)) :
    SongFrame mp mp' ∧ (ret = 1 ∨ ret = 0) ∧
    (ret = 0 → mp'.score = 0 ∧ (mp.score ≠ 0 → mp.loop_score = 0 ∧
      (InRange mp → ∀ h, h < mus_num_voices → (mp'.hw_voices h).noteid = -1))) := by
  unfold musplay_update at hok
  split at hok
  · rename_i hs
    simp only [Except.ok.injEq, Prod.mk.injEq] at hok
    obtain ⟨rfl, rfl⟩ := hok
    exact ⟨SongFrame.song_refl _, Or.inr rfl, fun _ => ⟨hs, fun h => absurd hs h⟩⟩
  · obtain ⟨f, hr⟩ := musplay_update_loop_frame fuel fuel hok
    refine ⟨f, ?_, ?_⟩
    · rcases hr with hr | hr
      · exact Or.inl hr
      · exact Or.inr hr.1
    · intro h0
      rcases hr with hr | ⟨-, r1, r2, r3⟩
      · omega
      · exact ⟨r2, fun _ => ⟨r1, r3⟩⟩

/-- Every state after `musplay_start` is in range. -/
theorem started_inRange {W : Type} {aw : W → Int → Int → W} {mem : Int → Nat}
    {mp : musplayer_t W} (hs : Started aw mem mp) : InRange mp := by
  induction hs with
  | start mp data loop =>
    obtain ⟨-, -, -, -, -, -, -, hc, hv⟩ := musplay_start_fields aw mem mp data loop
    constructor
    · intro c hc16
      rw [hc c hc16]
      exact ⟨by decide, rfl⟩
    · intro h hh
      rw [hv h hh]
  | update mp mp' fuel ticks ret _ hok ih => exact (musplay_update_frame hok).1.inRange ih
  | volume mp volume _ ih => exact ih
  | op2bank mp bank _ ih => exact ih
  | stop mp _ ih =>
    refine SongFrame.inRange ?_ ih
    unfold musplay_stop
    exact (((adlib_write_voicesOnly aw mp _ _).songFrame (adlib_write_notesFrame aw mp _ _)).song_trans
      ((key_off_all_loop_spec aw mus_num_voices 0 _).1.songFrame
        (key_off_all_loop_notesFrame aw mus_num_voices 0 _))).song_trans (set_score_songFrame _ _)

/-- The value `x | (1 << 8)` of a byte `x` is `x + 256`. -/
theorem int_or_bit8_eq (x : Int) (h0 : 0 ≤ x) (h1 : x < 256) :
    int_or x (int_shl 1 8) = x + 256 := by
  obtain ⟨n, rfl⟩ := Int.eq_ofNat_of_zero_le h0
  have hn : n < 256 := by omega
  have e1 : int_shl 1 8 = 256 := by decide
  have hm : n ||| 256 = n + 256 := by
    interval_cases n <;> rfl
  rw [e1]
  unfold int_or toInt32 toUInt32 wrapInt32
  have e2 : ((n : Int) % 4294967296).toNat = n := by omega
  have e3 : ((256 : Int) % 4294967296).toNat = 256 := by decide
  rw [e2, e3, hm]
  omega

/-- The low byte of a byte is the byte. -/
theorem int_and_byte (x : Int) (h0 : 0 ≤ x) (h1 : x < 256) : int_and x 0xFF = x := by
  obtain ⟨n, rfl⟩ := Int.eq_ofNat_of_zero_le h0
  have hn : n < 256 := by omega
  have hm : n &&& 255 = n := by
    interval_cases n <;> rfl
  unfold int_and toInt32 toUInt32 wrapInt32
  have e2 : ((n : Int) % 4294967296).toNat = n := by omega
  have e4 : ((255 : Int) % 4294967296).toNat = 255 := by decide
  rw [e2, e4, hm]
  omega

/-- With a selector whose low byte is below 175 and whose voice bit is 0 or 1,
`load_hw_instrument` returns. -/
theorem load_hw_instrument_returns {W : Type} (aw : W → Int → Int → W) (mp : musplayer_t W)
    (h : Nat) (s : Int) (h0 : 0 ≤ s) (h1 : s < 175) :
    (∃ mp', load_hw_instrument aw mp h s = .ok mp') ∧
    ∃ mp', load_hw_instrument aw mp h (int_or s (int_shl 1 8)) = .ok mp' := by
  have a1 := int_and_byte s h0 (by omega)
  have a2 := int_and_or_bit8 s h0 (by omega)
  have a3 := int_or_bit8_eq s h0 (by omega)
  have v1 : s >>> (8 : Nat) = 0 := by
    rw [Int.shiftRight_eq_div_pow]; omega
  have v2 : (s + 256) >>> (8 : Nat) = 1 := by
    rw [Int.shiftRight_eq_div_pow]; omega
  constructor
  · unfold load_hw_instrument
    dsimp only
    rw [a1, v1, if_neg (by omega), if_neg (by omega)]
    exact ⟨_, rfl⟩
  · unfold load_hw_instrument
    dsimp only
    rw [a2, a3, v2, if_neg (by omega), if_neg (by omega)]
    exact ⟨_, rfl⟩

/-- The instrument controller stores the value below 175, else 0, as index and as
bank entry of the channel. -/
theorem mus_event_instrument {W : Type} (aw : W → Int → Int → W) (mp : musplayer_t W)
    (mus_ch v : Nat) :
    ∃ mp', mus_event aw mp 0 (v : Int) mus_ch = .ok mp' ∧
      (mp'.channels mus_ch).ins_idx = (if v < 175 then v else 0) ∧
      (mp'.channels mus_ch).ins = (if v < 175 then v else 0) := by
  unfold mus_event
  rw [if_neg (by decide), if_pos rfl]
  refine ⟨_, rfl, ?_, ?_⟩
  · unfold set_channel
    simp only [Function.update_same]
    unfold toUInt8
    split <;> split <;> omega
  · unfold set_channel
    simp only [Function.update_same]
    split <;> split <;> omega

/-- The selectors of the note event: on channel 15 a note in 35..81 plays the
instrument `128 - 35 + note`, another channel plays the instrument of the channel. -/
theorem note_on_selector {W : Type} (aw : W → Int → Int → W) (mp : musplayer_t W)
    (mus_ch : Nat) (note vol a : Int) (ha : att_log_square_at vol = .ok a) :
    (mus_ch = 15 → 35 ≤ note → note ≤ 81 →
      note_on aw mp mus_ch note vol
        = play_voices aw
            (if (mp.channels mus_ch).mono ≠ 0 then key_off_mus_all aw mp mus_ch else mp)
            mus_ch (128 - 35 + note).toNat (128 - 35 + note) note
            (mp.op2bank (128 - 35 + note).toNat).noteNum 0 0 a (mp.channels mus_ch).vol_att) ∧
    (mus_ch ≠ 15 →
      ∃ n o0 o1, note_on aw mp mus_ch note vol
        = play_voices aw
            (if (mp.channels mus_ch).mono ≠ 0 then key_off_mus_all aw mp mus_ch else mp)
            mus_ch (mp.channels mus_ch).ins ((mp.channels mus_ch).ins_idx : Int) note
            n o0 o1 a (mp.channels mus_ch).vol_att) := by
  have hk : VoicesOnly mp
      (if (mp.channels mus_ch).mono ≠ 0 then key_off_mus_all aw mp mus_ch else mp) := by
    split
    · exact key_off_mus_all_voicesOnly aw mp mus_ch
    · exact VoicesOnly.refl mp
  unfold note_on
  dsimp only
  generalize (if (mp.channels mus_ch).mono ≠ 0 then key_off_mus_all aw mp mus_ch else mp)
    = mp1 at hk
  obtain ⟨-, -, -, -, -, -, hc, hb⟩ := hk
  rw [ha]
  dsimp only
  rw [hc, hb]
  constructor
  · intro h15 h35 h81
    rw [if_pos h15, if_pos ⟨h35, h81⟩]
  · intro h15
    rw [if_neg h15]
    split
    · exact ⟨_, _, _, rfl⟩
    · exact ⟨_, _, _, rfl⟩

/-- A stopped player: `musplay_update` returns 0 and leaves the player as it is. -/
theorem musplay_update_stopped {W : Type} (aw : W → Int → Int → W) (mem : Int → Nat)
    (fuel : Nat) (mp : musplayer_t W) (ticks : Int) (h : mp.score = 0) :
    musplay_update aw mem fuel mp ticks = .ok (mp, 0) := by
  unfold musplay_update
  rw [if_pos h]

/-- A call of `musplay_update` with no delay pending whose first event returns,
returns what the event returned. -/
theorem musplay_update_first_event {W : Type} (aw : W → Int → Int → W) (mem : Int → Nat)
    (fuel : Nat) (mp mp' : musplayer_t W) (ticks ret : Int) (hs : mp.score ≠ 0)
    (hd : mp.delay ≤ 0) (hstep : mus_step aw mem mp = .ok (.done mp' ret)) :
    musplay_update aw mem (fuel + 1) mp ticks = .ok (mp', ret) := by
  unfold musplay_update
  rw [if_neg hs, musplay_update_loop]
  have h1 : ¬ (mp.delay > 0 ∧ mp.delay > ticks) := by omega
  have h2 : ¬ mp.delay > 0 := by omega
  rw [if_neg h1]
  dsimp only
  rw [if_neg h2, mus_events, hstep]

/-- The register `(B|0xb0)+ch` of voice `h`: 0xB0 + h in the first bank, 0x100 + 0xB0 +
(h - 9) in the second. -/
theorem hw_reg_b0 (h : Nat) (hh : h < 18) :
    hw_reg h 0xb0 (hw_chan h)
      = (((if h < 9 then 0xB0 + h else 0x100 + 0xB0 + (h - 9)) : Nat) : Int) := by
  interval_cases h <;> rfl

/-- The value `(hw_cmd >> 8) & 0xdf` of a 16-bit `hw_cmd` is `hw_cmd >> 8` with bit 5
cleared. -/
theorem key_off_value_bits (c : Nat) (hc : c < 65536) (i : Nat) :
    ((c >>> 8) &&& 0xdf).testBit i = ((c >>> 8).testBit i && decide (i ≠ 5)) := by
  rw [Nat.testBit_and]
  by_cases hi : i < 8
  · have h0 : Nat.testBit 0xdf i = decide (i ≠ 5) := by
      interval_cases i <;> decide
    rw [h0]
  · have h1 : c >>> 8 < 2 ^ i := by
      have h2 : c >>> 8 < 256 := by
        rw [Nat.shiftRight_eq_div_pow]; omega
      have h3 : 2 ^ 8 ≤ 2 ^ i := Nat.pow_le_pow_right (by decide) (by omega)
      omega
    rw [Nat.testBit_lt_two_pow h1]
    rfl

/-- The attenuation `v_att` is in 0..63, and it is the clamped sum when no partial sum
leaves the range of `int`. -/
theorem voice_att_spec (main_att note_att ch_att pan_bits : Int) :
    (0 ≤ voice_att main_att note_att ch_att pan_bits
      ∧ voice_att main_att note_att ch_att pan_bits ≤ 63) ∧
    (-2147483648 ≤ main_att + note_att ∧ main_att + note_att ≤ 2147483647 →
      -2147483648 ≤ main_att + note_att + ch_att
        ∧ main_att + note_att + ch_att ≤ 2147483647 - 6 →
      voice_att main_att note_att ch_att pan_bits
        = clamp (main_att + note_att + ch_att + (if pan_bits = 0x30 then 6 else 0)) 0 63) := by
  constructor
  · unfold voice_att clamp
    dsimp only
    split
    · split <;> omega
    · omega
  · intro h1 h2
    unfold voice_att opl3_pan_centre opl3_centre_att
    dsimp only
    have e1 : wrapInt32 (main_att + note_att) = main_att + note_att := by
      unfold wrapInt32; omega
    have e2 : wrapInt32 (main_att + note_att + ch_att) = main_att + note_att + ch_att := by
      unfold wrapInt32; omega
    rw [e1, e2]
    congr 1
    unfold wrapInt32
    split <;> omega

/-- The two operator levels for an attenuation `v` that is not negative. -/
theorem oper_att_spec (hw : mus_hw_voice_t) (v : Int) (hv : 0 ≤ v) :
    oper2_att hw v = min 63 ((hw.lvl2 : Int) + v) ∧
    oper1_att hw v
      = (if hw.feedback.testBit 0 then min 63 ((hw.lvl1 : Int) + v) else (hw.lvl1 : Int)) := by
  constructor
  · unfold oper2_att
    dsimp only
    split
    · omega
    · split <;> omega
  · unfold oper1_att
    dsimp only
    have hb : hw.feedback.testBit 0 = decide (hw.feedback &&& 1 ≠ 0) := by
      rw [Nat.testBit_zero, Nat.and_one_is_mod]
      by_cases h : hw.feedback % 2 = 1
      · simp [h]
      · have : hw.feedback % 2 = 0 := by omega
        simp [this]
    rw [hb]
    by_cases h : hw.feedback &&& 1 ≠ 0
    · rw [if_pos h]
      rw [decide_eq_true h, if_pos rfl]
      split
      · omega
      · split <;> omega
    · rw [if_neg h]
      rw [decide_eq_false h]
      rfl

/-- The writes of `key_on`: the three level writes of `write_levels`, then the two
bytes of a frequency command. -/
theorem key_on_dev {W : Type} {aw : W → Int → Int → W} {mp mp' : musplayer_t W}
    {hw_ch : Nat} {noteid note noteOfs note_att ch_att mus_ch bend pan_bits : Int}
    (hok : key_on aw mp hw_ch noteid note noteOfs note_att ch_att mus_ch bend pan_bits
      = .ok mp') :
    ∃ cmd : Nat,
      mp'.dev = aw (aw (write_levels aw mp hw_ch
          (voice_att mp.main_att note_att ch_att pan_bits) pan_bits).dev
        (hw_reg hw_ch 0xA0 (hw_chan hw_ch)) ((cmd &&& 255 : Nat) : Int))
        (hw_reg hw_ch 0xB0 (hw_chan hw_ch)) ((cmd >>> 8 : Nat) : Int) := by
  unfold key_on at hok
  simp only at hok
  split at hok
  · exact absurd hok (by simp)
  · split at hok
    · exact absurd hok (by simp)
    · rename_i cmd _
      simp only [Except.ok.injEq] at hok
      rw [← hok]
      exact ⟨cmd, rfl⟩

/-- A bend of one semitone down, with zero fine-tune, turns the table entry of a note
in 1..102 into the entry of the note below. -/
theorem bend_pitch_semitone_down (n : Nat) (h1 : 1 ≤ n) (h2 : n ≤ 102) :
    bend_pitch ((note_cmds.getD n 0 : Nat) : Int) (n : Int) (-64) 0
      = .ok ((note_cmds.getD (n - 1) 0 : Nat) : Int) := by
  interval_cases n <;> rfl

/-- A bend of one semitone up, with zero fine-tune, turns the table entry of a note in
0..101 into the entry of the note above. -/
theorem bend_pitch_semitone_up (n : Nat) (h2 : n ≤ 101) :
    bend_pitch ((note_cmds.getD n 0 : Nat) : Int) (n : Int) 64 0
      = .ok ((note_cmds.getD (n + 1) 0 : Nat) : Int) := by
  interval_cases n <;> rfl

/-- One round of the loop of `bend_channel` with the bend -64 on an active voice of
the channel that plays note 60 with zero fine-tune: the two bytes written are those of
`note_cmds[59]`. -/
theorem bend_channel_loop_note60 {W : Type} (aw : W → Int → Int → W) (mus_ch : Int)
    (n h : Nat) (mp : musplayer_t W) (hc : ((mp.hw_voices h).mus_ch : Int) = mus_ch)
    (hact : 0 ≤ (mp.hw_voices h).noteid) (hn : (mp.hw_voices h).p_note = 60)
    (hcmd : (mp.hw_voices h).hw_cmd = note_cmds.getD 60 0)
    (hf : (mp.hw_voices h).fineTune = 0) :
    bend_channel_loop aw mus_ch (-64) (n + 1) h mp
      = bend_channel_loop aw mus_ch (-64) n (h + 1)
          { mp with
            dev := aw (aw mp.dev (hw_reg h 0xa0 (hw_chan h))
                (int_and ((note_cmds.getD 59 0 : Nat) : Int) 255))
              (hw_reg h 0xb0 (hw_chan h)) (((note_cmds.getD 59 0 : Nat) : Int) >>> (8 : Nat)) } := by
  rw [bend_channel_loop, if_pos ⟨hc, hact⟩, hn, hcmd, hf]
  have e := bend_pitch_semitone_down 60 (by decide) (by decide)
  rw [e]
  rfl

/-- A player is in `OwnerFrame` with itself. -/
theorem OwnerFrame.owner_refl {W : Type} (mp : musplayer_t W) : OwnerFrame mp mp :=
  fun _ h => h

/-- The relation `OwnerFrame` composes. -/
theorem OwnerFrame.owner_trans {W : Type} {a b c : musplayer_t W} (h1 : OwnerFrame a b)
    (h2 : OwnerFrame b c) : OwnerFrame a c :=
  fun h hv => h2 h (h1 h hv)

/-- Players with the same voices are in `OwnerFrame`. -/
theorem OwnerFrame.of_voices {W : Type} {mp mp' : musplayer_t W}
    (h : mp'.hw_voices = mp.hw_voices) : OwnerFrame mp mp' := by
  intro k hv
  rw [h]
  exact hv

/-- A register write keeps the voices in order. -/
theorem adlib_write_ownerFrame {W : Type} (aw : W → Int → Int → W) (mp : musplayer_t W)
    (reg val : Int) : OwnerFrame mp (adlib_write aw mp reg val) :=
  OwnerFrame.of_voices rfl

/-- Function `key_off_hw` keeps the voices in order. -/
theorem key_off_hw_ownerFrame {W : Type} (aw : W → Int → Int → W) (mp : musplayer_t W)
    (h : Nat) : OwnerFrame mp (key_off_hw aw mp h) := by
  obtain ⟨-, -, ho, hn, -, hc, hi, -⟩ := key_off_hw_fields aw mp h
  intro k hv
  by_cases hk : k = h
  · subst hk
    obtain ⟨v1, v2⟩ := hv
    unfold VoiceOwned
    rw [hn, hc, hi]
    by_cases ha : 0 ≤ (mp.hw_voices k).noteid
    · rw [if_pos ha]
      refine ⟨fun h0 => absurd h0 (by decide), ?_⟩
      exact Or.inl (v1 ha).1
    · rw [if_neg ha]
      exact ⟨v1, v2⟩
  · rw [ho k hk]
    exact hv

/-- Function `silence_hw` keeps the voices in order. -/
theorem silence_hw_ownerFrame {W : Type} (aw : W → Int → Int → W) (mp : musplayer_t W)
    (h : Nat) : OwnerFrame mp (silence_hw aw mp h) := by
  unfold silence_hw
  simp only
  generalize hm : adlib_write aw (adlib_write aw mp _ 15) _ 15 = m
  have hv : m.hw_voices = mp.hw_voices := by rw [← hm]; rfl
  obtain ⟨-, -, ho, hn, -, hc, -⟩ := key_off_hw_fields aw m h
  intro k hk
  rw [← hv] at hk
  by_cases e : k = h
  · subst e
    obtain ⟨v1, v2⟩ := hk
    simp only [Function.update_same]
    unfold VoiceOwned
    simp only
    rw [hn, hc]
    by_cases ha : 0 ≤ (m.hw_voices k).noteid
    · rw [if_pos ha]
      exact ⟨fun h0 => absurd h0 (by decide), Or.inl (v1 ha).1⟩
    · rw [if_neg ha]
      refine ⟨fun h0 => absurd h0 ha, ?_⟩
      rcases v2 with v | ⟨v, w, -⟩
      · exact Or.inl v
      · exact Or.inr ⟨v, w, trivial⟩
  · simp only [ne_eq, e, not_false_eq_true, Function.update_noteq]
    rw [ho k e]
    exact hk

/-- The loop of `key_off_note` keeps the voices in order. -/
theorem key_off_note_loop_ownerFrame {W : Type} (aw : W → Int → Int → W) (mus_ch note : Int)
    (n : Nat) :
    ∀ (h : Nat) (mp : musplayer_t W), OwnerFrame mp (key_off_note_loop aw mus_ch note n h mp) := by
  induction n with
  | zero => intro h mp; exact OwnerFrame.owner_refl mp
  | succ n ih =>
    intro h mp
    rw [key_off_note_loop]
    split
    · exact (key_off_hw_ownerFrame aw mp h).owner_trans (ih (h + 1) _)
    · exact ih (h + 1) mp

/-- The loop of `key_off_mus_all` keeps the voices in order. -/
theorem key_off_mus_all_loop_ownerFrame {W : Type} (aw : W → Int → Int → W) (mus_ch : Int)
    (n : Nat) :
    ∀ (h : Nat) (mp : musplayer_t W), OwnerFrame mp (key_off_mus_all_loop aw mus_ch n h mp) := by
  induction n with
  | zero => intro h mp; exact OwnerFrame.owner_refl mp
  | succ n ih =>
    intro h mp
    rw [key_off_mus_all_loop]
    split
    · exact (key_off_hw_ownerFrame aw mp h).owner_trans (ih (h + 1) _)
    · exact ih (h + 1) mp

/-- The loop that keys off every voice keeps the voices in order. -/
theorem key_off_all_loop_ownerFrame {W : Type} (aw : W → Int → Int → W) (n : Nat) :
    ∀ (h : Nat) (mp : musplayer_t W), OwnerFrame mp (key_off_all_loop aw n h mp) := by
  induction n with
  | zero => intro h mp; exact OwnerFrame.owner_refl mp
  | succ n ih =>
    intro h mp
    rw [key_off_all_loop]
    exact (key_off_hw_ownerFrame aw mp h).owner_trans (ih (h + 1) _)

/-- The loop of `silence_mus_all` keeps the voices in order. -/
theorem silence_mus_all_loop_ownerFrame {W : Type} (aw : W → Int → Int → W) (mus_ch : Int)
    (n : Nat) :
    ∀ (h : Nat) (mp : musplayer_t W), OwnerFrame mp (silence_mus_all_loop aw mus_ch n h mp) := by
  induction n with
  | zero => intro h mp; exact OwnerFrame.owner_refl mp
  | succ n ih =>
    intro h mp
    rw [silence_mus_all_loop]
    split
    · exact (silence_hw_ownerFrame aw mp h).owner_trans (ih (h + 1) _)
    · exact ih (h + 1) mp

/-- The loop of `update_volume` leaves every voice entry as it is. -/
theorem update_volume_loop_hw_voices {W : Type} (aw : W → Int → Int → W)
    (mus_ch ch_att pan_bits : Int) (n : Nat) :
    ∀ (h : Nat) (mp : musplayer_t W),
      (update_volume_loop aw mus_ch ch_att pan_bits n h mp).hw_voices = mp.hw_voices := by
  induction n with
  | zero => intro h mp; rfl
  | succ n ih =>
    intro h mp
    rw [update_volume_loop]
    split
    · exact (ih (h + 1) _).trans (write_levels_fields aw mp h _ _).2.2
    · exact ih (h + 1) mp

/-- A returning loop of `bend_channel` leaves every voice entry as it is. -/
theorem bend_channel_loop_hw_voices {W : Type} (aw : W → Int → Int → W) (mus_ch bend : Int)
    (n : Nat) :
    ∀ (h : Nat) (mp mp' : musplayer_t W),
      bend_channel_loop aw mus_ch bend n h mp = .ok mp' → mp'.hw_voices = mp.hw_voices := by
  induction n with
  | zero =>
    intro h mp mp' hok
    rw [bend_channel_loop] at hok
    simp only [Except.ok.injEq] at hok
    subst hok
    rfl
  | succ n ih =>
    intro h mp mp' hok
    rw [bend_channel_loop] at hok
    split at hok
    · split at hok
      · exact absurd hok (by simp)
      · refine (ih (h + 1) _ mp' hok).trans ?_
        rfl
    · exact ih (h + 1) mp mp' hok

/-- Function `update_volume` keeps the voices in order. -/
theorem update_volume_ownerFrame {W : Type} (aw : W → Int → Int → W) (mp : musplayer_t W)
    (mus_ch ch_att pan_bits : Int) : OwnerFrame mp (update_volume aw mp mus_ch ch_att pan_bits) :=
  OwnerFrame.of_voices (update_volume_loop_hw_voices aw mus_ch ch_att pan_bits mus_num_voices 0 mp)

/-- Function `silence_mus_all` keeps the voices in order. -/
theorem silence_mus_all_ownerFrame {W : Type} (aw : W → Int → Int → W) (mp : musplayer_t W)
    (mus_ch : Int) : OwnerFrame mp (silence_mus_all aw mp mus_ch) :=
  silence_mus_all_loop_ownerFrame aw mus_ch mus_num_voices 0 mp

/-- Function `key_off_mus_all` keeps the voices in order. -/
theorem key_off_mus_all_ownerFrame {W : Type} (aw : W → Int → Int → W) (mp : musplayer_t W)
    (mus_ch : Int) : OwnerFrame mp (key_off_mus_all aw mp mus_ch) :=
  key_off_mus_all_loop_ownerFrame aw mus_ch mus_num_voices 0 mp

/-- Function `key_off_note` keeps the voices in order. -/
theorem key_off_note_ownerFrame {W : Type} (aw : W → Int → Int → W) (mp : musplayer_t W)
    (mus_ch note : Int) : OwnerFrame mp (key_off_note aw mp mus_ch note) :=
  key_off_note_loop_ownerFrame aw mus_ch note mus_num_voices 0 mp

/-- A returning `bend_channel` keeps the voices in order. -/
theorem bend_channel_ownerFrame {W : Type} (aw : W → Int → Int → W) (mp mp' : musplayer_t W)
    (mus_ch bend : Int) (hok : bend_channel aw mp mus_ch bend = .ok mp') : OwnerFrame mp mp' :=
  OwnerFrame.of_voices (bend_channel_loop_hw_voices aw mus_ch bend mus_num_voices 0 mp mp' hok)

/-- Function `choose_hw_voice` keeps the voices in order. -/
theorem choose_hw_voice_ownerFrame {W : Type} (aw : W → Int → Int → W) (mp : musplayer_t W)
    (ins_sel mus_ch noteid : Int) :
    OwnerFrame mp (choose_hw_voice aw mp ins_sel mus_ch noteid).1 := by
  rcases choose_hw_voice_player aw mp ins_sel mus_ch noteid with e | ⟨-, e⟩
  · rw [e]; exact OwnerFrame.owner_refl mp
  · rw [e]; exact key_off_hw_ownerFrame aw mp _

/-- A returning `play_note` for one of the 16 MUS channels and a selector of an
instrument of the bank keeps the voices in order: the voice that takes the note gets
the channel as owner and the selector as instrument. -/
theorem play_note_ownerFrame {W : Type} {aw : W → Int → Int → W} {mp mp' : musplayer_t W}
    {ins_sel noteid note noteOfs note_att ch_att mus_ch bend pan : Int}
    (hc0 : 0 ≤ mus_ch) (hc1 : mus_ch < 16) (hs0 : 0 ≤ ins_sel) (hs1 : ins_sel < 32768)
    (hs2 : int_and ins_sel 0xFF < 175)
    (hok : play_note aw mp ins_sel noteid note noteOfs note_att ch_att mus_ch bend pan
      = .ok mp') : OwnerFrame mp mp' := by
  have hc := choose_hw_voice_ownerFrame aw mp ins_sel mus_ch noteid
  obtain ⟨-, p1, p2⟩ := play_note_fields hok
  by_cases hv : (choose_hw_voice aw mp ins_sel mus_ch noteid).2 < 0
  · rw [p1 hv]
    exact hc
  · obtain ⟨-, q2, -, -, q5, q6⟩ := p2 (by omega)
    have hi : toInt16 ins_sel = ins_sel := by
      unfold toInt16; omega
    have hu : toUInt8 mus_ch < 16 := by
      unfold toUInt8; omega
    intro k hk
    by_cases e : k = (choose_hw_voice aw mp ins_sel mus_ch noteid).2.toNat
    · rw [e]
      unfold VoiceOwned
      rw [q2, q6 hs2 hi]
      exact ⟨fun _ => ⟨hu, hs0⟩, Or.inl hu⟩
    · rw [q5 k e]
      exact hc k hk

/-- A player is in `EventFrame` with itself. -/
theorem EventFrame.event_refl {W : Type} (mp : musplayer_t W) : EventFrame mp mp :=
  ⟨rfl, rfl, OwnerFrame.owner_refl mp⟩

/-- The relation `EventFrame` composes. -/
theorem EventFrame.event_trans {W : Type} {a b c : musplayer_t W} (h1 : EventFrame a b)
    (h2 : EventFrame b c) : EventFrame a c :=
  ⟨h2.1.trans h1.1, h2.2.1.trans h1.2.1, h1.2.2.owner_trans h2.2.2⟩

/-- What changes voices and device only and keeps the voices in order is in
`EventFrame`. -/
theorem VoicesOnly.eventFrame {W : Type} {mp mp' : musplayer_t W} (h : VoicesOnly mp mp')
    (ho : OwnerFrame mp mp') : EventFrame mp mp' :=
  ⟨h.2.2.1, h.2.2.2.1, ho⟩

/-- An update of a channel is in `EventFrame`. -/
theorem set_channel_eventFrame {W : Type} (mp : musplayer_t W) (mus_ch : Nat)
    (f : mus_channel_t → mus_channel_t) : EventFrame mp (set_channel mp mus_ch f) :=
  ⟨rfl, rfl, OwnerFrame.of_voices rfl⟩

/-- A change of the score pointer is in `EventFrame`. -/
theorem set_score_eventFrame {W : Type} (mp : musplayer_t W) (p : Int) :
    EventFrame mp { mp with score := p } :=
  ⟨rfl, rfl, OwnerFrame.of_voices rfl⟩

/-- The two volume controllers and the pan controller are in `EventFrame`. -/
theorem set_volume_eventFrame {W : Type} (aw : W → Int → Int → W) (mp : musplayer_t W)
    (mus_ch : Nat) (f : mus_channel_t → mus_channel_t) (a p : Int) :
    EventFrame mp (update_volume aw (set_channel mp mus_ch f) mus_ch a p) :=
  (set_channel_eventFrame mp mus_ch f).event_trans
    ((update_volume_voicesOnly aw (set_channel mp mus_ch f) mus_ch a p).eventFrame
      (update_volume_ownerFrame aw (set_channel mp mus_ch f) mus_ch a p))

/-- A returning `play_voices` for one of the 16 MUS channels and an instrument of the
bank keeps the voices in order. -/
theorem play_voices_ownerFrame {W : Type} {aw : W → Int → Int → W} {mp mp' : musplayer_t W}
    {mus_ch k : Nat} {ins_sel note n ofs0 ofs1 note_att ch_att : Int}
    (hch : mus_ch < 16) (hs0 : 0 ≤ ins_sel) (hs1 : ins_sel < 175)
    (hok : play_voices aw mp mus_ch k ins_sel note n ofs0 ofs1 note_att ch_att = .ok mp') :
    OwnerFrame mp mp' := by
  have hc0 : (0 : Int) ≤ (mus_ch : Int) := Int.natCast_nonneg _
  have hc1 : (mus_ch : Int) < 16 := by omega
  unfold play_voices at hok
  split at hok
  · exact absurd hok (by simp)
  · rename_i mp1 h2
    have f1 := play_note_ownerFrame hc0 hc1 hs0 (by omega)
      (by rw [int_and_byte ins_sel hs0 (by omega)]; exact hs1) h2
    split at hok
    · have hb := int_or_bit8_bounds ins_sel hs0 (by omega)
      exact f1.owner_trans (play_note_ownerFrame hc0 hc1 hb.1 hb.2
        (by rw [int_and_or_bit8 ins_sel hs0 (by omega)]; exact hs1) hok)
    · simp only [Except.ok.injEq] at hok
      subst hok
      exact f1

/-- A returning `note_on` for a MIDI note on one of the 16 MUS channels, the channel
with an instrument of the bank, keeps the voices in order. -/
theorem note_on_ownerFrame {W : Type} {aw : W → Int → Int → W} {mp mp' : musplayer_t W}
    {mus_ch : Nat} {note vol : Int} (hch : mus_ch < 16)
    (hidx : (mp.channels mus_ch).ins_idx < 175)
    (hok : note_on aw mp mus_ch note vol = .ok mp') : OwnerFrame mp mp' := by
  unfold note_on at hok
  simp only at hok
  generalize hk : (if (mp.channels mus_ch).mono ≠ 0 then _ else mp) = mp1 at hok
  have hk : OwnerFrame mp mp1 ∧ mp1.channels = mp.channels := by
    rw [← hk]
    split
    · exact ⟨key_off_mus_all_ownerFrame aw mp mus_ch,
        (key_off_mus_all_voicesOnly aw mp mus_ch).2.2.2.2.2.2.1⟩
    · exact ⟨OwnerFrame.owner_refl mp, rfl⟩
  obtain ⟨hk, hch1⟩ := hk
  have hidx1 : (mp1.channels mus_ch).ins_idx < 175 := by rw [hch1]; exact hidx
  split at hok
  · exact absurd hok (by simp)
  · split at hok
    · split at hok
      · rename_i hn
        exact hk.owner_trans (play_voices_ownerFrame hch (by omega) (by omega) hok)
      · simp only [Except.ok.injEq] at hok
        subst hok
        exact hk
    · split at hok
      · exact hk.owner_trans (play_voices_ownerFrame hch (Int.natCast_nonneg _) (by omega) hok)
      · exact hk.owner_trans (play_voices_ownerFrame hch (Int.natCast_nonneg _) (by omega) hok)

/-- A returning `mus_event` is in `EventFrame`. -/
theorem mus_event_eventFrame {W : Type} {aw : W → Int → Int → W} {mp mp' : musplayer_t W}
    {ctrl value : Int} {mus_ch : Nat}
    (hok : mus_event aw mp ctrl value mus_ch = .ok mp') : EventFrame mp mp' := by
  unfold mus_event at hok
  by_cases c15 : ctrl > 14
  · rw [if_pos c15] at hok
    simp only [Except.ok.injEq] at hok; subst hok; exact EventFrame.event_refl mp
  rw [if_neg c15] at hok
  by_cases c0 : ctrl = 0
  · rw [if_pos c0] at hok
    simp only [Except.ok.injEq] at hok
    subst hok
    exact (set_channel_eventFrame mp mus_ch _).event_trans (set_channel_eventFrame _ mus_ch _)
  rw [if_neg c0] at hok
  by_cases c1 : ctrl = 1
  · rw [if_pos c1] at hok
    simp only [Except.ok.injEq] at hok; subst hok; exact EventFrame.event_refl mp
  rw [if_neg c1] at hok
  by_cases c2 : ctrl = 2
  · rw [if_pos c2] at hok
    simp only [Except.ok.injEq] at hok; subst hok; exact EventFrame.event_refl mp
  rw [if_neg c2] at hok
  by_cases c3 : ctrl = 3
  · rw [if_pos c3] at hok
    simp only at hok
    cases hatt : att_log_square_at (if value > 127 then 127 else value) with
    | error e => rw [hatt] at hok; exact absurd hok (by simp)
    | ok att =>
      rw [hatt] at hok
      simp only [Except.ok.injEq] at hok
      subst hok
      exact set_volume_eventFrame aw mp mus_ch _ _ _
  rw [if_neg c3] at hok
  by_cases c4 : ctrl = 4
  · rw [if_pos c4] at hok
    simp only [Except.ok.injEq] at hok
    subst hok
    exact set_volume_eventFrame aw mp mus_ch _ _ _
  rw [if_neg c4] at hok
  by_cases c5 : ctrl = 5
  · rw [if_pos c5] at hok
    simp only at hok
    cases hatt : att_log_square_at (if value > 127 then 127 else value) with
    | error e => rw [hatt] at hok; exact absurd hok (by simp)
    | ok att =>
      rw [hatt] at hok
      simp only [Except.ok.injEq] at hok
      subst hok
      exact set_volume_eventFrame aw mp mus_ch _ _ _
  rw [if_neg c5] at hok
  by_cases c6 : ctrl = 6
  · rw [if_pos c6] at hok
    simp only [Except.ok.injEq] at hok; subst hok; exact EventFrame.event_refl mp
  rw [if_neg c6] at hok
  by_cases c7 : ctrl = 7
  · rw [if_pos c7] at hok
    simp only [Except.ok.injEq] at hok; subst hok; exact EventFrame.event_refl mp
  rw [if_neg c7] at hok
  by_cases c8 : ctrl = 8
  · rw [if_pos c8] at hok
    simp only [Except.ok.injEq] at hok; subst hok; exact EventFrame.event_refl mp
  rw [if_neg c8] at hok
  by_cases c9 : ctrl = 9
  · rw [if_pos c9] at hok
    simp only [Except.ok.injEq] at hok; subst hok; exact EventFrame.event_refl mp
  rw [if_neg c9] at hok
  by_cases c10 : ctrl = 10
  · rw [if_pos c10] at hok
    simp only [Except.ok.injEq] at hok; subst hok
    exact (silence_mus_all_voicesOnly aw mp _).eventFrame (silence_mus_all_ownerFrame aw mp _)
  rw [if_neg c10] at hok
  by_cases c11 : ctrl = 11
  · rw [if_pos c11] at hok
    simp only [Except.ok.injEq] at hok; subst hok
    exact (key_off_mus_all_voicesOnly aw mp _).eventFrame (key_off_mus_all_ownerFrame aw mp _)
  rw [if_neg c11] at hok
  by_cases c12 : ctrl = 12
  · rw [if_pos c12] at hok
    simp only [Except.ok.injEq] at hok; subst hok
    exact set_channel_eventFrame mp mus_ch _
  rw [if_neg c12] at hok
  by_cases c13 : ctrl = 13
  · rw [if_pos c13] at hok
    simp only [Except.ok.injEq] at hok; subst hok
    exact set_channel_eventFrame mp mus_ch _
  rw [if_neg c13] at hok
  by_cases c14 : ctrl = 14
  · rw [if_pos c14] at hok
    simp only at hok
    generalize h1 : (if (mp.channels mus_ch).vol_att ≠ 0 ∨ (mp.channels mus_ch).exp_att ≠ 0 then _
      else mp) = mp1 at hok
    have h1 : EventFrame mp mp1 := by
      rw [← h1]
      split
      · exact EventFrame.event_trans (EventFrame.event_trans (EventFrame.event_trans
          (set_channel_eventFrame mp mus_ch _) (set_channel_eventFrame _ mus_ch _))
          (set_channel_eventFrame _ mus_ch _))
          ((update_volume_voicesOnly aw _ _ _ _).eventFrame (update_volume_ownerFrame aw _ _ _ _))
      · exact EventFrame.event_refl mp
    generalize h2 : (if (mp1.channels mus_ch).bend ≠ 0 then _ else Except.ok mp1) = bent at hok
    have h2 : ∀ mp2, bent = .ok mp2 → EventFrame mp1 mp2 := by
      intro mp2 hb
      rw [← h2] at hb
      split at hb
      · exact EventFrame.event_trans (set_channel_eventFrame mp1 mus_ch _)
          ((bend_channel_voicesOnly aw _ mp2 _ _ hb).eventFrame
            (bend_channel_ownerFrame aw _ mp2 _ _ hb))
      · simp only [Except.ok.injEq] at hb
        subst hb
        exact EventFrame.event_refl mp1
    cases bent with
    | error e => exact absurd hok (by simp)
    | ok mp2 =>
      simp only [Except.ok.injEq] at hok
      subst hok
      exact EventFrame.event_trans (h1.event_trans (h2 mp2 rfl)) (set_channel_eventFrame mp2 mus_ch _)
  rw [if_neg c14] at hok
  simp only [Except.ok.injEq] at hok; subst hok; exact EventFrame.event_refl mp

/-- A pass that ends with `break` in a player that is in `EventFrame`. -/
theorem next_eventFrame {W : Type} {mp X : musplayer_t W} (cmd : Nat) (h : EventFrame mp X) :
    EventFrame mp (EventResult.next X cmd).player :=
  h

/-- The case `event_release` is in `EventFrame`. -/
theorem event_release_eventFrame {W : Type} {aw : W → Int → Int → W} {mem : Int → Nat}
    {mp : musplayer_t W} {cmd : Nat} {r : EventResult W}
    (hok : event_release aw mem mp cmd = .ok r) : EventFrame mp r.player := by
  unfold event_release at hok
  simp only [Except.ok.injEq] at hok
  rw [← hok]
  refine next_eventFrame cmd ?_
  exact (set_score_eventFrame mp _).event_trans
    ((key_off_note_voicesOnly aw _ _ _).eventFrame (key_off_note_ownerFrame aw _ _ _))

/-- The case `event_note` keeps the delay and the time, and it keeps the voices in
order when the channel has an instrument of the bank. -/
theorem event_note_eventFrame {W : Type} {aw : W → Int → Int → W} {mem : Int → Nat}
    {mp : musplayer_t W} {cmd : Nat} {r : EventResult W}
    (hok : event_note aw mem mp cmd = .ok r) :
    r.player.delay = mp.delay ∧ r.player.mus_time = mp.mus_time ∧
    ((mp.channels (cmd &&& 15)).ins_idx < 175 → OwnerFrame mp r.player) := by
  unfold event_note at hok
  dsimp only at hok
  generalize h1 : (if read8 mem mp.score &&& 0x80 ≠ 0 then _ else _ : musplayer_t W) = mp1 at hok
  have h1 : (mp1.delay = mp.delay ∧ mp1.mus_time = mp.mus_time ∧ mp1.hw_voices = mp.hw_voices)
      ∧ (mp1.channels (cmd &&& 15)).ins_idx = (mp.channels (cmd &&& 15)).ins_idx := by
    rw [← h1]
    split
    · refine ⟨⟨rfl, rfl, rfl⟩, ?_⟩
      unfold set_channel
      simp only [Function.update_same]
    · exact ⟨⟨rfl, rfl, rfl⟩, rfl⟩
  obtain ⟨⟨t1, t2, t3⟩, t4⟩ := h1
  split at hok
  · exact absurd hok (by simp)
  · rename_i mp2 h2
    simp only [Except.ok.injEq] at hok
    rw [← hok]
    have v := note_on_voicesOnly h2
    refine ⟨v.2.2.1.trans t1, v.2.2.2.1.trans t2, fun hidx => ?_⟩
    exact (OwnerFrame.of_voices t3).owner_trans
      (note_on_ownerFrame (event_channel_lt cmd) (by rw [t4]; exact hidx) h2)

/-- The case `event_pitch_wheel` is in `EventFrame`. -/
theorem event_pitch_wheel_eventFrame {W : Type} {aw : W → Int → Int → W} {mem : Int → Nat}
    {mp : musplayer_t W} {cmd : Nat} {r : EventResult W}
    (hok : event_pitch_wheel aw mem mp cmd = .ok r) : EventFrame mp r.player := by
  unfold event_pitch_wheel at hok
  dsimp only at hok
  split at hok
  · exact absurd hok (by simp)
  · rename_i mp2 h2
    simp only [Except.ok.injEq] at hok
    rw [← hok]
    refine next_eventFrame cmd ?_
    exact ((set_score_eventFrame mp _).event_trans (set_channel_eventFrame _ _ _)).event_trans
      ((bend_channel_voicesOnly aw _ mp2 _ _ h2).eventFrame
        (bend_channel_ownerFrame aw _ mp2 _ _ h2))

/-- The case `event_system` is in `EventFrame`. -/
theorem event_system_eventFrame {W : Type} {aw : W → Int → Int → W} {mem : Int → Nat}
    {mp : musplayer_t W} {cmd : Nat} {r : EventResult W}
    (hok : event_system aw mem mp cmd = .ok r) : EventFrame mp r.player := by
  unfold event_system at hok
  dsimp only at hok
  split at hok
  · exact absurd hok (by simp)
  · rename_i mp2 h2
    simp only [Except.ok.injEq] at hok
    rw [← hok]
    refine next_eventFrame cmd ?_
    exact (set_score_eventFrame mp _).event_trans (mus_event_eventFrame h2)

/-- The case `event_controller` is in `EventFrame`. -/
theorem event_controller_eventFrame {W : Type} {aw : W → Int → Int → W} {mem : Int → Nat}
    {mp : musplayer_t W} {cmd : Nat} {r : EventResult W}
    (hok : event_controller aw mem mp cmd = .ok r) : EventFrame mp r.player := by
  unfold event_controller at hok
  dsimp only at hok
  split at hok
  · split at hok
    · exact absurd hok (by simp)
    · rename_i mp2 h2
      simp only [Except.ok.injEq] at hok
      rw [← hok]
      refine next_eventFrame cmd ?_
      exact ((set_score_eventFrame mp _).event_trans (set_score_eventFrame _ _)).event_trans
        (mus_event_eventFrame h2)
  · simp only [Except.ok.injEq] at hok
    rw [← hok]
    refine next_eventFrame cmd ?_
    exact (set_score_eventFrame mp _).event_trans (set_score_eventFrame _ _)

/-- The case `event_end_of_score` is in `EventFrame`. -/
theorem event_end_of_score_eventFrame {W : Type} {aw : W → Int → Int → W}
    {mp : musplayer_t W} {r : EventResult W}
    (hok : event_end_of_score aw mp = .ok r) : EventFrame mp r.player := by
  unfold event_end_of_score at hok
  split at hok
  · simp only [Except.ok.injEq] at hok
    rw [← hok]
    exact set_score_eventFrame mp _
  · simp only [Except.ok.injEq] at hok
    rw [← hok]
    exact ((key_off_all_loop_spec aw mus_num_voices 0 mp).1.eventFrame
      (key_off_all_loop_ownerFrame aw mus_num_voices 0 mp)).event_trans (set_score_eventFrame _ _)

/-- One round of the event loop keeps the delay and the time, and it keeps the voices
in order in a player that is in range. -/
theorem mus_step_eventFrame {W : Type} {aw : W → Int → Int → W} {mem : Int → Nat}
    {mp : musplayer_t W} {r : EventResult W} (hok : mus_step aw mem mp = .ok r) :
    r.player.delay = mp.delay ∧ r.player.mus_time = mp.mus_time ∧
    (InRange mp → OwnerFrame mp r.player) := by
  have hs : EventFrame mp { mp with score := mp.score + 1 } := set_score_eventFrame mp _
  have key : ∀ {X : musplayer_t W}, EventFrame { mp with score := mp.score + 1 } X →
      X.delay = mp.delay ∧ X.mus_time = mp.mus_time ∧ (InRange mp → OwnerFrame mp X) :=
    fun f => ⟨(hs.event_trans f).1, (hs.event_trans f).2.1, fun _ => (hs.event_trans f).2.2⟩
  obtain ⟨d0, d1, d2, d3, d4, d5, d6, d7⟩ := mus_step_dispatch aw mem mp
  rcases event_type_cases (read8 mem mp.score) with e | e | e | e | e | e | e | e
  · rw [d0 e] at hok
    exact key (event_release_eventFrame hok)
  · rw [d1 e] at hok
    obtain ⟨t1, t2, t3⟩ := event_note_eventFrame hok
    refine ⟨t1, t2, fun hi => ?_⟩
    exact t3 (hi.1 _ (event_channel_lt _)).1
  · rw [d2 e] at hok
    exact key (event_pitch_wheel_eventFrame hok)
  · rw [d3 e] at hok
    exact key (event_system_eventFrame hok)
  · rw [d4 e] at hok
    exact key (event_controller_eventFrame hok)
  · rw [d5 e] at hok
    simp only [Except.ok.injEq] at hok
    rw [← hok]
    exact ⟨rfl, rfl, fun _ => OwnerFrame.of_voices rfl⟩
  · rw [d6 e] at hok
    exact key (event_end_of_score_eventFrame hok)
  · rw [d7 e] at hok
    simp only [Except.ok.injEq] at hok
    rw [← hok]
    exact ⟨rfl, rfl, fun _ => OwnerFrame.of_voices rfl⟩

/-- A group of events keeps the delay and the time, and it keeps the voices in order
in a player that is in range. -/
theorem mus_events_eventFrame {W : Type} {aw : W → Int → Int → W} {mem : Int → Nat} (n : Nat) :
    ∀ {mp : musplayer_t W} {r : EventResult W}, mus_events aw mem n mp = .ok r →
    r.player.delay = mp.delay ∧ r.player.mus_time = mp.mus_time ∧
    (InRange mp → OwnerFrame mp r.player) := by
  induction n with
  | zero =>
    intro mp r hok
    rw [mus_events] at hok
    exact absurd hok (by simp)
  | succ n ih =>
    intro mp r hok
    rw [mus_events] at hok
    split at hok
    · exact absurd hok (by simp)
    · rename_i mp1 ret1 hstep
      simp only [Except.ok.injEq] at hok
      rw [← hok]
      exact mus_step_eventFrame hstep
    · rename_i mp1 cmd hstep
      obtain ⟨t1, t2, t3⟩ := mus_step_eventFrame hstep
      obtain ⟨f, -⟩ := mus_step_frame hstep
      have t1 : mp1.delay = mp.delay := t1
      have t2 : mp1.mus_time = mp.mus_time := t2
      have t3 : InRange mp → OwnerFrame mp mp1 := t3
      have f : SongFrame mp mp1 := f
      split at hok
      · obtain ⟨u1, u2, u3⟩ := ih hok
        exact ⟨u1.trans t1, u2.trans t2, fun hi => (t3 hi).owner_trans (u3 (f.inRange hi))⟩
      · simp only [Except.ok.injEq] at hok
        rw [← hok]
        exact ⟨t1, t2, t3⟩

/-- The delay loop changes the score pointer and the delay only. -/
theorem parse_delay_fields {W : Type} (mem : Int → Nat) (n : Nat) :
    ∀ {mp mp' : musplayer_t W}, parse_delay mem n mp = .ok mp' →
      mp'.mus_time = mp.mus_time ∧ mp'.hw_voices = mp.hw_voices ∧
      mp'.channels = mp.channels ∧ mp'.dev = mp.dev ∧ mp'.loop_score = mp.loop_score := by
  induction n with
  | zero =>
    intro mp mp' hok
    rw [parse_delay] at hok
    exact absurd hok (by simp)
  | succ n ih =>
    intro mp mp' hok
    rw [parse_delay] at hok
    dsimp only at hok
    split at hok
    · obtain ⟨a1, a2, a3, a4, a5⟩ := ih hok
      exact ⟨a1, a2, a3, a4, a5⟩
    · simp only [Except.ok.injEq] at hok
      rw [← hok]
      exact ⟨rfl, rfl, rfl, rfl, rfl⟩

/-- The outer loop of `musplay_update` keeps the voices in order in a player that is
in range. -/
theorem musplay_update_loop_ownerFrame {W : Type} {aw : W → Int → Int → W} {mem : Int → Nat}
    (fuel n : Nat) :
    ∀ {mp mp' : musplayer_t W} {ticks ret : Int},
      musplay_update_loop aw mem fuel n mp ticks = .ok (mp', ret) → InRange mp →
      OwnerFrame mp mp' := by
  induction n with
  | zero =>
    intro mp mp' ticks ret hok
    rw [musplay_update_loop] at hok
    exact absurd hok (by simp)
  | succ n ih =>
    intro mp mp' ticks ret hok hi
    rw [musplay_update_loop] at hok
    split at hok
    · simp only [Except.ok.injEq, Prod.mk.injEq] at hok
      obtain ⟨rfl, rfl⟩ := hok
      exact OwnerFrame.of_voices rfl
    · dsimp only at hok
      generalize (if mp.delay > 0 then wrapInt32 (ticks - mp.delay) else ticks) = t at hok
      generalize h1 : (if mp.delay > 0 then _ else mp : musplayer_t W) = mp1 at hok
      have h1 : SongFrame mp mp1 ∧ mp1.hw_voices = mp.hw_voices := by
        rw [← h1]
        split
        · exact ⟨SongFrame.of_fields rfl rfl rfl rfl rfl, rfl⟩
        · exact ⟨SongFrame.song_refl mp, rfl⟩
      obtain ⟨h1, v1⟩ := h1
      have hi1 : InRange mp1 := h1.inRange hi
      split at hok
      · exact absurd hok (by simp)
      · rename_i mp2 ret2 hev
        simp only [Except.ok.injEq, Prod.mk.injEq] at hok
        obtain ⟨rfl, rfl⟩ := hok
        exact (OwnerFrame.of_voices v1).owner_trans ((mus_events_eventFrame fuel hev).2.2 hi1)
      · rename_i mp2 cmd hev
        have o2 : OwnerFrame mp1 mp2 := (mus_events_eventFrame fuel hev).2.2 hi1
        obtain ⟨f, -⟩ := mus_events_frame fuel hev
        have f : SongFrame mp1 mp2 := f
        split at hok
        · exact absurd hok (by simp)
        · rename_i mp3 hpd
          have g := parse_delay_frame mem fuel hpd
          have o3 : OwnerFrame mp mp3 := ((OwnerFrame.of_voices v1).owner_trans o2).owner_trans
            (OwnerFrame.of_voices (parse_delay_fields mem fuel hpd).2.1)
          split at hok
          · exact o3.owner_trans (ih hok ((f.song_trans g).inRange hi1))
          · simp only [Except.ok.injEq, Prod.mk.injEq] at hok
            obtain ⟨rfl, rfl⟩ := hok
            exact o3

/-- A returning `musplay_update` keeps the voices in order in a player that is in
range. -/
theorem musplay_update_ownerFrame {W : Type} {aw : W → Int → Int → W} {mem : Int → Nat}
    {fuel : Nat} {mp mp' : musplayer_t W} {ticks ret : Int}
    (hok : musplay_update aw mem fuel mp ticks = .ok (mp', ret)) (hi : InRange mp) :
    OwnerFrame mp mp' := by
  unfold musplay_update at hok
  split at hok
  · simp only [Except.ok.injEq, Prod.mk.injEq] at hok
    obtain ⟨rfl, rfl⟩ := hok
    exact OwnerFrame.owner_refl _
  · exact musplay_update_loop_ownerFrame fuel fuel hok hi

/-- Every voice of every state after `musplay_start` is in order. -/
theorem started_owned {W : Type} {aw : W → Int → Int → W} {mem : Int → Nat}
    {mp : musplayer_t W} (hs : Started aw mem mp) :
    ∀ h, h < mus_num_voices → VoiceOwned (mp.hw_voices h) := by
  induction hs with
  | start mp data loop =>
    obtain ⟨-, -, -, -, -, -, -, -, hv⟩ := musplay_start_fields aw mem mp data loop
    intro h hh
    rw [hv h hh]
    exact ⟨fun h0 => absurd h0 (by decide), Or.inr ⟨rfl, rfl, rfl⟩⟩
  | update mp mp' fuel ticks ret hs hok ih =>
    intro h hh
    exact musplay_update_ownerFrame hok (started_inRange hs) h (ih h hh)
  | volume mp volume _ ih => exact ih
  | op2bank mp bank _ ih => exact ih
  | stop mp _ ih =>
    intro h hh
    unfold musplay_stop
    exact ((adlib_write_ownerFrame aw mp _ _).owner_trans
      (key_off_all_loop_ownerFrame aw mus_num_voices 0 _)) h (ih h hh)

/-- The delay that the delay loop leaves is in the range of `int`. -/
theorem parse_delay_range {W : Type} (mem : Int → Nat) (n : Nat) :
    ∀ {mp mp' : musplayer_t W}, parse_delay mem n mp = .ok mp' →
      -2147483648 ≤ mp'.delay ∧ mp'.delay ≤ 2147483647 := by
  induction n with
  | zero =>
    intro mp mp' hok
    rw [parse_delay] at hok
    exact absurd hok (by simp)
  | succ n ih =>
    intro mp mp' hok
    rw [parse_delay] at hok
    dsimp only at hok
    split at hok
    · obtain ⟨a1, a2⟩ := ih hok
      exact ⟨a1, a2⟩
    · simp only [Except.ok.injEq] at hok
      rw [← hok]
      show -2147483648 ≤ wrapInt32 _ ∧ wrapInt32 _ ≤ 2147483647
      unfold wrapInt32
      omega

/-- A returning call of the outer loop of `musplay_update` with `ticks > 0` either
returns from an end-of-score event, or returns 1 with the time `ticks` further and
with a delay pending, unless the last thing it did was to read a delay that is not
positive at the moment the ticks ran out. -/
theorem musplay_update_loop_time {W : Type} {aw : W → Int → Int → W} {mem : Int → Nat}
    (fuel n : Nat) :
    ∀ {mp mp' : musplayer_t W} {ticks ret : Int}, 0 < ticks → ticks ≤ 2147483647 →
      -2147483648 ≤ mp.mus_time → mp.mus_time + ticks ≤ 2147483647 →
      mp.delay ≤ 2147483647 →
      musplay_update_loop aw mem fuel n mp ticks = .ok (mp', ret) →
      (∃ mp1, mus_events aw mem fuel mp1 = .ok (.done mp' ret)) ∨
      (ret = 1 ∧ mp'.mus_time = mp.mus_time + ticks ∧
        (0 < mp'.delay ∨
          (mp'.delay ≤ 0 ∧ ∃ mp2, parse_delay mem fuel mp2 = .ok mp'
            ∧ mp2.mus_time = mp.mus_time + ticks))) := by
  induction n with
  | zero =>
    intro mp mp' ticks ret _ _ _ _ _ hok
    rw [musplay_update_loop] at hok
    exact absurd hok (by simp)
  | succ n ih =>
    intro mp mp' ticks ret ht0 ht1 hm0 hm1 hd1 hok
    rw [musplay_update_loop] at hok
    by_cases hearly : mp.delay > 0 ∧ mp.delay > ticks
    · rw [if_pos hearly] at hok
      simp only [Except.ok.injEq, Prod.mk.injEq] at hok
      obtain ⟨rfl, rfl⟩ := hok
      right
      refine ⟨rfl, ISound.wrapInt32_of_range (by omega) (by omega), Or.inl ?_⟩
      show 0 < wrapInt32 (mp.delay - ticks)
      rw [ISound.wrapInt32_of_range (by omega) (by omega)]
      omega
    · rw [if_neg hearly] at hok
      dsimp only at hok
      generalize ht : (if mp.delay > 0 then wrapInt32 (ticks - mp.delay) else ticks) = t at hok
      generalize h1 : (if mp.delay > 0 then _ else mp : musplayer_t W) = mp1 at hok
      have ht : t = if mp.delay > 0 then ticks - mp.delay else ticks := by
        rw [← ht]
        split
        · exact ISound.wrapInt32_of_range (by omega) (by omega)
        · rfl
      have h1 : mp1.mus_time = (if mp.delay > 0 then mp.mus_time + mp.delay else mp.mus_time) := by
        rw [← h1]
        split
        · exact ISound.wrapInt32_of_range (by omega) (by omega)
        · rfl
      have hsum : mp1.mus_time + t = mp.mus_time + ticks := by
        rw [ht, h1]
        split <;> omega
      have ht2 : 0 ≤ t := by
        rw [ht]
        split <;> omega
      split at hok
      · exact absurd hok (by simp)
      · rename_i mp2 ret2 hev
        simp only [Except.ok.injEq, Prod.mk.injEq] at hok
        obtain ⟨rfl, rfl⟩ := hok
        exact Or.inl ⟨mp1, hev⟩
      · rename_i mp2 cmd hev
        have e2 : mp2.mus_time = mp1.mus_time := (mus_events_eventFrame fuel hev).2.1
        split at hok
        · exact absurd hok (by simp)
        · rename_i mp3 hpd
          have e3 : mp3.mus_time = mp2.mus_time := (parse_delay_fields mem fuel hpd).1
          have r3 := parse_delay_range mem fuel hpd
          split at hok
          · rename_i htpos
            have := ih htpos (by rw [ht]; split <;> omega) (by rw [e3, e2, h1]; split <;> omega)
              (by rw [e3, e2]; omega) r3.2 hok
            rw [e3, e2, hsum] at this
            exact this
          · rename_i htpos
            simp only [Except.ok.injEq, Prod.mk.injEq] at hok
            obtain ⟨rfl, rfl⟩ := hok
            right
            have ht0' : t = 0 := by omega
            refine ⟨rfl, by rw [e3, e2]; omega, ?_⟩
            by_cases hp : 0 < mp3.delay
            · exact Or.inl hp
            · exact Or.inr ⟨by omega, mp2, hpd, by rw [e2]; omega⟩

/-- More rounds allowed do not change what a group of events returns. -/
theorem mus_events_mono {W : Type} {aw : W → Int → Int → W} {mem : Int → Nat} (n j : Nat) :
    ∀ {mp : musplayer_t W} {r : EventResult W}, mus_events aw mem n mp = .ok r →
      mus_events aw mem (n + j) mp = .ok r := by
  induction n with
  | zero =>
    intro mp r hok
    rw [mus_events] at hok
    exact absurd hok (by simp)
  | succ n ih =>
    intro mp r hok
    rw [show n + 1 + j = (n + j) + 1 by omega, mus_events]
    rw [mus_events] at hok
    generalize mus_step aw mem mp = s at hok ⊢
    cases s with
    | error e => exact absurd hok (by simp)
    | ok v =>
      cases v with
      | done mp1 ret => exact hok
      | next mp1 cmd =>
        simp only at hok ⊢
        split
        · rename_i hc
          rw [if_pos hc] at hok
          exact ih hok
        · rename_i hc
          rw [if_neg hc] at hok
          exact hok

/-- More rounds allowed do not change what the delay loop returns. -/
theorem parse_delay_mono {W : Type} (mem : Int → Nat) (n j : Nat) :
    ∀ {mp mp' : musplayer_t W}, parse_delay mem n mp = .ok mp' →
      parse_delay mem (n + j) mp = .ok mp' := by
  induction n with
  | zero =>
    intro mp mp' hok
    rw [parse_delay] at hok
    exact absurd hok (by simp)
  | succ n ih =>
    intro mp mp' hok
    rw [show n + 1 + j = (n + j) + 1 by omega, parse_delay]
    rw [parse_delay] at hok
    dsimp only at hok ⊢
    split
    · rename_i hc
      rw [if_pos hc] at hok
      exact ih hok
    · rename_i hc
      rw [if_neg hc] at hok
      exact hok

/-- More rounds allowed, in the outer loop and in the inner loops, do not change what
the outer loop of `musplay_update` returns. -/
theorem musplay_update_loop_mono {W : Type} {aw : W → Int → Int → W} {mem : Int → Nat}
    (fuel i n j : Nat) :
    ∀ {mp : musplayer_t W} {ticks : Int} {r : musplayer_t W × Int},
      musplay_update_loop aw mem fuel n mp ticks = .ok r →
      musplay_update_loop aw mem (fuel + i) (n + j) mp ticks = .ok r := by
  induction n with
  | zero =>
    intro mp ticks r hok
    rw [musplay_update_loop] at hok
    exact absurd hok (by simp)
  | succ n ih =>
    intro mp ticks r hok
    rw [show n + 1 + j = (n + j) + 1 by omega, musplay_update_loop]
    rw [musplay_update_loop] at hok
    split
    · rename_i hc
      rw [if_pos hc] at hok
      exact hok
    · rename_i hc
      rw [if_neg hc] at hok
      dsimp only at hok ⊢
      generalize (if mp.delay > 0 then wrapInt32 (ticks - mp.delay) else ticks) = t at hok ⊢
      generalize (if mp.delay > 0 then _ else mp : musplayer_t W) = mp1 at hok ⊢
      cases hev : mus_events aw mem fuel mp1 with
      | error e =>
        rw [hev] at hok
        exact absurd hok (by simp)
      | ok v =>
        rw [hev] at hok
        rw [mus_events_mono fuel i hev]
        cases v with
        | done mp2 ret => exact hok
        | next mp2 cmd =>
          simp only at hok ⊢
          cases hpd : parse_delay mem fuel mp2 with
          | error e =>
            rw [hpd] at hok
            exact absurd hok (by simp)
          | ok mp3 =>
            rw [hpd] at hok
            rw [parse_delay_mono mem fuel i hpd]
            simp only at hok ⊢
            split
            · rename_i hc2
              rw [if_pos hc2] at hok
              exact ih hok
            · rename_i hc2
              rw [if_neg hc2] at hok
              exact hok

/-- A call of the outer loop of `musplay_update` for `a + b` ticks with a delay above
`a` pending goes on as the call for `b` ticks does once `a` ticks have been waited. -/
theorem musplay_update_loop_wait {W : Type} (aw : W → Int → Int → W) (mem : Int → Nat)
    (fuel k : Nat) (mp : musplayer_t W) (a b : Int) (ha : 0 < a) (hb : 0 < b)
    (hab : a + b ≤ 2147483647) (hm0 : -2147483648 ≤ mp.mus_time)
    (hm1 : mp.mus_time + (a + b) ≤ 2147483647) (hd0 : a < mp.delay)
    (hd1 : mp.delay ≤ 2147483647) :
    musplay_update_loop aw mem fuel (k + 1) mp (a + b)
      = musplay_update_loop aw mem fuel (k + 1)
          { mp with
            delay := wrapInt32 (mp.delay - a), mus_time := wrapInt32 (mp.mus_time + a) } b := by
  have e1 : wrapInt32 (mp.delay - a) = mp.delay - a :=
    ISound.wrapInt32_of_range (by omega) (by omega)
  have e2 : wrapInt32 (mp.mus_time + a) = mp.mus_time + a :=
    ISound.wrapInt32_of_range (by omega) (by omega)
  rw [e1, e2, musplay_update_loop, musplay_update_loop]
  dsimp only
  have hp : mp.delay > 0 := by omega
  have hp' : mp.delay - a > 0 := by omega
  by_cases hearly : mp.delay > a + b
  · have c1 : mp.delay > 0 ∧ mp.delay > a + b := ⟨hp, hearly⟩
    have c2 : mp.delay - a > 0 ∧ mp.delay - a > b := ⟨hp', by omega⟩
    rw [if_pos c1, if_pos c2]
    rw [show mp.delay - a - b = mp.delay - (a + b) by omega,
      show mp.mus_time + a + b = mp.mus_time + (a + b) by omega]
  · have c1 : ¬ (mp.delay > 0 ∧ mp.delay > a + b) := fun h => hearly h.2
    have c2 : ¬ (mp.delay - a > 0 ∧ mp.delay - a > b) := fun h => hearly (by omega)
    rw [if_neg c1, if_neg c2]
    simp only [hp, hp', if_true]
    rw [show b - (mp.delay - a) = a + b - mp.delay by omega,
      show mp.mus_time + a + (mp.delay - a) = mp.mus_time + mp.delay by omega]

/-- Two calls of the outer loop of `musplay_update`, for `a` and then for `b` ticks,
the first one not returning from an end-of-score event, come to what one call for
`a + b` ticks comes to. -/
theorem musplay_update_loop_add {W : Type} {aw : W → Int → Int → W} {mem : Int → Nat}
    (fuel n1 : Nat) :
    ∀ {mp mp1 mp2 : musplayer_t W} {a b r1 r2 : Int} (n2 : Nat), 0 < a → 0 < b →
      a + b ≤ 2147483647 → -2147483648 ≤ mp.mus_time → mp.mus_time + (a + b) ≤ 2147483647 →
      mp.delay ≤ 2147483647 →
      musplay_update_loop aw mem fuel n1 mp a = .ok (mp1, r1) →
      musplay_update_loop aw mem fuel n2 mp1 b = .ok (mp2, r2) →
      (∃ mpx, mus_events aw mem fuel mpx = .ok (.done mp1 r1)) ∨
      musplay_update_loop aw mem fuel (n1 + n2) mp (a + b) = .ok (mp2, r2) := by
  induction n1 with
  | zero =>
    intro mp mp1 mp2 a b r1 r2 n2 _ _ _ _ _ _ hok1
    rw [musplay_update_loop] at hok1
    exact absurd hok1 (by simp)
  | succ n1 ih =>
    intro mp mp1 mp2 a b r1 r2 n2 ha hb hab hm0 hm1 hd1 hok1 hok2
    by_cases hearly : mp.delay > 0 ∧ mp.delay > a
    · rw [musplay_update_loop, if_pos hearly] at hok1
      simp only [Except.ok.injEq, Prod.mk.injEq] at hok1
      obtain ⟨rfl, rfl⟩ := hok1
      right
      cases n2 with
      | zero =>
        rw [musplay_update_loop] at hok2
        exact absurd hok2 (by simp)
      | succ m =>
        have hw := musplay_update_loop_wait aw mem fuel (n1 + 1 + m) mp a b ha hb hab hm0 hm1
          hearly.2 hd1
        have hmono := musplay_update_loop_mono fuel 0 (m + 1) (n1 + 1) hok2
        rw [show n1 + 1 + (m + 1) = n1 + 1 + m + 1 by omega, hw]
        rw [show m + 1 + (n1 + 1) = n1 + 1 + m + 1 by omega] at hmono
        exact hmono
    · rw [musplay_update_loop, if_neg hearly] at hok1
      have hearly2 : ¬ (mp.delay > 0 ∧ mp.delay > a + b) := fun h => hearly ⟨h.1, by omega⟩
      rw [show n1 + 1 + n2 = n1 + n2 + 1 by omega, musplay_update_loop, if_neg hearly2]
      dsimp only at hok1 ⊢
      have ht : ∃ t : Int, (if mp.delay > 0 then wrapInt32 (a - mp.delay) else a) = t
          ∧ (if mp.delay > 0 then wrapInt32 (a + b - mp.delay) else a + b) = t + b
          ∧ 0 ≤ t ∧ t + b ≤ 2147483647
          ∧ (if mp.delay > 0 then wrapInt32 (mp.mus_time + mp.delay) else mp.mus_time) + (t + b)
              ≤ 2147483647
          ∧ -2147483648
              ≤ (if mp.delay > 0 then wrapInt32 (mp.mus_time + mp.delay) else mp.mus_time) := by
        by_cases hp : mp.delay > 0
        · refine ⟨a - mp.delay, ?_, ?_, ?_, ?_, ?_, ?_⟩
          · rw [if_pos hp]
            exact ISound.wrapInt32_of_range (by omega) (by omega)
          · rw [if_pos hp, ISound.wrapInt32_of_range (by omega) (by omega)]
            omega
          · omega
          · omega
          · rw [if_pos hp, ISound.wrapInt32_of_range (by omega) (by omega)]
            omega
          · rw [if_pos hp, ISound.wrapInt32_of_range (by omega) (by omega)]
            omega
        · refine ⟨a, ?_, ?_, ?_, ?_, ?_, ?_⟩
          · rw [if_neg hp]
          · rw [if_neg hp]
          · omega
          · omega
          · rw [if_neg hp]
            omega
          · rw [if_neg hp]
            exact hm0
      obtain ⟨t, t1, t2, t3, t4, t5, t6⟩ := ht
      rw [t1] at hok1
      rw [t2]
      generalize h1 : (if mp.delay > 0 then _ else mp : musplayer_t W) = mp0 at hok1 ⊢
      have h1 : mp0.mus_time
          = (if mp.delay > 0 then wrapInt32 (mp.mus_time + mp.delay) else mp.mus_time) := by
        rw [← h1]
        split <;> rfl
      rw [← h1] at t5 t6
      cases hev : mus_events aw mem fuel mp0 with
      | error e =>
        rw [hev] at hok1
        exact absurd hok1 (by simp)
      | ok v =>
        rw [hev] at hok1
        cases v with
        | done mpd ret =>
          simp only [Except.ok.injEq, Prod.mk.injEq] at hok1
          obtain ⟨rfl, rfl⟩ := hok1
          exact Or.inl ⟨mp0, hev⟩
        | next mpn cmd =>
          simp only at hok1 ⊢
          have e2 : mpn.mus_time = mp0.mus_time := (mus_events_eventFrame fuel hev).2.1
          cases hpd : parse_delay mem fuel mpn with
          | error e =>
            rw [hpd] at hok1
            exact absurd hok1 (by simp)
          | ok mp3 =>
            rw [hpd] at hok1
            simp only at hok1 ⊢
            have e3 : mp3.mus_time = mpn.mus_time := (parse_delay_fields mem fuel hpd).1
            have r3 := parse_delay_range mem fuel hpd
            have hpos : t + b > 0 := by omega
            rw [if_pos hpos]
            by_cases htp : t > 0
            · rw [if_pos htp] at hok1
              exact ih n2 htp hb t4 (by rw [e3, e2]; exact t6) (by rw [e3, e2]; exact t5) r3.2
                hok1 hok2
            · rw [if_neg htp] at hok1
              simp only [Except.ok.injEq, Prod.mk.injEq] at hok1
              obtain ⟨rfl, rfl⟩ := hok1
              right
              have ht0 : t = 0 := by omega
              have hmono := musplay_update_loop_mono fuel 0 n2 n1 hok2
              rw [ht0, zero_add, show n1 + n2 = n2 + n1 by omega]
              exact hmono

/-- A player that does not loop does not return 1 from an end-of-score event. -/
theorem not_done_of_no_loop {W : Type} (aw : W → Int → Int → W) (mem : Int → Nat) (fuel : Nat)
    (mp' : musplayer_t W) (hl : mp'.loop_score = 0) :
    ¬ ∃ mp1, mus_events aw mem fuel mp1 = .ok (.done mp' 1) := by
  rintro ⟨mp1, h⟩
  obtain ⟨f, hd⟩ := mus_events_frame fuel h
  have f : SongFrame mp1 mp' := f
  have h0 : mp1.loop_score = 0 := by rw [← f.1]; exact hl
  have := ((hd mp' 1 rfl).2 h0).1
  exact absurd this (by decide)

/-- The fields that `spec_gen_frames` leaves alone, and the write offset after it. -/
theorem spec_gen_frames_fields {P R : Type} (ops : ChipOps P) (k : Nat) :
    ∀ d : mus_driver_t P R,
      (spec_gen_frames ops k d).buf_ofs = d.buf_ofs + 2 * k ∧
      (spec_gen_frames ops k d).until_tick = d.until_tick ∧
      (spec_gen_frames ops k d).playing = d.playing ∧
      (spec_gen_frames ops k d).opl_max_frames = d.opl_max_frames ∧
      (spec_gen_frames ops k d).out_sample_rate = d.out_sample_rate := by
  induction k with
  | zero => intro d; exact ⟨rfl, rfl, rfl, rfl, rfl⟩
  | succ k ih =>
    intro d
    rw [spec_gen_frames]
    obtain ⟨a1, a2, a3, a4, a5⟩ := ih (spec_gen_frame ops d)
    refine ⟨?_, a2, a3, a4, a5⟩
    rw [a1]
    show d.buf_ofs + OPL_CHANNELS + 2 * k = d.buf_ofs + 2 * (k + 1)
    unfold OPL_CHANNELS
    omega

/-- The frames of `spec_gen_frames` do not look at `until_tick`. -/
theorem spec_gen_frames_until_tick {P R : Type} (ops : ChipOps P) (k : Nat) :
    ∀ (d : mus_driver_t P R) (u : Nat),
      spec_gen_frames ops k { d with until_tick := u }
        = { spec_gen_frames ops k d with until_tick := u } := by
  induction k with
  | zero => intro d u; rfl
  | succ k ih =>
    intro d u
    rw [spec_gen_frames, spec_gen_frames]
    exact ih (spec_gen_frame ops d) u

/-- The last of `k + 1` frames in a row. -/
theorem spec_gen_frames_succ {P R : Type} (ops : ChipOps P) (k : Nat) :
    ∀ d : mus_driver_t P R,
      spec_gen_frames ops (k + 1) d = spec_gen_frame ops (spec_gen_frames ops k d) := by
  induction k with
  | zero => intro d; rfl
  | succ k ih =>
    intro d
    rw [spec_gen_frames, ih (spec_gen_frame ops d)]
    rfl

/-- The loop of `musdriver_gen_opl` generates the frames of `spec_gen_frames`, as long
as the offset stays within `size_t`. -/
theorem gen_opl_loop_spec {P R : Type} (ops : ChipOps P) (k : Nat) :
    ∀ d : mus_driver_t P R, d.buf_ofs + 2 * k < 18446744073709551616 →
      gen_opl_loop ops k d.buf_ofs d.player d.opl_buf
        = ((spec_gen_frames ops k d).player, (spec_gen_frames ops k d).opl_buf,
            (spec_gen_frames ops k d).buf_ofs) := by
  induction k with
  | zero => intro d _; rfl
  | succ k ih =>
    intro d hd
    rw [gen_opl_loop, spec_gen_frames]
    have hm : (d.buf_ofs + OPL_CHANNELS) % 18446744073709551616 = d.buf_ofs + OPL_CHANNELS := by
      apply Nat.mod_eq_of_lt
      unfold OPL_CHANNELS
      omega
    rw [hm]
    have := ih (spec_gen_frame ops d) (by
      show d.buf_ofs + OPL_CHANNELS + 2 * k < 18446744073709551616
      unfold OPL_CHANNELS
      omega)
    exact this

/-- The frames of `spec_gen_frames` change the chip, the buffer and the offset only. -/
theorem spec_gen_frames_eq {P R : Type} (ops : ChipOps P) (k : Nat) :
    ∀ d : mus_driver_t P R,
      spec_gen_frames ops k d
        = { d with
            player := (spec_gen_frames ops k d).player
            opl_buf := (spec_gen_frames ops k d).opl_buf
            buf_ofs := (spec_gen_frames ops k d).buf_ofs } := by
  induction k with
  | zero => intro d; rfl
  | succ k ih =>
    intro d
    rw [spec_gen_frames]
    have := ih (spec_gen_frame ops d)
    rw [this]
    rfl

/-- Function `musdriver_gen_opl` for a frame count below 2^31 on a driver whose buffer
size fits 32 bits: it generates the frames when they fit the buffer, and else it
returns 0 and leaves the driver as it is. -/
theorem musdriver_gen_opl_spec {P R : Type} (ops : ChipOps P) (d : mus_driver_t P R) (k : Nat)
    (hmax : d.opl_max_frames < 4294967296) (hk : k < 2147483648)
    (hofs : d.buf_ofs ≤ 2 * d.opl_max_frames) :
    (d.buf_ofs + 2 * k ≤ 2 * d.opl_max_frames →
      musdriver_gen_opl ops d k = (spec_gen_frames ops k d, 1)) ∧
    (2 * d.opl_max_frames < d.buf_ofs + 2 * k → musdriver_gen_opl ops d k = (d, 0)) := by
  have e1 : k * OPL_CHANNELS % 4294967296 = 2 * k := by
    unfold OPL_CHANNELS
    omega
  have e2 : d.opl_max_frames * OPL_CHANNELS % 18446744073709551616 = 2 * d.opl_max_frames := by
    unfold OPL_CHANNELS
    omega
  have e3 : (d.buf_ofs + 2 * k) % 18446744073709551616 = d.buf_ofs + 2 * k := by
    omega
  constructor
  · intro hfit
    unfold musdriver_gen_opl
    rw [e1, e2, e3, if_neg (by omega)]
    dsimp only
    rw [gen_opl_loop_spec ops k d (by omega)]
    exact congrArg (fun x => (x, (1 : Int))) (spec_gen_frames_eq ops k d).symm
  · intro hno
    unfold musdriver_gen_opl
    rw [e1, e2, e3, if_pos (by omega)]

/-- Frames one by one: `a + b` frames are `a` frames, then `b` frames. -/
theorem spec_advance_frames_add {P R : Type} (ops : ChipOps P) (a b : Nat) :
    ∀ d : mus_driver_t P R,
      spec_advance_frames ops (a + b) d
        = spec_advance_frames ops b (spec_advance_frames ops a d) := by
  induction a with
  | zero => intro d; rw [Nat.zero_add]; rfl
  | succ a ih =>
    intro d
    rw [show a + 1 + b = (a + b) + 1 by omega, spec_advance_frames, spec_advance_frames]
    exact ih _

/-- What a score tick leaves alone. -/
theorem spec_score_tick_fields {P R : Type} (ops : ChipOps P) (d : mus_driver_t P R) :
    (spec_score_tick ops d).until_tick = SAMPLES_PER_TICK ∧
    (spec_score_tick ops d).buf_ofs = d.buf_ofs ∧
    (spec_score_tick ops d).opl_max_frames = d.opl_max_frames ∧
    (spec_score_tick ops d).opl_buf = d.opl_buf ∧
    (spec_score_tick ops d).out_sample_rate = d.out_sample_rate := by
  unfold spec_score_tick
  split <;> exact ⟨rfl, rfl, rfl, rfl, rfl⟩

/-- A score tick does not look at `until_tick`. -/
theorem spec_score_tick_until_tick {P R : Type} (ops : ChipOps P) (d : mus_driver_t P R)
    (u : Nat) : spec_score_tick ops { d with until_tick := u } = spec_score_tick ops d := by
  unfold spec_score_tick
  rfl

/-- Fewer frames than `until_tick`: no tick falls between them. -/
theorem spec_advance_frames_below {P R : Type} (ops : ChipOps P) (k : Nat) :
    ∀ d : mus_driver_t P R, k < d.until_tick →
      spec_advance_frames ops k d
        = { spec_gen_frames ops k d with until_tick := d.until_tick - k } := by
  induction k with
  | zero => intro d _; rfl
  | succ k ih =>
    intro d hk
    rw [spec_advance_frames, if_neg (by omega), spec_gen_frames]
    have e : spec_gen_frame ops { d with until_tick := d.until_tick - 1 }
        = { spec_gen_frame ops d with until_tick := d.until_tick - 1 } := rfl
    rw [e, ih _ (by show k < d.until_tick - 1; omega), spec_gen_frames_until_tick]
    show ({ spec_gen_frames ops k (spec_gen_frame ops d) with
        until_tick := d.until_tick - 1 - k } : mus_driver_t P R) = _
    rw [show d.until_tick - 1 - k = d.until_tick - (k + 1) by omega]

/-- As many frames as `until_tick`: the tick follows the last of them. -/
theorem spec_advance_frames_tick {P R : Type} (ops : ChipOps P) (d : mus_driver_t P R)
    (h : 1 ≤ d.until_tick) :
    spec_advance_frames ops d.until_tick d
      = spec_score_tick ops (spec_gen_frames ops d.until_tick d) := by
  obtain ⟨j, hj⟩ : ∃ j, d.until_tick = j + 1 := ⟨d.until_tick - 1, by omega⟩
  rw [hj, spec_advance_frames_add ops j 1 d, spec_advance_frames_below ops j d (by omega),
    spec_gen_frames_succ]
  rw [spec_advance_frames, spec_advance_frames]
  have e1 : ({ spec_gen_frames ops j d with until_tick := d.until_tick - j }
      : mus_driver_t P R).until_tick - 1 = 0 := by
    show d.until_tick - j - 1 = 0
    omega
  rw [if_pos e1]
  exact spec_score_tick_until_tick ops (spec_gen_frame ops (spec_gen_frames ops j d)) _

/-- After `k` frames one by one the write offset is `2 * k` further, the buffer size
is the same, and `until_tick`, in 1..355 before, is in 1..355 again: it is
`355 - ((355 - until_tick + k) % 355)`. -/
theorem spec_advance_frames_fields {P R : Type} (ops : ChipOps P) (k : Nat) :
    ∀ d : mus_driver_t P R, 1 ≤ d.until_tick → d.until_tick ≤ 355 →
      (spec_advance_frames ops k d).buf_ofs = d.buf_ofs + 2 * k ∧
      (spec_advance_frames ops k d).opl_max_frames = d.opl_max_frames ∧
      (spec_advance_frames ops k d).out_sample_rate = d.out_sample_rate ∧
      (spec_advance_frames ops k d).until_tick = 355 - (355 - d.until_tick + k) % 355 := by
  induction k with
  | zero =>
    intro d h1 h2
    refine ⟨rfl, rfl, rfl, ?_⟩
    show d.until_tick = _
    omega
  | succ k ih =>
    intro d h1 h2
    rw [spec_advance_frames]
    by_cases hz : d.until_tick - 1 = 0
    · rw [if_pos hz]
      obtain ⟨t1, t2, t3, -, t5⟩ := spec_score_tick_fields ops
        (spec_gen_frame ops { d with until_tick := d.until_tick - 1 })
      obtain ⟨a1, a2, a3, a4⟩ := ih _ (by rw [t1]; decide) (by rw [t1]; decide)
      rw [a1, a2, a3, a4, t1, t2, t3, t5]
      refine ⟨?_, rfl, rfl, ?_⟩
      · show d.buf_ofs + OPL_CHANNELS + 2 * k = d.buf_ofs + 2 * (k + 1)
        unfold OPL_CHANNELS
        omega
      · unfold SAMPLES_PER_TICK
        omega
    · rw [if_neg hz]
      obtain ⟨a1, a2, a3, a4⟩ := ih (spec_gen_frame ops { d with until_tick := d.until_tick - 1 })
        (by show 1 ≤ d.until_tick - 1; omega) (by show d.until_tick - 1 ≤ 355; omega)
      rw [a1, a2, a3, a4]
      refine ⟨?_, rfl, rfl, ?_⟩
      · show d.buf_ofs + OPL_CHANNELS + 2 * k = d.buf_ofs + 2 * (k + 1)
        unfold OPL_CHANNELS
        omega
      · show 355 - (355 - (d.until_tick - 1) + k) % 355 = _
        omega

/-- The score tick of the loop of `musdriver_advance` is `spec_score_tick`. -/
theorem advance_round_tick {P R : Type} (ops : ChipOps P) (x : mus_driver_t P R) :
    (if ({ x with until_tick := SAMPLES_PER_TICK } : mus_driver_t P R).playing ≠ 0 then
      { ({ x with until_tick := SAMPLES_PER_TICK } : mus_driver_t P R) with
        player := (ops.musplay_update
          ({ x with until_tick := SAMPLES_PER_TICK } : mus_driver_t P R).player 1).1
        playing := (ops.musplay_update
          ({ x with until_tick := SAMPLES_PER_TICK } : mus_driver_t P R).player 1).2 }
    else { x with until_tick := SAMPLES_PER_TICK }) = spec_score_tick ops x := by
  unfold spec_score_tick
  rfl

/-- The loop of `musdriver_advance` from an `until_tick` in 1..355, with more rounds
allowed than frames are needed: either a chunk does not fit the buffer, the loop
returns 0 and the frames needed do not fit; or the loop leaves `r` frames to generate,
fewer than `until_tick`, and the driver is as the frames before them, one by one,
leave it. -/
theorem musdriver_advance_loop_spec {P R : Type} (ops : ChipOps P) (m : Nat) :
    ∀ (d : mus_driver_t P R) (needed : Nat), 1 ≤ d.until_tick → d.until_tick ≤ 355 →
      needed < m → d.opl_max_frames < 4294967296 → d.buf_ofs ≤ 2 * d.opl_max_frames →
      ((musdriver_advance_loop ops m d needed).2 = none
        ∧ 2 * d.opl_max_frames < d.buf_ofs + 2 * needed) ∨
      ∃ r, musdriver_advance_loop ops m d needed
          = (spec_advance_frames ops (needed - r) d, some r) ∧ r ≤ needed ∧
        r < (spec_advance_frames ops (needed - r) d).until_tick ∧
        d.buf_ofs + 2 * (needed - r) ≤ 2 * d.opl_max_frames := by
  induction m with
  | zero => intro d needed _ _ h; omega
  | succ m ih =>
    intro d needed h1 h2 hm hmax hofs
    rw [musdriver_advance_loop]
    by_cases hge : needed ≥ d.until_tick
    · rw [if_pos hge]
      have hne : d.until_tick ≠ 0 := by omega
      dsimp only
      rw [if_pos hne, if_pos hne]
      obtain ⟨g1, g2⟩ := musdriver_gen_opl_spec ops d d.until_tick hmax (by omega) hofs
      by_cases hfit : d.buf_ofs + 2 * d.until_tick ≤ 2 * d.opl_max_frames
      · rw [g1 hfit]
        dsimp only
        rw [if_neg (by decide), advance_round_tick, ← spec_advance_frames_tick ops d h1]
        obtain ⟨f1, f2, -, f4⟩ := spec_advance_frames_fields ops d.until_tick d h1 h2
        have hut : (spec_advance_frames ops d.until_tick d).until_tick = 355 := by
          rw [f4]
          omega
        rcases ih (spec_advance_frames ops d.until_tick d) (needed - d.until_tick)
            (by omega) (by omega) (by omega) (by rw [f2]; exact hmax)
            (by rw [f1, f2]; exact hfit) with ⟨i1, i2⟩ | ⟨r, i1, i2, i3, i4⟩
        · left
          refine ⟨i1, ?_⟩
          rw [f1, f2] at i2
          omega
        · right
          have e : d.until_tick + (needed - d.until_tick - r) = needed - r := by omega
          rw [← spec_advance_frames_add, e] at i1 i3
          refine ⟨r, i1, by omega, i3, ?_⟩
          rw [f1, f2] at i4
          omega
      · rw [g2 (by omega)]
        dsimp only
        rw [if_pos rfl]
        left
        exact ⟨rfl, by omega⟩
    · rw [if_neg hge]
      right
      refine ⟨needed, ?_, le_refl _, ?_, ?_⟩
      · rw [Nat.sub_self]
        rfl
      · rw [Nat.sub_self]
        show needed < d.until_tick
        omega
      · rw [Nat.sub_self]
        omega

/-- Function `musdriver_advance` on a driver with `until_tick` in 0..355 whose buffer
size fits 32 bits: when the frames needed fit the buffer it returns 1 and generates
them one by one as `spec_advance` says; when they do not fit it returns 0. -/
theorem musdriver_advance_spec {P R : Type} (ops : ChipOps P) (d : mus_driver_t P R) (n : Nat)
    (hut : d.until_tick ≤ 355) (hmax : d.opl_max_frames < 4294967296)
    (hofs : d.buf_ofs ≤ 2 * d.opl_max_frames) :
    (d.buf_ofs + 2 * n ≤ 2 * d.opl_max_frames →
      musdriver_advance ops d n = (spec_advance ops d n, 1)) ∧
    (2 * d.opl_max_frames < d.buf_ofs + 2 * n → (musdriver_advance ops d n).2 = 0) := by
  have key : ∀ (m : Nat) (e : mus_driver_t P R), 1 ≤ e.until_tick → e.until_tick ≤ 355 →
      n < m → e.opl_max_frames < 4294967296 → e.buf_ofs ≤ 2 * e.opl_max_frames →
      (e.buf_ofs + 2 * n ≤ 2 * e.opl_max_frames →
        (match musdriver_advance_loop ops m e n with
          | (d, none) => (d, (0 : Int))
          | (d, some opl_frames_needed) =>
            if opl_frames_needed ≠ 0 then
              let d := { d with until_tick := d.until_tick - opl_frames_needed }
              let r := musdriver_gen_opl ops d opl_frames_needed
              if r.2 = 0 then (r.1, 0) else (r.1, 1)
            else (d, 1)) = (spec_advance_frames ops n e, 1)) ∧
      (2 * e.opl_max_frames < e.buf_ofs + 2 * n →
        (match musdriver_advance_loop ops m e n with
          | (d, none) => (d, (0 : Int))
          | (d, some opl_frames_needed) =>
            if opl_frames_needed ≠ 0 then
              let d := { d with until_tick := d.until_tick - opl_frames_needed }
              let r := musdriver_gen_opl ops d opl_frames_needed
              if r.2 = 0 then (r.1, 0) else (r.1, 1)
            else (d, 1)).2 = 0) := by
    intro m e e1 e2 em emax eofs
    rcases musdriver_advance_loop_spec ops m e n e1 e2 em emax eofs with
      ⟨i1, i2⟩ | ⟨r, i1, i2, i3, i4⟩
    · constructor
      · intro hfit; omega
      · intro _
        generalize musdriver_advance_loop ops m e n = res at i1
        obtain ⟨dl, o⟩ := res
        simp only at i1
        subst i1
        rfl
    · rw [i1]
      dsimp only
      obtain ⟨f1, f2, -, f4⟩ := spec_advance_frames_fields ops (n - r) e e1 e2
      by_cases hr : r = 0
      · subst hr
        rw [if_neg (by simp)]
        constructor
        · intro _; rfl
        · intro hno
          rw [Nat.sub_zero] at i4
          omega
      · rw [if_pos hr]
        obtain ⟨g1, g2⟩ := musdriver_gen_opl_spec ops
          { spec_advance_frames ops (n - r) e with
            until_tick := (spec_advance_frames ops (n - r) e).until_tick - r } r
          (by show (spec_advance_frames ops (n - r) e).opl_max_frames < _; rw [f2]; exact emax)
          (by rw [f4] at i3; omega)
          (by show (spec_advance_frames ops (n - r) e).buf_ofs
                ≤ 2 * (spec_advance_frames ops (n - r) e).opl_max_frames
              rw [f1, f2]; exact i4)
        have hb : ({ spec_advance_frames ops (n - r) e with
            until_tick := (spec_advance_frames ops (n - r) e).until_tick - r }
            : mus_driver_t P R).buf_ofs = e.buf_ofs + 2 * (n - r) := f1
        have hx : ({ spec_advance_frames ops (n - r) e with
            until_tick := (spec_advance_frames ops (n - r) e).until_tick - r }
            : mus_driver_t P R).opl_max_frames = e.opl_max_frames := f2
        rw [hb, hx] at g1 g2
        constructor
        · intro hfit
          rw [g1 (by omega)]
          dsimp only
          rw [if_neg (by decide), spec_gen_frames_until_tick,
            ← spec_advance_frames_below ops r _ i3, ← spec_advance_frames_add]
          rw [show n - r + r = n by omega]
        · intro hno
          rw [g2 (by omega)]
          rfl
  by_cases h0 : d.until_tick = 0
  · have hstep : musdriver_advance_loop ops (n + 2) d n
        = musdriver_advance_loop ops (n + 1) (spec_score_tick ops d) n := by
      have hge : n ≥ d.until_tick := by omega
      have hz : ¬ (d.until_tick ≠ 0) := fun h => h h0
      rw [musdriver_advance_loop, if_pos hge]
      dsimp only
      rw [if_neg hz, if_neg hz]
      dsimp only
      rw [if_neg (by decide), advance_round_tick]
    obtain ⟨t1, t2, t3, -⟩ := spec_score_tick_fields ops d
    have k := key (n + 1) (spec_score_tick ops d) (by rw [t1]; decide) (by rw [t1]; decide)
      (by omega) (by rw [t3]; exact hmax) (by rw [t2, t3]; exact hofs)
    rw [t2, t3] at k
    unfold musdriver_advance spec_advance
    rw [hstep, if_pos h0]
    exact k
  · have k := key (n + 2) d (by omega) hut (by omega) hmax hofs
    unfold musdriver_advance spec_advance
    rw [if_neg h0]
    exact k

/-- Frames one by one keep the clock: from `N` frames, `k` more frames give `N + k`
frames, with a tick at each multiple of 355 on the way. -/
theorem clock_frames {R : Type} (k : Nat) :
    ∀ (d : mus_driver_t (Nat × List Nat) R) (N : Nat), ClockAt d N →
      ClockAt (spec_advance_frames clock_chip k d) (N + k) := by
  induction k with
  | zero => intro d N h; exact h
  | succ k ih =>
    intro d N h
    obtain ⟨c1, c2, c3, c4⟩ := h
    rw [spec_advance_frames, show N + (k + 1) = (N + 1) + k by omega]
    apply ih
    by_cases hz : d.until_tick - 1 = 0
    · rw [if_pos hz]
      have hm : N % 355 = 354 := by omega
      have hq : (N + 1) / 355 = N / 355 + 1 := by omega
      unfold spec_score_tick
      have hp : (spec_gen_frame clock_chip { d with until_tick := d.until_tick - 1 }).playing ≠ 0 := by
        show d.playing ≠ 0
        rw [c4]
        decide
      rw [if_pos hp]
      refine ⟨?_, ?_, ?_, rfl⟩
      · show d.player.1 + 1 = N + 1
        rw [c1]
      · show (d.player.1 + 1) :: d.player.2 = _
        rw [c1, c2, hq, List.range_succ (N / 355 + 1), List.reverse_append]
        simp only [List.reverse_cons, List.reverse_nil, List.nil_append, List.singleton_append,
          List.map_cons, List.cons.injEq, and_true]
        omega
      · show SAMPLES_PER_TICK = 355 - (N + 1) % 355
        unfold SAMPLES_PER_TICK
        omega
    · rw [if_neg hz]
      have hq : (N + 1) / 355 = N / 355 := by omega
      refine ⟨?_, ?_, ?_, c4⟩
      · show d.player.1 + 1 = N + 1
        rw [c1]
      · show d.player.2 = _
        rw [c2, hq]
      · show d.until_tick - 1 = 355 - (N + 1) % 355
        omega

/-- A clock driver right after `musdriver_start`: the frames of the first call start
with the tick at frame 0. -/
theorem clock_start {R : Type} (e : mus_driver_t (Nat × List Nat) R) (song loop : Int)
    (n : Nat) : ClockAt (spec_advance clock_chip (musdriver_start clock_chip e song loop) n) n := by
  unfold spec_advance
  have h0 : (musdriver_start clock_chip e song loop).until_tick = 0 := rfl
  rw [if_pos h0]
  have h := clock_frames n (spec_score_tick clock_chip (musdriver_start clock_chip e song loop)) 0
    ⟨rfl, rfl, rfl, rfl⟩
  rw [Nat.zero_add] at h
  exact h

/-- A clock driver at `N` frames: the frames of a call lead to `N + n` frames. -/
theorem clock_advance {R : Type} (e : mus_driver_t (Nat × List Nat) R) (N n : Nat)
    (h : ClockAt e N) : ClockAt (spec_advance clock_chip e n) (N + n) := by
  unfold spec_advance
  have hne : ¬ e.until_tick = 0 := by
    rw [h.2.2.1]
    omega
  rw [if_neg hne]
  exact clock_frames n e N h

/-- After `spec_advance` for `n` frames on a driver with `until_tick` in 0..355 the
write offset is `2 * n` further, the buffer size and the sample rate are the same and
`until_tick` is in 1..355. -/
theorem spec_advance_fields {P R : Type} (ops : ChipOps P) (d : mus_driver_t P R) (n : Nat)
    (hut : d.until_tick ≤ 355) :
    (spec_advance ops d n).buf_ofs = d.buf_ofs + 2 * n ∧
    (spec_advance ops d n).opl_max_frames = d.opl_max_frames ∧
    (spec_advance ops d n).out_sample_rate = d.out_sample_rate ∧
    1 ≤ (spec_advance ops d n).until_tick ∧ (spec_advance ops d n).until_tick ≤ 355 := by
  unfold spec_advance
  by_cases h0 : d.until_tick = 0
  · rw [if_pos h0]
    obtain ⟨t1, t2, t3, -, t5⟩ := spec_score_tick_fields ops d
    obtain ⟨f1, f2, f3, f4⟩ := spec_advance_frames_fields ops n (spec_score_tick ops d)
      (by rw [t1]; decide) (by rw [t1]; decide)
    rw [f1, f2, f3, f4, t1, t2, t3, t5]
    unfold SAMPLES_PER_TICK
    refine ⟨rfl, rfl, rfl, ?_, ?_⟩ <;> omega
  · rw [if_neg h0]
    obtain ⟨f1, f2, f3, f4⟩ := spec_advance_frames_fields ops n d (by omega) hut
    rw [f1, f2, f3, f4]
    refine ⟨rfl, rfl, rfl, ?_, ?_⟩ <;> omega

/-- Without a wrap of the 32-bit sum `out_max_frames * OPL_CLOCKRATE +
(out_sample_rate - 1)`, the frame count that `musdriver_generate` requests for a chunk
of at most `out_max_frames` frames is below the buffer size `opl_frames_for`. -/
theorem opl_request_bound (rate out_max frames_needed : Nat) (hrate : 0 < rate)
    (hnowrap : out_max * 49716 + (rate - 1) < 4294967296) (hneed : frames_needed ≤ out_max) :
    (frames_needed * OPL_CLOCKRATE % 4294967296) / rate = frames_needed * 49716 / rate ∧
    frames_needed * 49716 / rate + 1 ≤ opl_frames_for rate out_max ∧
    opl_frames_for rate out_max < 4294967296 := by
  have e1 : frames_needed * OPL_CLOCKRATE % 4294967296 = frames_needed * 49716 := by
    unfold OPL_CLOCKRATE
    omega
  have e2 : out_max * OPL_CLOCKRATE % 4294967296 = out_max * 49716 := by
    unfold OPL_CLOCKRATE
    omega
  have e3 : (rate + 4294967295) % 4294967296 = rate - 1 := by omega
  have e4 : (out_max * 49716 + (rate - 1)) % 4294967296 = out_max * 49716 + (rate - 1) := by
    omega
  have hq : (out_max * 49716 + (rate - 1)) / rate + 1 < 4294967296 := by
    by_cases h1 : rate = 1
    · subst h1
      rw [Nat.div_one]
      omega
    · have h2 : (out_max * 49716 + (rate - 1)) / rate ≤ (out_max * 49716 + (rate - 1)) / 2 :=
        Nat.div_le_div_left (by omega) (by decide)
      omega
  have hle : frames_needed * 49716 / rate ≤ (out_max * 49716 + (rate - 1)) / rate :=
    Nat.div_le_div_right (by omega)
  have hv : opl_frames_for rate out_max = (out_max * 49716 + (rate - 1)) / rate + 1 := by
    unfold opl_frames_for OPL_EXTRA_SAMPLES
    rw [e2, e3, e4]
    exact Nat.mod_eq_of_lt hq
  refine ⟨by rw [e1], ?_, ?_⟩
  · rw [hv]
    omega
  · rw [hv]
    exact hq

/-- The loop of `update_volume` over the voices `h .. h+n-1`: only the device changes,
and it receives, voice after voice in rising order, the three writes of every voice
whose owner is the channel; `hv` and `ma` are the voice table and `main_att`, which
the loop does not touch. -/
theorem update_volume_loop_dev {W : Type} (aw : W → Int → Int → W)
    (mus_ch ch_att pan_bits : Int) (hv : Nat → mus_hw_voice_t) (ma : Int) (n : Nat) :
    ∀ (h : Nat) (mp : musplayer_t W), mp.hw_voices = hv → mp.main_att = ma →
      update_volume_loop aw mus_ch ch_att pan_bits n h mp
        = { mp with
            dev := (List.range' h n).foldl
              (fun dev k =>
                if ((hv k).mus_ch : Int) = mus_ch then
                  aw (aw (aw dev
                    (hw_reg k 0x40 (chan_oper1.getD (hw_chan k) 0))
                      (int_or (hv k).ksl1
                        (oper1_att (hv k) (voice_att ma (hv k).note_att ch_att pan_bits))))
                    (hw_reg k 0x40 (chan_oper2.getD (hw_chan k) 0))
                      (int_or (hv k).ksl2
                        (oper2_att (hv k) (voice_att ma (hv k).note_att ch_att pan_bits))))
                    (hw_reg k 0xC0 (hw_chan k)) (int_or (hv k).feedback pan_bits)
                else dev) mp.dev } := by
  induction n with
  | zero => intro h mp _ _; rfl
  | succ n ih =>
    intro h mp e1 e2
    rw [update_volume_loop, List.range'_succ, List.foldl_cons]
    by_cases hc : ((mp.hw_voices h).mus_ch : Int) = mus_ch
    · have hc' : ((hv h).mus_ch : Int) = mus_ch := by rw [← e1]; exact hc
      rw [if_pos hc, if_pos hc']
      rw [ih (h + 1) _ ((write_levels_fields aw mp h _ _).2.2.trans e1)
        ((write_levels_fields aw mp h _ _).1.2.2.2.2.2.1.trans e2)]
      subst e1 e2
      rfl
    · have hc' : ¬ ((hv h).mus_ch : Int) = mus_ch := by rw [← e1]; exact hc
      rw [if_neg hc, if_neg hc']
      exact ih (h + 1) mp e1 e2

/-- The loop of `bend_channel` over the voices `h .. h+n-1`, when `bend_pitch` returns
`b k` for every active voice `k` of the channel among them: the loop returns, only the
device changes, and it receives, voice after voice in rising order, the low byte and
the high byte of `b k` for each of these voices; `hv` is the voice table, which the
loop does not touch. -/
theorem bend_channel_loop_dev {W : Type} (aw : W → Int → Int → W) (mus_ch bend : Int)
    (hv : Nat → mus_hw_voice_t) (b : Nat → Int) (n : Nat) :
    ∀ (h : Nat) (mp : musplayer_t W), mp.hw_voices = hv →
      (∀ k, h ≤ k → k < h + n → ((hv k).mus_ch : Int) = mus_ch → 0 ≤ (hv k).noteid →
        bend_pitch (hv k).hw_cmd (hv k).p_note bend (hv k).fineTune = .ok (b k)) →
      bend_channel_loop aw mus_ch bend n h mp
        = .ok { mp with
            dev := (List.range' h n).foldl
              (fun dev k =>
                if ((hv k).mus_ch : Int) = mus_ch ∧ 0 ≤ (hv k).noteid then
                  aw (aw dev (hw_reg k 0xa0 (hw_chan k)) (int_and (b k) 255))
                    (hw_reg k 0xb0 (hw_chan k)) (b k >>> (8 : Nat))
                else dev) mp.dev } := by
  induction n with
  | zero => intro h mp _ _; rfl
  | succ n ih =>
    intro h mp e1 hb
    rw [bend_channel_loop, List.range'_succ, List.foldl_cons]
    by_cases hc : ((mp.hw_voices h).mus_ch : Int) = mus_ch ∧ 0 ≤ (mp.hw_voices h).noteid
    · have hc' : ((hv h).mus_ch : Int) = mus_ch ∧ 0 ≤ (hv h).noteid := by rw [← e1]; exact hc
      have hp := hb h (le_refl h) (by omega) hc'.1 hc'.2
      rw [← e1] at hp
      rw [if_pos hc, if_pos hc', hp]
      dsimp only
      refine (ih (h + 1) _ ?_ (fun k k1 k2 => hb k (by omega) (by omega))).trans ?_
      · exact e1
      · rfl
    · have hc' : ¬ (((hv h).mus_ch : Int) = mus_ch ∧ 0 ≤ (hv h).noteid) := by
        rw [← e1]; exact hc
      rw [if_neg hc, if_neg hc']
      exact ih (h + 1) mp e1 (fun k k1 k2 => hb k (by omega) (by omega))

/-- Function `bend_channel` with the bend -64 on a channel whose active voices play
notes in 1..102 at the frequency of the table, with zero fine-tune: every such voice
gets the two bytes of the table entry of the note below, and nothing else changes. -/
theorem bend_channel_semitone_down {W : Type} (aw : W → Int → Int → W) (mp : musplayer_t W)
    (mus_ch : Int)
    (hv : ∀ k, k < mus_num_voices → ((mp.hw_voices k).mus_ch : Int) = mus_ch →
      0 ≤ (mp.hw_voices k).noteid →
      (1 ≤ (mp.hw_voices k).p_note ∧ (mp.hw_voices k).p_note ≤ 102) ∧
      (mp.hw_voices k).hw_cmd = note_cmds.getD (mp.hw_voices k).p_note 0 ∧
      (mp.hw_voices k).fineTune = 0) :
    bend_channel aw mp mus_ch (-64)
      = .ok { mp with
          dev := (List.range mus_num_voices).foldl
            (fun dev k =>
              if ((mp.hw_voices k).mus_ch : Int) = mus_ch ∧ 0 ≤ (mp.hw_voices k).noteid then
                aw (aw dev (hw_reg k 0xa0 (hw_chan k))
                    (int_and ((note_cmds.getD ((mp.hw_voices k).p_note - 1) 0 : Nat) : Int) 255))
                  (hw_reg k 0xb0 (hw_chan k))
                  (((note_cmds.getD ((mp.hw_voices k).p_note - 1) 0 : Nat) : Int) >>> (8 : Nat))
              else dev) mp.dev } := by
  have k := bend_channel_loop_dev aw mus_ch (-64) mp.hw_voices
    (fun k => ((note_cmds.getD ((mp.hw_voices k).p_note - 1) 0 : Nat) : Int))
    mus_num_voices 0 mp rfl
    (fun k _ k2 c1 c2 => by
      obtain ⟨⟨n1, n2⟩, e1, e2⟩ := hv k (by omega) c1 c2
      rw [e1, e2]
      exact bend_pitch_semitone_down _ n1 n2)
  rw [← List.range_eq_range'] at k
  exact k

/-- A pitch wheel event with the byte 64 on a channel whose active voices play notes in
1..102 at the frequency of the table, with zero fine-tune: the step returns, the bend
of the channel is -64, every such voice gets the two bytes of the table entry of the
note below, and the voice table is as before. -/
theorem pitch_wheel_semitone_down {W : Type} (aw : W → Int → Int → W) (mem : Int → Nat)
    (mp : musplayer_t W) (hev : (read8 mem mp.score >>> 4) &&& 7 = 2)
    (hb : read8 mem (mp.score + 1) = 64)
    (hv : ∀ k, k < mus_num_voices →
      ((mp.hw_voices k).mus_ch : Int) = ((read8 mem mp.score &&& 15 : Nat) : Int) →
      0 ≤ (mp.hw_voices k).noteid →
      (1 ≤ (mp.hw_voices k).p_note ∧ (mp.hw_voices k).p_note ≤ 102) ∧
      (mp.hw_voices k).hw_cmd = note_cmds.getD (mp.hw_voices k).p_note 0 ∧
      (mp.hw_voices k).fineTune = 0) :
    ∃ mp', mus_step aw mem mp = .ok (.next mp' (read8 mem mp.score)) ∧
      mp'.dev = (List.range mus_num_voices).foldl
        (fun dev k =>
          if ((mp.hw_voices k).mus_ch : Int) = ((read8 mem mp.score &&& 15 : Nat) : Int)
              ∧ 0 ≤ (mp.hw_voices k).noteid then
            aw (aw dev (hw_reg k 0xa0 (hw_chan k))
                (int_and ((note_cmds.getD ((mp.hw_voices k).p_note - 1) 0 : Nat) : Int) 255))
              (hw_reg k 0xb0 (hw_chan k))
              (((note_cmds.getD ((mp.hw_voices k).p_note - 1) 0 : Nat) : Int) >>> (8 : Nat))
          else dev) mp.dev ∧
      mp'.hw_voices = mp.hw_voices ∧
      (mp'.channels (read8 mem mp.score &&& 15)).bend = -64 ∧
      (∀ j, j ≠ read8 mem mp.score &&& 15 → mp'.channels j = mp.channels j) ∧
      mp'.score = mp.score + 2 := by
  have hb' : read8 mem ({ mp with score := mp.score + 1 } : musplayer_t W).score = 64 := hb
  have key := bend_channel_semitone_down aw
    (set_channel { mp with score := mp.score + 1 + 1 } (read8 mem mp.score &&& 15)
      (fun ch => { ch with bend := -64 }))
    ((read8 mem mp.score &&& 15 : Nat) : Int) hv
  rw [(mus_step_dispatch aw mem mp).2.2.1 hev]
  unfold event_pitch_wheel
  dsimp only
  rw [hb']
  have e64 : ((64 : Nat) : Int) - 128 = -64 := by decide
  have e8 : toInt8 (-64) = -64 := by decide
  rw [e64, e8, key]
  refine ⟨_, rfl, rfl, rfl, ?_, ?_, ?_⟩
  · show (Function.update mp.channels (read8 mem mp.score &&& 15) _ _).bend = -64
    rw [Function.update_same]
  · intro j hj
    show Function.update mp.channels (read8 mem mp.score &&& 15) _ j = mp.channels j
    rw [Function.update_noteq hj]
  · show mp.score + 1 + 1 = mp.score + 2
    omega

/-- Claim C23: after `musplay_start(data, loop)` the score pointer is `data +
scoreStart`, the loop pointer equals the score pointer when `loop ≠ 0` and is null
otherwise, the pending delay is 0, every one of the 18 hardware voices has `noteid =
-1` and `ins_sel = -1`, and every one of the 16 channels has instrument index 0, bend
0, volume and expression attenuation 0, mono off and centre pan. -/
theorem musplay_start_resets_player {W : Type} (aw : W → Int → Int → W) (mem : Int → Nat)
    (mp : musplayer_t W) (data loop : Int) :
    (musplay_start aw mem mp data loop).score = data + MUS_header_scoreStart mem data ∧
    (loop ≠ 0 → (musplay_start aw mem mp data loop).loop_score
      = (musplay_start aw mem mp data loop).score) ∧
    (loop = 0 → (musplay_start aw mem mp data loop).loop_score = 0) ∧
    (musplay_start aw mem mp data loop).delay = 0 ∧
    (∀ h, h < 18 →
      ((musplay_start aw mem mp data loop).hw_voices h).noteid = -1 ∧
      ((musplay_start aw mem mp data loop).hw_voices h).ins_sel = -1) ∧
    (∀ m, m < 16 →
      ((musplay_start aw mem mp data loop).channels m).ins_idx = 0 ∧
      ((musplay_start aw mem mp data loop).channels m).bend = 0 ∧
      ((musplay_start aw mem mp data loop).channels m).vol_att = 0 ∧
      ((musplay_start aw mem mp data loop).channels m).exp_att = 0 ∧
      ((musplay_start aw mem mp data loop).channels m).mono = 0 ∧
      ((musplay_start aw mem mp data loop).channels m).pan_bits = opl3_pan_centre) := by
  obtain ⟨h1, h2, h3, -, -, -, -, h8, h9⟩ := musplay_start_fields aw mem mp data loop
  refine ⟨h1, ?_, ?_, h3, ?_, ?_⟩
  · intro hl
    rw [h2, h1, if_pos hl]
  · intro hl
    rw [h2, if_neg (by simpa using hl)]
  · intro h hh
    rw [h9 h hh]
    exact ⟨rfl, rfl⟩
  · intro m hm
    rw [h8 m hm]
    exact ⟨rfl, rfl, rfl, rfl, rfl, rfl⟩

/-- Witness of C23: the lump of `song_mem` started with `loop = 1` on `idle_player`;
its score begins 16 bytes into the lump. -/
theorem musplay_start_resets_player_witness :
    (1 : Int) ≠ 0 ∧ (17 : Nat) < 18 ∧ (15 : Nat) < 16 ∧
    (musplay_start log_write song_mem idle_player 4096 1).score = 4112 ∧
    (musplay_start log_write song_mem idle_player 4096 1).loop_score
      = (musplay_start log_write song_mem idle_player 4096 1).score ∧
    ((musplay_start log_write song_mem idle_player 4096 1).hw_voices 17).noteid = -1 ∧
    ((musplay_start log_write song_mem idle_player 4096 1).channels 15).pan_bits
      = opl3_pan_centre :=
  ⟨by decide, by decide, by decide,
    (musplay_start_resets_player log_write song_mem idle_player 4096 1).1.trans (by decide),
    (musplay_start_resets_player log_write song_mem idle_player 4096 1).2.1 (by decide),
    ((musplay_start_resets_player log_write song_mem idle_player 4096 1).2.2.2.2.1 17
      (by decide)).1,
    ((musplay_start_resets_player log_write song_mem idle_player 4096 1).2.2.2.2.2 15
      (by decide)).2.2.2.2.2⟩

/-- Claim C28: `choose_hw_voice`, rule 1. If voice `j` is the lowest-indexed voice
that is keyed on with the incoming `noteid` and owned by the incoming MUS channel,
the allocator returns `j` after `key_off_hw(mp, j)`: one key-off write, `noteid = -1`
for voice `j`, every other voice as before. Nothing is asked of the voices above `j`:
any player that agrees with `mp` on the voices up to `j` gets the same voice. -/
theorem choose_hw_voice_replaces_same_note {W : Type} (aw : W → Int → Int → W)
    (mp : musplayer_t W) (ins_sel mus_ch noteid : Int) (j : Nat) (hj : j < 18)
    (hplays : 0 ≤ (mp.hw_voices j).noteid ∧ (mp.hw_voices j).noteid = noteid
      ∧ ((mp.hw_voices j).mus_ch : Int) = mus_ch)
    (hfirst : ∀ k, k < j →
      ¬ (0 ≤ (mp.hw_voices k).noteid ∧ (mp.hw_voices k).noteid = noteid
        ∧ ((mp.hw_voices k).mus_ch : Int) = mus_ch)) :
    choose_hw_voice aw mp ins_sel mus_ch noteid = (key_off_hw aw mp j, (j : Int)) ∧
    ((key_off_hw aw mp j).hw_voices j).noteid = -1 ∧
    (key_off_hw aw mp j).dev = aw mp.dev (hw_reg j 0xb0 (hw_chan j))
      ((((mp.hw_voices j).hw_cmd >>> 8) &&& 0xdf : Nat) : Int) ∧
    (∀ k, k ≠ j → (key_off_hw aw mp j).hw_voices k = mp.hw_voices k) ∧
    ∀ mp2 : musplayer_t W, (∀ k, k ≤ j → mp2.hw_voices k = mp.hw_voices k) →
      (choose_hw_voice aw mp2 ins_sel mus_ch noteid).2 = (j : Int) := by
  have key : ∀ mp2 : musplayer_t W, (∀ k, k ≤ j → mp2.hw_voices k = mp.hw_voices k) →
      choose_hw_voice aw mp2 ins_sel mus_ch noteid = (key_off_hw aw mp2 j, (j : Int)) := by
    intro mp2 h2
    have hs := choose_hw_voice_scan_match mp2 ins_sel mus_ch noteid mus_num_voices 0 j
      VoiceScan.init (Nat.zero_le j) (by simpa [mus_num_voices] using hj)
      (by rw [h2 j (le_refl j)]; exact hplays)
      (fun k _ hk => by rw [h2 k (by omega)]; exact hfirst k hk)
    unfold choose_hw_voice
    generalize choose_hw_voice_scan mp2 ins_sel mus_ch noteid mus_num_voices 0 VoiceScan.init
      = r at hs
    obtain ⟨r1, r2⟩ := r
    simp only at hs
    subst hs
    rfl
  have hspec := (key_off_hw_spec aw mp j).2 hplays.1
  refine ⟨key mp (fun _ _ => rfl), ?_, ?_, ?_, ?_⟩
  · rw [(key_off_hw_fields aw mp j).2.2.2.1, if_pos hplays.1]
  · rw [hspec]
  · exact (key_off_hw_fields aw mp j).2.2.1
  · intro mp2 h2
    rw [key mp2 h2]

/-- Witness of C28: on `busy_player` voice 3 plays note 43 of channel 0. -/
theorem choose_hw_voice_replaces_same_note_witness :
    ((3 : Nat) < 18 ∧
      (0 ≤ (busy_player.hw_voices 3).noteid ∧ (busy_player.hw_voices 3).noteid = 43
        ∧ ((busy_player.hw_voices 3).mus_ch : Int) = 0)) ∧
    (choose_hw_voice log_write busy_player 5 0 43).2 = 3 ∧
    (((choose_hw_voice log_write busy_player 5 0 43).1.hw_voices 3).noteid,
      (choose_hw_voice log_write busy_player 5 0 43).1.dev) = (-1, [(0xb3, 0x0A)]) :=
  have h := choose_hw_voice_replaces_same_note log_write busy_player 5 0 43 3 (by decide)
    (by decide) (by decide)
  ⟨by decide, by rw [h.1]; rfl,
    by rw [h.1, Prod.mk.injEq]; exact ⟨h.2.1, h.2.2.1.trans (by decide)⟩⟩

/-- Claim C29: `choose_hw_voice`, rules 2 and 3. When no voice is keyed on with the
incoming `(noteid, mus_ch)`, at least one voice is keyed off, and the sequence number
of every keyed-off voice is below the start value `0x7FFFFFFF` of the search (the
largest `int`, which the key-on counter would have to pass first), the allocator
returns a keyed-off voice `v` and leaves the player as it is. If some keyed-off voice
has the selector `ins_sel` loaded, `v` is one of those, with the smallest sequence
number among them and the lowest index among equals; otherwise `v` has the smallest
sequence number among all keyed-off voices, the lowest index among equals. -/
theorem choose_hw_voice_reuses_oldest_keyed_off {W : Type} (aw : W → Int → Int → W)
    (mp : musplayer_t W) (ins_sel mus_ch noteid : Int)
    (hno : ∀ k, k < 18 →
      ¬ (0 ≤ (mp.hw_voices k).noteid ∧ (mp.hw_voices k).noteid = noteid
        ∧ ((mp.hw_voices k).mus_ch : Int) = mus_ch))
    (hoff : ∃ k, k < 18 ∧ (mp.hw_voices k).noteid < 0)
    (hseq : ∀ k, k < 18 → (mp.hw_voices k).noteid < 0 → (mp.hw_voices k).seq < 0x7FFFFFFF) :
    ∃ v : Nat, v < 18 ∧ choose_hw_voice aw mp ins_sel mus_ch noteid = (mp, (v : Int)) ∧
      (mp.hw_voices v).noteid < 0 ∧
      ((∃ k, k < 18 ∧ (mp.hw_voices k).noteid < 0 ∧ (mp.hw_voices k).ins_sel = ins_sel) →
        (mp.hw_voices v).ins_sel = ins_sel ∧
        (∀ k, k < 18 → (mp.hw_voices k).noteid < 0 → (mp.hw_voices k).ins_sel = ins_sel →
          (mp.hw_voices v).seq ≤ (mp.hw_voices k).seq) ∧
        (∀ k, k < v → (mp.hw_voices k).noteid < 0 → (mp.hw_voices k).ins_sel = ins_sel →
          (mp.hw_voices v).seq < (mp.hw_voices k).seq)) ∧
      ((¬ ∃ k, k < 18 ∧ (mp.hw_voices k).noteid < 0 ∧ (mp.hw_voices k).ins_sel = ins_sel) →
        (∀ k, k < 18 → (mp.hw_voices k).noteid < 0 →
          (mp.hw_voices v).seq ≤ (mp.hw_voices k).seq) ∧
        (∀ k, k < v → (mp.hw_voices k).noteid < 0 →
          (mp.hw_voices v).seq < (mp.hw_voices k).seq)) := by
  obtain ⟨a', hscan, hk, hr, -⟩ := choose_hw_voice_scan_all mp ins_sel mus_ch noteid hno
  unfold choose_hw_voice
  rw [hscan]
  simp only
  rcases hr with ⟨r1, r2, r3⟩ | ⟨r1, r2, r3, r4, r5, r6, r7⟩
  · -- no keyed-off voice has the selector loaded
    have hnone : ¬ ∃ k, k < 18 ∧ (mp.hw_voices k).noteid < 0 ∧ (mp.hw_voices k).ins_sel = ins_sel := by
      rintro ⟨k, hk18, hkn, hki⟩
      have e1 := r3 k hk18 ⟨hkn, hki⟩
      have e2 := hseq k hk18 hkn
      simp only at e1
      omega
    rcases hk with ⟨k1, k2, k3⟩ | ⟨k1, k2, k3, k4, k5, k6, k7⟩
    · obtain ⟨k, hk18, hkn⟩ := hoff
      have e1 := k3 k hk18 hkn
      have e2 := hseq k hk18 hkn
      simp only at e1
      omega
    · refine ⟨a'.oldest_koff.toNat, k2, ?_, k3, fun h => absurd h hnone, fun _ => ⟨?_, ?_⟩⟩
      · rw [if_neg (by omega), if_pos k1, Int.toNat_of_nonneg k1]
      · intro k hk18 hkn
        have := k6 k hk18 hkn
        simp only at k4 this
        omega
      · intro k hkv hkn
        have := k7 k hkv hkn
        simp only at k4 this
        omega
  · refine ⟨a'.oldest_reuse.toNat, r2, ?_, r3.1, fun _ => ⟨r3.2, ?_, ?_⟩,
      fun h => absurd ⟨a'.oldest_reuse.toNat, r2, r3.1, r3.2⟩ h⟩
    · rw [if_pos r1, Int.toNat_of_nonneg r1]
    · intro k hk18 hkn hki
      have := r6 k hk18 ⟨hkn, hki⟩
      simp only at r4 this
      omega
    · intro k hkv hkn hki
      have := r7 k hkv ⟨hkn, hki⟩
      simp only at r4 this
      omega

/-- Witness of C29: on `mixed_player` the voices 2, 4 and 6 are keyed off. A note
with selector 5 gets voice 6, the older of the two that have selector 5 loaded,
although voice 4 is older still. -/
theorem choose_hw_voice_reuses_oldest_keyed_off_witness :
    ((∀ k, k < 18 →
        ¬ (0 ≤ (mixed_player.hw_voices k).noteid ∧ (mixed_player.hw_voices k).noteid = 99
          ∧ ((mixed_player.hw_voices k).mus_ch : Int) = 0)) ∧
      (∃ k, k < 18 ∧ (mixed_player.hw_voices k).noteid < 0) ∧
      (∀ k, k < 18 → (mixed_player.hw_voices k).noteid < 0 →
        (mixed_player.hw_voices k).seq < 0x7FFFFFFF)) ∧
    (choose_hw_voice log_write mixed_player 5 0 99).2 = 6 ∧
    ∃ v : Nat, v < 18 ∧ choose_hw_voice log_write mixed_player 5 0 99 = (mixed_player, (v : Int)) ∧
      (mixed_player.hw_voices v).noteid < 0 :=
  have h := choose_hw_voice_reuses_oldest_keyed_off log_write mixed_player 5 0 99
    (by decide) ⟨2, by decide, by decide⟩ (by decide)
  ⟨⟨by decide, ⟨2, by decide, by decide⟩, by decide⟩, by decide,
    h.elim fun v hv => ⟨v, hv.1, hv.2.1, hv.2.2.1⟩⟩

/-- Counterexample to C30: on `busy_player` all 18 voices are keyed on and none plays
note 99 of channel 0. The allocator does not report -1: it keys off voice 7, the one
with the smallest sequence number (one register write, `noteid = -1`), and returns 7;
`play_note` then keys the new note on that voice, with five more register writes. -/
theorem full_table_steals_a_voice :
    (∀ k, k < 18 → 0 ≤ (busy_player.hw_voices k).noteid) ∧
    (∀ k, k < 18 →
      ¬ ((busy_player.hw_voices k).noteid = 99 ∧ ((busy_player.hw_voices k).mus_ch : Int) = 0)) ∧
    (busy_player.hw_voices 7).noteid = 47 ∧
    (choose_hw_voice log_write busy_player 5 0 99).2 = 7 ∧
    ((choose_hw_voice log_write busy_player 5 0 99).1.hw_voices 7).noteid = -1 ∧
    (choose_hw_voice log_write busy_player 5 0 99).1.dev = [(0xb7, 0x0A)] ∧
    (play_note log_write busy_player 5 99 60 0 0 0 0 0 opl3_pan_centre).toOption.map
      (fun mp => ((mp.hw_voices 7).noteid, mp.dev.length)) = some (99, 6) := by
  decide

/-- Claim C30, amended: `choose_hw_voice`, rule 4 (`KILL_OLDEST` is defined). When all
18 hardware voices are keyed on and none plays the incoming `(noteid, mus_ch)`, the
allocator takes the voice `v` with the smallest sequence number, the lowest index
among equals: it keys `v` off (one register write, `noteid = -1`, the other voices
untouched) and returns `v`, never -1. A returning `play_note` then keys the new note
on `v`: the oldest note is stolen, the note is not dropped. -/
theorem choose_hw_voice_steals_oldest {W : Type} (aw : W → Int → Int → W)
    (mp : musplayer_t W) (ins_sel mus_ch noteid : Int)
    (hall : ∀ k, k < 18 → 0 ≤ (mp.hw_voices k).noteid)
    (hno : ∀ k, k < 18 →
      ¬ ((mp.hw_voices k).noteid = noteid ∧ ((mp.hw_voices k).mus_ch : Int) = mus_ch))
    (hint : ∀ k, k < 18 → (mp.hw_voices k).seq ≤ 0x7FFFFFFF) :
    ∃ v : Nat, v < 18 ∧
      (∀ k, k < 18 → (mp.hw_voices v).seq ≤ (mp.hw_voices k).seq) ∧
      (∀ k, k < v → (mp.hw_voices v).seq < (mp.hw_voices k).seq) ∧
      choose_hw_voice aw mp ins_sel mus_ch noteid = (key_off_hw aw mp v, (v : Int)) ∧
      ((key_off_hw aw mp v).hw_voices v).noteid = -1 ∧
      (key_off_hw aw mp v).dev = aw mp.dev (hw_reg v 0xb0 (hw_chan v))
        ((((mp.hw_voices v).hw_cmd >>> 8) &&& 0xdf : Nat) : Int) ∧
      (∀ k, k ≠ v → (key_off_hw aw mp v).hw_voices k = mp.hw_voices k) ∧
      ∀ (note noteOfs note_att ch_att bend pan : Int) (mp' : musplayer_t W),
        play_note aw mp ins_sel noteid note noteOfs note_att ch_att mus_ch bend pan = .ok mp' →
        (mp'.hw_voices v).noteid = toInt16 noteid ∧ (mp'.hw_voices v).mus_ch = toUInt8 mus_ch ∧
        (mp'.hw_voices v).seq = mp.next_keyon_seq ∧
        ∀ k, k ≠ v → mp'.hw_voices k = mp.hw_voices k := by
  obtain ⟨a', hscan, hk, hr, ho⟩ := choose_hw_voice_scan_all mp ins_sel mus_ch noteid
    (fun k hk h => hno k hk ⟨h.2.1, h.2.2⟩)
  have hk1 : a'.oldest_koff = -1 := by
    rcases hk with ⟨k1, -, -⟩ | ⟨k1, k2, k3, -⟩
    · exact k1
    · have := hall _ k2
      omega
  have hr1 : a'.oldest_reuse = -1 := by
    rcases hr with ⟨r1, -, -⟩ | ⟨r1, r2, r3, -⟩
    · exact r1
    · have := hall _ r2
      have := r3.1
      omega
  have hsteal : choose_hw_voice aw mp ins_sel mus_ch noteid
      = (key_off_hw aw mp a'.oldest, (a'.oldest : Int)) := by
    unfold choose_hw_voice
    rw [hscan]
    simp only
    rw [if_neg (by omega), if_neg (by omega)]
  have hv : a'.oldest < 18 ∧
      (∀ k, k < 18 → (mp.hw_voices a'.oldest).seq ≤ (mp.hw_voices k).seq) ∧
      (∀ k, k < a'.oldest → (mp.hw_voices a'.oldest).seq < (mp.hw_voices k).seq) := by
    rcases ho with ⟨o1, o2, o3⟩ | ⟨o1, o2, o3, o4, o5⟩
    · rw [o1]
      refine ⟨by omega, ?_, fun k hk => absurd hk (Nat.not_lt_zero k)⟩
      intro k hk
      have e1 := o3 k hk
      have e2 := o3 0 (by omega)
      have e3 := hint k hk
      have e4 := hint 0 (by omega)
      simp only at e1 e2
      omega
    · refine ⟨o1, ?_, ?_⟩
      · intro k hk
        have := o4 k hk
        simp only at o2 this
        omega
      · intro k hk
        have := o5 k hk
        simp only at o2 this
        omega
  have hact := hall a'.oldest hv.1
  refine ⟨a'.oldest, hv.1, hv.2.1, hv.2.2, hsteal, ?_, ?_, (key_off_hw_fields aw mp _).2.2.1, ?_⟩
  · rw [(key_off_hw_fields aw mp _).2.2.2.1, if_pos hact]
  · rw [(key_off_hw_spec aw mp _).2 hact]
  · intro note noteOfs note_att ch_att bend pan mp' hok
    obtain ⟨-, -, p3⟩ := play_note_fields hok
    rw [hsteal] at p3
    obtain ⟨q1, q2, q3, -, q5, -⟩ := p3 (by simp)
    simp only [Int.toNat_ofNat] at q1 q2 q3 q5
    refine ⟨q1, q2, q3, ?_⟩
    intro k hk
    rw [q5 k hk, (key_off_hw_fields aw mp _).2.2.1 k hk]

/-- Witness of amended C30: `busy_player` and a new note 99 on channel 0. -/
theorem choose_hw_voice_steals_oldest_witness :
    ((∀ k, k < 18 → 0 ≤ (busy_player.hw_voices k).noteid) ∧
      (∀ k, k < 18 →
        ¬ ((busy_player.hw_voices k).noteid = 99 ∧ ((busy_player.hw_voices k).mus_ch : Int) = 0)) ∧
      (∀ k, k < 18 → (busy_player.hw_voices k).seq ≤ 0x7FFFFFFF)) ∧
    ∃ v : Nat, v < 18 ∧
      choose_hw_voice log_write busy_player 5 0 99 = (key_off_hw log_write busy_player v, (v : Int)) ∧
      ((key_off_hw log_write busy_player v).hw_voices v).noteid = -1 :=
  have h := choose_hw_voice_steals_oldest log_write busy_player 5 0 99 (by decide) (by decide)
    (by decide)
  ⟨⟨by decide, by decide, by decide⟩,
    h.elim fun v hv => ⟨v, hv.1, hv.2.2.2.1, hv.2.2.2.2.1⟩⟩

/-- Counterexample to C25: the five delay bytes 0x88 0x80 0x80 0x80 0x00 have the
base-128 value 2^31, which the `int` field `delay` cannot hold; the loop leaves
-2^31 in it (and has taken the five bytes). -/
theorem five_byte_delay_overflows :
    parked_player.delay = 0 ∧
    Nat.ofDigits 128 (([0x88, 0x80, 0x80, 0x80, 0x00].map (fun b => b &&& 0x7F)).reverse)
      = 2147483648 ∧
    (parse_delay long_delay_mem 5 parked_player).toOption.map (fun mp => (mp.delay, mp.score))
      = some (-2147483648, 4117) := by
  refine ⟨rfl, by simp [Nat.ofDigits]; decide, by decide⟩

/-- Claim C25, amended: starting from pending delay 0, for delay bytes `b1..bk` at the
score pointer where `b1..b(k-1)` have bit 7 set and `bk` has bit 7 clear, the delay
loop of `musplay_update` ends after exactly `k` bytes, with the score pointer `k`
further and nothing but the delay changed; the delay is the big-endian base-128 value
`Σ (bi & 0x7F)·128^(k-i)` of the bytes whenever that value is below 2^31, the range of
the `int` that holds it. After a group of events that ends with `break` on a command
byte (its bit 7 set), `musplay_update` goes on with the player this loop leaves. -/
theorem parse_delay_is_base128 {W : Type} (mem : Int → Nat) (mp : musplayer_t W)
    (bs : List Nat) (fuel : Nat) (hne : bs ≠ []) (hfuel : bs.length ≤ fuel)
    (hbytes : ∀ i, i < bs.length → read8 mem (mp.score + (i : Int)) = bs.getD i 0)
    (hcont : ∀ i, i + 1 < bs.length → bs.getD i 0 &&& 0x80 ≠ 0)
    (hlast : bs.getD (bs.length - 1) 0 &&& 0x80 = 0) (hzero : mp.delay = 0) :
    parse_delay mem fuel mp
      = .ok { mp with score := mp.score + (bs.length : Int), delay := delay_after 0 bs } ∧
    (Nat.ofDigits 128 ((bs.map (fun b => b &&& 0x7F)).reverse) < 2147483648 →
      parse_delay mem fuel mp
        = .ok { mp with
            score := mp.score + (bs.length : Int)
            delay := (Nat.ofDigits 128 ((bs.map (fun b => b &&& 0x7F)).reverse) : Nat) }) ∧
    ∀ (aw : W → Int → Int → W) (n : Nat) (mp0 : musplayer_t W) (ticks : Int) (cmd : Nat),
      mp0.delay = 0 → mus_events aw mem fuel mp0 = .ok (.next mp cmd) →
      musplay_update_loop aw mem fuel (n + 1) mp0 ticks
        = if ticks > 0 then
            musplay_update_loop aw mem fuel n
              { mp with score := mp.score + (bs.length : Int), delay := delay_after 0 bs } ticks
          else
            .ok ({ mp with score := mp.score + (bs.length : Int), delay := delay_after 0 bs }, 1) := by
  have h := parse_delay_bytes mem bs fuel mp hne hfuel hbytes hcont hlast
  rw [hzero] at h
  refine ⟨h, ?_, ?_⟩
  · intro hfit
    have hv := delay_after_value bs 0 (le_refl 0) (by
      rw [zero_mul, zero_add]
      exact_mod_cast hfit)
    rw [zero_mul, zero_add] at hv
    rw [h, hv]
  · intro aw n mp0 ticks cmd h0 hev
    rw [musplay_update_loop]
    rw [if_neg (by rw [h0]; omega)]
    simp only [h0, lt_self_iff_false, if_false, gt_iff_lt]
    rw [hev]
    simp only
    rw [h]

/-- Witness of amended C25: the two delay bytes 0x81 0x05 give the delay 133. -/
theorem parse_delay_is_base128_witness :
    (([0x81, 0x05] : List Nat) ≠ [] ∧ ([0x81, 0x05] : List Nat).length ≤ 2 ∧
      parked_player.delay = 0 ∧
      Nat.ofDigits 128 ((([0x81, 0x05] : List Nat).map (fun b => b &&& 0x7F)).reverse) = 133) ∧
    parse_delay short_delay_mem 2 parked_player
      = .ok { parked_player with
          score := parked_player.score + (([0x81, 0x05] : List Nat).length : Int)
          delay := (Nat.ofDigits 128
            ((([0x81, 0x05] : List Nat).map (fun b => b &&& 0x7F)).reverse) : Nat) } :=
  ⟨⟨by decide, by decide, rfl, by simp [Nat.ofDigits]; decide⟩,
    (parse_delay_is_base128 short_delay_mem parked_player [0x81, 0x05] 2 (by decide)
      (by decide) (by decide)
      (fun i hi => by
        simp only [List.length_cons, List.length_nil] at hi
        have h0 : i = 0 := by omega
        subst h0
        decide)
      (by decide) rfl).2.1 (by simp [Nat.ofDigits]; decide)⟩

/-- Claim C26: a controller event (type 4) whose controller number is 10 or more is
ignored: the step takes the command byte and its two data bytes and changes nothing
else, so no register is written and no channel or voice changes. The same codes sent
as a system event (type 3) do act: code 12 sets `mono` of the channel, code 11 keys off
every voice the channel owns and leaves the voices of the other channels alone. -/
theorem controller_event_ignores_system_codes {W : Type} (aw : W → Int → Int → W)
    (mem : Int → Nat) (mp : musplayer_t W)
    (hev : (read8 mem mp.score >>> 4) &&& 7 = 4)
    (hctrl : 10 ≤ read8 mem (mp.score + 1) &&& 0x7F) :
    mus_step aw mem mp = .ok (.next { mp with score := mp.score + 3 } (read8 mem mp.score)) ∧
    (∀ mp2 : musplayer_t W, (read8 mem mp2.score >>> 4) &&& 7 = 3 →
      read8 mem (mp2.score + 1) &&& 0x7F = 12 →
      mus_step aw mem mp2
        = .ok (.next
            (set_channel { mp2 with score := mp2.score + 2 } (read8 mem mp2.score &&& 15)
              (fun ch => { ch with mono := 1 }))
            (read8 mem mp2.score))) ∧
    (∀ mp2 : musplayer_t W, (read8 mem mp2.score >>> 4) &&& 7 = 3 →
      read8 mem (mp2.score + 1) &&& 0x7F = 11 →
      mus_step aw mem mp2
        = .ok (.next
            (key_off_mus_all aw { mp2 with score := mp2.score + 2 }
              ((read8 mem mp2.score &&& 15 : Nat) : Int))
            (read8 mem mp2.score)) ∧
      ∀ h, h < 18 →
        (((mp2.hw_voices h).mus_ch : Int) = ((read8 mem mp2.score &&& 15 : Nat) : Int) →
          ((key_off_mus_all aw { mp2 with score := mp2.score + 2 }
            ((read8 mem mp2.score &&& 15 : Nat) : Int)).hw_voices h).noteid < 0) ∧
        (((mp2.hw_voices h).mus_ch : Int) ≠ ((read8 mem mp2.score &&& 15 : Nat) : Int) →
          (key_off_mus_all aw { mp2 with score := mp2.score + 2 }
            ((read8 mem mp2.score &&& 15 : Nat) : Int)).hw_voices h = mp2.hw_voices h)) := by
  have e1 : ∀ x : Int, x + 1 + 1 + 1 = x + 3 := fun x => by omega
  have e2 : ∀ x : Int, x + 1 + 1 = x + 2 := fun x => by omega
  have e3 : ∀ x : Int, x + 1 + 1 - 1 = x + 1 := fun x => by omega
  refine ⟨?_, ?_, ?_⟩
  · rw [(mus_step_dispatch aw mem mp).2.2.2.2.1 hev]
    unfold event_controller
    simp only
    rw [if_neg (by omega), e1]
  · intro mp2 h3 h12
    rw [(mus_step_dispatch aw mem mp2).2.2.2.1 h3]
    unfold event_system
    simp only [h12, e2]
    rfl
  · intro mp2 h3 h11
    refine ⟨?_, ?_⟩
    · rw [(mus_step_dispatch aw mem mp2).2.2.2.1 h3]
      unfold event_system
      simp only [h11, e2]
      rfl
    · intro h hh
      obtain ⟨-, -, s3⟩ := key_off_mus_all_loop_spec aw
        ((read8 mem mp2.score &&& 15 : Nat) : Int) 18 0 { mp2 with score := mp2.score + 2 }
      obtain ⟨-, -, -, t4, t5⟩ := s3 h
      constructor
      · intro hm
        unfold key_off_mus_all
        rw [show mus_num_voices = 18 from rfl, t4 ⟨⟨Nat.zero_le h, by omega⟩, hm⟩]
        split <;> omega
      · intro hm
        unfold key_off_mus_all
        rw [show mus_num_voices = 18 from rfl, t5 (fun hr => hm hr.2)]

/-- Witness of C26: the controller event of `ctrl12_mem` on `parked_player`. -/
theorem controller_event_ignores_system_codes_witness :
    ((read8 ctrl12_mem parked_player.score >>> 4) &&& 7 = 4 ∧
      10 ≤ read8 ctrl12_mem (parked_player.score + 1) &&& 0x7F) ∧
    mus_step log_write ctrl12_mem parked_player
      = .ok (.next { parked_player with score := parked_player.score + 3 }
          (read8 ctrl12_mem parked_player.score)) :=
  ⟨by decide,
    (controller_event_ignores_system_codes log_write ctrl12_mem parked_player (by decide)
      (by decide)).1⟩

/-- C24: when the byte at the score pointer is an end-of-score event, the round of
`musplay_update` that executes it returns: for a looping player with 1 and the score
pointer at the loop start; otherwise with 0, the score pointer null and every one of
the 18 voices that held a note id or -1 at -1, and every later `musplay_update` then
returns 0 and leaves the player (with its device) as it is. A call of
`musplay_update` that finds the event first returns what the round returned. For the
states after `musplay_start`: a returning `musplay_update` returns 0 or 1, never 0 for
a looping player with a non-null score, and after a return of 0 the score pointer is
null, all 18 voices have `noteid = -1` if the call had a score to play, and every
later call returns 0 and changes nothing. -/
theorem end_of_score_loops_or_stops {W : Type} (aw : W → Int → Int → W) (mem : Int → Nat)
    (mp : musplayer_t W) (hev : (read8 mem mp.score >>> 4) &&& 7 = 6) :
    (mp.loop_score ≠ 0 →
      mus_step aw mem mp = .ok (.done { mp with score := mp.loop_score } 1)) ∧
    (mp.loop_score = 0 →
      ∃ mp', mus_step aw mem mp = .ok (.done mp' 0) ∧ mp'.score = 0 ∧
        (∀ h, h < mus_num_voices → -1 ≤ (mp.hw_voices h).noteid →
          (mp'.hw_voices h).noteid = -1) ∧
        ∀ fuel ticks, musplay_update aw mem fuel mp' ticks = .ok (mp', 0)) ∧
    (∀ fuel ticks, mp.score ≠ 0 → mp.delay ≤ 0 →
      ∃ mp' ret, mus_step aw mem mp = .ok (.done mp' ret) ∧
        musplay_update aw mem (fuel + 1) mp ticks = .ok (mp', ret)) ∧
    (∀ (mp0 mp1 : musplayer_t W) (fuel : Nat) (ticks ret : Int), Started aw mem mp0 →
      musplay_update aw mem fuel mp0 ticks = .ok (mp1, ret) →
      (ret = 1 ∨ ret = 0) ∧
      (mp0.loop_score ≠ 0 → mp0.score ≠ 0 → ret = 1) ∧
      (ret = 0 → mp1.score = 0 ∧
        (mp0.score ≠ 0 → ∀ h, h < mus_num_voices → (mp1.hw_voices h).noteid = -1) ∧
        ∀ fuel' ticks', musplay_update aw mem fuel' mp1 ticks' = .ok (mp1, 0))) := by
  have hd := (mus_step_dispatch aw mem mp).2.2.2.2.2.2.1 hev
  obtain ⟨mp2, ret2, h2, -, hl, hn⟩ := event_end_of_score_spec aw { mp with score := mp.score + 1 }
  rw [← hd] at h2
  have hl : mp.loop_score ≠ 0 → ret2 = 1 ∧ mp2 = { mp with score := mp.loop_score } :=
    fun h => ⟨(hl h).1, (hl h).2.2⟩
  have hn : mp.loop_score = 0 → ret2 = 0 ∧ mp2.score = 0 ∧
      ∀ h, h < mus_num_voices → (mp2.hw_voices h).noteid
        = if 0 ≤ (mp.hw_voices h).noteid then -1 else (mp.hw_voices h).noteid := hn
  refine ⟨?_, ?_, ?_, ?_⟩
  · intro h
    rw [h2, (hl h).1, (hl h).2]
  · intro h
    refine ⟨mp2, ?_, (hn h).2.1, ?_, ?_⟩
    · rw [h2, (hn h).1]
    · intro v hv hge
      rw [(hn h).2.2 v hv]
      split
      · rfl
      · omega
    · intro fuel ticks
      exact musplay_update_stopped aw mem fuel mp2 ticks (hn h).2.1
  · intro fuel ticks hs hdl
    exact ⟨mp2, ret2, h2, musplay_update_first_event aw mem fuel mp mp2 ticks ret2 hs hdl h2⟩
  · intro mp0 mp1 fuel ticks ret hst hok
    obtain ⟨-, h01, h0⟩ := musplay_update_frame hok
    refine ⟨h01, ?_, ?_⟩
    · intro hloop hscore
      rcases h01 with h | h
      · exact h
      · exact absurd ((h0 h).2 hscore).1 hloop
    · intro hr
      refine ⟨(h0 hr).1, ?_, ?_⟩
      · intro hscore
        exact ((h0 hr).2 hscore).2 (started_inRange hst)
      · intro fuel' ticks'
        exact musplay_update_stopped aw mem fuel' mp1 ticks' (h0 hr).1

/-- Witness of C24: the end of `song_mem`, with the player `ending_player` that does
not loop. -/
theorem end_of_score_loops_or_stops_witness :
    (read8 song_mem ending_player.score >>> 4) &&& 7 = 6 ∧
    (ending_player.loop_score = 0 →
      ∃ mp', mus_step log_write song_mem ending_player = .ok (.done mp' 0) ∧ mp'.score = 0 ∧
        (∀ h, h < mus_num_voices → -1 ≤ (ending_player.hw_voices h).noteid →
          (mp'.hw_voices h).noteid = -1) ∧
        ∀ fuel ticks, musplay_update log_write song_mem fuel mp' ticks = .ok (mp', 0)) :=
  ⟨by decide, (end_of_score_loops_or_stops log_write song_mem ending_player (by decide)).2.1⟩

/-- C27: the instrument controller with the byte `v` stores `v` as the instrument
index of the channel when `v < 175` and 0 otherwise, with the pointer `ins` at that
bank entry. Every state after `musplay_start` is `InRange` (every channel has an
instrument index below 175 and `ins` at that entry), and every round of the event loop
keeps `InRange`. In such a state the note event passes to `play_voices`, hence to
`play_note`, the selector `128 - 35 + note` (within 128..174) for a note in 35..81 on
channel 15, and the instrument index of the channel (below 175, with the bank entry of
the same index) on another channel; the second call of `play_voices` passes the
selector with bit 8 set, whose low byte is the same, and with both selectors
`load_hw_instrument` returns without a read outside the bank. -/
theorem instrument_index_below_175 {W : Type} (aw : W → Int → Int → W) (mem : Int → Nat)
    (mp : musplayer_t W) (mus_ch v : Nat) (note vol a : Int) (hi : InRange mp)
    (hc : mus_ch < mus_num_channels) (ha : att_log_square_at vol = .ok a) :
    (∃ mp', mus_event aw mp 0 (v : Int) mus_ch = .ok mp' ∧
      (mp'.channels mus_ch).ins_idx = (if v < 175 then v else 0) ∧
      (mp'.channels mus_ch).ins = (if v < 175 then v else 0) ∧ InRange mp') ∧
    (∀ mp0, Started aw mem mp0 → InRange mp0) ∧
    (∀ r, mus_step aw mem mp = .ok r → InRange r.player) ∧
    (mus_ch = 15 → 35 ≤ note → note ≤ 81 →
      128 ≤ 128 - 35 + note ∧ 128 - 35 + note < 175 ∧
      note_on aw mp mus_ch note vol
        = play_voices aw
            (if (mp.channels mus_ch).mono ≠ 0 then key_off_mus_all aw mp mus_ch else mp)
            mus_ch (128 - 35 + note).toNat (128 - 35 + note) note
            (mp.op2bank (128 - 35 + note).toNat).noteNum 0 0 a (mp.channels mus_ch).vol_att) ∧
    (mus_ch ≠ 15 →
      (mp.channels mus_ch).ins_idx < 175 ∧ (mp.channels mus_ch).ins < 175 ∧
      ∃ n o0 o1, note_on aw mp mus_ch note vol
        = play_voices aw
            (if (mp.channels mus_ch).mono ≠ 0 then key_off_mus_all aw mp mus_ch else mp)
            mus_ch (mp.channels mus_ch).ins ((mp.channels mus_ch).ins_idx : Int) note
            n o0 o1 a (mp.channels mus_ch).vol_att) ∧
    (∀ s : Int, 0 ≤ s → s < 175 →
      int_and s 0xFF = s ∧ int_and (int_or s (int_shl 1 8)) 0xFF = s ∧
      ∀ (mp2 : musplayer_t W) (h : Nat),
        (∃ mp', load_hw_instrument aw mp2 h s = .ok mp') ∧
        ∃ mp', load_hw_instrument aw mp2 h (int_or s (int_shl 1 8)) = .ok mp') := by
  obtain ⟨s1, s2⟩ := note_on_selector aw mp mus_ch note vol a ha
  refine ⟨?_, fun mp0 h => started_inRange h, ?_, ?_, ?_, ?_⟩
  · obtain ⟨mp', e, i1, i2⟩ := mus_event_instrument aw mp mus_ch v
    exact ⟨mp', e, i1, i2, (mus_event_songFrame (Int.natCast_nonneg v) e).inRange hi⟩
  · intro r hr
    exact (mus_step_frame hr).1.inRange hi
  · intro h15 h35 h81
    exact ⟨by omega, by omega, s1 h15 h35 h81⟩
  · intro h15
    have h := hi.1 mus_ch hc
    exact ⟨h.1, by rw [h.2]; exact h.1, s2 h15⟩
  · intro s h0 h1
    exact ⟨int_and_byte s h0 (by omega), int_and_or_bit8 s h0 (by omega),
      fun mp2 h => load_hw_instrument_returns aw mp2 h s h0 h1⟩

/-- Witness of C27: on `parked_player` the instrument controller with the value 200
on channel 0 selects instrument 0. -/
theorem instrument_index_below_175_witness :
    InRange parked_player ∧ 0 < mus_num_channels ∧ att_log_square_at 100 = .ok 0 ∧
    ∃ mp', mus_event log_write parked_player 0 ((200 : Nat) : Int) 0 = .ok mp' ∧
      (mp'.channels 0).ins_idx = (if 200 < 175 then 200 else 0) ∧
      (mp'.channels 0).ins = (if 200 < 175 then 200 else 0) ∧ InRange mp' :=
  ⟨⟨fun _ _ => ⟨by show (0 : Nat) < 175; decide, rfl⟩, fun _ _ => by show (-1 : Int) ≤ 0; decide⟩,
    by decide, rfl,
    (instrument_index_below_175 log_write song_mem parked_player 0 200 60 100 0
      ⟨fun _ _ => ⟨by show (0 : Nat) < 175; decide, rfl⟩,
        fun _ _ => by show (-1 : Int) ≤ 0; decide⟩ (by decide) rfl).1⟩

/-- C31: `key_off_hw` on an active voice `h` writes one register, 0xB0 + h for h in
0..8 and 0x100 + 0xB0 + (h - 9) for h in 9..17, with the value `hw_cmd >> 8` with bit 5
cleared; it sets `noteid = -1` and `release = mus_time + 4`, keeps the other fields of
the voice, the other voices and the rest of the player. On a voice that is keyed off
already it writes nothing and changes nothing, so a second key-off does nothing. -/
theorem key_off_hw_writes_one_register {W : Type} (aw : W → Int → Int → W)
    (mp : musplayer_t W) (h : Nat) (hh : h < 18) (hcmd : (mp.hw_voices h).hw_cmd < 65536)
    (htime : -2147483648 ≤ mp.mus_time + 4 ∧ mp.mus_time + 4 ≤ 2147483647) :
    (0 ≤ (mp.hw_voices h).noteid →
      (key_off_hw aw mp h).dev
        = aw mp.dev (((if h < 9 then 0xB0 + h else 0x100 + 0xB0 + (h - 9)) : Nat) : Int)
            ((((mp.hw_voices h).hw_cmd >>> 8) &&& 0xdf : Nat) : Int) ∧
      (∀ i, (((mp.hw_voices h).hw_cmd >>> 8) &&& 0xdf).testBit i
        = (((mp.hw_voices h).hw_cmd >>> 8).testBit i && decide (i ≠ 5))) ∧
      (key_off_hw aw mp h).hw_voices h
        = { mp.hw_voices h with noteid := -1, release := mp.mus_time + 4 } ∧
      (∀ k, k ≠ h → (key_off_hw aw mp h).hw_voices k = mp.hw_voices k) ∧
      VoicesOnly mp (key_off_hw aw mp h) ∧
      (key_off_hw aw mp h).next_keyon_seq = mp.next_keyon_seq) ∧
    ((mp.hw_voices h).noteid < 0 → key_off_hw aw mp h = mp) ∧
    key_off_hw aw (key_off_hw aw mp h) h = key_off_hw aw mp h := by
  obtain ⟨s1, s2⟩ := key_off_hw_spec aw mp h
  have hw : wrapInt32 (mp.mus_time + 4) = mp.mus_time + 4 := by
    unfold wrapInt32; omega
  refine ⟨?_, s1, ?_⟩
  · intro hact
    have e := s2 hact
    refine ⟨?_, key_off_value_bits _ hcmd, ?_, ?_, (key_off_hw_fields aw mp h).1,
      (key_off_hw_fields aw mp h).2.1⟩
    · rw [e, ← hw_reg_b0 h hh]
    · rw [e]
      simp only [Function.update_same, hw]
    · intro k hk
      exact (key_off_hw_fields aw mp h).2.2.1 k hk
  · by_cases hact : 0 ≤ (mp.hw_voices h).noteid
    · have hneg : ((key_off_hw aw mp h).hw_voices h).noteid < 0 := by
        rw [(key_off_hw_fields aw mp h).2.2.2.1, if_pos hact]
        decide
      exact (key_off_hw_spec aw (key_off_hw aw mp h) h).1 hneg
    · rw [s1 (by omega)]
      exact s1 (by omega)

/-- Witness of C31: voice 12 of `busy_player`, which plays note 52 with the command
0x2A57 at time 0: the write is register 0x1B3 with the value 0x0A. -/
theorem key_off_hw_writes_one_register_witness :
    (12 < 18 ∧ (busy_player.hw_voices 12).hw_cmd < 65536 ∧
      (-2147483648 ≤ busy_player.mus_time + 4 ∧ busy_player.mus_time + 4 ≤ 2147483647)) ∧
    (0 ≤ (busy_player.hw_voices 12).noteid →
      (key_off_hw log_write busy_player 12).dev
        = log_write busy_player.dev (((if 12 < 9 then 0xB0 + 12 else 0x100 + 0xB0 + (12 - 9)) : Nat) : Int)
            ((((busy_player.hw_voices 12).hw_cmd >>> 8) &&& 0xdf : Nat) : Int) ∧
      (∀ i, (((busy_player.hw_voices 12).hw_cmd >>> 8) &&& 0xdf).testBit i
        = (((busy_player.hw_voices 12).hw_cmd >>> 8).testBit i && decide (i ≠ 5))) ∧
      (key_off_hw log_write busy_player 12).hw_voices 12
        = { busy_player.hw_voices 12 with noteid := -1, release := busy_player.mus_time + 4 } ∧
      (∀ k, k ≠ 12 → (key_off_hw log_write busy_player 12).hw_voices k = busy_player.hw_voices k) ∧
      VoicesOnly busy_player (key_off_hw log_write busy_player 12) ∧
      (key_off_hw log_write busy_player 12).next_keyon_seq = busy_player.next_keyon_seq) ∧
    (key_off_hw log_write busy_player 12).dev = [(0x1B3, 0x0A)] :=
  ⟨⟨by decide, by decide, by decide⟩,
    (key_off_hw_writes_one_register log_write busy_player 12 (by decide) (by decide)
      (by decide)).1, by decide⟩

/-- C33: with `v_att` the sum `main_att + note_att + ch_att + pan_att` limited to 0..63,
where `pan_att` is 6 for centre pan and 0 otherwise, the level of operator 2 is
`min 63 (lvl2 + v_att)` and the level of operator 1 is `min 63 (lvl1 + v_att)` when bit
0 of `feedback` is set and `lvl1` when it is clear; both are in 0..63 when `lvl1` and
`lvl2` are at most 63, as `load_hw_instrument` leaves them. The function `update_volume`
changes nothing but the device, and the device receives, for every voice owned by the
channel, in rising order of the voices, these two levels computed from the note
attenuation of that voice, each combined with the key-scaling bits of the voice, and
then feedback with the pan bits; the voices of other channels get no write. A round of
the loop of `update_volume` on a voice of the channel, and `key_on`, write the same
three values. -/
theorem written_levels_follow_attenuation {W : Type} (aw : W → Int → Int → W)
    (mp : musplayer_t W) (h : Nat) (note_att ch_att pan_bits : Int)
    (h1 : -2147483648 ≤ mp.main_att + note_att ∧ mp.main_att + note_att ≤ 2147483647)
    (h2 : -2147483648 ≤ mp.main_att + note_att + ch_att
      ∧ mp.main_att + note_att + ch_att ≤ 2147483647 - 6) :
    voice_att mp.main_att note_att ch_att pan_bits
      = clamp (mp.main_att + note_att + ch_att + (if pan_bits = 0x30 then 6 else 0)) 0 63 ∧
    oper2_att (mp.hw_voices h) (voice_att mp.main_att note_att ch_att pan_bits)
      = min 63 (((mp.hw_voices h).lvl2 : Int)
          + voice_att mp.main_att note_att ch_att pan_bits) ∧
    oper1_att (mp.hw_voices h) (voice_att mp.main_att note_att ch_att pan_bits)
      = (if (mp.hw_voices h).feedback.testBit 0 then
          min 63 (((mp.hw_voices h).lvl1 : Int)
            + voice_att mp.main_att note_att ch_att pan_bits)
        else ((mp.hw_voices h).lvl1 : Int)) ∧
    ((mp.hw_voices h).lvl1 ≤ 63 → (mp.hw_voices h).lvl2 ≤ 63 →
      (0 ≤ oper1_att (mp.hw_voices h) (voice_att mp.main_att note_att ch_att pan_bits)
        ∧ oper1_att (mp.hw_voices h) (voice_att mp.main_att note_att ch_att pan_bits) ≤ 63) ∧
      (0 ≤ oper2_att (mp.hw_voices h) (voice_att mp.main_att note_att ch_att pan_bits)
        ∧ oper2_att (mp.hw_voices h) (voice_att mp.main_att note_att ch_att pan_bits) ≤ 63)) ∧
    (∀ mp0 sel, load_hw_instrument aw mp0 h sel = .ok mp → int_and sel 0xFF < 175 →
      (mp.hw_voices h).lvl1 ≤ 63 ∧ (mp.hw_voices h).lvl2 ≤ 63) ∧
    (∀ mus_ch : Int,
      update_volume aw mp mus_ch ch_att pan_bits
        = { mp with
            dev := (List.range mus_num_voices).foldl
              (fun dev k =>
                if ((mp.hw_voices k).mus_ch : Int) = mus_ch then
                  aw (aw (aw dev
                    (hw_reg k 0x40 (chan_oper1.getD (hw_chan k) 0))
                      (int_or (mp.hw_voices k).ksl1 (oper1_att (mp.hw_voices k)
                        (voice_att mp.main_att (mp.hw_voices k).note_att ch_att pan_bits))))
                    (hw_reg k 0x40 (chan_oper2.getD (hw_chan k) 0))
                      (int_or (mp.hw_voices k).ksl2 (oper2_att (mp.hw_voices k)
                        (voice_att mp.main_att (mp.hw_voices k).note_att ch_att pan_bits))))
                    (hw_reg k 0xC0 (hw_chan k)) (int_or (mp.hw_voices k).feedback pan_bits)
                else dev) mp.dev }) ∧
    (∀ mus_ch n, ((mp.hw_voices h).mus_ch : Int) = mus_ch →
      (mp.hw_voices h).note_att = note_att →
      update_volume_loop aw mus_ch ch_att pan_bits (n + 1) h mp
        = update_volume_loop aw mus_ch ch_att pan_bits n (h + 1)
            { mp with
              dev := aw (aw (aw mp.dev
                (hw_reg h 0x40 (chan_oper1.getD (hw_chan h) 0))
                  (int_or (mp.hw_voices h).ksl1 (oper1_att (mp.hw_voices h)
                    (voice_att mp.main_att note_att ch_att pan_bits))))
                (hw_reg h 0x40 (chan_oper2.getD (hw_chan h) 0))
                  (int_or (mp.hw_voices h).ksl2 (oper2_att (mp.hw_voices h)
                    (voice_att mp.main_att note_att ch_att pan_bits))))
                (hw_reg h 0xC0 (hw_chan h)) (int_or (mp.hw_voices h).feedback pan_bits) }) ∧
    (∀ noteid note noteOfs mus_ch bend mp',
      key_on aw mp h noteid note noteOfs note_att ch_att mus_ch bend pan_bits = .ok mp' →
      ∃ cmd : Nat,
        mp'.dev
          = aw (aw (aw (aw (aw mp.dev (hw_reg h 0x40 (chan_oper1.getD (hw_chan h) 0))
                  (int_or (mp.hw_voices h).ksl1 (oper1_att (mp.hw_voices h)
                    (voice_att mp.main_att note_att ch_att pan_bits))))
                (hw_reg h 0x40 (chan_oper2.getD (hw_chan h) 0))
                  (int_or (mp.hw_voices h).ksl2 (oper2_att (mp.hw_voices h)
                    (voice_att mp.main_att note_att ch_att pan_bits))))
                (hw_reg h 0xC0 (hw_chan h)) (int_or (mp.hw_voices h).feedback pan_bits))
              (hw_reg h 0xA0 (hw_chan h)) ((cmd &&& 255 : Nat) : Int))
              (hw_reg h 0xB0 (hw_chan h)) ((cmd >>> 8 : Nat) : Int)) := by
  obtain ⟨⟨b0, b1⟩, e⟩ := voice_att_spec mp.main_att note_att ch_att pan_bits
  obtain ⟨o2, o1⟩ := oper_att_spec (mp.hw_voices h)
    (voice_att mp.main_att note_att ch_att pan_bits) b0
  refine ⟨e h1 h2, o2, o1, ?_, ?_, ?_, ?_, ?_⟩
  · intro l1 l2
    rw [o1, o2]
    refine ⟨?_, by omega, by omega⟩
    split <;> omega
  · intro mp0 sel hload hsel
    exact ((load_hw_instrument_fields hload).2.2.2.2.2.2 hsel).2
  · intro mus_ch
    have k := update_volume_loop_dev aw mus_ch ch_att pan_bits mp.hw_voices mp.main_att
      mus_num_voices 0 mp rfl rfl
    rw [← List.range_eq_range'] at k
    exact k
  · intro mus_ch n hc hn
    rw [update_volume_loop]
    simp only [hc, if_true, hn]
    rfl
  · intro noteid note noteOfs mus_ch bend mp' hok
    obtain ⟨cmd, hd⟩ := key_on_dev hok
    exact ⟨cmd, hd⟩

/-- Witness of C33: `update_volume` for channel 2 of `level_player` with the channel
attenuation 30 and centre pan. The channel owns the voices 3, 4 and 6. Voice 3
(additive, note attenuation 20, so `v_att = 56`) gets the level 63 on both operators,
the voices 4 and 6 (FM, `v_att = 36`) keep the level 10 on operator 1 and get 46 on
operator 2, with the key-scaling bits 0x40 added for voice 4; the log has the latest
write first. -/
theorem written_levels_follow_attenuation_witness :
    ((-2147483648 ≤ level_player.main_att + 20 ∧ level_player.main_att + 20 ≤ 2147483647) ∧
      (-2147483648 ≤ level_player.main_att + 20 + 30
        ∧ level_player.main_att + 20 + 30 ≤ 2147483647 - 6)) ∧
    voice_att level_player.main_att 20 30 0x30
      = clamp (level_player.main_att + 20 + 30 + (if (0x30 : Int) = 0x30 then 6 else 0)) 0 63 ∧
    voice_att level_player.main_att 20 30 0x30 = 56 ∧
    oper2_att (level_player.hw_voices 3) 56 = 63 ∧
    (update_volume log_write level_player 2 30 0x30).dev
      = [(198, 48), (83, 46), (80, 10), (196, 48), (76, 110), (73, 10),
         (195, 49), (75, 63), (72, 63)] :=
  ⟨⟨by decide, by decide⟩,
    (written_levels_follow_attenuation log_write level_player 3 20 30 0x30 (by decide)
      (by decide)).1, by decide, by decide,
    (congrArg musplayer_t.dev
      ((written_levels_follow_attenuation log_write level_player 3 20 30 0x30 (by decide)
        (by decide)).2.2.2.2.2.1 2)).trans (by decide)⟩

/-- C34: with zero fine-tune, for every note `n` in 1..102 the bend -64 of
`note_cmds[n]` is `note_cmds[n - 1]`, and for every `n` in 0..101 the bend +64 of
`note_cmds[n]` is `note_cmds[n + 1]`; the bend 0 returns `hw_cmd` as it is. A pitch
wheel event with the byte 64 bends the channel by -64: when the active voices of the
channel play notes in 1..102 at the frequency of the table with zero fine-tune (note 60
in particular), the step returns and the device receives, for each of these voices in
rising order and for no other voice, the low byte and the high byte of the table entry
of the note below (`note_cmds[59]` for note 60); the voice table is as before and the
bend of the channel is -64. The same holds of `bend_channel` called with -64. The last
two parts spell out the event and one round of the loop of `bend_channel`. -/
theorem semitone_bend_gives_neighbour_entry :
    (∀ n : Nat, 1 ≤ n → n ≤ 102 →
      bend_pitch ((note_cmds.getD n 0 : Nat) : Int) (n : Int) (-64) 0
        = .ok ((note_cmds.getD (n - 1) 0 : Nat) : Int)) ∧
    (∀ n : Nat, n ≤ 101 →
      bend_pitch ((note_cmds.getD n 0 : Nat) : Int) (n : Int) 64 0
        = .ok ((note_cmds.getD (n + 1) 0 : Nat) : Int)) ∧
    (∀ hw_cmd note fineTune : Int, bend_pitch hw_cmd note 0 fineTune = .ok hw_cmd) ∧
    (∀ (W : Type) (aw : W → Int → Int → W) (mem : Int → Nat) (mp : musplayer_t W),
      (read8 mem mp.score >>> 4) &&& 7 = 2 → read8 mem (mp.score + 1) = 64 →
      (∀ k, k < mus_num_voices →
        ((mp.hw_voices k).mus_ch : Int) = ((read8 mem mp.score &&& 15 : Nat) : Int) →
        0 ≤ (mp.hw_voices k).noteid →
        (1 ≤ (mp.hw_voices k).p_note ∧ (mp.hw_voices k).p_note ≤ 102) ∧
        (mp.hw_voices k).hw_cmd = note_cmds.getD (mp.hw_voices k).p_note 0 ∧
        (mp.hw_voices k).fineTune = 0) →
      ∃ mp', mus_step aw mem mp = .ok (.next mp' (read8 mem mp.score)) ∧
        mp'.dev = (List.range mus_num_voices).foldl
          (fun dev k =>
            if ((mp.hw_voices k).mus_ch : Int) = ((read8 mem mp.score &&& 15 : Nat) : Int)
                ∧ 0 ≤ (mp.hw_voices k).noteid then
              aw (aw dev (hw_reg k 0xa0 (hw_chan k))
                  (int_and ((note_cmds.getD ((mp.hw_voices k).p_note - 1) 0 : Nat) : Int) 255))
                (hw_reg k 0xb0 (hw_chan k))
                (((note_cmds.getD ((mp.hw_voices k).p_note - 1) 0 : Nat) : Int) >>> (8 : Nat))
            else dev) mp.dev ∧
        mp'.hw_voices = mp.hw_voices ∧
        (mp'.channels (read8 mem mp.score &&& 15)).bend = -64 ∧
        (∀ j, j ≠ read8 mem mp.score &&& 15 → mp'.channels j = mp.channels j) ∧
        mp'.score = mp.score + 2) ∧
    (∀ (W : Type) (aw : W → Int → Int → W) (mp : musplayer_t W) (mus_ch : Int),
      (∀ k, k < mus_num_voices → ((mp.hw_voices k).mus_ch : Int) = mus_ch →
        0 ≤ (mp.hw_voices k).noteid →
        (1 ≤ (mp.hw_voices k).p_note ∧ (mp.hw_voices k).p_note ≤ 102) ∧
        (mp.hw_voices k).hw_cmd = note_cmds.getD (mp.hw_voices k).p_note 0 ∧
        (mp.hw_voices k).fineTune = 0) →
      bend_channel aw mp mus_ch (-64)
        = .ok { mp with
            dev := (List.range mus_num_voices).foldl
              (fun dev k =>
                if ((mp.hw_voices k).mus_ch : Int) = mus_ch ∧ 0 ≤ (mp.hw_voices k).noteid then
                  aw (aw dev (hw_reg k 0xa0 (hw_chan k))
                      (int_and ((note_cmds.getD ((mp.hw_voices k).p_note - 1) 0 : Nat) : Int)
                        255))
                    (hw_reg k 0xb0 (hw_chan k))
                    (((note_cmds.getD ((mp.hw_voices k).p_note - 1) 0 : Nat) : Int)
                      >>> (8 : Nat))
                else dev) mp.dev }) ∧
    (∀ (W : Type) (aw : W → Int → Int → W) (mem : Int → Nat) (mp : musplayer_t W) (cmd : Nat),
      read8 mem mp.score = 64 →
      event_pitch_wheel aw mem mp cmd
        = match bend_channel aw
            (set_channel { mp with score := mp.score + 1 } (cmd &&& 15)
              (fun ch => { ch with bend := -64 }))
            ((cmd &&& 15 : Nat) : Int) (-64) with
          | .error e => .error e
          | .ok mp => .ok (.next mp cmd)) ∧
    (∀ (W : Type) (aw : W → Int → Int → W) (mus_ch : Int) (n h : Nat) (mp : musplayer_t W),
      ((mp.hw_voices h).mus_ch : Int) = mus_ch → 0 ≤ (mp.hw_voices h).noteid →
      (mp.hw_voices h).p_note = 60 → (mp.hw_voices h).hw_cmd = note_cmds.getD 60 0 →
      (mp.hw_voices h).fineTune = 0 →
      bend_channel_loop aw mus_ch (-64) (n + 1) h mp
        = bend_channel_loop aw mus_ch (-64) n (h + 1)
            { mp with
              dev := aw (aw mp.dev (hw_reg h 0xa0 (hw_chan h))
                  (int_and ((note_cmds.getD 59 0 : Nat) : Int) 255))
                (hw_reg h 0xb0 (hw_chan h))
                (((note_cmds.getD 59 0 : Nat) : Int) >>> (8 : Nat)) }) := by
  refine ⟨bend_pitch_semitone_down, bend_pitch_semitone_up, ?_, ?_, ?_, ?_, ?_⟩
  · intro hw_cmd note fineTune
    rfl
  · intro W aw mem mp hev hb hv
    exact pitch_wheel_semitone_down aw mem mp hev hb hv
  · intro W aw mp mus_ch hv
    exact bend_channel_semitone_down aw mp mus_ch hv
  · intro W aw mem mp cmd hb
    unfold event_pitch_wheel
    simp only [hb]
    rfl
  · intro W aw mus_ch n h mp hc hact hn hcmd hf
    exact bend_channel_loop_note60 aw mus_ch n h mp hc hact hn hcmd hf

/-- Witness of C34: note 60, whose table entry 12977 bends down to 12939, the entry
of note 59, and up to 13018, the entry of note 61; `key_on` for note 60 stores the note
and the table entry in the voice; and the pitch wheel event of `wheel_mem` (channel 2,
byte 64) on `tuned_player`, where the channel owns the voices 3 and 4 with note 60 and
the voice 6 with note 61: the voices 3 and 4 get the bytes 139 and 50 of 12939 in the
registers 0xA3, 0xB3 and 0xA4, 0xB4, voice 6 gets the bytes 177 and 50 of 12977 in 0xA6
and 0xB6 (the log has the latest write first), and voice 5, which plays note 60 on
channel 1, gets nothing. -/
theorem semitone_bend_gives_neighbour_entry_witness :
    (1 ≤ 60 ∧ 60 ≤ 102 ∧ 60 ≤ 101) ∧
    bend_pitch ((note_cmds.getD 60 0 : Nat) : Int) ((60 : Nat) : Int) (-64) 0
      = .ok ((note_cmds.getD (60 - 1) 0 : Nat) : Int) ∧
    bend_pitch ((note_cmds.getD 60 0 : Nat) : Int) ((60 : Nat) : Int) 64 0
      = .ok ((note_cmds.getD (60 + 1) 0 : Nat) : Int) ∧
    note_cmds.getD 59 0 = 12939 ∧ note_cmds.getD 60 0 = 12977 ∧ note_cmds.getD 61 0 = 13018 ∧
    (key_on log_write fresh_player 0 60 60 0 0 0 0 0 0x30).toOption.map
      (fun mp => ((mp.hw_voices 0).p_note, (mp.hw_voices 0).hw_cmd, (mp.hw_voices 0).noteid))
      = some (60, 12977, 60) ∧
    ((read8 wheel_mem tuned_player.score >>> 4) &&& 7 = 2
      ∧ read8 wheel_mem tuned_player.score &&& 15 = 2
      ∧ read8 wheel_mem (tuned_player.score + 1) = 64) ∧
    ((tuned_player.hw_voices 3).p_note = 60 ∧ (tuned_player.hw_voices 3).mus_ch = 2
      ∧ (tuned_player.hw_voices 3).noteid = 60) ∧
    ∃ mp', mus_step log_write wheel_mem tuned_player = .ok (.next mp' 0x22) ∧
      mp'.dev = [(182, 50), (166, 177), (180, 50), (164, 139), (179, 50), (163, 139)] ∧
      (mp'.channels 2).bend = -64 ∧ mp'.hw_voices = tuned_player.hw_voices :=
  ⟨by decide, semitone_bend_gives_neighbour_entry.1 60 (by decide) (by decide),
    semitone_bend_gives_neighbour_entry.2.1 60 (by decide), by decide, by decide, by decide,
    by decide, by decide, by decide,
    (semitone_bend_gives_neighbour_entry.2.2.2.1 _ log_write wheel_mem tuned_player
      (by decide) (by decide) (by decide)).elim
      (fun mp' h => ⟨mp', h.1, h.2.1.trans (by decide), h.2.2.2.1, h.2.2.1⟩)⟩

/-- C39, the code at a failing input: the song of `loud_mem` starts with a note event
whose volume byte is 200. The byte is used as it is to index the 128 entries of
`att_log_square`: the first round of `musplay_update` reads outside the table. -/
theorem note_volume_byte_is_not_limited :
    read8 loud_mem 4112 = 0x90 ∧ read8 loud_mem 4113 = (0x80 ||| 60) ∧
    read8 loud_mem 4114 = 200 ∧
    (musplay_start log_write loud_mem idle_player 4096 0).score = 4112 ∧
    att_log_square_at 200 = .error .bounds ∧
    mus_step log_write loud_mem (musplay_start log_write loud_mem idle_player 4096 0)
      = .error .bounds ∧
    musplay_update log_write loud_mem 8 (musplay_start log_write loud_mem idle_player 4096 0) 1
      = .error .bounds := by
  refine ⟨by decide, by decide, by decide, by decide, rfl, rfl, rfl⟩

/-- C40, the code at a failing input: the song of `reset_mem` sets the pan of channel
0 to the left and then resets all controllers of channel 0, on the player that
`musplay_start` leaves (`fresh_player`). The volume and expression attenuations are 0
at that point, so the branch that holds the pan reset is skipped: after the event the
pan of the channel is left (0x10), not centre (0x30), while the attenuations, the bend
and the mono flag are 0. -/
theorem reset_all_keeps_pan_at_full_volume :
    (musplay_start log_write reset_mem idle_player 4096 0).score = fresh_player.score ∧
    (∀ m, m < 16 →
      (musplay_start log_write reset_mem idle_player 4096 0).channels m
        = fresh_player.channels m) ∧
    (∀ h, h < 18 →
      (musplay_start log_write reset_mem idle_player 4096 0).hw_voices h
        = fresh_player.hw_voices h) ∧
    (fresh_player.channels 0).pan_bits = opl3_pan_centre ∧
    (mus_events log_write reset_mem 2 fresh_player).toOption.map
      (fun r => ((r.player.channels 0).pan_bits, (r.player.channels 0).vol_att,
        (r.player.channels 0).exp_att, (r.player.channels 0).bend,
        (r.player.channels 0).mono, r.player.score))
      = some (opl3_pan_left, 0, 0, 0, 0, 4117) ∧
    opl3_pan_left ≠ opl3_pan_centre := by
  obtain ⟨s1, -, -, -, -, -, -, s8, s9⟩ :=
    musplay_start_fields log_write reset_mem idle_player 4096 0
  refine ⟨s1.trans (by decide), fun m hm => s8 m hm, fun h hh => s9 h hh, by decide,
    by decide, by decide⟩

/-- C35: in every state after `musplay_start` (then any returning calls of
`musplay_update`, `musplay_volume`, `musplay_op2bank`, `musplay_stop`), every hardware
voice that holds a note (`noteid ≥ 0`) is owned by one of the MUS channels 0..15 and
has an instrument selector that is not negative, and every voice whose owner is not
one of the 16 channels is as `musplay_start` cleared it: owner 255 (the -1 stored in a
byte), no note, no instrument. Each score event keeps this, together with the range of
the channel instruments. A voice with the owner 255 is skipped by every round of the
channel-wide loops (key off all, silence all, volume update, pitch bend) for a channel
in 0..15, and these leave its entry as it is. -/
theorem started_voices_have_owner {W : Type} (aw : W → Int → Int → W) (mem : Int → Nat) :
    (∀ mp : musplayer_t W, Started aw mem mp → ∀ h, h < mus_num_voices →
      (0 ≤ (mp.hw_voices h).noteid →
        (mp.hw_voices h).mus_ch < 16 ∧ 0 ≤ (mp.hw_voices h).ins_sel) ∧
      ((mp.hw_voices h).mus_ch < 16 ∨
        ((mp.hw_voices h).mus_ch = 255 ∧ (mp.hw_voices h).noteid = -1
          ∧ (mp.hw_voices h).ins_sel = -1))) ∧
    (∀ (mp : musplayer_t W) (r : EventResult W), InRange mp →
      (∀ h, h < mus_num_voices → VoiceOwned (mp.hw_voices h)) →
      mus_step aw mem mp = .ok r →
      InRange r.player ∧ ∀ h, h < mus_num_voices → VoiceOwned (r.player.hw_voices h)) ∧
    (∀ (mp : musplayer_t W) (c : Int) (h : Nat), 0 ≤ c → c < 16 →
      (mp.hw_voices h).mus_ch = 255 →
      (∀ n, key_off_mus_all_loop aw c (n + 1) h mp = key_off_mus_all_loop aw c n (h + 1) mp) ∧
      (∀ n, silence_mus_all_loop aw c (n + 1) h mp = silence_mus_all_loop aw c n (h + 1) mp) ∧
      (∀ n a p, update_volume_loop aw c a p (n + 1) h mp
        = update_volume_loop aw c a p n (h + 1) mp) ∧
      (∀ n b, bend_channel_loop aw c b (n + 1) h mp = bend_channel_loop aw c b n (h + 1) mp) ∧
      (key_off_mus_all aw mp c).hw_voices h = mp.hw_voices h ∧
      (∀ a p, (update_volume aw mp c a p).hw_voices h = mp.hw_voices h) ∧
      (∀ b mp', bend_channel aw mp c b = .ok mp' → mp'.hw_voices h = mp.hw_voices h)) := by
  refine ⟨?_, ?_, ?_⟩
  · intro mp hs h hh
    exact started_owned hs h hh
  · intro mp r hi ho hok
    refine ⟨(mus_step_frame hok).1.inRange hi, fun h hh => ?_⟩
    exact (mus_step_eventFrame hok).2.2 hi h (ho h hh)
  · intro mp c h c0 c1 hown
    have hne : ¬ (((mp.hw_voices h).mus_ch : Int) = c) := by
      rw [hown]
      intro e
      rw [← e] at c1
      exact absurd c1 (by decide)
    refine ⟨?_, ?_, ?_, ?_, ?_, ?_, ?_⟩
    · intro n
      rw [key_off_mus_all_loop, if_neg hne]
    · intro n
      rw [silence_mus_all_loop, if_neg hne]
    · intro n a p
      rw [update_volume_loop, if_neg hne]
    · intro n b
      rw [bend_channel_loop, if_neg (fun hc => hne hc.1)]
    · exact ((key_off_mus_all_loop_spec aw c mus_num_voices 0 mp).2.2 h).2.2.2.2
        (fun hr => hne hr.2)
    · intro a p
      rw [show update_volume aw mp c a p = update_volume_loop aw c a p mus_num_voices 0 mp
        from rfl, update_volume_loop_hw_voices]
    · intro b mp' hok
      rw [bend_channel_loop_hw_voices aw c b mus_num_voices 0 mp mp' hok]

/-- Witness of C35: the song of `song_mem` started on `idle_player`; its voice 3 is
cleared (owner 255, no note, no instrument), and a channel-wide key-off for channel 0
leaves it so. -/
theorem started_voices_have_owner_witness :
    Started log_write song_mem (musplay_start log_write song_mem idle_player 4096 1) ∧
    (3 < mus_num_voices ∧ (0 : Int) ≤ 0 ∧ (0 : Int) < 16) ∧
    ((0 ≤ ((musplay_start log_write song_mem idle_player 4096 1).hw_voices 3).noteid →
        ((musplay_start log_write song_mem idle_player 4096 1).hw_voices 3).mus_ch < 16
          ∧ 0 ≤ ((musplay_start log_write song_mem idle_player 4096 1).hw_voices 3).ins_sel) ∧
      (((musplay_start log_write song_mem idle_player 4096 1).hw_voices 3).mus_ch < 16 ∨
        (((musplay_start log_write song_mem idle_player 4096 1).hw_voices 3).mus_ch = 255
          ∧ ((musplay_start log_write song_mem idle_player 4096 1).hw_voices 3).noteid = -1
          ∧ ((musplay_start log_write song_mem idle_player 4096 1).hw_voices 3).ins_sel
              = -1))) ∧
    (fresh_player.hw_voices 3).mus_ch = 255 ∧
    (key_off_mus_all log_write fresh_player 0).hw_voices 3 = fresh_player.hw_voices 3 :=
  ⟨Started.start idle_player 4096 1, ⟨by decide, by decide, by decide⟩,
    (started_voices_have_owner log_write song_mem).1 _ (Started.start idle_player 4096 1) 3
      (by decide),
    by decide,
    ((started_voices_have_owner log_write song_mem).2.2 fresh_player 0 3 (by decide)
      (by decide) (by decide)).2.2.2.2.1⟩

/-- Counterexample to C36: the song of `zero_delay_mem` on the player that
`musplay_start` leaves, `musplay_update` with 1 tick. The call executes the first
group, waits the one tick, executes the second group and reads the delay 0 after it;
the tick is used up, so it returns: the pending delay is 0, not above 0, and the third
group, due at the same tick, has not been executed (channel 2 is not in mono mode);
no end-of-score event was reached. The next call executes it before any time passes. -/
theorem update_returns_with_zero_delay_pending :
    (musplay_update log_write zero_delay_mem 4 fresh_player 1).toOption.map
      (fun r => (r.2, r.1.delay, r.1.mus_time, r.1.score)) = some (1, 0, 1, 4118) ∧
    (musplay_update log_write zero_delay_mem 4 fresh_player 1).toOption.map
      (fun r => ((r.1.channels 0).mono, (r.1.channels 1).mono, (r.1.channels 2).mono))
      = some (1, 1, 0) ∧
    read8 zero_delay_mem 4118 = 0xB2 ∧ read8 zero_delay_mem 4117 = 0 ∧
    ((musplay_update log_write zero_delay_mem 4 fresh_player 1).toOption.bind
      (fun r => (mus_events log_write zero_delay_mem 4 r.1).toOption.map
        (fun e => ((e.player.channels 2).mono, e.player.mus_time, e.player.score))))
      = some (1, 1, 4120) := by
  refine ⟨by decide, by decide, by decide, by decide, by decide⟩

/-- Claim C36, amended: for a playing score, a call `musplay_update(n)` with `n ≥ 1`
that returns without having reached an end-of-score event returns 1 and accounts for
exactly `n` ticks: `mus_time` is `n` further (within the range of `int`), and a
further call for `b` ticks comes to what one call for `n + b` ticks comes to, so the
groups are executed in score order, each when its delay has elapsed. On return the
pending delay is above 0, unless the `n` ticks ran out exactly at a group and the
delay read after it is not positive: then that delay stays pending and the next
group is left to the next call. While the pending delay is above `n` the call only
waits, and returns. -/
theorem musplay_update_accounts_for_ticks {W : Type} (aw : W → Int → Int → W)
    (mem : Int → Nat) (fuel : Nat) (mp mp' : musplayer_t W) (ticks ret : Int)
    (hs : mp.score ≠ 0) (ht0 : 1 ≤ ticks) (ht1 : ticks ≤ 2147483647)
    (hm0 : -2147483648 ≤ mp.mus_time) (hm1 : mp.mus_time + ticks ≤ 2147483647)
    (hd1 : mp.delay ≤ 2147483647)
    (hok : musplay_update aw mem fuel mp ticks = .ok (mp', ret))
    (hne : ¬ ∃ mp1, mus_events aw mem fuel mp1 = .ok (.done mp' ret)) :
    ret = 1 ∧ mp'.mus_time = mp.mus_time + ticks ∧
    (0 < mp'.delay ∨
      (mp'.delay ≤ 0 ∧ ∃ mp2, parse_delay mem fuel mp2 = .ok mp'
        ∧ mp2.mus_time = mp.mus_time + ticks)) ∧
    (∀ f, ticks < mp.delay →
      musplay_update aw mem (f + 1) mp ticks
        = .ok ({ mp with delay := mp.delay - ticks, mus_time := mp.mus_time + ticks }, 1)) ∧
    (∀ (b : Int) (mp'' : musplayer_t W) (ret' : Int), 1 ≤ b →
      mp.mus_time + (ticks + b) ≤ 2147483647 → ticks + b ≤ 2147483647 → mp'.score ≠ 0 →
      musplay_update aw mem fuel mp' b = .ok (mp'', ret') →
      musplay_update aw mem (fuel + fuel) mp (ticks + b) = .ok (mp'', ret')) := by
  unfold musplay_update at hok
  rw [if_neg hs] at hok
  have ht := musplay_update_loop_time fuel fuel (by omega) ht1 hm0 hm1 hd1 hok
  rcases ht with ht | ⟨r1, r2, r3⟩
  · exact absurd ht hne
  · refine ⟨r1, r2, r3, ?_, ?_⟩
    · intro f hw
      unfold musplay_update
      rw [if_neg hs, musplay_update_loop, if_pos ⟨by omega, hw⟩,
        ISound.wrapInt32_of_range (by omega) (by omega),
        ISound.wrapInt32_of_range (by omega) (by omega)]
    · intro b mp'' ret' hb hmb htb hs' hok2
      unfold musplay_update at hok2 ⊢
      rw [if_neg hs'] at hok2
      rw [if_neg hs]
      rcases musplay_update_loop_add fuel fuel fuel (by omega) (by omega) htb hm0 hmb hd1 hok
        hok2 with hd | hadd
      · exact absurd hd hne
      · exact musplay_update_loop_mono fuel fuel (fuel + fuel) 0 hadd

/-- Witness of C36: the song of `zero_delay_mem` on the player that `musplay_start`
leaves, with 2 ticks to account for: the call executes the three groups (the second
at tick 1, the third right after it, the delay between them being 0) and returns at
tick 2 with 4 of the 5 ticks of the last delay pending. -/
theorem musplay_update_accounts_for_ticks_witness :
    fresh_player.score ≠ 0 ∧
    ∃ mp', musplay_update log_write zero_delay_mem 4 fresh_player 2 = .ok (mp', 1) ∧
      (¬ ∃ mp1, mus_events log_write zero_delay_mem 4 mp1 = .ok (.done mp' 1)) ∧
      ((1 : Int) = 1 ∧ mp'.mus_time = fresh_player.mus_time + 2) ∧
      mp'.delay = 4 ∧ mp'.score = 4121 ∧
      (mp'.channels 0).mono = 1 ∧ (mp'.channels 1).mono = 1 ∧ (mp'.channels 2).mono = 1 :=
  ⟨by decide, _, rfl, not_done_of_no_loop log_write zero_delay_mem 4 _ rfl,
    ⟨(musplay_update_accounts_for_ticks log_write zero_delay_mem 4 fresh_player _ 2 1 (by decide)
        (by decide) (by decide) (by decide) (by decide) (by decide) rfl
        (not_done_of_no_loop log_write zero_delay_mem 4 _ rfl)).1,
      (musplay_update_accounts_for_ticks log_write zero_delay_mem 4 fresh_player _ 2 1 (by decide)
        (by decide) (by decide) (by decide) (by decide) (by decide) rfl
        (not_done_of_no_loop log_write zero_delay_mem 4 _ rfl)).2.1⟩,
    by decide, by decide, by decide, by decide, by decide⟩

/-- C37: on a driver with `until_tick` in 0..355 (0 as `musdriver_start` leaves it) and
a buffer size that fits 32 bits, `musdriver_advance(n)` returns 1 exactly when the `n`
frames fit the buffer, and else 0. When it returns 1 the driver is as `n` frames
generated one by one leave it, with the score tick performed before the first frame
if it is due and else right after the frame that completes 355 frames since the last
tick: `buf_ofs` has grown by `2 * n` and `until_tick` is in 1..355. With a chip and
player that count (`clock_chip`): the first successful call after `musdriver_start`,
for `a` frames, leaves the clock at `a` frames, and a successful call for `b` frames
from a clock at `N` frames, whatever the write offset, leaves it at `N + b` frames;
a clock at `N` frames has performed its ticks at the frame counts 0, 355, 710, ... up
to `N`, one at each, which makes `N / 355 + 1` ticks. -/
theorem musdriver_advance_ticks_every_355_frames {P R : Type} (ops : ChipOps P)
    (d : mus_driver_t P R) (n : Nat) (hut : d.until_tick ≤ 355)
    (hmax : d.opl_max_frames < 4294967296) (hofs : d.buf_ofs ≤ 2 * d.opl_max_frames) :
    ((musdriver_advance ops d n).2 = 1 ∨ (musdriver_advance ops d n).2 = 0) ∧
    ((musdriver_advance ops d n).2 = 1 ↔ d.buf_ofs + 2 * n ≤ 2 * d.opl_max_frames) ∧
    ((musdriver_advance ops d n).2 = 1 →
      (musdriver_advance ops d n).1 = spec_advance ops d n ∧
      (musdriver_advance ops d n).1.buf_ofs = d.buf_ofs + 2 * n ∧
      1 ≤ (musdriver_advance ops d n).1.until_tick ∧
      (musdriver_advance ops d n).1.until_tick ≤ 355 ∧
      (musdriver_advance ops d n).1.until_tick
        = 355 - ((355 - d.until_tick) % 355 + n) % 355) ∧
    (∀ (S : Type) (e : mus_driver_t (Nat × List Nat) S) (song loop : Int) (a : Nat),
      e.opl_max_frames < 4294967296 → e.buf_ofs ≤ 2 * e.opl_max_frames →
      (musdriver_advance clock_chip (musdriver_start clock_chip e song loop) a).2 = 1 →
      ClockAt (musdriver_advance clock_chip (musdriver_start clock_chip e song loop) a).1 a) ∧
    (∀ (S : Type) (e : mus_driver_t (Nat × List Nat) S) (N b : Nat), ClockAt e N →
      e.opl_max_frames < 4294967296 → e.buf_ofs ≤ 2 * e.opl_max_frames →
      (musdriver_advance clock_chip e b).2 = 1 →
      ClockAt (musdriver_advance clock_chip e b).1 (N + b)) ∧
    (∀ (S : Type) (e : mus_driver_t (Nat × List Nat) S) (N : Nat), ClockAt e N →
      e.player.2.length = N / 355 + 1 ∧
      ∀ p, p ∈ e.player.2 ↔ p ≤ N ∧ p % 355 = 0) := by
  have key : ∀ {Q S : Type} (o : ChipOps Q) (e : mus_driver_t Q S) (k : Nat),
      e.until_tick ≤ 355 → e.opl_max_frames < 4294967296 → e.buf_ofs ≤ 2 * e.opl_max_frames →
      (musdriver_advance o e k).2 = 1 →
      e.buf_ofs + 2 * k ≤ 2 * e.opl_max_frames ∧ (musdriver_advance o e k).1 = spec_advance o e k := by
    intro Q S o e k h1 h2 h3 hs
    obtain ⟨s1, s2⟩ := musdriver_advance_spec o e k h1 h2 h3
    by_cases hfit : e.buf_ofs + 2 * k ≤ 2 * e.opl_max_frames
    · exact ⟨hfit, by rw [s1 hfit]⟩
    · rw [s2 (by omega)] at hs
      exact absurd hs (by decide)
  obtain ⟨s1, s2⟩ := musdriver_advance_spec ops d n hut hmax hofs
  refine ⟨?_, ?_, ?_, ?_, ?_, ?_⟩
  · by_cases hfit : d.buf_ofs + 2 * n ≤ 2 * d.opl_max_frames
    · left; rw [s1 hfit]
    · right; exact s2 (by omega)
  · constructor
    · intro hs
      exact (key ops d n hut hmax hofs hs).1
    · intro hfit
      rw [s1 hfit]
  · intro hs
    obtain ⟨hfit, he⟩ := key ops d n hut hmax hofs hs
    rw [he]
    unfold spec_advance
    by_cases h0 : d.until_tick = 0
    · rw [if_pos h0]
      obtain ⟨t1, t2, t3, -⟩ := spec_score_tick_fields ops d
      obtain ⟨f1, -, -, f4⟩ := spec_advance_frames_fields ops n (spec_score_tick ops d)
        (by rw [t1]; decide) (by rw [t1]; decide)
      rw [f1, f4, t1, t2, h0]
      unfold SAMPLES_PER_TICK
      refine ⟨rfl, rfl, ?_, ?_, ?_⟩ <;> omega
    · rw [if_neg h0]
      obtain ⟨f1, -, -, f4⟩ := spec_advance_frames_fields ops n d (by omega) hut
      rw [f1, f4]
      refine ⟨rfl, rfl, ?_, ?_, ?_⟩ <;> omega
  · intro S e song loop a h2 h3 hs
    rw [(key clock_chip (musdriver_start clock_chip e song loop) a
      (show (0 : Nat) ≤ 355 from Nat.zero_le _) h2 h3 hs).2]
    exact clock_start e song loop a
  · intro S e N b hc h2 h3 hs
    have hu : e.until_tick ≤ 355 := by
      rw [hc.2.2.1]
      omega
    rw [(key clock_chip e b hu h2 h3 hs).2]
    exact clock_advance e N b hc
  · intro S e N hc
    obtain ⟨-, c2, -, -⟩ := hc
    rw [c2]
    constructor
    · simp
    · intro p
      simp only [List.mem_map, List.mem_reverse, List.mem_range]
      constructor
      · rintro ⟨i, hi, rfl⟩
        constructor
        · have := Nat.div_mul_le_self N 355
          have : 355 * i ≤ 355 * (N / 355) := Nat.mul_le_mul_left 355 (by omega)
          omega
        · omega
      · rintro ⟨h1, h2⟩
        refine ⟨p / 355, ?_, by omega⟩
        have : p / 355 ≤ N / 355 := Nat.div_le_div_right h1
        omega

/-- Witness of C37: `clock_driver`, fresh from `musdriver_start`, generates 400 frames
in one call: the ticks fall before frame 0 and after frame 354 (the clock is at 400
frames), and 310 frames are left until the next one. A call for 3 frames performs the
first tick and no other. -/
theorem musdriver_advance_ticks_every_355_frames_witness :
    (clock_driver.until_tick ≤ 355 ∧ clock_driver.opl_max_frames < 4294967296
      ∧ clock_driver.buf_ofs ≤ 2 * clock_driver.opl_max_frames) ∧
    (musdriver_advance clock_chip clock_driver 400).2 = 1 ∧
    (musdriver_advance clock_chip clock_driver 400).1.buf_ofs = clock_driver.buf_ofs + 2 * 400 ∧
    (musdriver_advance clock_chip clock_driver 400).1.until_tick
      = 355 - ((355 - clock_driver.until_tick) % 355 + 400) % 355 ∧
    355 - ((355 - clock_driver.until_tick) % 355 + 400) % 355 = 310 ∧
    ClockAt (musdriver_advance clock_chip clock_driver 400).1 400 ∧
    (musdriver_advance clock_chip clock_driver 3).1.player = (3, [0]) := by
  have T := musdriver_advance_ticks_every_355_frames clock_chip clock_driver 400 (by decide)
    (by decide) (by decide)
  have hs : (musdriver_advance clock_chip clock_driver 400).2 = 1 := T.2.1.mpr (by decide)
  exact ⟨⟨by decide, by decide, by decide⟩, hs, (T.2.2.1 hs).2.1, (T.2.2.1 hs).2.2.2.2,
    by decide, T.2.2.2.1 Unit _ 8192 1 400 (by decide) (by decide) hs, by decide⟩

/-- Counterexample to C38: the output rate 44100 with chunks of at most 86392 frames.
In `uint32_t`, `86392 * 49716` wraps, and `musdriver_init` sets `opl_max_frames = 4`.
For a chunk of 8 frames (`8 ≤ 86392`, `8 * 49716 < 2^32`) `musdriver_generate` requests
9 native frames, which is not at most `opl_max_frames - 1 = 3`, and it returns 0. -/
theorem wrapped_buffer_size_is_below_request :
    (0 < 44100 ∧ 8 ≤ 86392 ∧ 8 * 49716 < 4294967296) ∧
    ISound.wrapped_driver.opl_max_frames = opl_frames_for 44100 86392 ∧
    opl_frames_for 44100 86392 = 4 ∧
    (8 * OPL_CLOCKRATE % 4294967296) / ISound.wrapped_driver.out_sample_rate = 9 ∧
    ¬ (9 ≤ opl_frames_for 44100 86392 - 1) ∧
    (musdriver_generate ISound.still_chip ISound.mute_filter ISound.wrapped_driver
      (fun _ => 7) 8 1).1 = 0 := by
  refine ⟨by decide, rfl, by decide, by decide, by decide, by decide⟩

/-- Claim C38, amended: for a frame count below 2^31, as every call in the driver
passes, `musdriver_gen_opl` either returns 0 and leaves the driver as it is, or
returns 1 and leaves `buf_ofs ≤ 2 * opl_max_frames`. For every `out_sample_rate > 0`
and `out_max_frames` for which the 32-bit sum `out_max_frames * 49716 +
(out_sample_rate - 1)` of `musdriver_init` does not wrap, and every `frames_needed ≤
out_max_frames`, the frame count `frames_needed * 49716 / out_sample_rate` requested
by `musdriver_generate` is at most `opl_max_frames - 1`; so on a driver with that
buffer size and `until_tick` in 0..355 the generation after the reset of `buf_ofs`
succeeds, with `buf_ofs` twice the frame count, and a further request for one frame,
as the resampler makes it, succeeds as well. Then `musdriver_generate` returns 1,
provided twice the frame count fits 32 bits. -/
theorem generate_request_leaves_one_frame {P R : Type} (ops : ChipOps P)
    (filter : mus_driver_t P R → (Nat → Int) → Nat → ℚ → mus_driver_t P R × (Nat → Int))
    (d : mus_driver_t P R) (to_buf : Nat → Int) (volume : ℚ)
    (rate out_max frames_needed : Nat) (hrate : 0 < rate)
    (hnowrap : out_max * 49716 + (rate - 1) < 4294967296) (hneed : frames_needed ≤ out_max)
    (hsize : d.opl_max_frames = opl_frames_for rate out_max) (hr : d.out_sample_rate = rate)
    (hut : d.until_tick ≤ 355) :
    (∀ (e : mus_driver_t P R) (k : Nat), e.opl_max_frames < 4294967296 → k < 2147483648 →
      e.buf_ofs ≤ 2 * e.opl_max_frames →
      musdriver_gen_opl ops e k = (e, 0) ∨
      ((musdriver_gen_opl ops e k).2 = 1
        ∧ (musdriver_gen_opl ops e k).1.buf_ofs = e.buf_ofs + 2 * k
        ∧ (musdriver_gen_opl ops e k).1.opl_max_frames = e.opl_max_frames
        ∧ (musdriver_gen_opl ops e k).1.buf_ofs ≤ 2 * e.opl_max_frames)) ∧
    (frames_needed * OPL_CLOCKRATE % 4294967296) / d.out_sample_rate
      = frames_needed * 49716 / rate ∧
    frames_needed * 49716 / rate ≤ d.opl_max_frames - 1 ∧ 1 ≤ d.opl_max_frames ∧
    (musdriver_advance ops { d with buf_ofs := 0 } (frames_needed * 49716 / rate)).2 = 1 ∧
    (musdriver_advance ops { d with buf_ofs := 0 } (frames_needed * 49716 / rate)).1.buf_ofs
      = 2 * (frames_needed * 49716 / rate) ∧
    (musdriver_advance ops
      (musdriver_advance ops { d with buf_ofs := 0 } (frames_needed * 49716 / rate)).1 1).2 = 1 ∧
    (2 * (frames_needed * 49716 / rate) < 4294967296 →
      (musdriver_generate ops filter d to_buf frames_needed volume).1 = 1) := by
  subst hr
  obtain ⟨b1, b2, b3⟩ := opl_request_bound d.out_sample_rate out_max frames_needed hrate hnowrap
    hneed
  rw [← hsize] at b2 b3
  generalize hq : frames_needed * 49716 / d.out_sample_rate = req at b1 b2 ⊢
  have hadv := (musdriver_advance_spec ops { d with buf_ofs := 0 } req hut b3
    (Nat.zero_le _)).1 (by show 0 + 2 * req ≤ 2 * d.opl_max_frames; omega)
  obtain ⟨f1, f2, -, f4, f5⟩ := spec_advance_fields ops { d with buf_ofs := 0 } req hut
  have f1 : (spec_advance ops { d with buf_ofs := 0 } req).buf_ofs = 2 * req := by
    rw [f1]
    show 0 + 2 * req = 2 * req
    omega
  have f2 : (spec_advance ops { d with buf_ofs := 0 } req).opl_max_frames = d.opl_max_frames :=
    f2
  refine ⟨?_, b1, by omega, by omega, by rw [hadv], by rw [hadv]; exact f1,
    ?_, ?_⟩
  · intro e k hmax hk hofs
    obtain ⟨g1, g2⟩ := musdriver_gen_opl_spec ops e k hmax hk hofs
    by_cases hfit : e.buf_ofs + 2 * k ≤ 2 * e.opl_max_frames
    · right
      rw [g1 hfit]
      obtain ⟨s1, -, -, s4, -⟩ := spec_gen_frames_fields ops k e
      exact ⟨rfl, s1, s4, by rw [s1]; exact hfit⟩
    · left
      exact g2 (by omega)
  · rw [hadv]
    rw [(musdriver_advance_spec ops (spec_advance ops { d with buf_ofs := 0 } req) 1 f5
      (by rw [f2]; exact b3) (by rw [f1, f2]; omega)).1 (by rw [f1, f2]; omega)]
  · intro h32
    unfold musdriver_generate
    dsimp only
    rw [b1, if_neg (by omega), hadv]
    dsimp only
    rw [if_neg (by decide), f1]
    have e : req * OPL_CHANNELS % 4294967296 = 2 * req := by
      unfold OPL_CHANNELS
      omega
    rw [e, if_neg (by simp)]

/-- Witness of C38: the output rate 44100 with chunks of at most 1024 frames
(`opl_max_frames = 1156`) and a chunk of 1024 frames, for which 1154 native frames are
requested. -/
theorem generate_request_leaves_one_frame_witness :
    (0 < 44100 ∧ 1024 * 49716 + (44100 - 1) < 4294967296 ∧ 1024 ≤ 1024) ∧
    ((musdriver_init ISound.zero_driver (fun _ => 0) 44100 1024 ()).opl_max_frames
        = opl_frames_for 44100 1024
      ∧ (musdriver_init ISound.zero_driver (fun _ => 0) 44100 1024 ()).out_sample_rate = 44100
      ∧ (musdriver_init ISound.zero_driver (fun _ => 0) 44100 1024 ()).until_tick ≤ 355) ∧
    (1024 * 49716 / 44100 = 1154 ∧ opl_frames_for 44100 1024 = 1156) ∧
    1024 * 49716 / 44100
      ≤ (musdriver_init ISound.zero_driver (fun _ => 0) 44100 1024 ()).opl_max_frames - 1 ∧
    (musdriver_generate ISound.still_chip ISound.mute_filter
      (musdriver_init ISound.zero_driver (fun _ => 0) 44100 1024 ()) (fun _ => 7) 1024 1).1 = 1 :=
  ⟨by decide, ⟨rfl, rfl, by decide⟩, by decide,
    (generate_request_leaves_one_frame ISound.still_chip ISound.mute_filter
      (musdriver_init ISound.zero_driver (fun _ => 0) 44100 1024 ()) (fun _ => 7) 1 44100 1024 1024
      (by decide) (by decide) (by decide) rfl rfl (by decide)).2.2.1,
    (generate_request_leaves_one_frame ISound.still_chip ISound.mute_filter
      (musdriver_init ISound.zero_driver (fun _ => 0) 44100 1024 ()) (fun _ => 7) 1 44100 1024 1024
      (by decide) (by decide) (by decide) rfl rfl (by decide)).2.2.2.2.2.2.2 (by decide)⟩

end LittleMUS
